import Mathlib

/-!
# GPU cache model (`gpgpu-sim/gpu-cache.cc`): tag array, MSHR table, data-cache policies

A shallow embedding of the tag array (`tag_array::probe`, `tag_array::access`), the MSHR
table, `baseline_cache::send_read_request`, the data-cache policy handlers, the prefetch
path, `baseline_cache::cycle` and `fill`, the bandwidth manager, the set index function of
the L1, the stride prefetcher (`cache_prefetch`), `tag_array::probe_locality` and
`read_only_cache::access`, followed by the properties proved about them.

Conventions of the embedding.
* `unsigned` values are natural numbers; the sentinel `(unsigned)-1` is `UINT_MAX`, and the
  statistics counters that the source increments with `++` wrap at `2^32` (`u32`).
* The two port occupancy counters are `int`s; adding an `unsigned` number of cycles to them
  wraps as in the source (`int_add_unsigned`).
* `m_lines` is the raw line array of the source, read and written by index; a line index
  `set_index * m_assoc + way` is computed in the naturals (line arrays have fewer than
  `2^32` lines).
* A request (`mem_fetch *`) is a pointer, a natural number; the request objects live in the
  `heap` of the cache state, so that a `set_data_size` through one alias is seen through all.
* A failed `assert` or a call of `abort()` is an `Except.error` carrying the `fault` that
  stopped the run.
* The debugging globals of the source (`last_alloc_time[512]`, `tot_interval`,
  `interval_times`) and its `printf` output are not part of the state.
-/

namespace GpuCache

/-! ## The tag array: lines, configuration, `probe` -/

/-- The value of `(unsigned)-1` for a 32-bit `unsigned`. -/
def UINT_MAX : Nat := 4294967295

/-- Reduction of a count to the range of a 64-bit `unsigned long long`. -/
def u64 (n : Nat) : Nat := n % 18446744073709551616

/-- Reduction of a natural number to the range of a 32-bit `unsigned`. -/
def u32 (n : Nat) : Nat := n % 4294967296

/-- A value read as a signed 32-bit `int`. -/
def to_i32 (z : Int) : Int := (z + 2147483648) % 4294967296 - 2147483648

/-- The statement `counter += cycles` for an `int` counter and an `unsigned` number of
cycles: the counter is converted to `unsigned`, the sum is taken modulo 2^32 and converted
back to `int`. -/
def int_add_unsigned (counter : Int) (cycles : Nat) : Int :=
  to_i32 (counter + ((u32 cycles : Nat) : Int))

/-- Status of a cache line (`enum cache_block_state`). -/
inductive cache_block_state where
  | INVALID
  | RESERVED
  | VALID
  | MODIFIED
deriving DecidableEq, Repr

/-- Outcome of a probe or an access (`enum cache_request_status`). -/
inductive cache_request_status where
  | HIT
  | HIT_RESERVED
  | MISS
  | RESERVATION_FAIL
deriving DecidableEq, Repr

/-- Replacement policy (`enum replacement_policy_t`). -/
inductive replacement_policy_t where
  | LRU
  | FIFO
deriving DecidableEq, Repr

/-- Allocation policy (`enum allocation_policy_t`). -/
inductive allocation_policy_t where
  | ON_MISS
  | ON_FILL
deriving DecidableEq, Repr

/-- Write policy (`enum write_policy_t`). -/
inductive write_policy_t where
  | READ_ONLY
  | WRITE_BACK
  | WRITE_THROUGH
  | WRITE_EVICT
  | LOCAL_WB_GLOBAL_WT
deriving DecidableEq, Repr

/-- Write-allocate policy (`enum write_allocate_policy_t`). -/
inductive write_allocate_policy_t where
  | NO_WRITE_ALLOCATE
  | WRITE_ALLOCATE
deriving DecidableEq, Repr

/-- The ways a run of the modelled code stops without returning. -/
inductive fault where
  /-- `assert(m_config.m_alloc_policy == ON_MISS)` in `probe`. -/
  | probe_alloc_policy
  /-- `abort()` in `probe`: neither an invalid nor a replaceable line was recorded. -/
  | probe_abort
  /-- `assert(m_lines[idx].m_status != RESERVED)` at the end of `probe`. -/
  | probe_victim_reserved
  /-- `assert(m_lines[idx].m_status == RESERVED)` in `access`, case `HIT_RESERVED`. -/
  | access_hit_reserved
  /-- `assert(... == VALID || ... == MODIFIED)` in `access`, case `HIT`. -/
  | access_hit
  /-- `assert(... == VALID || ... == INVALID || ... == MODIFIED)` in `access`, case `MISS`. -/
  | access_miss
  /-- `assert(!wb)` in the three-argument `access`. -/
  | access_wb
  /-- `assert(m_data.size() <= m_num_entries)` in `mshr_table::add`. -/
  | mshr_add_entries
  /-- `assert(m_data[block_addr].m_list.size() <= m_max_merged)` in `mshr_table::add`. -/
  | mshr_add_merged
  /-- `assert(mf->get_access_type() == GLOBAL_ACC_R)` in `rd_hit_base`. -/
  | rd_hit_atomic
  /-- `assert(mf->get_data_size() <= m_config.get_line_sz())` in `data_cache::access`. -/
  | access_data_size
  /-- A division by `m_data_port_width = 0` in `bandwidth_management`. -/
  | port_width_zero
  /-- A `data_cache` built with the write policy `READ_ONLY`: no write-hit handler. -/
  | no_write_hit_handler
  /-- `assert(a != m_data.end())` in `mshr_table::mark_ready`. -/
  | mark_ready_no_entry
  /-- `assert(m_current_response.size() <= m_data.size())` in `mshr_table::mark_ready`. -/
  | mark_ready_size
  /-- `assert(access_ready())` in `mshr_table::next_access`. -/
  | next_access_not_ready
  /-- `assert(!m_data[block_addr].m_list.empty())` in `mshr_table::next_access`. -/
  | next_access_empty
  /-- `assert(e != m_extra_mf_fields.end())` in `baseline_cache::fill`. -/
  | fill_no_entry
  /-- `assert(e->second.m_valid)` in `baseline_cache::fill`. -/
  | fill_not_valid
  /-- `assert(m_config.m_alloc_policy == ON_MISS)` in `baseline_cache::fill`, for an entry
  with an atomic waiter. -/
  | fill_atomic_policy
  /-- The assertion on the allocation policy at the head of `tag_array::fill(addr, time)`,
  `tag_array::fill(index, time)` and `tag_array::pref_fill`. -/
  | tag_fill_policy
  /-- `assert(status == MISS)` in `tag_array::fill(addr, time)`. -/
  | tag_fill_status
  /-- `assert(... == VALID || ... == INVALID || ... == MODIFIED)` in `pref_access`, case
  `MISS`. -/
  | pref_access_miss
  /-- `assert(m_data_port_occupied_cycles >= 0)` or `assert(m_fill_port_occupied_cycles >=
  0)` in `replenish_port_bandwidth`. -/
  | port_negative
  /-- The `assert(... && 0)` of `l1d_cache_config::set_index`, reached with the hashing
  function and a number of sets other than 32 and 64. -/
  | set_index_hash_nset
  /-- `assert(set_index < m_nset)` at the end of `l1d_cache_config::set_index`. -/
  | set_index_bounds
  /-- `assert(fill_counter < 32)` in `cache_prefetch::fill_entry`. -/
  | fill_entry_full
  /-- A `%` whose divisor, `active_cta_num` or `warp_set.size()`, is zero. -/
  | zero_divisor
  /-- A read of a warp set at a position outside the vector: `*it` with `it` at or past
  `end()` in the loops of `calcu_addr`, or `*warp_set.begin()` on an empty set. -/
  | warp_set_bounds
  /-- `assert(it != it_end)` before the rotating scan of `calcu_addr`. -/
  | scan_start_assert
  /-- `assert(it_end != ...warp_set.end())` in the rotating scan of `calcu_addr`. -/
  | scan_wrap_assert
  /-- `assert(it_end == ...warp_set.begin())` in the rotating scan of `calcu_addr`. -/
  | scan_break_assert
  /-- `assert(m_config.m_write_policy == READ_ONLY)` in `read_only_cache::access`. -/
  | ro_write_policy
  /-- `assert(!mf->get_is_write())` in `read_only_cache::access`. -/
  | ro_is_write
deriving DecidableEq, Repr

/-- A cache line (`cache_block_t`), with the `m_used` and `m_prefetch_line` flags that
`tag_array::access` reads and writes. -/
structure cache_block_t where
  m_tag : Nat
  m_block_addr : Nat
  m_alloc_time : Nat
  m_last_access_time : Nat
  m_fill_time : Nat
  m_status : cache_block_state
  m_used : Bool
  m_prefetch_line : Bool
deriving DecidableEq, Repr

/-- A line before its first allocation: status INVALID, every other field zero. -/
def empty_line : cache_block_t :=
  { m_tag := 0, m_block_addr := 0, m_alloc_time := 0, m_last_access_time := 0,
    m_fill_time := 0, m_status := cache_block_state.INVALID, m_used := false,
    m_prefetch_line := false }

/-- The cache configuration (`cache_config`). `set_index` is virtual in the source, and
`tag` and `block_addr` are defined in the header: the three are parameters of the model. -/
structure cache_config where
  m_nset : Nat
  m_assoc : Nat
  m_line_sz : Nat
  m_replacement_policy : replacement_policy_t
  m_alloc_policy : allocation_policy_t
  m_write_policy : write_policy_t
  m_write_alloc_policy : write_allocate_policy_t
  m_miss_queue_size : Nat
  m_data_port_width : Nat
  set_index : Nat → Nat
  tag : Nat → Nat
  block_addr : Nat → Nat

/-- The tag array: the line array and the statistics counters of `tag_array`. -/
structure tag_array where
  m_lines : Nat → cache_block_t
  m_access : Nat
  m_miss : Nat
  m_pending_hit : Nat
  m_res_fail : Nat
  prefetch_hit_num : Nat
  prefetch_hit_res_num : Nat
  useless_prefetch : Nat

/-- The local variables of the way loop of `tag_array::probe`. -/
structure probe_vars where
  invalid_line : Nat
  valid_line : Nat
  valid_timestamp : Nat
  all_reserved : Bool
deriving DecidableEq, Repr

/-- The values of the locals of `probe` before the loop. -/
def probe_init : probe_vars :=
  { invalid_line := UINT_MAX, valid_line := UINT_MAX, valid_timestamp := UINT_MAX,
    all_reserved := true }

/-- The second half of the loop body of `probe`: the bookkeeping of a way that did not
return a hit (`if (line->m_status != RESERVED) ...`). -/
def probe_track (cfg : cache_config) (line : cache_block_t) (index : Nat) (v : probe_vars) :
    probe_vars :=
  if line.m_status ≠ cache_block_state.RESERVED then
    let v1 := { v with all_reserved := false }
    if line.m_status = cache_block_state.INVALID then
      { v1 with invalid_line := index }
    else
      match cfg.m_replacement_policy with
      | replacement_policy_t.LRU =>
        if line.m_last_access_time < v1.valid_timestamp then
          { v1 with valid_timestamp := line.m_last_access_time, valid_line := index }
        else v1
      | replacement_policy_t.FIFO =>
        if line.m_alloc_time < v1.valid_timestamp then
          { v1 with valid_timestamp := line.m_alloc_time, valid_line := index }
        else v1
  else v

/-- One iteration of the way loop of `probe`: `Sum.inl` is a `return` from inside the loop,
`Sum.inr` the locals after the iteration. -/
def probe_way (cfg : cache_config) (lines : Nat → cache_block_t) (set_index tag way : Nat)
    (v : probe_vars) : Sum (cache_request_status × Nat) probe_vars :=
  let index := set_index * cfg.m_assoc + way
  let line := lines index
  if line.m_tag = tag then
    match line.m_status with
    | cache_block_state.RESERVED => Sum.inl (cache_request_status.HIT_RESERVED, index)
    | cache_block_state.VALID => Sum.inl (cache_request_status.HIT, index)
    | cache_block_state.MODIFIED => Sum.inl (cache_request_status.HIT, index)
    | cache_block_state.INVALID => Sum.inr (probe_track cfg line index v)
  else Sum.inr (probe_track cfg line index v)

/-- The way loop of `probe` after its first `k` iterations (ways `0 .. k-1`). -/
def probe_scan (cfg : cache_config) (lines : Nat → cache_block_t) (set_index tag : Nat) :
    Nat → Sum (cache_request_status × Nat) probe_vars
  | 0 => Sum.inr probe_init
  | k + 1 =>
    match probe_scan cfg lines set_index tag k with
    | Sum.inl r => Sum.inl r
    | Sum.inr v => probe_way cfg lines set_index tag k v

/-- The end of `probe` once `idx` is assigned: `assert(m_lines[idx].m_status != RESERVED);
return MISS;`. -/
def probe_return_miss (t : tag_array) (idx : Nat) : Except fault (cache_request_status × Nat) :=
  if (t.m_lines idx).m_status ≠ cache_block_state.RESERVED then
    Except.ok (cache_request_status.MISS, idx)
  else Except.error fault.probe_victim_reserved

/-- The part of `probe` after the way loop, from the locals `v` the loop left. -/
def probe_finish (cfg : cache_config) (t : tag_array) (idx : Nat) (v : probe_vars) :
    Except fault (cache_request_status × Nat) :=
  if v.all_reserved then
    if cfg.m_alloc_policy = allocation_policy_t.ON_MISS then
      Except.ok (cache_request_status.RESERVATION_FAIL, idx)
    else Except.error fault.probe_alloc_policy
  else if v.invalid_line ≠ UINT_MAX then probe_return_miss t v.invalid_line
  else if v.valid_line ≠ UINT_MAX then probe_return_miss t v.valid_line
  else Except.error fault.probe_abort

/-- The function `tag_array::probe(addr, idx)`: the returned status and the value of the
out-parameter `idx` (left as passed in when the status is `RESERVATION_FAIL`). -/
def tag_array.probe (cfg : cache_config) (t : tag_array) (addr idx : Nat) :
    Except fault (cache_request_status × Nat) :=
  let set_index := cfg.set_index addr
  let tag := cfg.tag addr
  match probe_scan cfg t.m_lines set_index tag cfg.m_assoc with
  | Sum.inl r => Except.ok r
  | Sum.inr v => probe_finish cfg t idx v

/-! ## Vocabulary of the properties of `probe`, and the tag arrays of the scenarios -/

/-- The line of way `way` in the set `set_index`. -/
def set_line (cfg : cache_config) (lines : Nat → cache_block_t) (set_index way : Nat) :
    cache_block_t :=
  lines (set_index * cfg.m_assoc + way)

/-- Way `way` of the set holds the tag on a line that is not `INVALID`. -/
def tag_hit (cfg : cache_config) (lines : Nat → cache_block_t) (set_index tag way : Nat) :
    Prop :=
  (set_line cfg lines set_index way).m_tag = tag ∧
    (set_line cfg lines set_index way).m_status ≠ cache_block_state.INVALID

/-- The status `probe` reports for a tag hit on a line of status `st`. -/
def hit_status (st : cache_block_state) : cache_request_status :=
  if st = cache_block_state.RESERVED then cache_request_status.HIT_RESERVED
  else cache_request_status.HIT

/-- The time stamp the replacement policy compares. -/
def policy_time (cfg : cache_config) (line : cache_block_t) : Nat :=
  match cfg.m_replacement_policy with
  | replacement_policy_t.LRU => line.m_last_access_time
  | replacement_policy_t.FIFO => line.m_alloc_time

/-- The locals of the loop of `probe` after `k` iterations none of which returned. -/
def probe_vars_after (cfg : cache_config) (lines : Nat → cache_block_t) (set_index : Nat) :
    Nat → probe_vars
  | 0 => probe_init
  | k + 1 =>
    probe_track cfg (set_line cfg lines set_index k) (set_index * cfg.m_assoc + k)
      (probe_vars_after cfg lines set_index k)

/-- Whether a way gives a tag hit can be computed. -/
instance tag_hit_decidable (cfg : cache_config) (lines : Nat → cache_block_t)
    (s tag w : Nat) : Decidable (tag_hit cfg lines s tag w) :=
  inferInstanceAs (Decidable ((set_line cfg lines s w).m_tag = tag ∧
    (set_line cfg lines s w).m_status ≠ cache_block_state.INVALID))

/-- A line the replacement policy may pick: neither `RESERVED` nor `INVALID`. -/
def replaceable (line : cache_block_t) : Prop :=
  line.m_status ≠ cache_block_state.RESERVED ∧ line.m_status ≠ cache_block_state.INVALID

/-- What the loop of `probe` knows about the replacement candidate after `k` ways. -/
structure victim_inv (cfg : cache_config) (lines : Nat → cache_block_t) (s k : Nat)
    (v : probe_vars) : Prop where
  le_max : v.valid_timestamp ≤ UINT_MAX
  lower : ∀ w, w < k → replaceable (set_line cfg lines s w) →
    v.valid_timestamp ≤ policy_time cfg (set_line cfg lines s w)
  pick : (v.valid_line = UINT_MAX ∧ v.valid_timestamp = UINT_MAX) ∨
    ∃ w, w < k ∧ v.valid_line = s * cfg.m_assoc + w ∧ replaceable (set_line cfg lines s w) ∧
      policy_time cfg (set_line cfg lines s w) = v.valid_timestamp ∧
      ∀ w', w' < w → replaceable (set_line cfg lines s w') →
        v.valid_timestamp < policy_time cfg (set_line cfg lines s w')

/-- A line array holding the lines of `l` at indices `0, 1, ...` and empty lines after. -/
def lines_of (l : List cache_block_t) : Nat → cache_block_t :=
  fun i => l.getD i empty_line

/-- A tag array with the lines of `l` and all counters at zero. -/
def tag_array_of (l : List cache_block_t) : tag_array :=
  { m_lines := lines_of l, m_access := 0, m_miss := 0, m_pending_hit := 0, m_res_fail := 0,
    prefetch_hit_num := 0, prefetch_hit_res_num := 0, useless_prefetch := 0 }

/-- A line with tag and block address `a`, both time stamps `time` and status `st`. -/
def line_at (a time : Nat) (st : cache_block_state) : cache_block_t :=
  { m_tag := a, m_block_addr := a, m_alloc_time := time, m_last_access_time := time,
    m_fill_time := 0, m_status := st, m_used := false, m_prefetch_line := false }

/-- The configuration of the concrete scenarios: 128-byte lines, 4 sets of 2 ways, LRU,
ON_MISS, WRITE_BACK, linear set index, a miss queue of 8; the tag of an address is its
block address. -/
def scenario_cfg : cache_config :=
  { m_nset := 4, m_assoc := 2, m_line_sz := 128,
    m_replacement_policy := replacement_policy_t.LRU,
    m_alloc_policy := allocation_policy_t.ON_MISS,
    m_write_policy := write_policy_t.WRITE_BACK,
    m_write_alloc_policy := write_allocate_policy_t.WRITE_ALLOCATE,
    m_miss_queue_size := 8, m_data_port_width := 32,
    set_index := fun a => (a / 128) % 4,
    tag := fun a => a / 128 * 128,
    block_addr := fun a => a / 128 * 128 }

deriving instance DecidableEq for Except

/-- Set 0 of the scenario cache with block `0x0000` VALID in way 0 and block `0x2000`
RESERVED in way 1. -/
def tags_valid_reserved : tag_array :=
  tag_array_of [line_at 0 3 cache_block_state.VALID, line_at 8192 4 cache_block_state.RESERVED]

/-- Set 0 of the scenario cache with both ways INVALID. -/
def tags_empty : tag_array := tag_array_of []

/-- Set 0 of the scenario cache with block `0x0000` VALID (time 7) in way 0 and block
`0x2000` MODIFIED (time 5) in way 1. -/
def tags_valid_modified : tag_array :=
  tag_array_of [line_at 0 7 cache_block_state.VALID, line_at 8192 5 cache_block_state.MODIFIED]

/-- Set 0 of the scenario cache with both ways VALID and both time stamps at the largest
`unsigned` value. -/
def tags_max_time : tag_array :=
  tag_array_of [line_at 0 4294967295 cache_block_state.VALID,
    line_at 8192 4294967295 cache_block_state.VALID]

/-! ## `tag_array::access` -/

/-- Modelled from the spec: `cache_block_t::allocate(tag, block_addr, time)` is defined in
the header `gpu-cache.h`, which is not among the sources. By the spec it installs the tag
and the block address, stamps the allocation time and makes the line RESERVED (§3, §4.2);
the model also stamps the last-access time, clears the fill time and clears `m_used`, a
line being used only once it has served a demand access since its current allocation
(§3). -/
def cache_block_t.allocate (line : cache_block_t) (tag block_addr time : Nat) :
    cache_block_t :=
  { line with m_tag := tag, m_block_addr := block_addr, m_alloc_time := time,
              m_last_access_time := time, m_fill_time := 0,
              m_status := cache_block_state.RESERVED, m_used := false }

/-- The line array after the assignment `m_lines[idx] = line`. -/
def write_line (lines : Nat → cache_block_t) (idx : Nat) (line : cache_block_t) :
    Nat → cache_block_t :=
  fun i => if i = idx then line else lines i

/-- What the five-argument `tag_array::access` hands back: the returned status, the
out-parameters `idx`, `wb` and `evicted`, and the tag array after the call. -/
structure tag_access_result where
  status : cache_request_status
  idx : Nat
  wb : Bool
  evicted : cache_block_t
  tags : tag_array

/-- The function `tag_array::access(addr, time, idx, wb, evicted)`. The counters
`prefetch_hit_num`, `prefetch_hit_res_num` and `useless_prefetch`, whose declarations are in
the header, are counted in the naturals. -/
def tag_array.access (cfg : cache_config) (t : tag_array) (addr time idx : Nat) (wb : Bool)
    (evicted : cache_block_t) : Except fault tag_access_result :=
  let t1 := { t with m_access := u32 (t.m_access + 1) }
  match tag_array.probe cfg t1 addr idx with
  | Except.error f => Except.error f
  | Except.ok (status, idx1) =>
    let line := t1.m_lines idx1
    match status with
    | cache_request_status.HIT_RESERVED =>
      let t2 := { t1 with m_pending_hit := u32 (t1.m_pending_hit + 1) }
      if line.m_status ≠ cache_block_state.RESERVED then
        Except.error fault.access_hit_reserved
      else
        let t3 :=
          if line.m_prefetch_line = true ∧ line.m_used = false then
            { t2 with prefetch_hit_res_num := t2.prefetch_hit_res_num + 1 }
          else t2
        Except.ok
          { status := status, idx := idx1, wb := wb, evicted := evicted,
            tags := { t3 with m_lines := write_line t3.m_lines idx1
                                { line with m_used := true } } }
    | cache_request_status.HIT =>
      let line1 := { line with m_last_access_time := time }
      if ¬ (line1.m_status = cache_block_state.VALID ∨
          line1.m_status = cache_block_state.MODIFIED) then
        Except.error fault.access_hit
      else
        let t3 :=
          if line1.m_prefetch_line = true ∧ line1.m_used = false then
            { t1 with prefetch_hit_num := t1.prefetch_hit_num + 1 }
          else t1
        Except.ok
          { status := status, idx := idx1, wb := wb, evicted := evicted,
            tags := { t3 with m_lines := write_line t3.m_lines idx1
                                { line1 with m_used := true } } }
    | cache_request_status.MISS =>
      let t2 := { t1 with m_miss := u32 (t1.m_miss + 1) }
      let t3 :=
        if line.m_prefetch_line = true ∧ line.m_used = false then
          { t2 with useless_prefetch := t2.useless_prefetch + 1 }
        else t2
      if cfg.m_alloc_policy = allocation_policy_t.ON_MISS then
        if ¬ (line.m_status = cache_block_state.VALID ∨
            line.m_status = cache_block_state.INVALID ∨
            line.m_status = cache_block_state.MODIFIED) then
          Except.error fault.access_miss
        else
          let wb1 := if line.m_status = cache_block_state.MODIFIED then true else wb
          let evicted1 := if line.m_status = cache_block_state.MODIFIED then line else evicted
          Except.ok
            { status := status, idx := idx1, wb := wb1, evicted := evicted1,
              tags := { t3 with m_lines := write_line t3.m_lines idx1
                                  (line.allocate (cfg.tag addr) (cfg.block_addr addr) time) } }
      else
        Except.ok { status := status, idx := idx1, wb := wb, evicted := evicted, tags := t3 }
    | cache_request_status.RESERVATION_FAIL =>
      Except.ok
        { status := status, idx := idx1, wb := wb, evicted := evicted,
          tags := { t1 with m_res_fail := u32 (t1.m_res_fail + 1) } }

/-- The three-argument `tag_array::access(addr, time, idx)`: the five-argument one called
with `wb = false` and a fresh `evicted`, followed by `assert(!wb)`. -/
def tag_array.access3 (cfg : cache_config) (t : tag_array) (addr time idx : Nat) :
    Except fault (cache_request_status × Nat × tag_array) :=
  match tag_array.access cfg t addr time idx false empty_line with
  | Except.error f => Except.error f
  | Except.ok r =>
    if r.wb = true then Except.error fault.access_wb
    else Except.ok (r.status, r.idx, r.tags)

/-! ## Requests, the MSHR table and `baseline_cache::send_read_request` -/

/-- Access types of a request (`enum mem_access_type`, declared in a header that is not
among the sources): the three enumerators `gpu-cache.cc` names, and `other code` for the
remaining ones. -/
inductive mem_access_type where
  | GLOBAL_ACC_R
  | LOCAL_ACC_R
  | GLOBAL_ACC_W
  | other (code : Nat)
deriving DecidableEq, Repr

/-- Events a cache access reports to its caller (`enum cache_event`). -/
inductive cache_event where
  | WRITE_BACK_REQUEST_SENT
  | READ_REQUEST_SENT
  | WRITE_REQUEST_SENT
deriving DecidableEq, Repr

/-- The fields of a request object (`mem_fetch`) that the cache reads or writes. -/
structure mem_fetch where
  m_addr : Nat
  m_data_size : Nat
  m_ctrl_size : Nat
  m_is_write : Bool
  m_isatomic : Bool
  m_access_type : mem_access_type
  m_wid : Nat
  m_sid : Nat
  m_status : Nat
  m_status_change : Nat
  m_is_prefetch : Bool := false
  m_pc : Nat := 0
  m_ctaid : Nat := 0
  m_thread0_active : Bool := true
deriving DecidableEq, Repr

/-- `mf->set_data_size(size)` on the heap of request objects. -/
def set_data_size (heap : Nat → mem_fetch) (mf size : Nat) : Nat → mem_fetch :=
  fun p => if p = mf then { heap mf with m_data_size := size } else heap p

/-- `mf->set_status(status, time)` on the heap of request objects. -/
def set_status (heap : Nat → mem_fetch) (mf status time : Nat) : Nat → mem_fetch :=
  fun p => if p = mf then { heap mf with m_status := status, m_status_change := time }
    else heap p

/-- `std::map::operator[]` followed by an assignment, on a map kept as an association list
with one pair per key: the value of `k` becomes `v`, a new pair being added when `k` is
absent. -/
def map_set {β : Type} : List (Nat × β) → Nat → β → List (Nat × β)
  | [], k, v => [(k, v)]
  | (k1, v1) :: rest, k, v =>
    if k1 = k then (k, v) :: rest else (k1, v1) :: map_set rest k v

/-- An MSHR entry (`mshr_table::mshr_entry`): the waiting requests, in the order they were
added, and the atomic flag. -/
structure mshr_entry where
  m_list : List Nat
  m_has_atomic : Bool
deriving DecidableEq, Repr

/-- The MSHR table (`mshr_table`): `m_data` maps a block address to its entry,
`m_current_response` is the queue of ready block addresses. -/
structure mshr_table where
  m_num_entries : Nat
  m_max_merged : Nat
  m_data : List (Nat × mshr_entry)
  m_current_response : List Nat
deriving DecidableEq, Repr

/-- The function `mshr_table::probe(block_addr)`. -/
def mshr_table.probe (m : mshr_table) (block_addr : Nat) : Bool :=
  (m.m_data.lookup block_addr).isSome

/-- The function `mshr_table::full(block_addr)`. -/
def mshr_table.full (m : mshr_table) (block_addr : Nat) : Bool :=
  match m.m_data.lookup block_addr with
  | some e => decide (e.m_list.length ≥ m.m_max_merged)
  | none => decide (m.m_data.length ≥ m.m_num_entries)

/-- The function `mshr_table::add(block_addr, mf)`; `isatomic` is `mf->isatomic()`. -/
def mshr_table.add (m : mshr_table) (block_addr mf : Nat) (isatomic : Bool) :
    Except fault mshr_table :=
  let e0 : mshr_entry := (m.m_data.lookup block_addr).getD { m_list := [], m_has_atomic := false }
  let e1 : mshr_entry := { e0 with m_list := e0.m_list ++ [mf] }
  let d1 := map_set m.m_data block_addr e1
  if ¬ d1.length ≤ m.m_num_entries then Except.error fault.mshr_add_entries
  else if ¬ e1.m_list.length ≤ m.m_max_merged then Except.error fault.mshr_add_merged
  else
    let e2 : mshr_entry := if isatomic = true then { e1 with m_has_atomic := true } else e1
    Except.ok { m with m_data := map_set d1 block_addr e2 }

/-- The side-table record of an outstanding request (`extra_mf_fields`). -/
structure extra_mf_fields where
  m_valid : Bool
  m_block_addr : Nat
  m_cache_index : Nat
  m_data_size : Nat
deriving DecidableEq, Repr

/-- The state of a `baseline_cache`: tag array, MSHR table, the demand and the prefetch miss
queue, the side table `m_extra_mf_fields` (a map from request pointers), the two counters of
`bandwidth_management`, the statistics matrix of `cache_stats`, the status given to queued
requests, and the heap of request objects together with the next pointer the request
allocator hands out; last the three port-utility counters of `cache_stats` (`unsigned long
long`), which `cycle` samples. -/
structure baseline_cache where
  m_tag_array : tag_array
  m_mshrs : mshr_table
  m_miss_queue : List Nat
  m_pref_miss_queue : List Nat
  m_extra_mf_fields : List (Nat × extra_mf_fields)
  m_data_port_occupied_cycles : Int
  m_fill_port_occupied_cycles : Int
  m_stats : mem_access_type → cache_request_status → Nat
  m_miss_queue_status : Nat
  heap : Nat → mem_fetch
  next_mf : Nat
  m_cache_port_available_cycles : Nat := 0
  m_cache_data_port_busy_cycles : Nat := 0
  m_cache_fill_port_busy_cycles : Nat := 0

/-- What `send_read_request` hands back: the cache after the call and the reference
parameters `do_miss`, `wb`, `evicted` and `events`. -/
structure read_request_result where
  cache : baseline_cache
  do_miss : Bool
  wb : Bool
  evicted : cache_block_t
  events : List cache_event

/-- The tag-array access of `send_read_request`: the three-argument `access` when
`read_only` is set (which leaves `wb` and `evicted` alone), else the five-argument one.
Both write the way they accessed into `cache_index`, which is returned second. -/
def send_read_tag_access (cfg : cache_config) (read_only : Bool) (t : tag_array)
    (block_addr time cache_index : Nat) (wb : Bool) (evicted : cache_block_t) :
    Except fault (tag_array × Nat × Bool × cache_block_t) :=
  if read_only = true then
    match tag_array.access3 cfg t block_addr time cache_index with
    | Except.error f => Except.error f
    | Except.ok r => Except.ok (r.2.2, r.2.1, wb, evicted)
  else
    match tag_array.access cfg t block_addr time cache_index wb evicted with
    | Except.error f => Except.error f
    | Except.ok r => Except.ok (r.tags, r.idx, r.wb, r.evicted)

/-- The function `baseline_cache::send_read_request(addr, block_addr, cache_index, mf, time,
do_miss, wb, evicted, events, read_only, wa)`; the source does not use `addr`. -/
def baseline_cache.send_read_request (cfg : cache_config) (c : baseline_cache)
    (_addr block_addr cache_index mf time : Nat) (do_miss wb : Bool)
    (evicted : cache_block_t) (events : List cache_event) (read_only wa : Bool) :
    Except fault read_request_result :=
  let mshr_hit := c.m_mshrs.probe block_addr
  let mshr_avail := !c.m_mshrs.full block_addr
  if mshr_hit = true ∧ mshr_avail = true then
    match send_read_tag_access cfg read_only c.m_tag_array block_addr time cache_index wb
        evicted with
    | Except.error f => Except.error f
    | Except.ok (tags, _, wb1, evicted1) =>
      match c.m_mshrs.add block_addr mf (c.heap mf).m_isatomic with
      | Except.error f => Except.error f
      | Except.ok mshrs =>
        Except.ok
          { cache := { c with m_tag_array := tags, m_mshrs := mshrs },
            do_miss := true, wb := wb1, evicted := evicted1, events := events }
  else if mshr_hit = false ∧ mshr_avail = true ∧
      c.m_miss_queue.length < cfg.m_miss_queue_size then
    match send_read_tag_access cfg read_only c.m_tag_array block_addr time cache_index wb
        evicted with
    | Except.error f => Except.error f
    | Except.ok (tags, cache_index1, wb1, evicted1) =>
      match c.m_mshrs.add block_addr mf (c.heap mf).m_isatomic with
      | Except.error f => Except.error f
      | Except.ok mshrs =>
        let extra : extra_mf_fields :=
          { m_valid := true, m_block_addr := block_addr, m_cache_index := cache_index1,
            m_data_size := (c.heap mf).m_data_size }
        let heap1 := set_data_size c.heap mf cfg.m_line_sz
        let heap2 := set_status heap1 mf c.m_miss_queue_status time
        Except.ok
          { cache := { c with m_tag_array := tags, m_mshrs := mshrs,
                              m_extra_mf_fields := map_set c.m_extra_mf_fields mf extra,
                              m_miss_queue := c.m_miss_queue ++ [mf],
                              heap := heap2 },
            do_miss := true, wb := wb1, evicted := evicted1,
            events := if wa = true then events
                      else events ++ [cache_event.READ_REQUEST_SENT] }
  else
    Except.ok { cache := c, do_miss := do_miss, wb := wb, evicted := evicted,
                events := events }

/-! ## The data cache: policy handlers, `process_tag_probe`, `access` -/

/-- Modelled from the spec: `baseline_cache::miss_queue_full(num_miss)` is defined in the
header `gpu-cache.h`, which is not among the sources. By §4.6 a handler guarded by
`miss_queue_full(n)` requires `n + 1` slots of the demand miss queue ("requires ≥ 1 slot"
for `0`, "requires ≥ 2 slots" for `1`, "3 slots" for `2`): the queue is full for `num_miss`
when fewer than `num_miss + 1` of its `m_miss_queue_size` slots are free. -/
def baseline_cache.miss_queue_full (cfg : cache_config) (c : baseline_cache)
    (num_miss : Nat) : Bool :=
  decide (c.m_miss_queue.length + num_miss ≥ cfg.m_miss_queue_size)

/-- Modelled from the spec: the request allocator (`m_memfetch_creator->alloc(addr, type,
size, wr)` and `new mem_fetch`) is a collaborator supplied by the host (§6). It returns a
pointer to a fresh request object; the model hands out the pointers `next_mf`,
`next_mf + 1`, ... and stores the new object on the heap. -/
def baseline_cache.alloc_mf (c : baseline_cache) (obj : mem_fetch) : Nat × baseline_cache :=
  (c.next_mf,
    { c with heap := fun p => if p = c.next_mf then obj else c.heap p,
             next_mf := c.next_mf + 1 })

/-- The state of a `data_cache`: a `baseline_cache` with the access types given to
write-allocate reads and to writebacks. -/
structure data_cache extends baseline_cache where
  m_wr_alloc_type : mem_access_type
  m_wrbk_type : mem_access_type

/-- What a policy handler hands back: the returned status, the cache after the call and the
event list. -/
structure handler_result where
  status : cache_request_status
  cache : data_cache
  events : List cache_event

/-- The function `data_cache::send_write_request(mf, request, time, events)`. -/
def data_cache.send_write_request (c : data_cache) (mf : Nat) (request : cache_event)
    (time : Nat) (events : List cache_event) : data_cache × List cache_event :=
  ({ c with m_miss_queue := c.m_miss_queue ++ [mf],
            heap := set_status c.heap mf c.m_miss_queue_status time },
    events ++ [request])

/-- The assignment `m_tag_array->get_block(cache_index).m_status = st`. -/
def data_cache.set_block_status (c : data_cache) (cache_index : Nat)
    (st : cache_block_state) : data_cache :=
  let block := c.m_tag_array.m_lines cache_index
  let tags := c.m_tag_array
  { c with m_tag_array :=
      { tags with m_lines := write_line tags.m_lines cache_index { block with m_status := st } } }

/-- The function `data_cache::wr_hit_wb`. -/
def data_cache.wr_hit_wb (cfg : cache_config) (c : data_cache)
    (addr cache_index _mf time : Nat) (events : List cache_event)
    (_status : cache_request_status) : Except fault handler_result :=
  let block_addr := cfg.block_addr addr
  match tag_array.access3 cfg c.m_tag_array block_addr time cache_index with
  | Except.error f => Except.error f
  | Except.ok (_, cache_index1, tags) =>
    let c1 : data_cache := { c with m_tag_array := tags }
    Except.ok
      { status := cache_request_status.HIT,
        cache := c1.set_block_status cache_index1 cache_block_state.MODIFIED,
        events := events }

/-- The function `data_cache::wr_hit_wt`. -/
def data_cache.wr_hit_wt (cfg : cache_config) (c : data_cache)
    (addr cache_index mf time : Nat) (events : List cache_event)
    (_status : cache_request_status) : Except fault handler_result :=
  if c.miss_queue_full cfg 0 = true then
    Except.ok { status := cache_request_status.RESERVATION_FAIL, cache := c,
                events := events }
  else
    let block_addr := cfg.block_addr addr
    match tag_array.access3 cfg c.m_tag_array block_addr time cache_index with
    | Except.error f => Except.error f
    | Except.ok (_, cache_index1, tags) =>
      let c1 : data_cache := { c with m_tag_array := tags }
      let c2 := c1.set_block_status cache_index1 cache_block_state.MODIFIED
      let r := c2.send_write_request mf cache_event.WRITE_REQUEST_SENT time events
      Except.ok { status := cache_request_status.HIT, cache := r.1, events := r.2 }

/-- The function `data_cache::wr_hit_we`. -/
def data_cache.wr_hit_we (cfg : cache_config) (c : data_cache)
    (_addr cache_index mf time : Nat) (events : List cache_event)
    (_status : cache_request_status) : Except fault handler_result :=
  if c.miss_queue_full cfg 0 = true then
    Except.ok { status := cache_request_status.RESERVATION_FAIL, cache := c,
                events := events }
  else
    let r := c.send_write_request mf cache_event.WRITE_REQUEST_SENT time events
    Except.ok
      { status := cache_request_status.HIT,
        cache := r.1.set_block_status cache_index cache_block_state.INVALID,
        events := r.2 }

/-- The function `data_cache::wr_hit_global_we_local_wb`. -/
def data_cache.wr_hit_global_we_local_wb (cfg : cache_config) (c : data_cache)
    (addr cache_index mf time : Nat) (events : List cache_event)
    (status : cache_request_status) : Except fault handler_result :=
  if (c.heap mf).m_access_type = mem_access_type.GLOBAL_ACC_W then
    c.wr_hit_we cfg addr cache_index mf time events status
  else
    c.wr_hit_wb cfg addr cache_index mf time events status

/-- The call of `baseline_cache::send_read_request` from a handler of the data cache. -/
def data_cache.send_read_request (cfg : cache_config) (c : data_cache)
    (addr block_addr cache_index mf time : Nat) (do_miss wb : Bool) (evicted : cache_block_t)
    (events : List cache_event) (read_only wa : Bool) :
    Except fault (data_cache × Bool × Bool × cache_block_t × List cache_event) :=
  match c.tobaseline_cache.send_read_request cfg addr block_addr cache_index mf time do_miss
      wb evicted events read_only wa with
  | Except.error f => Except.error f
  | Except.ok r =>
    Except.ok ({ c with tobaseline_cache := r.cache }, r.do_miss, r.wb, r.evicted, r.events)

/-- The request `m_memfetch_creator->alloc(addr, m_wrbk_type, line_sz, true)` of a
writeback. -/
def data_cache.alloc_writeback (cfg : cache_config) (c : data_cache) (block_addr : Nat) :
    Nat × data_cache :=
  let r := c.tobaseline_cache.alloc_mf
    { m_addr := block_addr, m_data_size := cfg.m_line_sz, m_ctrl_size := 0,
      m_is_write := true, m_isatomic := false, m_access_type := c.m_wrbk_type,
      m_wid := 0, m_sid := 0, m_status := 0, m_status_change := 0 }
  (r.1, { c with tobaseline_cache := r.2 })

/-- The function `data_cache::wr_miss_wa`. -/
def data_cache.wr_miss_wa (cfg : cache_config) (c : data_cache)
    (addr cache_index mf time : Nat) (events : List cache_event)
    (_status : cache_request_status) : Except fault handler_result :=
  let block_addr := cfg.block_addr addr
  let mshr_hit := c.m_mshrs.probe block_addr
  let mshr_avail := !c.m_mshrs.full block_addr
  if c.miss_queue_full cfg 2 = true ∨
      (¬ (mshr_hit = true ∧ mshr_avail = true) ∧
       ¬ (mshr_hit = false ∧ mshr_avail = true ∧
          c.m_miss_queue.length < cfg.m_miss_queue_size)) then
    Except.ok { status := cache_request_status.RESERVATION_FAIL, cache := c,
                events := events }
  else
    let w := c.send_write_request mf cache_event.WRITE_REQUEST_SENT time events
    let a := w.1.tobaseline_cache.alloc_mf
      { m_addr := (w.1.heap mf).m_addr, m_data_size := (w.1.heap mf).m_data_size,
        m_ctrl_size := (w.1.heap mf).m_ctrl_size, m_is_write := false,
        m_isatomic := false, m_access_type := c.m_wr_alloc_type,
        m_wid := (w.1.heap mf).m_wid, m_sid := (w.1.heap mf).m_sid,
        m_status := 0, m_status_change := 0 }
    let c1 : data_cache := { w.1 with tobaseline_cache := a.2 }
    match c1.send_read_request cfg addr block_addr cache_index a.1 time false false
        empty_line w.2 false true with
    | Except.error f => Except.error f
    | Except.ok (c2, do_miss, wb, evicted, events2) =>
      if do_miss = true then
        if wb = true ∧ cfg.m_write_policy ≠ write_policy_t.WRITE_THROUGH then
          let b := c2.alloc_writeback cfg evicted.m_block_addr
          let c3 : data_cache :=
            { b.2 with m_miss_queue := b.2.m_miss_queue ++ [b.1],
                       heap := set_status b.2.heap b.1 b.2.m_miss_queue_status time }
          Except.ok { status := cache_request_status.MISS, cache := c3, events := events2 }
        else
          Except.ok { status := cache_request_status.MISS, cache := c2, events := events2 }
      else
        Except.ok { status := cache_request_status.RESERVATION_FAIL, cache := c2,
                    events := events2 }

/-- The function `data_cache::wr_miss_no_wa`. -/
def data_cache.wr_miss_no_wa (cfg : cache_config) (c : data_cache)
    (_addr _cache_index mf time : Nat) (events : List cache_event)
    (_status : cache_request_status) : Except fault handler_result :=
  if c.miss_queue_full cfg 0 = true then
    Except.ok { status := cache_request_status.RESERVATION_FAIL, cache := c,
                events := events }
  else
    let r := c.send_write_request mf cache_event.WRITE_REQUEST_SENT time events
    Except.ok { status := cache_request_status.MISS, cache := r.1, events := r.2 }

/-- The function `data_cache::rd_hit_base`. -/
def data_cache.rd_hit_base (cfg : cache_config) (c : data_cache)
    (addr cache_index mf time : Nat) (events : List cache_event)
    (_status : cache_request_status) : Except fault handler_result :=
  let block_addr := cfg.block_addr addr
  match tag_array.access3 cfg c.m_tag_array block_addr time cache_index with
  | Except.error f => Except.error f
  | Except.ok (_, cache_index1, tags) =>
    let c1 : data_cache := { c with m_tag_array := tags }
    if (c1.heap mf).m_isatomic = true then
      if (c1.heap mf).m_access_type ≠ mem_access_type.GLOBAL_ACC_R then
        Except.error fault.rd_hit_atomic
      else
        Except.ok
          { status := cache_request_status.HIT,
            cache := c1.set_block_status cache_index1 cache_block_state.MODIFIED,
            events := events }
    else
      Except.ok { status := cache_request_status.HIT, cache := c1, events := events }

/-- The function `data_cache::rd_miss_base`. -/
def data_cache.rd_miss_base (cfg : cache_config) (c : data_cache)
    (addr cache_index mf time : Nat) (events : List cache_event)
    (_status : cache_request_status) (_is_l1_cache : Bool) : Except fault handler_result :=
  if c.miss_queue_full cfg 1 = true then
    Except.ok { status := cache_request_status.RESERVATION_FAIL, cache := c,
                events := events }
  else
    let block_addr := cfg.block_addr addr
    match c.send_read_request cfg addr block_addr cache_index mf time false false
        empty_line events false false with
    | Except.error f => Except.error f
    | Except.ok (c1, do_miss, wb, evicted, events1) =>
      if do_miss = true then
        if wb = true ∧ cfg.m_write_policy ≠ write_policy_t.WRITE_THROUGH then
          let b := c1.alloc_writeback cfg evicted.m_block_addr
          let r := b.2.send_write_request b.1 cache_event.WRITE_BACK_REQUEST_SENT time
            events1
          Except.ok { status := cache_request_status.MISS, cache := r.1, events := r.2 }
        else
          Except.ok { status := cache_request_status.MISS, cache := c1, events := events1 }
      else
        Except.ok { status := cache_request_status.RESERVATION_FAIL, cache := c1,
                    events := events1 }

/-- The function `was_writeback_sent(events)`. -/
def was_writeback_sent (events : List cache_event) : Bool :=
  events.any (fun e => decide (e = cache_event.WRITE_BACK_REQUEST_SENT))

/-- The function `bandwidth_management::use_data_port(mf, outcome, events)`; the counter
is an `int` and the cycles are an `unsigned`, so that `+=` wraps (`int_add_unsigned`). -/
def data_cache.use_data_port (cfg : cache_config) (c : data_cache) (mf : Nat)
    (outcome : cache_request_status) (events : List cache_event) : Except fault data_cache :=
  let data_size := (c.heap mf).m_data_size
  let port_width := cfg.m_data_port_width
  match outcome with
  | cache_request_status.HIT =>
    if port_width = 0 then Except.error fault.port_width_zero
    else
      let data_cycles := data_size / port_width + (if data_size % port_width > 0 then 1 else 0)
      Except.ok { c with m_data_port_occupied_cycles :=
                    int_add_unsigned c.m_data_port_occupied_cycles data_cycles }
  | cache_request_status.HIT_RESERVED | cache_request_status.MISS =>
    if was_writeback_sent events = true then
      if port_width = 0 then Except.error fault.port_width_zero
      else
        let data_cycles := cfg.m_line_sz / port_width
        Except.ok { c with m_data_port_occupied_cycles :=
                      int_add_unsigned c.m_data_port_occupied_cycles data_cycles }
    else Except.ok c
  | cache_request_status.RESERVATION_FAIL => Except.ok c

/-- Modelled from the spec: the constructor of `data_cache`, in the header `gpu-cache.h`,
assigns the member-function pointers `m_wr_hit`, `m_wr_miss`, `m_rd_hit` and `m_rd_miss`
from the configured policies (§4.6, §9): the write-hit handler is the one of the write
policy (none for READ_ONLY), the write-miss handler the one of the write-allocate policy,
and the read handlers are `rd_hit_base` and `rd_miss_base`. This is the call through
`m_wr_hit`. -/
def data_cache.m_wr_hit (cfg : cache_config) (c : data_cache)
    (addr cache_index mf time : Nat) (events : List cache_event)
    (status : cache_request_status) : Except fault handler_result :=
  match cfg.m_write_policy with
  | write_policy_t.READ_ONLY => Except.error fault.no_write_hit_handler
  | write_policy_t.WRITE_BACK => c.wr_hit_wb cfg addr cache_index mf time events status
  | write_policy_t.WRITE_THROUGH => c.wr_hit_wt cfg addr cache_index mf time events status
  | write_policy_t.WRITE_EVICT => c.wr_hit_we cfg addr cache_index mf time events status
  | write_policy_t.LOCAL_WB_GLOBAL_WT =>
    c.wr_hit_global_we_local_wb cfg addr cache_index mf time events status

/-- Modelled from the spec: the call through `m_wr_miss`, the handler of the configured
write-allocate policy (§4.6; the pointer is assigned in the header). -/
def data_cache.m_wr_miss (cfg : cache_config) (c : data_cache)
    (addr cache_index mf time : Nat) (events : List cache_event)
    (status : cache_request_status) : Except fault handler_result :=
  match cfg.m_write_alloc_policy with
  | write_allocate_policy_t.WRITE_ALLOCATE =>
    c.wr_miss_wa cfg addr cache_index mf time events status
  | write_allocate_policy_t.NO_WRITE_ALLOCATE =>
    c.wr_miss_no_wa cfg addr cache_index mf time events status

/-- The function `data_cache::process_tag_probe`; the calls through `m_rd_hit` and
`m_rd_miss` are calls of `rd_hit_base` and `rd_miss_base`, the only read handlers. -/
def data_cache.process_tag_probe (cfg : cache_config) (c : data_cache) (wr : Bool)
    (probe_status : cache_request_status) (addr cache_index mf time : Nat)
    (events : List cache_event) (is_l1_cache : Bool) : Except fault handler_result :=
  let handled : Except fault handler_result :=
    if wr = true then
      if probe_status = cache_request_status.HIT then
        c.m_wr_hit cfg addr cache_index mf time events probe_status
      else if probe_status ≠ cache_request_status.RESERVATION_FAIL then
        c.m_wr_miss cfg addr cache_index mf time events probe_status
      else Except.ok { status := probe_status, cache := c, events := events }
    else
      if probe_status = cache_request_status.HIT then
        c.rd_hit_base cfg addr cache_index mf time events probe_status
      else if probe_status ≠ cache_request_status.RESERVATION_FAIL then
        c.rd_miss_base cfg addr cache_index mf time events probe_status is_l1_cache
      else Except.ok { status := probe_status, cache := c, events := events }
  match handled with
  | Except.error f => Except.error f
  | Except.ok r =>
    match r.cache.use_data_port cfg mf r.status r.events with
    | Except.error f => Except.error f
    | Except.ok c1 => Except.ok { status := r.status, cache := c1, events := r.events }

/-- The function `cache_stats::select_stats_status(probe, access)`. -/
def select_stats_status (probe access : cache_request_status) : cache_request_status :=
  if probe = cache_request_status.HIT_RESERVED ∧
      access ≠ cache_request_status.RESERVATION_FAIL then probe
  else access

/-- The function `cache_stats::inc_stats(access_type, access_outcome)` on the statistics
matrix of the cache; its `check_valid` test holds for every pair of enumerators. -/
def data_cache.inc_stats (c : data_cache) (access_type : mem_access_type)
    (access_outcome : cache_request_status) : data_cache :=
  { c with m_stats := fun ty st =>
      if ty = access_type ∧ st = access_outcome then u32 (c.m_stats ty st + 1)
      else c.m_stats ty st }

/-- The function `l2_cache::access(addr, mf, pref_mf, time, events)`, that is
`data_cache::access` with `is_l1_cache = 0`: the plain probe is used and the two prefetcher
blocks, which are guarded by `is_l1_cache`, are skipped. -/
def l2_cache.access (cfg : cache_config) (c : data_cache) (addr mf time : Nat)
    (events : List cache_event) : Except fault handler_result :=
  if ¬ (c.heap mf).m_data_size ≤ cfg.m_line_sz then Except.error fault.access_data_size
  else
    let wr := (c.heap mf).m_is_write
    let block_addr := cfg.block_addr addr
    match tag_array.probe cfg c.m_tag_array block_addr UINT_MAX with
    | Except.error f => Except.error f
    | Except.ok (probe_status, cache_index) =>
      match c.process_tag_probe cfg wr probe_status addr cache_index mf time events false with
      | Except.error f => Except.error f
      | Except.ok r =>
        Except.ok
          { status := r.status,
            cache := r.cache.inc_stats (r.cache.heap mf).m_access_type
              (select_stats_status probe_status r.status),
            events := r.events }

/-! ## The cache states of the scenarios -/

/-- A read request of 32 bytes at address `a`. -/
def read_request (a : Nat) : mem_fetch :=
  { m_addr := a, m_data_size := 32, m_ctrl_size := 8, m_is_write := false,
    m_isatomic := false, m_access_type := mem_access_type.GLOBAL_ACC_R,
    m_wid := 0, m_sid := 0, m_status := 0, m_status_change := 0 }

/-- Scenario B of the spec after its first read: the scenario cache (4 MSHR entries, 4
merged requests each) has answered the read `100` of `0x2000` with a miss. Way 1 of set 0
is RESERVED for block `0x2000`, the MSHR table holds the entry `0x2000 -> [100]`, the
demand miss queue holds request `100`, whose data size was raised to the line size, and
the side table records it. Request `101` is a second read of `0x2000`. -/
def scenario_b : data_cache :=
  { m_tag_array :=
      { m_lines := lines_of [empty_line, line_at 8192 1 cache_block_state.RESERVED],
        m_access := 1, m_miss := 1, m_pending_hit := 0, m_res_fail := 0,
        prefetch_hit_num := 0, prefetch_hit_res_num := 0, useless_prefetch := 0 },
    m_mshrs :=
      { m_num_entries := 4, m_max_merged := 4,
        m_data := [(8192, { m_list := [100], m_has_atomic := false })],
        m_current_response := [] },
    m_miss_queue := [100],
    m_pref_miss_queue := [],
    m_extra_mf_fields :=
      [(100, { m_valid := true, m_block_addr := 8192, m_cache_index := 1,
               m_data_size := 32 })],
    m_data_port_occupied_cycles := 0,
    m_fill_port_occupied_cycles := 0,
    m_stats := fun _ _ => 0,
    m_miss_queue_status := 1,
    heap := fun p =>
      if p = 100 then { read_request 8192 with m_data_size := 128, m_status := 1,
                                               m_status_change := 1 }
      else read_request 8192,
    next_mf := 1000,
    m_wr_alloc_type := mem_access_type.other 9,
    m_wrbk_type := mem_access_type.other 6 }

/-- The status a handler or an access returned, `none` when the run stopped in a fault. -/
def returned_status (r : Except fault handler_result) : Option cache_request_status :=
  match r with
  | Except.error _ => none
  | Except.ok h => some h.status

/-- The scenario cache with its four MSHR entries taken by the outstanding reads `100`,
`101`, `102` and `103` of the blocks `0x0000`, `0x0080`, `0x2000` and `0x2080`; request
`104` is a read of the further block `0x0100`. -/
def scenario_saturated : data_cache :=
  { scenario_b with
    m_tag_array :=
      { m_lines := lines_of
          [line_at 8192 3 cache_block_state.RESERVED, line_at 0 1 cache_block_state.RESERVED,
           line_at 8320 4 cache_block_state.RESERVED, line_at 128 2 cache_block_state.RESERVED],
        m_access := 4, m_miss := 4, m_pending_hit := 0, m_res_fail := 0,
        prefetch_hit_num := 0, prefetch_hit_res_num := 0, useless_prefetch := 0 },
    m_mshrs :=
      { m_num_entries := 4, m_max_merged := 4,
        m_data := [(0, { m_list := [100], m_has_atomic := false }),
                   (128, { m_list := [101], m_has_atomic := false }),
                   (8192, { m_list := [102], m_has_atomic := false }),
                   (8320, { m_list := [103], m_has_atomic := false })],
        m_current_response := [] },
    m_miss_queue := [100, 101, 102, 103],
    m_extra_mf_fields :=
      [(100, { m_valid := true, m_block_addr := 0, m_cache_index := 1, m_data_size := 32 }),
       (101, { m_valid := true, m_block_addr := 128, m_cache_index := 3, m_data_size := 32 }),
       (102, { m_valid := true, m_block_addr := 8192, m_cache_index := 0, m_data_size := 32 }),
       (103, { m_valid := true, m_block_addr := 8320, m_cache_index := 2,
               m_data_size := 32 })],
    heap := fun p =>
      let queued (a : Nat) : mem_fetch :=
        { read_request a with m_data_size := 128, m_status := 1, m_status_change := 1 }
      if p = 100 then queued 0 else if p = 101 then queued 128
      else if p = 102 then queued 8192 else if p = 103 then queued 8320
      else read_request 256 }

/-- Scenario D of the spec after its two reads: both ways of set 0 are RESERVED, way 1 for
block `0x0000` (read `100`) and way 0 for block `0x2000` (read `101`). Request `102` is a
read of `0x4000`, which maps to set 0 as well. -/
def scenario_d : data_cache :=
  { scenario_b with
    m_tag_array :=
      { m_lines := lines_of
          [line_at 8192 2 cache_block_state.RESERVED, line_at 0 1 cache_block_state.RESERVED],
        m_access := 2, m_miss := 2, m_pending_hit := 0, m_res_fail := 0,
        prefetch_hit_num := 0, prefetch_hit_res_num := 0, useless_prefetch := 0 },
    m_mshrs :=
      { m_num_entries := 4, m_max_merged := 4,
        m_data := [(0, { m_list := [100], m_has_atomic := false }),
                   (8192, { m_list := [101], m_has_atomic := false })],
        m_current_response := [] },
    m_miss_queue := [100, 101],
    m_extra_mf_fields :=
      [(100, { m_valid := true, m_block_addr := 0, m_cache_index := 1, m_data_size := 32 }),
       (101, { m_valid := true, m_block_addr := 8192, m_cache_index := 0,
               m_data_size := 32 })],
    heap := fun p =>
      let queued (a : Nat) : mem_fetch :=
        { read_request a with m_data_size := 128, m_status := 1, m_status_change := 1 }
      if p = 100 then queued 0 else if p = 101 then queued 8192
      else read_request 16384 }

/-- A write request of 32 bytes at address `a`. -/
def write_request (a : Nat) : mem_fetch :=
  { read_request a with m_is_write := true, m_access_type := mem_access_type.GLOBAL_ACC_W }

/-- The scenario cache with set 0 full and its LRU line dirty: block `0x0000` VALID in way
0 (time 7), block `0x2000` MODIFIED in way 1 (time 5), nothing outstanding. Request `102` is
a read and request `103` a write of `0x4000`, which maps to set 0. -/
def scenario_dirty : data_cache :=
  { scenario_b with
    m_tag_array := tags_valid_modified,
    m_mshrs := { m_num_entries := 4, m_max_merged := 4, m_data := [],
                 m_current_response := [] },
    m_miss_queue := [],
    m_extra_mf_fields := [],
    heap := fun p => if p = 103 then write_request 16384 else read_request 16384 }

/-- The scenario configuration with the allocation policy ON_FILL. -/
def scenario_cfg_on_fill : cache_config :=
  { scenario_cfg with m_alloc_policy := allocation_policy_t.ON_FILL }

/-- The event list a handler or an access handed back, `none` when the run stopped in a
fault. -/
def returned_events (r : Except fault handler_result) : Option (List cache_event) :=
  match r with
  | Except.error _ => none
  | Except.ok h => some h.events

/-- The demand miss queue a handler or an access left, `none` when the run stopped in a
fault. -/
def returned_miss_queue (r : Except fault handler_result) : Option (List Nat) :=
  match r with
  | Except.error _ => none
  | Except.ok h => some h.cache.m_miss_queue

/-! ## Fills, the ready queue of the MSHR table, `cycle`, and the prefetch path -/

/-- `std::map::erase(k)` on a map kept as an association list. -/
def map_erase {β : Type} (m : List (Nat × β)) (k : Nat) : List (Nat × β) :=
  m.filter (fun p => p.1 != k)

/-- Modelled from the spec: `mshr_table::busy()` is defined in the header `gpu-cache.h`,
which is not among the sources; by §4.3 "in this core, `busy` is always false". -/
def mshr_table.busy (_m : mshr_table) : Bool := false

/-- Modelled from the spec: `mshr_table::access_ready()` is defined in the header; by §4.3
it tells whether the ready queue is non-empty. -/
def mshr_table.access_ready (m : mshr_table) : Bool :=
  !m.m_current_response.isEmpty

/-- The function `mshr_table::mark_ready(block_addr, has_atomic)`: the table after the
call and the value written to `has_atomic`. The assertion `!busy()` holds, `busy()` being
false. -/
def mshr_table.mark_ready (m : mshr_table) (block_addr : Nat) :
    Except fault (mshr_table × Bool) :=
  match m.m_data.lookup block_addr with
  | none => Except.error fault.mark_ready_no_entry
  | some a =>
    let response := m.m_current_response ++ [block_addr]
    if ¬ response.length ≤ m.m_data.length then Except.error fault.mark_ready_size
    else Except.ok ({ m with m_current_response := response }, a.m_has_atomic)

/-- The function `mshr_table::next_access()`: the request returned and the table after the
call. `m_data[block_addr]` on a block without entry yields an empty list, on which the
second assertion fails. -/
def mshr_table.next_access (m : mshr_table) : Except fault (Nat × mshr_table) :=
  match m.m_current_response with
  | [] => Except.error fault.next_access_not_ready
  | block_addr :: rest =>
    let e : mshr_entry :=
      (m.m_data.lookup block_addr).getD { m_list := [], m_has_atomic := false }
    match e.m_list with
    | [] => Except.error fault.next_access_empty
    | result :: waiting =>
      if waiting.isEmpty = true then
        Except.ok (result, { m with m_data := map_erase m.m_data block_addr,
                                    m_current_response := rest })
      else
        Except.ok (result, { m with m_data := map_set m.m_data block_addr
                                      { e with m_list := waiting } })

/-- Modelled from the spec: `cache_block_t::fill(time)` is defined in the header
`gpu-cache.h`, which is not among the sources. By §4.2 a fill marks the line VALID and
stamps the fill time. -/
def cache_block_t.fill (line : cache_block_t) (time : Nat) : cache_block_t :=
  { line with m_status := cache_block_state.VALID, m_fill_time := time }

/-- Modelled from the spec: `cache_block_t::pref_fill(time, is_prefetch)` is defined in the
header. By §4.2 it marks the line VALID, stamps the fill time and sets the prefetch flag
of the line to `is_prefetch`. -/
def cache_block_t.pref_fill (line : cache_block_t) (time : Nat) (is_prefetch : Bool) :
    cache_block_t :=
  { line with m_status := cache_block_state.VALID, m_fill_time := time,
              m_prefetch_line := is_prefetch }

/-- The function `tag_array::pref_fill(index, time, is_prefetch)`. -/
def tag_array.pref_fill (cfg : cache_config) (t : tag_array) (index time : Nat)
    (is_prefetch : Bool) : Except fault tag_array :=
  if cfg.m_alloc_policy ≠ allocation_policy_t.ON_MISS then
    Except.error fault.tag_fill_policy
  else
    let line := (t.m_lines index).pref_fill time is_prefetch
    Except.ok { t with m_lines := write_line t.m_lines index line }

/-- The function `tag_array::fill(index, time)`. -/
def tag_array.fill_index (cfg : cache_config) (t : tag_array) (index time : Nat) :
    Except fault tag_array :=
  if cfg.m_alloc_policy ≠ allocation_policy_t.ON_MISS then
    Except.error fault.tag_fill_policy
  else
    let line := (t.m_lines index).fill time
    Except.ok { t with m_lines := write_line t.m_lines index line }

/-- The function `tag_array::fill(addr, time)`; the local `idx` starts out arbitrary and
is written by every probe that returns `MISS`. -/
def tag_array.fill (cfg : cache_config) (t : tag_array) (addr time : Nat) :
    Except fault tag_array :=
  if cfg.m_alloc_policy ≠ allocation_policy_t.ON_FILL then
    Except.error fault.tag_fill_policy
  else
    match tag_array.probe cfg t addr 0 with
    | Except.error f => Except.error f
    | Except.ok (status, idx) =>
      if status ≠ cache_request_status.MISS then Except.error fault.tag_fill_status
      else
        let line := ((t.m_lines idx).allocate (cfg.tag addr) (cfg.block_addr addr) time).fill
          time
        Except.ok { t with m_lines := write_line t.m_lines idx line }

/-- The function `tag_array::flush()`; the array holds `m_nset * m_assoc` lines
(`get_num_lines()`). -/
def tag_array.flush (cfg : cache_config) (t : tag_array) : tag_array :=
  { t with m_lines := fun i =>
      if i < cfg.m_nset * cfg.m_assoc then
        { t.m_lines i with m_status := cache_block_state.INVALID }
      else t.m_lines i }

/-- The function `tag_array::pref_access(addr, time, idx, wb, evicted, read_only)`. -/
def tag_array.pref_access (cfg : cache_config) (t : tag_array) (addr time idx : Nat)
    (wb : Bool) (evicted : cache_block_t) (read_only : Bool) :
    Except fault tag_access_result :=
  match tag_array.probe cfg t addr idx with
  | Except.error f => Except.error f
  | Except.ok (status, idx1) =>
    let line := t.m_lines idx1
    match status with
    | cache_request_status.HIT_RESERVED | cache_request_status.HIT =>
      Except.ok { status := status, idx := idx1, wb := wb, evicted := evicted, tags := t }
    | cache_request_status.MISS =>
      if ¬ (line.m_status = cache_block_state.VALID ∨
          line.m_status = cache_block_state.INVALID ∨
          line.m_status = cache_block_state.MODIFIED) then
        Except.error fault.pref_access_miss
      else if cfg.m_alloc_policy = allocation_policy_t.ON_MISS then
        if line.m_status = cache_block_state.MODIFIED ∧ read_only = true then
          Except.ok { status := cache_request_status.RESERVATION_FAIL, idx := idx1, wb := wb,
                      evicted := evicted, tags := t }
        else
          let dirty : Bool :=
            decide (line.m_status = cache_block_state.MODIFIED ∧ read_only = false)
          Except.ok
            { status := status, idx := idx1,
              wb := if dirty = true then true else wb,
              evicted := if dirty = true then line else evicted,
              tags := { t with m_lines := write_line t.m_lines idx1
                                 (line.allocate (cfg.tag addr) (cfg.block_addr addr) time) } }
      else
        Except.ok { status := status, idx := idx1, wb := wb, evicted := evicted, tags := t }
    | cache_request_status.RESERVATION_FAIL =>
      Except.ok { status := status, idx := idx1, wb := wb, evicted := evicted, tags := t }

/-- The function `bandwidth_management::use_fill_port(mf)`; the counter is an `int` and
`fill_cycles` an `unsigned`, so that `+=` wraps (`int_add_unsigned`). -/
def baseline_cache.use_fill_port (cfg : cache_config) (c : baseline_cache) (_mf : Nat) :
    Except fault baseline_cache :=
  if cfg.m_data_port_width = 0 then Except.error fault.port_width_zero
  else
    let fill_cycles := cfg.m_line_sz / cfg.m_data_port_width
    Except.ok { c with m_fill_port_occupied_cycles :=
                  int_add_unsigned c.m_fill_port_occupied_cycles fill_cycles }

/-- The function `baseline_cache::fill(mf, time)`. -/
def baseline_cache.fill (cfg : cache_config) (c : baseline_cache) (mf time : Nat) :
    Except fault baseline_cache :=
  match c.m_extra_mf_fields.lookup mf with
  | none => Except.error fault.fill_no_entry
  | some e =>
    if e.m_valid = false then Except.error fault.fill_not_valid
    else
      let heap1 := set_data_size c.heap mf e.m_data_size
      let filled : Except fault tag_array :=
        match cfg.m_alloc_policy with
        | allocation_policy_t.ON_MISS =>
          c.m_tag_array.pref_fill cfg e.m_cache_index time (heap1 mf).m_is_prefetch
        | allocation_policy_t.ON_FILL => c.m_tag_array.fill cfg e.m_block_addr time
      match filled with
      | Except.error f => Except.error f
      | Except.ok tags =>
        match c.m_mshrs.mark_ready e.m_block_addr with
        | Except.error f => Except.error f
        | Except.ok (mshrs, has_atomic) =>
          if has_atomic = true ∧ cfg.m_alloc_policy ≠ allocation_policy_t.ON_MISS then
            Except.error fault.fill_atomic_policy
          else
            let block := tags.m_lines e.m_cache_index
            let tags1 : tag_array :=
              if has_atomic = true then
                { tags with m_lines := write_line tags.m_lines e.m_cache_index
                                { block with m_status := cache_block_state.MODIFIED } }
              else tags
            let c1 : baseline_cache :=
              { c with m_tag_array := tags1, m_mshrs := mshrs,
                       m_extra_mf_fields := map_erase c.m_extra_mf_fields mf,
                       heap := heap1 }
            c1.use_fill_port cfg mf

/-- The function `baseline_cache::waiting_for_fill(mf)`. -/
def baseline_cache.waiting_for_fill (c : baseline_cache) (mf : Nat) : Bool :=
  (c.m_extra_mf_fields.lookup mf).isSome

/-- Modelled from the spec: `mem_fetch::size()` is declared in a header that is not among
the sources; the size the downstream port is asked about (§4.5) is taken to be the data
bytes and the control bytes of the request together. -/
def mem_fetch.size (m : mem_fetch) : Nat := m.m_data_size + m.m_ctrl_size

/-- The function `cache_stats::sample_cache_port_utility(data_port_busy,
fill_port_busy)`. -/
def baseline_cache.sample_cache_port_utility (c : baseline_cache)
    (data_port_busy fill_port_busy : Bool) : baseline_cache :=
  { c with
    m_cache_port_available_cycles := u64 (c.m_cache_port_available_cycles + 1),
    m_cache_data_port_busy_cycles :=
      if data_port_busy = true then u64 (c.m_cache_data_port_busy_cycles + 1)
      else c.m_cache_data_port_busy_cycles,
    m_cache_fill_port_busy_cycles :=
      if fill_port_busy = true then u64 (c.m_cache_fill_port_busy_cycles + 1)
      else c.m_cache_fill_port_busy_cycles }

/-- The function `bandwidth_management::data_port_free()`. -/
def baseline_cache.data_port_free (c : baseline_cache) : Bool :=
  decide (c.m_data_port_occupied_cycles = 0)

/-- The function `bandwidth_management::fill_port_free()`. -/
def baseline_cache.fill_port_free (c : baseline_cache) : Bool :=
  decide (c.m_fill_port_occupied_cycles = 0)

/-- The function `bandwidth_management::replenish_port_bandwidth()`. -/
def baseline_cache.replenish_port_bandwidth (c : baseline_cache) :
    Except fault baseline_cache :=
  let data_cycles :=
    if c.m_data_port_occupied_cycles > 0 then c.m_data_port_occupied_cycles - 1
    else c.m_data_port_occupied_cycles
  if ¬ data_cycles ≥ 0 then Except.error fault.port_negative
  else
    let fill_cycles :=
      if c.m_fill_port_occupied_cycles > 0 then c.m_fill_port_occupied_cycles - 1
      else c.m_fill_port_occupied_cycles
    if ¬ fill_cycles ≥ 0 then Except.error fault.port_negative
    else
      Except.ok { c with m_data_port_occupied_cycles := data_cycles,
                         m_fill_port_occupied_cycles := fill_cycles }

/-- The function `baseline_cache::cycle()`. The downstream port `m_memport` belongs to the
host: `memport_full size is_write` is its answer `m_memport->full(size, is_write)`, and the
request handed to `m_memport->push`, if any, is returned next to the cache. -/
def baseline_cache.cycle (c : baseline_cache) (memport_full : Nat → Bool → Bool) :
    Except fault (baseline_cache × Option Nat) :=
  let sent : baseline_cache × Option Nat :=
    match c.m_pref_miss_queue with
    | mf :: rest =>
      if memport_full (c.heap mf).size (c.heap mf).m_is_write = false then
        ({ c with m_pref_miss_queue := rest }, some mf)
      else (c, none)
    | [] =>
      match c.m_miss_queue with
      | mf :: rest =>
        if memport_full (c.heap mf).size (c.heap mf).m_is_write = false then
          ({ c with m_miss_queue := rest }, some mf)
        else (c, none)
      | [] => (c, none)
  let data_port_busy := !sent.1.data_port_free
  let fill_port_busy := !sent.1.fill_port_free
  match (sent.1.sample_cache_port_utility data_port_busy fill_port_busy).replenish_port_bandwidth
    with
  | Except.error f => Except.error f
  | Except.ok c1 => Except.ok (c1, sent.2)

/-- The function `baseline_cache::send_read_request_pref(pref_addr, pref_block_addr,
pref_cache_index, pref_mf, time, pref_do_miss, pref_wb, pref_evicted, events, read_only,
wa)`. A carrier that is not enqueued is deleted, which leaves the modelled state alone. -/
def baseline_cache.send_read_request_pref (cfg : cache_config) (c : baseline_cache)
    (_pref_addr pref_block_addr pref_cache_index pref_mf time : Nat)
    (pref_do_miss pref_wb : Bool) (pref_evicted : cache_block_t)
    (events : List cache_event) (read_only _wa : Bool) :
    Except fault read_request_result :=
  let pref_mshr_hit := c.m_mshrs.probe pref_block_addr
  let pref_mshr_avail := !c.m_mshrs.full pref_block_addr
  if pref_mshr_hit = true then
    Except.ok { cache := c, do_miss := pref_do_miss, wb := pref_wb, evicted := pref_evicted,
                events := events }
  else if pref_mshr_hit = false ∧ pref_mshr_avail = true ∧
      c.m_pref_miss_queue.length < cfg.m_miss_queue_size ∧ c.m_miss_queue.length < 3 then
    match c.m_tag_array.pref_access cfg pref_block_addr time pref_cache_index pref_wb
        pref_evicted read_only with
    | Except.error f => Except.error f
    | Except.ok r =>
      if r.status = cache_request_status.MISS then
        match c.m_mshrs.add pref_block_addr pref_mf (c.heap pref_mf).m_isatomic with
        | Except.error f => Except.error f
        | Except.ok mshrs =>
          let extra : extra_mf_fields :=
            { m_valid := true, m_block_addr := pref_block_addr, m_cache_index := r.idx,
              m_data_size := (c.heap pref_mf).m_data_size }
          let heap1 := set_data_size c.heap pref_mf cfg.m_line_sz
          let heap2 := set_status heap1 pref_mf c.m_miss_queue_status time
          Except.ok
            { cache := { c with m_tag_array := r.tags, m_mshrs := mshrs,
                                m_extra_mf_fields := map_set c.m_extra_mf_fields pref_mf extra,
                                m_pref_miss_queue := c.m_pref_miss_queue ++ [pref_mf],
                                heap := heap2 },
              do_miss := true, wb := r.wb, evicted := r.evicted, events := events }
      else
        Except.ok { cache := { c with m_tag_array := r.tags }, do_miss := pref_do_miss,
                    wb := r.wb, evicted := r.evicted, events := events }
  else
    Except.ok { cache := c, do_miss := pref_do_miss, wb := pref_wb, evicted := pref_evicted,
                events := events }

/-- The function `data_cache::send_write_request_pref(pref_mf, request, time, events)`: the
request goes to the prefetch miss queue and no event is recorded. -/
def data_cache.send_write_request_pref (c : data_cache) (pref_mf : Nat)
    (_request : cache_event) (time : Nat) (events : List cache_event) :
    data_cache × List cache_event :=
  ({ c with m_pref_miss_queue := c.m_pref_miss_queue ++ [pref_mf],
            heap := set_status c.heap pref_mf c.m_miss_queue_status time },
    events)

/-- `pref_mf->set_warp_id(wid)` followed by `pref_mf->set_addr(addr)` on the heap of
request objects. -/
def set_warp_id_addr (heap : Nat → mem_fetch) (mf wid addr : Nat) : Nat → mem_fetch :=
  fun p => if p = mf then { heap mf with m_wid := wid, m_addr := addr } else heap p

/-- What `data_cache::access` reads from the prefetcher through `get_prefetch_addr()`,
`valid_addr()`, `get_put_time()` and `get_prefetch_warp_id()`: the prefetch request
`m_prefetch_req` the prefetcher holds after it has been updated for this access. -/
structure prefetch_req where
  valid : Bool
  addr : Nat
  warp_id : Nat
  put_time : Nat
deriving DecidableEq, Repr

/-- The prefetch block of `data_cache::access`, entered for an L1 with a carrier `pref_mf`:
the candidate is submitted through `send_read_request_pref`, and the writeback of a
MODIFIED line it evicted follows it into the prefetch miss queue. -/
def data_cache.access_prefetch (cfg : cache_config) (c : data_cache) (pref_mf time : Nat)
    (events : List cache_event) (pf : prefetch_req) :
    Except fault (data_cache × List cache_event) :=
  let pref_addr := pf.addr
  if pref_addr > 0 ∧ pref_addr ≤ 2415919103 ∧
      (pf.valid = true ∨ (pf.valid = false ∧ pf.put_time < 10)) then
    let pref_block_addr := cfg.block_addr pref_addr
    let c1 : data_cache :=
      { c with heap := set_warp_id_addr c.heap pref_mf pf.warp_id pref_block_addr }
    match c1.tobaseline_cache.send_read_request_pref cfg pref_addr pref_block_addr UINT_MAX
        pref_mf time false false empty_line events false false with
    | Except.error f => Except.error f
    | Except.ok r =>
      let c2 : data_cache := { c1 with tobaseline_cache := r.cache }
      if r.do_miss = true then
        if r.wb = true ∧ cfg.m_write_policy ≠ write_policy_t.WRITE_THROUGH then
          let b := c2.alloc_writeback cfg r.evicted.m_block_addr
          Except.ok
            (b.2.send_write_request_pref b.1 cache_event.WRITE_BACK_REQUEST_SENT time r.events)
        else Except.ok (c2, r.events)
      else Except.ok (c2, r.events)
  else Except.ok (c, events)

/-- The function `data_cache::access(addr, mf, pref_mf, time, events, is_l1_cache)`;
`pref_mf` is `none` for a null pointer. For the reads of an L1 the source probes with
`probe_locality`, which scans the same lines as `probe` and returns the same status and way;
what it and the prefetcher update (`calculate_inter_pref_addr`) record besides is no part
of this state, and the prefetch request they leave behind is the argument `pf`. -/
def data_cache.access (cfg : cache_config) (c : data_cache) (addr mf : Nat)
    (pref_mf : Option Nat) (time : Nat) (events : List cache_event) (is_l1_cache : Bool)
    (pf : prefetch_req) : Except fault handler_result :=
  if ¬ (c.heap mf).m_data_size ≤ cfg.m_line_sz then Except.error fault.access_data_size
  else
    let wr := (c.heap mf).m_is_write
    let block_addr := cfg.block_addr addr
    match tag_array.probe cfg c.m_tag_array block_addr UINT_MAX with
    | Except.error f => Except.error f
    | Except.ok (probe_status, cache_index) =>
      match c.process_tag_probe cfg wr probe_status addr cache_index mf time events
          is_l1_cache with
      | Except.error f => Except.error f
      | Except.ok r =>
        let prefetched : Except fault (data_cache × List cache_event) :=
          match pref_mf with
          | some p =>
            if is_l1_cache = true then r.cache.access_prefetch cfg p time r.events pf
            else Except.ok (r.cache, r.events)
          | none => Except.ok (r.cache, r.events)
        match prefetched with
        | Except.error f => Except.error f
        | Except.ok (c1, events1) =>
          Except.ok
            { status := r.status,
              cache := c1.inc_stats (c1.heap mf).m_access_type
                (select_stats_status probe_status r.status),
              events := events1 }

/-- The function `l1_cache::access(addr, mf, pref_mf, time, events)`. -/
def l1_cache.access (cfg : cache_config) (c : data_cache) (addr mf : Nat)
    (pref_mf : Option Nat) (time : Nat) (events : List cache_event) (pf : prefetch_req) :
    Except fault handler_result :=
  c.access cfg addr mf pref_mf time events true pf

/-! ## Runs of a data cache -/

/-- The calls the host makes on a data cache: `access`, `fill`, `cycle` (with the answer
of the downstream port), `tag_array::flush`, the draining call `next_access`, and, between
calls, a store into a request object, which the host owns. -/
inductive cache_op where
  | access (addr mf : Nat) (pref_mf : Option Nat) (time : Nat) (events : List cache_event)
      (is_l1_cache : Bool) (pf : prefetch_req)
  | fill (mf time : Nat)
  | cycle (memport_full : Nat → Bool → Bool)
  | flush
  | next_access
  | host_store (p : Nat) (obj : mem_fetch)

/-- Whether the call is `tag_array::flush`. -/
def cache_op.is_flush : cache_op → Bool
  | cache_op.flush => true
  | _ => false

/-- The cache after one call of the host. -/
def data_cache.run_op (cfg : cache_config) (c : data_cache) : cache_op →
    Except fault data_cache
  | cache_op.access addr mf pref_mf time events is_l1_cache pf =>
    match c.access cfg addr mf pref_mf time events is_l1_cache pf with
    | Except.error f => Except.error f
    | Except.ok r => Except.ok r.cache
  | cache_op.fill mf time =>
    match c.tobaseline_cache.fill cfg mf time with
    | Except.error f => Except.error f
    | Except.ok b => Except.ok { c with tobaseline_cache := b }
  | cache_op.cycle memport_full =>
    match c.tobaseline_cache.cycle memport_full with
    | Except.error f => Except.error f
    | Except.ok (b, _) => Except.ok { c with tobaseline_cache := b }
  | cache_op.flush =>
    Except.ok { c with m_tag_array := c.m_tag_array.flush cfg }
  | cache_op.next_access =>
    match c.m_mshrs.next_access with
    | Except.error f => Except.error f
    | Except.ok (_, mshrs) => Except.ok { c with m_mshrs := mshrs }
  | cache_op.host_store p obj =>
    Except.ok { c with heap := fun q => if q = p then obj else c.heap q }

/-- The cache after a sequence of calls, each made on the cache the previous one left. -/
def data_cache.run_ops (cfg : cache_config) (c : data_cache) : List cache_op →
    Except fault data_cache
  | [] => Except.ok c
  | op :: rest =>
    match c.run_op cfg op with
    | Except.error f => Except.error f
    | Except.ok c1 => c1.run_ops cfg rest

/-- An empty data cache, as constructed: every line INVALID, no MSHR entry, nothing ready,
both miss queues and the side table empty. -/
def data_cache.empty (c : data_cache) : Prop :=
  (∀ i, (c.m_tag_array.m_lines i).m_status = cache_block_state.INVALID) ∧
  c.m_mshrs.m_data = [] ∧ c.m_mshrs.m_current_response = [] ∧
  c.m_miss_queue = [] ∧ c.m_pref_miss_queue = [] ∧ c.m_extra_mf_fields = []

/-! ## Vocabulary of the properties of accesses and of the invariants -/

/-- The lines `tag_array::access` leaves behind, by the status and the way of its probe: a
hit stamps the line and marks it used, a pending hit marks it used, a miss under ON_MISS
allocates the way, and nothing else changes. -/
def lines_after_access (cfg : cache_config) (lines : Nat → cache_block_t) (addr time : Nat)
    (st : cache_request_status) (idx : Nat) : Nat → cache_block_t :=
  match st with
  | cache_request_status.HIT =>
    write_line lines idx { lines idx with m_last_access_time := time, m_used := true }
  | cache_request_status.HIT_RESERVED =>
    write_line lines idx { lines idx with m_used := true }
  | cache_request_status.MISS =>
    if cfg.m_alloc_policy = allocation_policy_t.ON_MISS then
      write_line lines idx ((lines idx).allocate (cfg.tag addr) (cfg.block_addr addr) time)
    else lines
  | cache_request_status.RESERVATION_FAIL => lines

/-- Whether `tag_array::access` evicts a MODIFIED line: its probe misses, the policy is
ON_MISS and the victim way is MODIFIED. -/
def evicts_dirty (cfg : cache_config) (lines : Nat → cache_block_t)
    (st : cache_request_status) (idx : Nat) : Prop :=
  st = cache_request_status.MISS ∧ cfg.m_alloc_policy = allocation_policy_t.ON_MISS ∧
    (lines idx).m_status = cache_block_state.MODIFIED

instance evicts_dirty_decidable (cfg : cache_config) (lines : Nat → cache_block_t)
    (st : cache_request_status) (idx : Nat) : Decidable (evicts_dirty cfg lines st idx) := by
  unfold evicts_dirty
  infer_instance

/-- No set holds the same tag on two lines that are not INVALID. -/
def unique_tags (cfg : cache_config) (lines : Nat → cache_block_t) : Prop :=
  ∀ s w1 w2, w1 < cfg.m_assoc → w2 < cfg.m_assoc → w1 ≠ w2 →
    (set_line cfg lines s w1).m_status ≠ cache_block_state.INVALID →
    (set_line cfg lines s w2).m_status ≠ cache_block_state.INVALID →
    (set_line cfg lines s w1).m_tag ≠ (set_line cfg lines s w2).m_tag

/-- The part of a cache the invariants speak of: the lines, the MSHR table, the side table
and the demand miss queue. -/
structure core_state where
  lines : Nat → cache_block_t
  mshrs : mshr_table
  side : List (Nat × extra_mf_fields)
  queue : List Nat

/-- The core of a cache. -/
def baseline_cache.core (c : baseline_cache) : core_state :=
  { lines := c.m_tag_array.m_lines, mshrs := c.m_mshrs, side := c.m_extra_mf_fields,
    queue := c.m_miss_queue }

/-- The elementary changes the calls of a cache are composed of, each with the facts the
code has established when it makes the change:
`touch` rewrites a line keeping tag and status (a hit); `install` writes a line with the
tag of `a` into a way of the set of `a` that is not RESERVED, after a scan of the set found
no hit for the tag (a miss that allocates, or a fill under ON_FILL); `hit_status` marks a
VALID or MODIFIED line MODIFIED or INVALID (a write hit, an atomic read hit); `add` merges a
request into the MSHR table; `enlist` adds the first request of a block without entry and
records it in the side table, the recorded way being RESERVED with the tag of the block
under ON_MISS; `push` and `pop` are the two ends of the demand miss queue; `fill_on_miss`
is a fill under ON_MISS (the recorded way, RESERVED, becomes VALID or MODIFIED, the block is
marked ready and the record dropped); `retire` is the bookkeeping of a fill under ON_FILL;
`drain` is a call of `next_access`. -/
inductive core_step (cfg : cache_config) : core_state → core_state → Prop
  | touch (s : core_state) (idx : Nat) (line : cache_block_t) :
      line.m_tag = (s.lines idx).m_tag → line.m_status = (s.lines idx).m_status →
      core_step cfg s { s with lines := write_line s.lines idx line }
  | install (s : core_state) (a idx w : Nat) (line : cache_block_t) :
      w < cfg.m_assoc → idx = cfg.set_index a * cfg.m_assoc + w →
      (s.lines idx).m_status ≠ cache_block_state.RESERVED →
      (∀ w1, w1 < cfg.m_assoc → ¬ tag_hit cfg s.lines (cfg.set_index a) (cfg.tag a) w1) →
      line.m_tag = cfg.tag a →
      core_step cfg s { s with lines := write_line s.lines idx line }
  | hit_status (s : core_state) (idx : Nat) (st : cache_block_state) :
      ((s.lines idx).m_status = cache_block_state.VALID ∨
        (s.lines idx).m_status = cache_block_state.MODIFIED) →
      (st = cache_block_state.MODIFIED ∨ st = cache_block_state.INVALID) →
      core_step cfg s
        { s with lines := write_line s.lines idx { s.lines idx with m_status := st } }
  | add (s : core_state) (block_addr mf : Nat) (isatomic : Bool) (m1 : mshr_table) :
      s.mshrs.add block_addr mf isatomic = Except.ok m1 →
      core_step cfg s { s with mshrs := m1 }
  | enlist (s : core_state) (block_addr mf : Nat) (isatomic : Bool) (m1 : mshr_table)
      (p idx sz : Nat) :
      s.mshrs.m_data.lookup block_addr = none →
      s.mshrs.add block_addr mf isatomic = Except.ok m1 →
      (cfg.m_alloc_policy = allocation_policy_t.ON_MISS →
        (∃ a, block_addr = cfg.block_addr a) ∧
        (∃ w, w < cfg.m_assoc ∧ idx = cfg.set_index block_addr * cfg.m_assoc + w) ∧
        (s.lines idx).m_status = cache_block_state.RESERVED ∧
        (s.lines idx).m_tag = cfg.tag block_addr) →
      core_step cfg s
        { s with mshrs := m1,
                 side := map_set s.side p
                   { m_valid := true, m_block_addr := block_addr, m_cache_index := idx,
                     m_data_size := sz } }
  | push (s : core_state) (mf : Nat) :
      s.queue.length < cfg.m_miss_queue_size →
      core_step cfg s { s with queue := s.queue ++ [mf] }
  | pop (s : core_state) (mf : Nat) (rest : List Nat) :
      s.queue = mf :: rest → core_step cfg s { s with queue := rest }
  | fill_on_miss (s : core_state) (p : Nat) (e : extra_mf_fields) (line : cache_block_t)
      (m1 : mshr_table) (has_atomic : Bool) :
      cfg.m_alloc_policy = allocation_policy_t.ON_MISS →
      s.side.lookup p = some e →
      (s.lines e.m_cache_index).m_status = cache_block_state.RESERVED →
      line.m_tag = (s.lines e.m_cache_index).m_tag →
      s.mshrs.mark_ready e.m_block_addr = Except.ok (m1, has_atomic) →
      core_step cfg s
        { s with lines := write_line s.lines e.m_cache_index line, mshrs := m1,
                 side := map_erase s.side p }
  | retire (s : core_state) (p : Nat) (e : extra_mf_fields) (m1 : mshr_table)
      (has_atomic : Bool) :
      cfg.m_alloc_policy = allocation_policy_t.ON_FILL →
      s.side.lookup p = some e →
      s.mshrs.mark_ready e.m_block_addr = Except.ok (m1, has_atomic) →
      core_step cfg s { s with mshrs := m1, side := map_erase s.side p }
  | drain (s : core_state) (mf : Nat) (m1 : mshr_table) :
      s.mshrs.next_access = Except.ok (mf, m1) → core_step cfg s { s with mshrs := m1 }

/-- A sequence of elementary changes leads from the first core to the second. -/
def core_reach (cfg : cache_config) (s s1 : core_state) : Prop :=
  Relation.ReflTransGen (core_step cfg) s s1

/-- The tag function tells the blocks of a set apart: two block addresses with the same tag
and the same set index are equal. -/
def tag_identifies_block (cfg : cache_config) : Prop :=
  ∀ a b, cfg.tag (cfg.block_addr a) = cfg.tag (cfg.block_addr b) →
    cfg.set_index (cfg.block_addr a) = cfg.set_index (cfg.block_addr b) →
    cfg.block_addr a = cfg.block_addr b

/-- What holds of the misses that await their fill, the requests recorded in the side table:
the recorded way is RESERVED and holds the tag of the recorded block, in the set of that
block; the block has an MSHR entry and is not in the ready queue; two records are for
different blocks; and the ready queue lists blocks that have an entry, each once. -/
structure pending_inv (cfg : cache_config) (s : core_state) : Prop where
  reserved : ∀ p e, s.side.lookup p = some e →
    (s.lines e.m_cache_index).m_status = cache_block_state.RESERVED ∧
    (s.lines e.m_cache_index).m_tag = cfg.tag e.m_block_addr ∧
    (∃ w, w < cfg.m_assoc ∧
      e.m_cache_index = cfg.set_index e.m_block_addr * cfg.m_assoc + w) ∧
    (∃ a, e.m_block_addr = cfg.block_addr a)
  entry : ∀ p e, s.side.lookup p = some e →
    (s.mshrs.m_data.lookup e.m_block_addr).isSome = true ∧
    e.m_block_addr ∉ s.mshrs.m_current_response
  distinct : ∀ p q e f, p ≠ q → s.side.lookup p = some e → s.side.lookup q = some f →
    e.m_block_addr ≠ f.m_block_addr
  ready_nodup : s.mshrs.m_current_response.Nodup
  ready_bound : ∀ b, b ∈ s.mshrs.m_current_response →
    (s.mshrs.m_data.lookup b).isSome = true

/-- Whether, in the run of `ops` from `c`, every call of `tag_array::flush` is made while no
request awaits its fill, that is while the side table is empty and `waiting_for_fill` is
false of every request. A run that stops in a fault is checked up to there. -/
def data_cache.flush_when_idle (cfg : cache_config) (c : data_cache) : List cache_op → Bool
  | [] => true
  | op :: rest =>
    (!op.is_flush || c.m_extra_mf_fields.isEmpty) &&
      (match c.run_op cfg op with
       | Except.error _ => true
       | Except.ok c1 => c1.flush_when_idle cfg rest)

/-! ## Runs of an MSHR table -/

/-- The calls made on an MSHR table. -/
inductive mshr_op where
  | add (block_addr mf : Nat) (isatomic : Bool)
  | mark_ready (block_addr : Nat)
  | next_access
deriving DecidableEq, Repr

/-- The table after one call. -/
def mshr_table.run_op (m : mshr_table) : mshr_op → Except fault mshr_table
  | mshr_op.add block_addr mf isatomic => m.add block_addr mf isatomic
  | mshr_op.mark_ready block_addr =>
    match m.mark_ready block_addr with
    | Except.error f => Except.error f
    | Except.ok r => Except.ok r.1
  | mshr_op.next_access =>
    match m.next_access with
    | Except.error f => Except.error f
    | Except.ok r => Except.ok r.2

/-- The discipline of the callers: `add` only when `full(block_addr)` is false,
`mark_ready` only for a block that has an entry which is not yet marked ready, and
`next_access` only when `access_ready()`. -/
def mshr_op.allowed (m : mshr_table) : mshr_op → Bool
  | mshr_op.add block_addr _ _ => !m.full block_addr
  | mshr_op.mark_ready block_addr =>
    m.probe block_addr && !m.m_current_response.contains block_addr
  | mshr_op.next_access => m.access_ready

/-- The tables reached from the empty table of capacity `num_entries` and `max_merged` by
calls that respect the discipline of the callers and return. -/
inductive mshr_reachable (num_entries max_merged : Nat) : mshr_table → Prop
  | empty : mshr_reachable num_entries max_merged
      { m_num_entries := num_entries, m_max_merged := max_merged, m_data := [],
        m_current_response := [] }
  | step (m m1 : mshr_table) (op : mshr_op) :
      mshr_reachable num_entries max_merged m → op.allowed m = true →
      m.run_op op = Except.ok m1 → mshr_reachable num_entries max_merged m1

/-- The waiting requests of a block, in the order they were added; none when the block has
no entry. -/
def mshr_table.waiters (m : mshr_table) (block_addr : Nat) : List Nat :=
  match m.m_data.lookup block_addr with
  | some e => e.m_list
  | none => []

/-- The table after `mark_ready` has been called for the blocks of the list, in order. -/
def mshr_table.mark_ready_all (m : mshr_table) : List Nat → Except fault mshr_table
  | [] => Except.ok m
  | block_addr :: rest =>
    match m.mark_ready block_addr with
    | Except.error f => Except.error f
    | Except.ok r => r.1.mark_ready_all rest

/-- The requests returned by `n` calls of `next_access` in a row, and the table after
them. -/
def mshr_table.drain (m : mshr_table) : Nat → Except fault (List Nat × mshr_table)
  | 0 => Except.ok ([], m)
  | n + 1 =>
    match m.next_access with
    | Except.error f => Except.error f
    | Except.ok (mf, m1) =>
      match m1.drain n with
      | Except.error f => Except.error f
      | Except.ok (mfs, m2) => Except.ok (mf :: mfs, m2)

/-- What holds of every table reached under the discipline of the callers: the capacity
parameters are those of the empty table, the entries are at most `num_entries`, every
entry holds between 1 and `max_merged` requests, and the ready queue lists blocks that have
an entry, each once. -/
structure mshr_inv (num_entries max_merged : Nat) (m : mshr_table) : Prop where
  cap : m.m_num_entries = num_entries
  merged : m.m_max_merged = max_merged
  entries : m.m_data.length ≤ num_entries
  lists : ∀ p, p ∈ m.m_data → 1 ≤ p.2.m_list.length ∧ p.2.m_list.length ≤ max_merged
  ready_nodup : m.m_current_response.Nodup
  ready_bound : ∀ b, b ∈ m.m_current_response → (m.m_data.lookup b).isSome = true

/-- An MSHR table of the scenario capacity (4 entries of 4 requests) after the calls
`add(0x0000, 100)`, `add(0x2000, 102)` and `add(0x0000, 101)`. -/
def scenario_mshr : mshr_table :=
  { m_num_entries := 4, m_max_merged := 4,
    m_data := [(0, { m_list := [100, 101], m_has_atomic := false }),
               (8192, { m_list := [102], m_has_atomic := false })],
    m_current_response := [] }

/-! ## Runs of the scenario cache -/

/-- The scenario cache as constructed: every line INVALID, nothing outstanding; every
request object is a read of `0x1000`. -/
def scenario_empty : data_cache :=
  { scenario_b with
    m_tag_array := tags_empty,
    m_mshrs := { m_num_entries := 4, m_max_merged := 4, m_data := [],
                 m_current_response := [] },
    m_miss_queue := [],
    m_extra_mf_fields := [],
    heap := fun _ => read_request 4096 }

/-- A prefetcher without candidate. -/
def no_prefetch : prefetch_req := { valid := false, addr := 0, warp_id := 0, put_time := 0 }

/-- The first calls of scenario A: the read `100` of `0x1000` at time 1 and a tick that
sends it downstream. -/
def scenario_miss_ops : List cache_op :=
  [cache_op.access 4096 100 none 1 [] false no_prefetch, cache_op.cycle (fun _ _ => false)]

/-- Scenario A up to the fill of the read at time 10. -/
def scenario_fill_ops : List cache_op := scenario_miss_ops ++ [cache_op.fill 100 10]

/-- Scenario A up to the fill, followed by a flush. -/
def scenario_flush_ops : List cache_op := scenario_fill_ops ++ [cache_op.flush]

/-- What a run left in way `idx`: the status and the block address of the line, and
whether the MSHR table has an entry for that block address; `none` when the run stopped in
a fault. -/
def line_view (r : Except fault data_cache) (idx : Nat) :
    Option (cache_block_state × Nat × Bool) :=
  match r with
  | Except.error _ => none
  | Except.ok c =>
    some ((c.m_tag_array.m_lines idx).m_status, (c.m_tag_array.m_lines idx).m_block_addr,
      c.m_mshrs.probe (c.m_tag_array.m_lines idx).m_block_addr)

/-- A run in which a read merges into an MSHR entry that is already marked ready: the read
`100` of `0x1000` misses and is filled; the reads `101` of `0x0000` and `102` of `0x2000`
take both ways of set 0, evicting block `0x1000`, and `101` is filled; the read `103` of
`0x1000` then misses, merges into the entry of `100`, which has not been drained, and
reserves way 0; two calls of `next_access` drain the entry. -/
def scenario_merge_ready_ops : List cache_op :=
  [cache_op.access 4096 100 none 1 [] false no_prefetch,
   cache_op.fill 100 10,
   cache_op.access 0 101 none 11 [] false no_prefetch,
   cache_op.access 8192 102 none 12 [] false no_prefetch,
   cache_op.fill 101 20,
   cache_op.access 4096 103 none 21 [] false no_prefetch,
   cache_op.next_access, cache_op.next_access]

/-- A run with a flush between a miss and its fill: the reads `101` of `0x2000` and `100`
of `0x1000` miss and reserve way 1 and way 0 of set 0; the flush marks both ways INVALID
while both misses are outstanding; the read `102` of `0x1000` merges into the MSHR entry of
`100` and reserves way 1 for block `0x1000`; the fill of `100` then goes to way 0, the way
recorded for it. -/
def scenario_stale_fill_ops : List cache_op :=
  [cache_op.access 8192 101 none 1 [] false no_prefetch,
   cache_op.access 4096 100 none 2 [] false no_prefetch,
   cache_op.flush,
   cache_op.access 4096 102 none 3 [] false no_prefetch,
   cache_op.fill 100 5]

/-- What a run left in the ways of set `s`: the status and the tag of each line; `none` when
the run stopped in a fault. -/
def set_view (cfg : cache_config) (r : Except fault data_cache) (s : Nat) :
    Option (List (cache_block_state × Nat)) :=
  match r with
  | Except.error _ => none
  | Except.ok c =>
    some ((List.range cfg.m_assoc).map (fun w =>
      ((set_line cfg c.m_tag_array.m_lines s w).m_status,
        (set_line cfg c.m_tag_array.m_lines s w).m_tag)))

/-- The scenario configuration with the write policy WRITE_EVICT and a tag function that
drops address bits: the blocks `0x1000` and `0x2000` of set 0 both have the tag 0. -/
def scenario_cfg_collide : cache_config :=
  { scenario_cfg with
    m_write_policy := write_policy_t.WRITE_EVICT,
    tag := fun a => (a / 128 * 128) % 4096 }

/-- A run without flush under `scenario_cfg_collide`: the reads of `0x0200` and `0x1000`
reserve way 1 and way 0 of set 0; the read `101` of `0x2000` finds the tag of `0x1000` in
way 0 and is recorded for that way; both reserved ways are filled; the writes `102` and
`105` hit and invalidate them (write-evict); the read `103` of `0x1000` reserves way 1; the
fill of `101` then goes to way 0. -/
def scenario_collide_ops : List cache_op :=
  [cache_op.access 512 104 none 1 [] false no_prefetch,
   cache_op.access 4096 100 none 2 [] false no_prefetch,
   cache_op.access 8192 101 none 3 [] false no_prefetch,
   cache_op.fill 104 4,
   cache_op.fill 100 5,
   cache_op.host_store 102 (write_request 4096),
   cache_op.access 4096 102 none 6 [] false no_prefetch,
   cache_op.host_store 105 (write_request 512),
   cache_op.access 512 105 none 7 [] false no_prefetch,
   cache_op.access 4096 103 none 8 [] false no_prefetch,
   cache_op.fill 101 9]

/-! ## The set index function of the L1 data cache -/

/-- The set index functions `l1d_cache_config::set_index` switches on (`enum
set_index_function`). -/
inductive set_index_function where
  | FERMI_HASH_SET_FUNCTION
  | CUSTOM_SET_FUNCTION
  | LINEAR_SET_FUNCTION
deriving DecidableEq, Repr

/-- The members of the configuration that `l1d_cache_config::set_index` reads. -/
structure l1d_cache_config where
  m_set_index_function : set_index_function
  m_nset : Nat
  m_line_sz_log2 : Nat
deriving DecidableEq, Repr

/-- The function `l1d_cache_config::set_index(addr)`. The address is a 64-bit value and the
locals are `unsigned`: what is stored in them is cut to 32 bits (`u32`), and `m_nset - 1` is
computed in `unsigned`. -/
def l1d_cache_config.set_index (cfg : l1d_cache_config) (addr : Nat) : Except fault Nat :=
  let set_index := cfg.m_nset
  let switched : Except fault Nat :=
    match cfg.m_set_index_function with
    | set_index_function.FERMI_HASH_SET_FUNCTION =>
      if cfg.m_nset = 32 ∨ cfg.m_nset = 64 then
        let lower_xor := u32 ((addr >>> cfg.m_line_sz_log2) &&& 31)
        let upper_xor0 := u32 ((addr &&& 57344) >>> 13)
        let upper_xor1 := upper_xor0 ||| u32 ((addr &&& 131072) >>> 14)
        let upper_xor := upper_xor1 ||| u32 ((addr &&& 524288) >>> 15)
        let hashed := lower_xor ^^^ upper_xor
        if cfg.m_nset = 64 then Except.ok (hashed ||| u32 ((addr &&& 4096) >>> 7))
        else Except.ok hashed
      else Except.error fault.set_index_hash_nset
    | set_index_function.CUSTOM_SET_FUNCTION => Except.ok set_index
    | set_index_function.LINEAR_SET_FUNCTION =>
      Except.ok (u32 ((addr >>> cfg.m_line_sz_log2) &&& u32 (cfg.m_nset + 4294967295)))
  match switched with
  | Except.error f => Except.error f
  | Except.ok i => if ¬ i < cfg.m_nset then Except.error fault.set_index_bounds else Except.ok i

/-- Bit `i` of an address, as a number. -/
def addr_bit (addr i : Nat) : Nat := addr / 2 ^ i % 2

/-- The upper value of the hashing function as §4.1 describes it: the 5-bit number whose
bits, from the least significant, are the address bits 13, 14, 15, 17 and 19. -/
def fermi_upper (addr : Nat) : Nat :=
  addr_bit addr 13 + 2 * addr_bit addr 14 + 4 * addr_bit addr 15 + 8 * addr_bit addr 17 +
    16 * addr_bit addr 19

/-- The configuration of the L1 of the scenarios: 128-byte lines, 32 sets, hashed. -/
def scenario_l1d_hash : l1d_cache_config :=
  { m_set_index_function := set_index_function.FERMI_HASH_SET_FUNCTION, m_nset := 32,
    m_line_sz_log2 := 7 }

/-- A configuration with the linear set index: 128-byte lines, 4 sets. -/
def scenario_l1d_linear : l1d_cache_config :=
  { m_set_index_function := set_index_function.LINEAR_SET_FUNCTION, m_nset := 4,
    m_line_sz_log2 := 7 }

/-- The hashed configuration with 64 sets. -/
def scenario_l1d_hash64 : l1d_cache_config := { scenario_l1d_hash with m_nset := 64 }

/-- A hashed configuration with a number of sets the hashing function does not take. -/
def scenario_l1d_hash48 : l1d_cache_config := { scenario_l1d_hash with m_nset := 48 }

/-- A configuration that selects the custom set index function. -/
def scenario_l1d_custom : l1d_cache_config :=
  { scenario_l1d_hash with m_set_index_function := set_index_function.CUSTOM_SET_FUNCTION }

/-! ## The bandwidth manager on its own -/

/-- The ceiling of the quotient `a / b`, taken in the rationals. -/
def ceil_div (a b : Nat) : Nat := ⌈(a : ℚ) / (b : ℚ)⌉₊

/-- The cycles of the data port that an access occupies, as §4.4 gives them: the ceiling of
`data_size / port_width` on a HIT, `line_sz / port_width` on a HIT_RESERVED or a MISS whose
event list contains WRITE_BACK_REQUEST_SENT, and nothing otherwise. -/
def data_port_cycles (line_sz port_width data_size : Nat) (outcome : cache_request_status)
    (events : List cache_event) : Nat :=
  match outcome with
  | cache_request_status.HIT => ceil_div data_size port_width
  | cache_request_status.HIT_RESERVED | cache_request_status.MISS =>
    if cache_event.WRITE_BACK_REQUEST_SENT ∈ events then line_sz / port_width else 0
  | cache_request_status.RESERVATION_FAIL => 0

/-- The calls on the bandwidth manager of a cache. -/
inductive port_op where
  | use_data_port (mf : Nat) (outcome : cache_request_status) (events : List cache_event)
  | use_fill_port (mf : Nat)
  | replenish_port_bandwidth
deriving DecidableEq, Repr

/-- The cache after one call on its bandwidth manager. -/
def data_cache.run_port_op (cfg : cache_config) (c : data_cache) : port_op →
    Except fault data_cache
  | port_op.use_data_port mf outcome events => c.use_data_port cfg mf outcome events
  | port_op.use_fill_port mf =>
    match c.tobaseline_cache.use_fill_port cfg mf with
    | Except.error f => Except.error f
    | Except.ok b => Except.ok { c with tobaseline_cache := b }
  | port_op.replenish_port_bandwidth =>
    match c.tobaseline_cache.replenish_port_bandwidth with
    | Except.error f => Except.error f
    | Except.ok b => Except.ok { c with tobaseline_cache := b }

/-- The cache after a sequence of calls on its bandwidth manager. -/
def data_cache.run_port_ops (cfg : cache_config) (c : data_cache) : List port_op →
    Except fault data_cache
  | [] => Except.ok c
  | op :: rest =>
    match c.run_port_op cfg op with
    | Except.error f => Except.error f
    | Except.ok c1 => c1.run_port_ops cfg rest

/-- The two occupancy counters a run on the bandwidth manager left, `none` when the run
stopped in a fault. -/
def port_counters (r : Except fault data_cache) : Option (Int × Int) :=
  match r with
  | Except.error _ => none
  | Except.ok c => some (c.m_data_port_occupied_cycles, c.m_fill_port_occupied_cycles)

/-- The scenario configuration with lines of 2^31 bytes and a data port of one byte. -/
def scenario_cfg_wide : cache_config :=
  { scenario_cfg with m_line_sz := 2147483648, m_data_port_width := 1 }

/-- The fault a run on the bandwidth manager stopped in, `none` when it returned. -/
def run_fault (r : Except fault data_cache) : Option fault :=
  match r with
  | Except.error f => some f
  | Except.ok _ => none

/-! ## The prefetch path: gating, submission and scenarios -/

/-- The statistics matrix and the prefetch miss queue of `c1` are those of `c`: what the
demand handlers and `use_data_port` leave alone. -/
def stats_frame (c c1 : baseline_cache) : Prop :=
  c1.m_stats = c.m_stats ∧ c1.m_pref_miss_queue = c.m_pref_miss_queue

/-- The prefetch miss queue a run left, `none` when the run stopped in a fault. -/
def pref_queue_of (r : Except fault data_cache) : Option (List Nat) :=
  match r with
  | Except.error _ => none
  | Except.ok c => some c.m_pref_miss_queue

/-- The configuration of the prefetch scenarios: the scenario configuration with one way
per set and a miss queue of 2. -/
def scenario_cfg_l1 : cache_config :=
  { scenario_cfg with m_assoc := 1, m_miss_queue_size := 2 }

/-- An empty L1 data cache; request `101` is a write of `0x0000`, every other request
object a read of `0x0000`. -/
def scenario_l1_empty : data_cache :=
  { scenario_empty with
    heap := fun p => if p = 101 then write_request 0 else read_request 0 }

/-- A run of the L1 in which a prefetch evicts a dirty line. The read `100` of `0x0000`
misses (its carrier `199` finds no candidate and is dropped), is sent downstream and filled;
the write `101` hits and makes the line MODIFIED, and its carrier `200` is queued as the
prefetch of `0x0080` (set 1); the read `102` hits, and its carrier `201` is admitted as the
prefetch of `0x0200`, which maps to set 0 and evicts the MODIFIED line. -/
def scenario_overflow_ops : List cache_op :=
  [cache_op.access 0 100 (some 199) 1 [] true no_prefetch,
   cache_op.cycle (fun _ _ => false),
   cache_op.fill 100 5,
   cache_op.access 0 101 (some 200) 6 [] true
     { valid := true, addr := 128, warp_id := 1, put_time := 0 },
   cache_op.access 0 102 (some 201) 7 [] true
     { valid := true, addr := 512, warp_id := 2, put_time := 0 }]

/-- The first statement of `baseline_cache::cycle()`, the `if` over the two miss queues:
the cache after it and the request handed to `m_memport->push`, if any. -/
def baseline_cache.cycle_send (c : baseline_cache) (memport_full : Nat → Bool → Bool) :
    baseline_cache × Option Nat :=
  match c.m_pref_miss_queue with
  | mf :: rest =>
    if memport_full (c.heap mf).size (c.heap mf).m_is_write = false then
      ({ c with m_pref_miss_queue := rest }, some mf)
    else (c, none)
  | [] =>
    match c.m_miss_queue with
    | mf :: rest =>
      if memport_full (c.heap mf).size (c.heap mf).m_is_write = false then
        ({ c with m_miss_queue := rest }, some mf)
      else (c, none)
    | [] => (c, none)

/-- What one tick did: the request handed downstream, if any, and the prefetch and the
demand miss queue after the tick; `none` when the tick stopped in a fault. -/
def cycle_view (r : Except fault (baseline_cache × Option Nat)) :
    Option (Option Nat × List Nat × List Nat) :=
  match r with
  | Except.error _ => none
  | Except.ok (c, sent) => some (sent, c.m_pref_miss_queue, c.m_miss_queue)

/-- Scenario B with a writeback waiting in the prefetch miss queue: request `200` is a
write of 128 bytes; the demand miss queue holds the read `100`. -/
def scenario_two_queues : data_cache :=
  { scenario_b with
    m_pref_miss_queue := [200],
    heap := fun p =>
      if p = 200 then { write_request 0 with m_data_size := 128, m_ctrl_size := 0 }
      else scenario_b.heap p }

/-- A downstream port that has room for reads and none for writes. -/
def refuse_writes : Nat → Bool → Bool := fun _ is_write => is_write

/-- What an access did with its carrier `p`: the warp and the address of the carrier and the
prefetch miss queue after the access; `none` when the access stopped in a fault. -/
def carrier_view (r : Except fault handler_result) (p : Nat) :
    Option (Nat × Nat × List Nat) :=
  match r with
  | Except.error _ => none
  | Except.ok h => some ((h.cache.heap p).m_wid, (h.cache.heap p).m_addr,
      h.cache.m_pref_miss_queue)

/-! ## The stride prefetcher (`cache_prefetch`) -/

/-- A signed value stored into a 64-bit `new_addr_type`. -/
def u64_of_int (z : Int) : Nat := (z % 18446744073709551616).toNat

/-- A value read as a signed 64-bit `long long`. -/
def to_i64 (z : Int) : Int :=
  (z + 9223372036854775808) % 18446744073709551616 - 9223372036854775808

/-- The per-CTA part of a stride entry, as far as the source uses it: the flag `active`, the
vector `warp_set` of the warp ids seen (each pushed from an `unsigned`) and the position
`warp_offset` at which the next scan of `calcu_addr` starts. -/
structure cta_entry where
  active : Bool
  warp_set : List Nat
  warp_offset : Nat
deriving DecidableEq, Repr

/-- The per-warp part of a stride entry, as far as the source uses it: the number of loads
seen, the last address, the addresses predicted for the warp (indexed by the load count of
the leader) and the trace of its addresses. -/
structure warp_entry where
  warp_ld_inst_num : Int
  inter_warp_last_addr : Nat
  pref_addr_record : Int → Nat
  addr_record : List Nat

/-- An entry of the stride table (`m_stride_buffer[i]`), as far as the source uses it. -/
structure stride_entry where
  pc : Nat
  m_cta_entry : Int → cta_entry
  m_warp_entry : Int → warp_entry
  m_inter_warp_stride : List Int
  m_last_stride : Int
  valid_stride : Bool
  prefetch_hit : Nat
  prefetch_miss : Nat
  active_cta_num : Int
  cta_offset : Int

/-- The state of the prefetcher (`cache_prefetch`): the stride table, the number of its
entries in use, the entry and the CTA of the last recorded load, and the prefetch request
it offers. -/
structure cache_prefetch where
  m_stride_buffer : Int → stride_entry
  fill_counter : Nat
  last_pc_index : Int
  last_cta_id : Int
  m_prefetch_req : prefetch_req

/-- The entry with its CTA part `c` replaced. -/
def stride_entry.set_cta (e : stride_entry) (c : Int) (x : cta_entry) : stride_entry :=
  { e with m_cta_entry := fun i => if i = c then x else e.m_cta_entry i }

/-- The entry with its warp part `w` replaced. -/
def stride_entry.set_warp (e : stride_entry) (w : Int) (x : warp_entry) : stride_entry :=
  { e with m_warp_entry := fun i => if i = w then x else e.m_warp_entry i }

/-- The prefetcher with the table entry `i` replaced. -/
def cache_prefetch.set_entry (p : cache_prefetch) (i : Int) (e : stride_entry) :
    cache_prefetch :=
  { p with m_stride_buffer := fun j => if j = i then e else p.m_stride_buffer j }

/-- The load count `m_warp_entry[w].warp_ld_inst_num` of the entry. -/
def stride_entry.ld_num (e : stride_entry) (w : Int) : Int :=
  (e.m_warp_entry w).warp_ld_inst_num

/-- The function `cache_prefetch::full_entry()`. -/
def cache_prefetch.full_entry (p : cache_prefetch) : Bool := decide (p.fill_counter = 32)

/-- The function `cache_prefetch::fill_entry(pc)`. -/
def cache_prefetch.fill_entry (p : cache_prefetch) (pc : Nat) : Except fault cache_prefetch :=
  if ¬ p.fill_counter < 32 then Except.error fault.fill_entry_full
  else
    let e := p.m_stride_buffer p.fill_counter
    Except.ok { (p.set_entry p.fill_counter { e with pc := pc }) with
                fill_counter := p.fill_counter + 1 }

/-- The loop of `probe_entry` with `k` iterations left, at index `i`. -/
def cache_prefetch.probe_entry_scan (p : cache_prefetch) (pc : Nat) : Nat → Nat → Int
  | 0, _ => -1
  | k + 1, i =>
    if (p.m_stride_buffer i).pc = pc then (i : Int)
    else cache_prefetch.probe_entry_scan p pc k (i + 1)

/-- The function `cache_prefetch::probe_entry(pc)`. -/
def cache_prefetch.probe_entry (p : cache_prefetch) (pc : Nat) : Int :=
  p.probe_entry_scan pc p.fill_counter 0

/-- The function `cache_prefetch::warp_find(pc_index, cta_id, warp_id)`. -/
def cache_prefetch.warp_find (p : cache_prefetch) (pc_index : Int) (cta_id warp_id : Nat) :
    Bool :=
  (((p.m_stride_buffer pc_index).m_cta_entry cta_id).warp_set).any
    (fun x => decide (x = warp_id))

/-- The function `cache_prefetch::trace_warp_addr(sid, cta_id, warp_id, warp_addr,
pc_index)`; the source uses neither `sid` nor `cta_id`. -/
def cache_prefetch.trace_warp_addr (p : cache_prefetch) (_cta_id warp_id warp_addr : Nat)
    (pc_index : Int) : cache_prefetch :=
  let e := p.m_stride_buffer pc_index
  let w := e.m_warp_entry warp_id
  p.set_entry pc_index (e.set_warp warp_id { w with addr_record := w.addr_record ++ [warp_addr] })

/-- Whether the quotient `a / b` of a `long long` by an `int` is defined in C++: the divisor
is not zero, and the quotient is not that of `-2^63` by `-1`, which no `long long` holds.
Where it is not defined the division of the source traps. -/
def sdiv_defined (a b : Int) : Prop := b ≠ 0 ∧ ¬ (a = -9223372036854775808 ∧ b = -1)

instance sdiv_defined_decidable (a b : Int) : Decidable (sdiv_defined a b) := by
  unfold sdiv_defined
  infer_instance

/-- The loop at the end of `calculate_inter_warp_stride` over the warp set from the position
of `it` on: the stride history it leaves. The loop ends at the first other warp with the
load count of `warp_id`, whether or not the stride computed for it is appended (`break`).
`addr_stride` is a `long long`, the 64-bit difference read as signed; `warp_stride` is an
`int`, the 32-bit difference read as signed; the quotient is the truncating one of C++,
which is the quotient of the source wherever that is defined (`sdiv_defined`). -/
def record_stride (e : stride_entry) (warp_id warp_addr : Nat) : List Nat → List Int
  | [] => e.m_inter_warp_stride
  | x :: rest =>
    if x = warp_id then record_stride e warp_id warp_addr rest
    else if e.ld_num x = e.ld_num warp_id then
      let addr_stride : Int :=
        to_i64 (((e.m_warp_entry x).inter_warp_last_addr : Int) - (warp_addr : Int))
      let warp_stride : Int := to_i32 ((x : Int) - (warp_id : Int))
      let stride : Int := Int.tdiv addr_stride warp_stride
      if stride ≠ 0 then e.m_inter_warp_stride ++ [stride] else e.m_inter_warp_stride
    else record_stride e warp_id warp_addr rest

/-- The first statement of `calculate_inter_warp_stride`: a CTA seen for the first time
becomes active and is counted. -/
def stride_entry.activate (e : stride_entry) (cta_id : Nat) : stride_entry :=
  if (e.m_cta_entry cta_id).active = false then
    { (e.set_cta cta_id { e.m_cta_entry cta_id with active := true }) with
      active_cta_num := e.active_cta_num + 1 }
  else e

/-- The second block of `calculate_inter_warp_stride`: the load count of the warp is
incremented and an address predicted for this load is scored as hit or miss. -/
def stride_entry.count_load (e : stride_entry) (warp_id warp_addr : Nat) : stride_entry :=
  let w := e.m_warp_entry warp_id
  let e1 := e.set_warp warp_id { w with warp_ld_inst_num := w.warp_ld_inst_num + 1 }
  let pref_ld_num := e1.ld_num warp_id
  let recorded := (e1.m_warp_entry warp_id).pref_addr_record pref_ld_num
  if recorded ≠ UINT_MAX ∧ pref_ld_num < 500 then
    if recorded = warp_addr then { e1 with prefetch_hit := e1.prefetch_hit + 1 }
    else { e1 with prefetch_miss := e1.prefetch_miss + 1 }
  else e1

/-- The third block of `calculate_inter_warp_stride`: a warp not found by `warp_find` is
pushed on the warp set, which is then sorted (`std::sort`, ascending). -/
def stride_entry.join_warp (e : stride_entry) (cta_id warp_id : Nat) : stride_entry :=
  let c := e.m_cta_entry cta_id
  if c.warp_set.any (fun x => decide (x = warp_id)) = false then
    e.set_cta cta_id
      { c with warp_set := List.insertionSort (fun a b => a ≤ b) (c.warp_set ++ [warp_id]) }
  else e

/-- What `calculate_inter_warp_stride` does to the table entry `m_stride_buffer[pc_index]`,
the only entry it touches: the CTA is activated, the load is counted, the warp joins the
warp set, its last address is stored, and the stride loop runs over the warp set. -/
def stride_entry.record_load (e : stride_entry) (cta_id warp_id warp_addr : Nat) :
    stride_entry :=
  let e1 := e.activate cta_id
  let e2 := e1.count_load warp_id warp_addr
  let e3 := e2.join_warp cta_id warp_id
  let w := e3.m_warp_entry warp_id
  let e4 := e3.set_warp warp_id { w with inter_warp_last_addr := warp_addr }
  { e4 with m_inter_warp_stride :=
      record_stride e4 warp_id warp_addr (e4.m_cta_entry cta_id).warp_set }

/-- The function `cache_prefetch::calculate_inter_warp_stride(sid, cta_id, warp_id,
warp_addr, pc_index)`; the source does not use `sid`, and its assertion on the two unsigned
arguments cannot fail. -/
def cache_prefetch.calculate_inter_warp_stride (p : cache_prefetch)
    (cta_id warp_id warp_addr : Nat) (pc_index : Int) : cache_prefetch :=
  { (p.set_entry pc_index
      ((p.m_stride_buffer pc_index).record_load cta_id warp_id warp_addr)) with
    last_pc_index := pc_index, last_cta_id := (cta_id : Int) }

/-- The first loop of `find_warp_id`: the leader moves to each warp with a strictly larger
load count. -/
def find_lead (e : stride_entry) : List Nat → Int → Int
  | [], lead => lead
  | x :: rest, lead => find_lead e rest (if e.ld_num x > e.ld_num lead then (x : Int) else lead)

/-- The second loop of `find_warp_id`: the warp with the smallest load count. -/
def find_least (e : stride_entry) : List Nat → Int → Int
  | [], least => least
  | x :: rest, least =>
    find_least e rest (if e.ld_num x < e.ld_num least then (x : Int) else least)

/-- The third loop of `find_warp_id`: whether some other warp lags the leader by fewer than
25 loads. -/
def lag_flag (e : stride_entry) (lead : Int) : List Nat → Bool
  | [] => false
  | x :: rest =>
    if lead = (x : Int) then lag_flag e lead rest
    else if e.ld_num lead - e.ld_num x < 25 then true
    else lag_flag e lead rest

/-- The last loop of `find_warp_id`: the leader among the warps other than `temp`. -/
def find_lead_except (e : stride_entry) (temp : Int) : List Nat → Int → Int
  | [], lead => lead
  | x :: rest, lead =>
    if (x : Int) = temp then find_lead_except e temp rest lead
    else find_lead_except e temp rest (if e.ld_num x > e.ld_num lead then (x : Int) else lead)

/-- The function `cache_prefetch::find_warp_id(lead_warp_id, least_warp_id, pref_cta_id)`:
the values of the two reference parameters after the call. Reading `*it` at `begin()` of an
empty warp set is `warp_set_bounds`. -/
def cache_prefetch.find_warp_id (p : cache_prefetch) (lead_warp_id least_warp_id : Int)
    (pref_cta_id : Int) : Except fault (Int × Int) :=
  let e := p.m_stride_buffer p.last_pc_index
  let ws := (e.m_cta_entry pref_cta_id).warp_set
  let lead1 := find_lead e ws lead_warp_id
  let least1 := find_least e ws least_warp_id
  if lag_flag e lead1 ws = true then Except.ok (lead1, least1)
  else
    match ws with
    | [] => Except.error fault.warp_set_bounds
    | x0 :: _ => Except.ok (find_lead_except e lead1 ws (x0 : Int), least1)

/-- The choice of the leader at the head of the stride block of `calcu_addr`: the accessing
warp for `lead_wid = -1`, the result of `find_warp_id` for `lead_wid = -2`, and the initial
value `-2` otherwise. -/
def cache_prefetch.select_lead (p : cache_prefetch) (wid pref_cta_id lead_wid : Int) :
    Except fault Int :=
  let ws := ((p.m_stride_buffer p.last_pc_index).m_cta_entry pref_cta_id).warp_set
  if lead_wid = -1 then Except.ok wid
  else if lead_wid = -2 then
    match ws with
    | [] => Except.error fault.warp_set_bounds
    | x0 :: _ =>
      match p.find_warp_id (x0 : Int) (x0 : Int) pref_cta_id with
      | Except.error f => Except.error f
      | Except.ok r => Except.ok r.1
  else Except.ok (-2)

/-- The address `temp_addr` that `calcu_addr` predicts for the warp `x`: the last address
of the leader plus `m_last_stride * (x - lead_warp_id)`, stored into a `new_addr_type`. -/
def stride_entry.predicted (e : stride_entry) (lead : Int) (x : Nat) : Nat :=
  u64_of_int (((e.m_warp_entry lead).inter_warp_last_addr : Int) +
    e.m_last_stride * ((x : Int) - lead))

/-- The test of `calcu_addr` on the lag of the warp `x` behind the leader: `lag < 25 &&
lag > 20`. -/
def stride_entry.in_window (e : stride_entry) (lead : Int) (x : Nat) : Bool :=
  decide (e.ld_num lead - e.ld_num x < 25 ∧ e.ld_num lead - e.ld_num x > 20)

/-- The body of `if (m_prefetch_req.addr != temp_addr)` in `calcu_addr`, for the warp `x`:
the request becomes the predicted address, the address is recorded for the warp when the
load count of the leader is between 1 and 499, and the request is marked valid with
`put_time = 0`. -/
def cache_prefetch.commit (p : cache_prefetch) (lead : Int) (x : Nat) : cache_prefetch :=
  let e := p.m_stride_buffer p.last_pc_index
  let temp_addr := e.predicted lead x
  let pref_ld_num := e.ld_num lead
  let w := e.m_warp_entry x
  let e1 :=
    if pref_ld_num < 500 ∧ pref_ld_num > 0 then
      e.set_warp x { w with pref_addr_record := fun i =>
        if i = pref_ld_num then temp_addr else w.pref_addr_record i }
    else e
  { (p.set_entry p.last_pc_index e1) with
    m_prefetch_req := { valid := true, addr := temp_addr, warp_id := x, put_time := 0 } }

/-- How the scan loop of `calcu_addr` was left: the position of `it`, the warp for which the
request is to be committed (if the loop ended in that `break`), and the number of times the
loop body was entered. -/
structure scan_exit where
  it : Nat
  found : Option Nat
  iterations : Nat
deriving DecidableEq, Repr

/-- The scan loop `for(it; it != it_end; it++)` of `calcu_addr` over the warp set `ws`,
with iterators as positions (`ws.length` is `end()`), from the position `it` after `k`
entries of the body. The first argument bounds the number of further entries of the body:
`none` is returned when it is used up. The request is not written before the loop is left,
so that `req_addr` is `m_prefetch_req.addr` throughout. The assertion `*it != lead_warp_id`
stands behind the test `*it == lead_warp_id` and cannot fail. -/
def calcu_addr_loop (e : stride_entry) (lead : Int) (req_addr : Nat) (ws : List Nat)
    (it_end : Nat) : Nat → Nat → Nat → Except fault (Option scan_exit)
  | 0, it, k =>
    if it = it_end then Except.ok (some { it := it, found := none, iterations := k })
    else Except.ok none
  | fuel + 1, it, k =>
    if it = it_end then Except.ok (some { it := it, found := none, iterations := k })
    else if it = ws.length ∧ it_end = ws.length then Except.error fault.scan_wrap_assert
    else
      let it1 := if it = ws.length then 0 else it
      match ws[it1]? with
      | none => Except.error fault.warp_set_bounds
      | some x =>
        if (x : Int) = lead then
          if it_end = it1 then
            if it_end = 0 then
              Except.ok (some { it := it1, found := none, iterations := k + 1 })
            else Except.error fault.scan_break_assert
          else calcu_addr_loop e lead req_addr ws it_end fuel (it1 + 1) (k + 1)
        else if e.in_window lead x = true ∧ req_addr ≠ e.predicted lead x then
          Except.ok (some { it := it1, found := some x, iterations := k + 1 })
        else if it_end = it1 then
          if it_end = 0 then
            Except.ok (some { it := it1, found := none, iterations := k + 1 })
          else Except.error fault.scan_break_assert
        else calcu_addr_loop e lead req_addr ws it_end fuel (it1 + 1) (k + 1)

/-- The block of `calcu_addr` after the scan loop. Its condition reads `*it_end` first, also
when `it_end` is `end()`; the conjunction is then false by its second operand, whatever was
read, and the model returns the state unchanged. The window is tested for `*it_end`, the
address is computed and recorded for `*it`. -/
def cache_prefetch.calcu_addr_tail (p : cache_prefetch) (lead : Int) (ws : List Nat)
    (it it_end : Nat) : Except fault cache_prefetch :=
  let e := p.m_stride_buffer p.last_pc_index
  match ws[it_end]? with
  | none => Except.ok p
  | some y =>
    if (y : Int) ≠ lead ∧ it_end ≠ ws.length ∧ p.m_prefetch_req.valid = false then
      if e.in_window lead y = true then
        match ws[it]? with
        | none => Except.error fault.warp_set_bounds
        | some x =>
          if p.m_prefetch_req.addr ≠ e.predicted lead x then Except.ok (p.commit lead x)
          else Except.ok p
      else Except.ok p
    else Except.ok p

/-- The position `it_end` of `calcu_addr` for the new `warp_offset` on a warp set of `n`
elements: `end()` for offset 0, else the position before the offset. -/
def scan_end (n warp_offset : Nat) : Nat := if warp_offset = 0 then n else warp_offset - 1

/-- The first statement of the scan block of `calcu_addr` for the CTA `c`: the stored
`warp_offset` moves on by one position, cyclically. -/
def cache_prefetch.advance (p : cache_prefetch) (c : Int) : cache_prefetch :=
  let e := p.m_stride_buffer p.last_pc_index
  let cta := e.m_cta_entry c
  p.set_entry p.last_pc_index
    (e.set_cta c { cta with warp_offset := (cta.warp_offset + 1) % cta.warp_set.length })

/-- The scan block of `calcu_addr` from `int warp_offset = ...` on, for the CTA `c` and the
leader `lead`: the two iterators, the assertion `it != it_end`, the loop and the block
after it. -/
def cache_prefetch.scan_block (fuel : Nat) (p : cache_prefetch) (c lead : Int) :
    Except fault (Option cache_prefetch) :=
  let e := p.m_stride_buffer p.last_pc_index
  let ws := (e.m_cta_entry c).warp_set
  let warp_offset := (e.m_cta_entry c).warp_offset
  let it_end := scan_end ws.length warp_offset
  if warp_offset = it_end then Except.error fault.scan_start_assert
  else
    match calcu_addr_loop e lead p.m_prefetch_req.addr ws it_end fuel warp_offset 0 with
    | Except.error f => Except.error f
    | Except.ok none => Except.ok none
    | Except.ok (some ex) =>
      let p2 := match ex.found with
        | some x => p.commit lead x
        | none => p
      match p2.calcu_addr_tail lead ws ex.it it_end with
      | Except.error f => Except.error f
      | Except.ok p3 => Except.ok (some p3)

/-- The function `cache_prefetch::calcu_addr(sid, wid, cta_id, lead_wid)`; the source does
not use `sid`. The first argument bounds the entries of the body of the scan loop (`none`
when it is used up). The C++ `%` on `int` is the truncating remainder, and a zero divisor
is `zero_divisor`. -/
def cache_prefetch.calcu_addr (fuel : Nat) (p : cache_prefetch) (wid cta_id lead_wid : Int) :
    Except fault (Option cache_prefetch) :=
  let pref_cta_id := cta_id
  let e := p.m_stride_buffer p.last_pc_index
  let cta := e.m_cta_entry pref_cta_id
  if cta.active = false then
    if e.active_cta_num = 0 then Except.error fault.zero_divisor
    else
      Except.ok (some (p.set_entry p.last_pc_index
        { e with cta_offset := Int.tmod (e.cta_offset + 1) e.active_cta_num }))
  else if e.m_last_stride ≠ 0 ∧ e.valid_stride = true then
    match p.select_lead wid pref_cta_id lead_wid with
    | Except.error f => Except.error f
    | Except.ok lead =>
      if cta.warp_set.length = 0 then Except.error fault.zero_divisor
      else (p.advance pref_cta_id).scan_block fuel pref_cta_id lead
  else Except.ok (some p)

/-- A further call of `calcu_addr` in `calculate_inter_pref_addr`, made only while the
request is not valid. -/
def cache_prefetch.calcu_addr_unless_valid (fuel : Nat) (p : cache_prefetch)
    (wid cta_id lead_wid : Int) : Except fault (Option cache_prefetch) :=
  if p.m_prefetch_req.valid = false then p.calcu_addr fuel wid cta_id lead_wid
  else Except.ok (some p)

/-- The first two statements of `calculate_inter_pref_addr`: the request is marked not
valid and its `put_time` is incremented. -/
def cache_prefetch.reset_req (p : cache_prefetch) : cache_prefetch :=
  { p with m_prefetch_req :=
      { p.m_prefetch_req with valid := false, put_time := p.m_prefetch_req.put_time + 1 } }

/-- The update of `cta_offset` in `calculate_inter_pref_addr`, made with a non-zero
`active_cta_num`: the offset moves on cyclically and is raised to 2 if below. -/
def cache_prefetch.next_cta_offset (p : cache_prefetch) : cache_prefetch :=
  let e := p.m_stride_buffer p.last_pc_index
  let off := Int.tmod (e.cta_offset + 1) e.active_cta_num
  p.set_entry p.last_pc_index { e with cta_offset := if off < 2 then 2 else off }

/-- The function `cache_prefetch::calculate_inter_pref_addr(sid, wid, cta_id)`; the first
argument bounds the entries of the body of each scan loop. -/
def cache_prefetch.calculate_inter_pref_addr (fuel : Nat) (p : cache_prefetch)
    (wid cta_id : Int) : Except fault (Option cache_prefetch) :=
  let p0 := p.reset_req
  if p0.last_pc_index = -1 then Except.ok (some p0)
  else if (p0.m_stride_buffer p0.last_pc_index).active_cta_num = 0 then
    Except.error fault.zero_divisor
  else
    let p1 := p0.next_cta_offset
    match p1.calcu_addr fuel wid
        (Int.tmod (cta_id + 2) (p1.m_stride_buffer p1.last_pc_index).active_cta_num) (-2) with
    | Except.error f => Except.error f
    | Except.ok none => Except.ok none
    | Except.ok (some p2) =>
      match p2.calcu_addr_unless_valid fuel wid cta_id (-1) with
      | Except.error f => Except.error f
      | Except.ok none => Except.ok none
      | Except.ok (some p3) =>
        if p3.m_prefetch_req.valid = false then
          if (p3.m_stride_buffer p3.last_pc_index).active_cta_num = 0 then
            Except.error fault.zero_divisor
          else
            p3.calcu_addr fuel wid
              (Int.tmod (cta_id + 1) (p3.m_stride_buffer p3.last_pc_index).active_cta_num)
              (-2)
        else Except.ok (some p3)

/-- Modelled from the spec: `cache_prefetch::select_inter_stride` is defined in a file that
is not among the sources. By §4.7 it takes the mode of the recent inter-warp strides of the
entry and sets `m_last_stride`, with `valid_stride` true iff the mode passes a confidence
threshold. The choice is the parameter `rule`, from the stride history to the two values
written. -/
def cache_prefetch.select_inter_stride (rule : List Int → Int × Bool) (p : cache_prefetch)
    (i : Int) : cache_prefetch :=
  let e := p.m_stride_buffer i
  p.set_entry i { e with m_last_stride := (rule e.m_inter_warp_stride).1,
                         valid_stride := (rule e.m_inter_warp_stride).2 }

/-- The loop `for(int i = 0; i < fill_counter; i++) select_inter_stride(..., i)` of
`probe_locality` with `k` iterations left, at index `i`. -/
def cache_prefetch.select_all (rule : List Int → Int × Bool) :
    cache_prefetch → Nat → Nat → cache_prefetch
  | p, 0, _ => p
  | p, k + 1, i => cache_prefetch.select_all rule (p.select_inter_stride rule (i : Int)) k (i + 1)

/-- The prefetcher block at the head of `tag_array::probe_locality` (`USE_PREFETCH` is 1):
a PC that is not tracked is inserted if the table is not full and thread 0 is active, a
tracked PC has the load recorded, and at the times `210, 410, ...` a tracked PC triggers
the stride selection for every entry in use. -/
def cache_prefetch.locality_update (rule : List Int → Int × Bool) (p : cache_prefetch)
    (mf : mem_fetch) (tag time : Nat) : Except fault cache_prefetch :=
  let stride_buffer_index := p.probe_entry mf.m_pc
  let updated : Except fault cache_prefetch :=
    if stride_buffer_index = -1 ∧ p.full_entry = false ∧ mf.m_thread0_active = true then
      p.fill_entry mf.m_pc
    else if stride_buffer_index ≠ -1 ∧ mf.m_thread0_active = true then
      Except.ok ((p.calculate_inter_warp_stride mf.m_ctaid mf.m_wid tag
        stride_buffer_index).trace_warp_addr mf.m_ctaid mf.m_wid tag stride_buffer_index)
    else Except.ok p
  match updated with
  | Except.error f => Except.error f
  | Except.ok p1 =>
    if time % 200 = 10 ∧ time ≠ 10 ∧ stride_buffer_index ≠ -1 then
      Except.ok (cache_prefetch.select_all rule p1 p1.fill_counter 0)
    else Except.ok p1

/-- A run of locality probes seen from the prefetcher: each probe is the request, the tag
of its address and the time. -/
def cache_prefetch.run_updates (rule : List Int → Int × Bool) :
    cache_prefetch → List (mem_fetch × Nat × Nat) → Except fault cache_prefetch
  | p, [] => Except.ok p
  | p, (mf, tag, time) :: rest =>
    match p.locality_update rule mf tag time with
    | Except.error f => Except.error f
    | Except.ok p1 => cache_prefetch.run_updates rule p1 rest

/-- A run of calls of `calculate_inter_warp_stride`: each call is the CTA, the warp, the
address and the index of the table entry. -/
def cache_prefetch.run_strides :
    cache_prefetch → List (Nat × Nat × Nat × Int) → cache_prefetch
  | p, [] => p
  | p, (cta_id, warp_id, warp_addr, pc_index) :: rest =>
    cache_prefetch.run_strides (p.calculate_inter_warp_stride cta_id warp_id warp_addr pc_index)
      rest

/-- The tracked PCs: those of the entries in use, in table order. -/
def cache_prefetch.tracked (p : cache_prefetch) : List Nat :=
  (List.range p.fill_counter).map (fun (i : Nat) => (p.m_stride_buffer (i : Int)).pc)

/-- The capacity invariant of the stride table: at most 32 entries in use, with pairwise
distinct PCs. -/
def table_inv (p : cache_prefetch) : Prop :=
  p.fill_counter ≤ 32 ∧ p.tracked.Nodup

/-- The invariant of a stride entry: every warp set is strictly ascending, an active CTA
has a non-empty warp set, and `active_cta_num` is the number of active CTAs. -/
def stride_entry_inv (e : stride_entry) : Prop :=
  (∀ c, List.Sorted (fun a b => a < b) (e.m_cta_entry c).warp_set) ∧
  (∀ c, (e.m_cta_entry c).active = true → (e.m_cta_entry c).warp_set ≠ []) ∧
  ∃ S : Finset Int, (∀ c, c ∈ S ↔ (e.m_cta_entry c).active = true) ∧
    e.active_cta_num = (S.card : Int)

/-- The invariant of the prefetcher: every table entry satisfies `stride_entry_inv`, and the
entry of the last recorded load, if there is one, has an active CTA. -/
def prefetcher_inv (p : cache_prefetch) : Prop :=
  (∀ i, stride_entry_inv (p.m_stride_buffer i)) ∧
  (p.last_pc_index ≠ -1 →
    ∃ c, ((p.m_stride_buffer p.last_pc_index).m_cta_entry c).active = true)

/-- The fields of the prefetcher that the divisors and the scans depend on and that neither
`calcu_addr` nor `calculate_inter_pref_addr` writes: the last entry index, the number of
entries, and per entry the active flags, the warp sets, the count of active CTAs and the
committed stride. -/
def scan_frame (p p1 : cache_prefetch) : Prop :=
  p1.last_pc_index = p.last_pc_index ∧ p1.fill_counter = p.fill_counter ∧
  ∀ i, (p1.m_stride_buffer i).active_cta_num = (p.m_stride_buffer i).active_cta_num ∧
    (p1.m_stride_buffer i).pc = (p.m_stride_buffer i).pc ∧
    (p1.m_stride_buffer i).m_last_stride = (p.m_stride_buffer i).m_last_stride ∧
    (p1.m_stride_buffer i).valid_stride = (p.m_stride_buffer i).valid_stride ∧
    ∀ c, ((p1.m_stride_buffer i).m_cta_entry c).active =
        ((p.m_stride_buffer i).m_cta_entry c).active ∧
      ((p1.m_stride_buffer i).m_cta_entry c).warp_set =
        ((p.m_stride_buffer i).m_cta_entry c).warp_set

/-- The warp set `ws` after `if(!warp_find(...)) { push_back(warp_id); std::sort(...); }`. -/
def join_set (ws : List Nat) (warp_id : Nat) : List Nat :=
  if ws.any (fun x => decide (x = warp_id)) = false then
    List.insertionSort (fun a b => a ≤ b) (ws ++ [warp_id])
  else ws

/-- The dividend `addr_stride` of `calculate_inter_warp_stride` for the warp `x` when the
warp `warp_id` loads from `warp_addr`: the difference of the last address of `x` and
`warp_addr` as a `long long`. -/
def stride_entry.addr_stride (e : stride_entry) (warp_addr x : Nat) : Int :=
  to_i64 (((e.m_warp_entry x).inter_warp_last_addr : Int) - (warp_addr : Int))

/-- The divisor `warp_stride` of `calculate_inter_warp_stride`: the difference of the warp
ids as an `int`. -/
def warp_stride (warp_id x : Nat) : Int := to_i32 ((x : Int) - (warp_id : Int))

/-- The stride that `calculate_inter_warp_stride` computes for the warp `x` when the warp
`warp_id` loads from `warp_addr`: `addr_stride / warp_stride`, truncating; the quotient of
the source where that is defined (`sdiv_defined`). -/
def stride_entry.stride_to (e : stride_entry) (warp_id warp_addr x : Nat) : Int :=
  Int.tdiv (e.addr_stride warp_addr x) (warp_stride warp_id x)

/-- The candidate test of `calcu_addr` on a warp `x`: it is not the leader, its lag is
inside the window, and the address predicted for it differs from the address the request
holds. -/
def scan_pick (e : stride_entry) (lead : Int) (req_addr : Nat) (x : Nat) : Bool :=
  decide ((x : Int) ≠ lead) && (e.in_window lead x && decide (req_addr ≠ e.predicted lead x))

/-- The warp set in the order in which `calcu_addr` examines it for the new offset `w`:
from position `w` to the end, then from the beginning to position `w - 1`. -/
def rotation (ws : List Nat) (w : Nat) : List Nat := ws.drop w ++ ws.take w

/-- The first candidate of the CTA `c` for the leader `lead`, in rotation order from the
stored offset. -/
def cache_prefetch.first_candidate (p : cache_prefetch) (c lead : Int) : Option Nat :=
  let e := p.m_stride_buffer p.last_pc_index
  (rotation (e.m_cta_entry c).warp_set (e.m_cta_entry c).warp_offset).find?
    (scan_pick e lead p.m_prefetch_req.addr)

/-- The state described for the scan block over the CTA `c` with leader `lead`: the request
is committed for the first candidate in rotation order, if there is one. -/
def cache_prefetch.scan_result (p : cache_prefetch) (c lead : Int) : cache_prefetch :=
  match p.first_candidate c lead with
  | some x => p.commit lead x
  | none => p

/-- The request held by the prefetcher a call returned, if it returned one. -/
def req_of (r : Except fault (Option cache_prefetch)) : Option prefetch_req :=
  match r with
  | Except.ok (some p) => some p.m_prefetch_req
  | _ => none

/-- A warp entry before the first load: no load counted, no address predicted (the value
`(unsigned)-1` that `calculate_inter_warp_stride` tests for). -/
def warp_entry_init : warp_entry :=
  { warp_ld_inst_num := 0, inter_warp_last_addr := 0, pref_addr_record := fun _ => UINT_MAX,
    addr_record := [] }

/-- A stride entry before the first load: no CTA active, empty warp sets, no stride. -/
def stride_entry_init : stride_entry :=
  { pc := 0, m_cta_entry := fun _ => { active := false, warp_set := [], warp_offset := 0 },
    m_warp_entry := fun _ => warp_entry_init, m_inter_warp_stride := [], m_last_stride := 0,
    valid_stride := false, prefetch_hit := 0, prefetch_miss := 0, active_cta_num := 0,
    cta_offset := 0 }

/-- Modelled from the spec: the constructor `cache_prefetch()` is in the header
`gpu-cache.h`, which is not among the sources. A new prefetcher tracks no PC, has recorded
no load (`last_pc_index = -1`, the value `calculate_inter_pref_addr` tests for) and offers
no request (§4.7). -/
def cache_prefetch_init : cache_prefetch :=
  { m_stride_buffer := fun _ => stride_entry_init, fill_counter := 0, last_pc_index := -1,
    last_cta_id := -1, m_prefetch_req := no_prefetch }

/-- A warp entry with `n` loads counted and the last address `a`. -/
def warp_entry_at (n : Int) (a : Nat) : warp_entry :=
  { warp_entry_init with warp_ld_inst_num := n, inter_warp_last_addr := a }

/-- A prefetcher that tracks one PC, with the stride 128 committed: CTA 0 is active with the
warps 0 and 1 and the stored offset 0; warp 0 has counted 30 loads, the last at `0x1000`,
and warp 1 has counted `n1` loads. The request is not valid and holds the address
`req_addr`. -/
def scenario_window (n1 : Int) (req_addr : Nat) : cache_prefetch :=
  { m_stride_buffer := fun i =>
      if i = 0 then
        { stride_entry_init with
          pc := 64,
          m_cta_entry := fun c =>
            if c = 0 then { active := true, warp_set := [0, 1], warp_offset := 0 }
            else { active := false, warp_set := [], warp_offset := 0 },
          m_warp_entry := fun w =>
            if w = 0 then warp_entry_at 30 4096
            else if w = 1 then warp_entry_at n1 4224
            else warp_entry_init,
          m_last_stride := 128, valid_stride := true, active_cta_num := 1 }
      else stride_entry_init,
    fill_counter := 1, last_pc_index := 0, last_cta_id := 0,
    m_prefetch_req := { valid := false, addr := req_addr, warp_id := 0, put_time := 0 } }

/-! ## The locality probe and the read-only cache -/

/-- Modelled from the spec: the class `warp_locality_evaluation` of `m_wle` is declared in a
file that is not among the sources; by §2 it is instrumentation, "not load-bearing for
correctness". Of its state the model keeps the two counters that `probe_locality` increments
itself, counted in the naturals; the calls of its methods (`probe_entry`, `window_valid`,
`evaluate_locality`, `update_window`, `fill_entry`, `full_entry`) are taken to return and
to touch nothing but `m_wle`. -/
structure warp_locality_evaluation where
  cache_hit_num : Nat
  cache_miss_num : Nat
deriving DecidableEq, Repr

/-- The tag array of an L1 as `probe_locality` sees it: the tag array with its prefetcher
`m_cache_prefetch` and its locality evaluator `m_wle`. -/
structure locality_tag_array extends tag_array where
  m_cache_prefetch : cache_prefetch
  m_wle : warp_locality_evaluation

/-- One iteration of the way loop of `probe_locality`: as in `probe`, with the hit counter
of `m_wle` incremented on every tag match. -/
def probe_locality_way (cfg : cache_config) (lines : Nat → cache_block_t)
    (set_index tag way : Nat) (v : probe_vars) (wle : warp_locality_evaluation) :
    Sum (cache_request_status × Nat × warp_locality_evaluation)
      (probe_vars × warp_locality_evaluation) :=
  let index := set_index * cfg.m_assoc + way
  let line := lines index
  if line.m_tag = tag then
    let wle1 := { wle with cache_hit_num := wle.cache_hit_num + 1 }
    match line.m_status with
    | cache_block_state.RESERVED => Sum.inl (cache_request_status.HIT_RESERVED, index, wle1)
    | cache_block_state.VALID => Sum.inl (cache_request_status.HIT, index, wle1)
    | cache_block_state.MODIFIED => Sum.inl (cache_request_status.HIT, index, wle1)
    | cache_block_state.INVALID => Sum.inr (probe_track cfg line index v, wle1)
  else Sum.inr (probe_track cfg line index v, wle)

/-- The way loop of `probe_locality` after its first `k` iterations. -/
def probe_locality_scan (cfg : cache_config) (lines : Nat → cache_block_t)
    (set_index tag : Nat) (wle : warp_locality_evaluation) :
    Nat → Sum (cache_request_status × Nat × warp_locality_evaluation)
      (probe_vars × warp_locality_evaluation)
  | 0 => Sum.inr (probe_init, wle)
  | k + 1 =>
    match probe_locality_scan cfg lines set_index tag wle k with
    | Sum.inl r => Sum.inl r
    | Sum.inr (v, wle1) => probe_locality_way cfg lines set_index tag k v wle1

/-- The function `tag_array::probe_locality(addr, idx, mf, time)`: the returned status, the
value of the out-parameter `idx` and the tag array after the call. The selection rule of
`select_inter_stride` is the parameter `rule`. Unlike `probe`, the function does not assert
that the way it returns with `MISS` is not RESERVED. -/
def locality_tag_array.probe_locality (cfg : cache_config) (rule : List Int → Int × Bool)
    (t : locality_tag_array) (addr idx : Nat) (mf : mem_fetch) (time : Nat) :
    Except fault (cache_request_status × Nat × locality_tag_array) :=
  let set_index := cfg.set_index addr
  let tag := cfg.tag addr
  match t.m_cache_prefetch.locality_update rule mf tag time with
  | Except.error f => Except.error f
  | Except.ok pf =>
    match probe_locality_scan cfg t.m_lines set_index tag t.m_wle cfg.m_assoc with
    | Sum.inl (st, i, wle) =>
      Except.ok (st, i, { t with m_cache_prefetch := pf, m_wle := wle })
    | Sum.inr (v, wle) =>
      if v.all_reserved then
        if cfg.m_alloc_policy = allocation_policy_t.ON_MISS then
          Except.ok (cache_request_status.RESERVATION_FAIL, idx,
            { t with m_cache_prefetch := pf, m_wle := wle })
        else Except.error fault.probe_alloc_policy
      else if v.invalid_line ≠ UINT_MAX then
        Except.ok (cache_request_status.MISS, v.invalid_line,
          { t with m_cache_prefetch := pf,
                   m_wle := { wle with cache_miss_num := wle.cache_miss_num + 1 } })
      else if v.valid_line ≠ UINT_MAX then
        Except.ok (cache_request_status.MISS, v.valid_line,
          { t with m_cache_prefetch := pf,
                   m_wle := { wle with cache_miss_num := wle.cache_miss_num + 1 } })
      else Except.error fault.probe_abort

/-- The status and the way of a result of `probe_locality`, as `probe` reports them. -/
def probe_view (r : Except fault (cache_request_status × Nat × locality_tag_array)) :
    Except fault (cache_request_status × Nat) :=
  match r with
  | Except.error f => Except.error f
  | Except.ok (st, i, _) => Except.ok (st, i)

/-- The tag array `tags_valid_reserved` of the scenarios with a new prefetcher. -/
def scenario_locality : locality_tag_array :=
  { tags_valid_reserved with
    m_cache_prefetch := cache_prefetch_init,
    m_wle := { cache_hit_num := 0, cache_miss_num := 0 } }

/-- What `read_only_cache::access` hands back: the returned status, the cache after the
call and the event list. -/
structure ro_result where
  status : cache_request_status
  cache : baseline_cache
  events : List cache_event

/-- The function `cache_stats::inc_stats(access_type, access_outcome)` on the statistics
matrix of a `baseline_cache`. -/
def baseline_cache.inc_stats (c : baseline_cache) (access_type : mem_access_type)
    (access_outcome : cache_request_status) : baseline_cache :=
  { c with m_stats := fun ty st =>
      if ty = access_type ∧ st = access_outcome then u32 (c.m_stats ty st + 1)
      else c.m_stats ty st }

/-- The part of `read_only_cache::access` between the probe and `inc_stats`: the status
`cache_status`, the cache and the events. The nine-argument `send_read_request` is the
eleven-argument one with a local `wb = false` and a fresh `evicted`. -/
def read_only_cache.serve (cfg : cache_config) (c : baseline_cache)
    (addr block_addr cache_index mf time : Nat) (events : List cache_event)
    (status : cache_request_status) :
    Except fault (cache_request_status × baseline_cache × List cache_event) :=
  if status = cache_request_status.HIT then
    match tag_array.access3 cfg c.m_tag_array block_addr time cache_index with
    | Except.error f => Except.error f
    | Except.ok r => Except.ok (r.1, { c with m_tag_array := r.2.2 }, events)
  else if status ≠ cache_request_status.RESERVATION_FAIL then
    if c.miss_queue_full cfg 0 = false then
      match c.send_read_request cfg addr block_addr cache_index mf time false false
          empty_line events true false with
      | Except.error f => Except.error f
      | Except.ok r =>
        Except.ok (if r.do_miss = true then cache_request_status.MISS
                   else cache_request_status.RESERVATION_FAIL, r.cache, r.events)
    else Except.ok (cache_request_status.RESERVATION_FAIL, c, events)
  else Except.ok (cache_request_status.RESERVATION_FAIL, c, events)

/-- The function `read_only_cache::access(addr, mf, pref_mf, time, events)`; the source
does not use `pref_mf`. -/
def read_only_cache.access (cfg : cache_config) (c : baseline_cache) (addr mf time : Nat)
    (events : List cache_event) : Except fault ro_result :=
  if ¬ (c.heap mf).m_data_size ≤ cfg.m_line_sz then Except.error fault.access_data_size
  else if cfg.m_write_policy ≠ write_policy_t.READ_ONLY then
    Except.error fault.ro_write_policy
  else if (c.heap mf).m_is_write = true then Except.error fault.ro_is_write
  else
    let block_addr := cfg.block_addr addr
    match tag_array.probe cfg c.m_tag_array block_addr UINT_MAX with
    | Except.error f => Except.error f
    | Except.ok (status, cache_index) =>
      match read_only_cache.serve cfg c addr block_addr cache_index mf time events status with
      | Except.error f => Except.error f
      | Except.ok (cache_status, c1, events1) =>
        Except.ok
          { status := cache_status,
            cache := c1.inc_stats (c1.heap mf).m_access_type
              (select_stats_status status cache_status),
            events := events1 }

/-- A call made to a read-only cache: an access or a fill. -/
inductive ro_op where
  | access (addr mf time : Nat)
  | fill (mf time : Nat)
deriving DecidableEq, Repr

/-- One call made to a read-only cache. -/
def read_only_cache.run_op (cfg : cache_config) (c : baseline_cache) :
    ro_op → Except fault baseline_cache
  | ro_op.access addr mf time =>
    match read_only_cache.access cfg c addr mf time [] with
    | Except.error f => Except.error f
    | Except.ok r => Except.ok r.cache
  | ro_op.fill mf time => c.fill cfg mf time

/-- A run of calls made to a read-only cache; it stops at the first call that does not
return. -/
def read_only_cache.run_ops (cfg : cache_config) :
    baseline_cache → List ro_op → Except fault baseline_cache
  | c, [] => Except.ok c
  | c, op :: rest =>
    match read_only_cache.run_op cfg c op with
    | Except.error f => Except.error f
    | Except.ok c1 => read_only_cache.run_ops cfg c1 rest

/-- The invariant of a read-only cache fed with requests that are not atomic: no line is
MODIFIED, no MSHR entry carries the atomic flag, and no request object is atomic. -/
def ro_inv (c : baseline_cache) : Prop :=
  (∀ i, (c.m_tag_array.m_lines i).m_status ≠ cache_block_state.MODIFIED) ∧
  (∀ b e, c.m_mshrs.m_data.lookup b = some e → e.m_has_atomic = false) ∧
  (∀ q, (c.heap q).m_isatomic = false)

/-- The scenario configuration with the write policy READ_ONLY. -/
def scenario_cfg_ro : cache_config :=
  { scenario_cfg with m_write_policy := write_policy_t.READ_ONLY }

/-- Whether a run returned. -/
def returned (r : Except fault baseline_cache) : Bool :=
  match r with
  | Except.ok _ => true
  | Except.error _ => false

/-- The status a call of `read_only_cache::access` returned, if it returned. -/
def ro_status (r : Except fault ro_result) : Option cache_request_status :=
  match r with
  | Except.ok x => some x.status
  | Except.error _ => none

/-- A run of the read-only scenario cache: the read `100` of `0x1000` at time 1, its fill at
time 10, and the read `101` of the same block at time 11. -/
def scenario_ro_ops : List ro_op :=
  [ro_op.access 4096 100 1, ro_op.fill 100 10, ro_op.access 4096 101 11]

/-! ## Lemmas on `probe` -/

theorem probe_way_hit (cfg : cache_config) (lines : Nat → cache_block_t) (s tag w : Nat)
    (v : probe_vars) (h : tag_hit cfg lines s tag w) :
    probe_way cfg lines s tag w v =
      Sum.inl (hit_status (set_line cfg lines s w).m_status, s * cfg.m_assoc + w) := by
  obtain ⟨h1, h2⟩ := h
  unfold set_line at h1 h2
  unfold probe_way hit_status set_line
  simp only [h1, if_true]
  cases hst : (lines (s * cfg.m_assoc + w)).m_status <;> simp_all

theorem probe_way_no_hit (cfg : cache_config) (lines : Nat → cache_block_t) (s tag w : Nat)
    (v : probe_vars) (h : ¬ tag_hit cfg lines s tag w) :
    probe_way cfg lines s tag w v =
      Sum.inr (probe_track cfg (set_line cfg lines s w) (s * cfg.m_assoc + w) v) := by
  unfold tag_hit set_line at h
  unfold probe_way set_line
  by_cases ht : (lines (s * cfg.m_assoc + w)).m_tag = tag
  · have hs : (lines (s * cfg.m_assoc + w)).m_status = cache_block_state.INVALID := by
      by_contra hne
      exact h ⟨ht, hne⟩
    simp [ht, hs]
  · simp [ht]

theorem probe_scan_no_hit (cfg : cache_config) (lines : Nat → cache_block_t) (s tag : Nat) :
    ∀ k, (∀ w, w < k → ¬ tag_hit cfg lines s tag w) →
      probe_scan cfg lines s tag k = Sum.inr (probe_vars_after cfg lines s k) := by
  intro k
  induction k with
  | zero => intro _; rfl
  | succ k ih =>
    intro h
    have hk := ih (fun w hw => h w (Nat.lt_succ_of_lt hw))
    simp only [probe_scan, hk, probe_vars_after]
    exact probe_way_no_hit cfg lines s tag k _ (h k (Nat.lt_succ_self k))

theorem probe_scan_first_hit (cfg : cache_config) (lines : Nat → cache_block_t)
    (s tag w : Nat) (hw : tag_hit cfg lines s tag w)
    (hfirst : ∀ w', w' < w → ¬ tag_hit cfg lines s tag w') :
    ∀ k, w < k → probe_scan cfg lines s tag k =
      Sum.inl (hit_status (set_line cfg lines s w).m_status, s * cfg.m_assoc + w) := by
  intro k
  induction k with
  | zero => intro h; exact absurd h (Nat.not_lt_zero w)
  | succ k ih =>
    intro h
    rcases Nat.lt_or_ge w k with hlt | hge
    · simp only [probe_scan, ih hlt]
    · have hwk : w = k := Nat.le_antisymm (Nat.lt_succ_iff.mp h) hge
      subst hwk
      simp only [probe_scan, probe_scan_no_hit cfg lines s tag w hfirst]
      exact probe_way_hit cfg lines s tag w _ hw

theorem probe_track_eq (cfg : cache_config) (line : cache_block_t) (index : Nat)
    (v : probe_vars) :
    probe_track cfg line index v =
      if line.m_status = cache_block_state.RESERVED then v
      else if line.m_status = cache_block_state.INVALID then
        { v with all_reserved := false, invalid_line := index }
      else if policy_time cfg line < v.valid_timestamp then
        { v with all_reserved := false, valid_timestamp := policy_time cfg line,
                 valid_line := index }
      else { v with all_reserved := false } := by
  unfold probe_track policy_time
  by_cases h1 : line.m_status = cache_block_state.RESERVED
  · simp [h1]
  · by_cases h2 : line.m_status = cache_block_state.INVALID
    · simp [h2]
    · cases hp : cfg.m_replacement_policy <;> simp [h1, h2]

theorem all_reserved_after (cfg : cache_config) (lines : Nat → cache_block_t) (s : Nat) :
    ∀ k, (probe_vars_after cfg lines s k).all_reserved = true ↔
      ∀ w, w < k → (set_line cfg lines s w).m_status = cache_block_state.RESERVED := by
  intro k
  induction k with
  | zero => simp [probe_vars_after, probe_init]
  | succ k ih =>
    simp only [probe_vars_after, probe_track_eq]
    by_cases h1 : (set_line cfg lines s k).m_status = cache_block_state.RESERVED
    · simp only [h1, if_true, ih]
      constructor
      · intro h w hw
        rcases Nat.lt_succ_iff_lt_or_eq.mp hw with hlt | heq
        · exact h w hlt
        · rw [heq]; exact h1
      · intro h w hw
        exact h w (Nat.lt_succ_of_lt hw)
    · have hf : ¬ ∀ w, w < k + 1 →
          (set_line cfg lines s w).m_status = cache_block_state.RESERVED :=
        fun h => h1 (h k (Nat.lt_succ_self k))
      simp only [h1, if_false]
      split_ifs <;> simp [hf]

theorem victim_inv_after (cfg : cache_config) (lines : Nat → cache_block_t) (s : Nat) :
    ∀ k, victim_inv cfg lines s k (probe_vars_after cfg lines s k) := by
  intro k
  induction k with
  | zero =>
    exact ⟨Nat.le_refl _, fun w hw => absurd hw (Nat.not_lt_zero w), Or.inl ⟨rfl, rfl⟩⟩
  | succ k ih =>
    obtain ⟨hmax, hlow, hpick⟩ := ih
    simp only [probe_vars_after, probe_track_eq]
    by_cases h1 : (set_line cfg lines s k).m_status = cache_block_state.RESERVED
    · simp only [h1, if_true]
      refine ⟨hmax, ?_, ?_⟩
      · intro w hw hr
        rcases Nat.lt_succ_iff_lt_or_eq.mp hw with hlt | heq
        · exact hlow w hlt hr
        · subst heq; exact absurd h1 hr.1
      · rcases hpick with h | ⟨w, hw, h⟩
        · exact Or.inl h
        · exact Or.inr ⟨w, Nat.lt_succ_of_lt hw, h⟩
    · by_cases h2 : (set_line cfg lines s k).m_status = cache_block_state.INVALID
      · simp only [h1, h2, if_true, if_false]
        refine ⟨hmax, ?_, ?_⟩
        · intro w hw hr
          rcases Nat.lt_succ_iff_lt_or_eq.mp hw with hlt | heq
          · exact hlow w hlt hr
          · subst heq; exact absurd h2 hr.2
        · rcases hpick with h | ⟨w, hw, h⟩
          · exact Or.inl h
          · exact Or.inr ⟨w, Nat.lt_succ_of_lt hw, h⟩
      · simp only [h1, h2, if_false]
        by_cases h3 : policy_time cfg (set_line cfg lines s k) <
            (probe_vars_after cfg lines s k).valid_timestamp
        · simp only [h3, if_true]
          refine ⟨Nat.le_trans (Nat.le_of_lt h3) hmax, ?_, ?_⟩
          · intro w hw hr
            rcases Nat.lt_succ_iff_lt_or_eq.mp hw with hlt | heq
            · exact Nat.le_trans (Nat.le_of_lt h3) (hlow w hlt hr)
            · subst heq; exact Nat.le_refl _
          · exact Or.inr ⟨k, Nat.lt_succ_self k, rfl, ⟨h1, h2⟩, rfl,
              fun w' hw' hr => Nat.lt_of_lt_of_le h3 (hlow w' hw' hr)⟩
        · simp only [h3, if_false]
          refine ⟨hmax, ?_, ?_⟩
          · intro w hw hr
            rcases Nat.lt_succ_iff_lt_or_eq.mp hw with hlt | heq
            · exact hlow w hlt hr
            · subst heq; exact Nat.le_of_not_lt h3
          · rcases hpick with h | ⟨w, hw, h⟩
            · exact Or.inl h
            · exact Or.inr ⟨w, Nat.lt_succ_of_lt hw, h⟩

theorem invalid_inv_after (cfg : cache_config) (lines : Nat → cache_block_t) (s : Nat) :
    ∀ k, ((probe_vars_after cfg lines s k).invalid_line = UINT_MAX ∧
        ∀ w, w < k → (set_line cfg lines s w).m_status ≠ cache_block_state.INVALID) ∨
      ∃ w, w < k ∧ (probe_vars_after cfg lines s k).invalid_line = s * cfg.m_assoc + w ∧
        (set_line cfg lines s w).m_status = cache_block_state.INVALID ∧
        ∀ w', w < w' → w' < k →
          (set_line cfg lines s w').m_status ≠ cache_block_state.INVALID := by
  intro k
  induction k with
  | zero => exact Or.inl ⟨rfl, fun w hw => absurd hw (Nat.not_lt_zero w)⟩
  | succ k ih =>
    by_cases h2 : (set_line cfg lines s k).m_status = cache_block_state.INVALID
    · right
      refine ⟨k, Nat.lt_succ_self k, ?_, h2, ?_⟩
      · simp [probe_vars_after, probe_track_eq, h2]
      · intro w' h1 h3
        exact absurd (Nat.lt_succ_iff.mp h3) (Nat.not_le_of_lt h1)
    · have hsame : (probe_vars_after cfg lines s (k + 1)).invalid_line =
          (probe_vars_after cfg lines s k).invalid_line := by
        simp only [probe_vars_after, probe_track_eq, h2, if_false]
        split_ifs <;> rfl
      rcases ih with ⟨h, hall⟩ | ⟨w, hw, hidx, hst, hlast⟩
      · left
        refine ⟨hsame.trans h, ?_⟩
        intro w hw
        rcases Nat.lt_succ_iff_lt_or_eq.mp hw with hlt | heq
        · exact hall w hlt
        · rw [heq]; exact h2
      · right
        refine ⟨w, Nat.lt_succ_of_lt hw, hsame.trans hidx, hst, ?_⟩
        intro w' h1 h3
        rcases Nat.lt_succ_iff_lt_or_eq.mp h3 with hlt | heq
        · exact hlast w' h1 hlt
        · rw [heq]; exact h2

/-- The result of `probe` when no way of the set gives a tag hit, in terms of the locals
after the whole loop. -/
theorem probe_of_no_hit (cfg : cache_config) (t : tag_array) (addr idx0 : Nat)
    (hno : ∀ w, w < cfg.m_assoc →
      ¬ tag_hit cfg t.m_lines (cfg.set_index addr) (cfg.tag addr) w) :
    tag_array.probe cfg t addr idx0 =
      probe_finish cfg t idx0
        (probe_vars_after cfg t.m_lines (cfg.set_index addr) cfg.m_assoc) := by
  unfold tag_array.probe
  simp only [probe_scan_no_hit cfg t.m_lines _ _ cfg.m_assoc hno]

theorem probe_return_miss_ok (t : tag_array) (i : Nat) (st : cache_request_status)
    (idx : Nat) (h : probe_return_miss t i = Except.ok (st, idx)) :
    st = cache_request_status.MISS ∧ idx = i ∧
      (t.m_lines i).m_status ≠ cache_block_state.RESERVED := by
  unfold probe_return_miss at h
  split_ifs at h with h1
  have h2 := Prod.mk.inj (Except.ok.inj h)
  exact ⟨h2.1.symm, h2.2.symm, h1⟩

/-- A hit status of `probe` comes from the first way that gives a tag hit. -/
theorem probe_hit_inv (cfg : cache_config) (t : tag_array) (addr idx0 idx : Nat)
    (st : cache_request_status)
    (h : tag_array.probe cfg t addr idx0 = Except.ok (st, idx))
    (hst : st = cache_request_status.HIT ∨ st = cache_request_status.HIT_RESERVED) :
    ∃ w, w < cfg.m_assoc ∧ idx = cfg.set_index addr * cfg.m_assoc + w ∧
      tag_hit cfg t.m_lines (cfg.set_index addr) (cfg.tag addr) w ∧
      st = hit_status (t.m_lines idx).m_status := by
  by_cases hex : ∃ w, w < cfg.m_assoc ∧
      tag_hit cfg t.m_lines (cfg.set_index addr) (cfg.tag addr) w
  · have hs := Nat.find_spec hex
    have hmin : ∀ w', w' < Nat.find hex →
        ¬ tag_hit cfg t.m_lines (cfg.set_index addr) (cfg.tag addr) w' := by
      intro w' hw' hh'
      exact Nat.find_min hex hw' ⟨Nat.lt_trans hw' hs.1, hh'⟩
    unfold tag_array.probe at h
    simp only [probe_scan_first_hit cfg t.m_lines _ _ _ hs.2 hmin cfg.m_assoc hs.1] at h
    have h1 := Prod.mk.inj (Except.ok.inj h)
    refine ⟨Nat.find hex, hs.1, h1.2.symm, hs.2, ?_⟩
    rw [← h1.2, ← h1.1]
    rfl
  · exfalso
    have hno : ∀ w, w < cfg.m_assoc →
        ¬ tag_hit cfg t.m_lines (cfg.set_index addr) (cfg.tag addr) w :=
      fun w hw hh => hex ⟨w, hw, hh⟩
    rw [probe_of_no_hit cfg t addr idx0 hno] at h
    unfold probe_finish at h
    split_ifs at h
    · have h1 := (Prod.mk.inj (Except.ok.inj h)).1
      rcases hst with h2 | h2 <;> rw [h2] at h1 <;> cases h1
    · have h1 := (probe_return_miss_ok _ _ _ _ h).1
      rcases hst with h2 | h2 <;> rw [h2] at h1 <;> cases h1
    · have h1 := (probe_return_miss_ok _ _ _ _ h).1
      rcases hst with h2 | h2 <;> rw [h2] at h1 <;> cases h1

/-- A `MISS` of `probe` comes from a complete scan without a tag hit, and the way returned
is the recorded invalid line or, failing that, the recorded replacement candidate. -/
theorem probe_miss_inv (cfg : cache_config) (t : tag_array) (addr idx0 idx : Nat)
    (h : tag_array.probe cfg t addr idx0 = Except.ok (cache_request_status.MISS, idx)) :
    (∀ w, w < cfg.m_assoc →
      ¬ tag_hit cfg t.m_lines (cfg.set_index addr) (cfg.tag addr) w) ∧
    (t.m_lines idx).m_status ≠ cache_block_state.RESERVED ∧
    ((probe_vars_after cfg t.m_lines (cfg.set_index addr) cfg.m_assoc).invalid_line
        ≠ UINT_MAX ∧
      idx = (probe_vars_after cfg t.m_lines (cfg.set_index addr) cfg.m_assoc).invalid_line ∨
     (probe_vars_after cfg t.m_lines (cfg.set_index addr) cfg.m_assoc).invalid_line
        = UINT_MAX ∧
      (probe_vars_after cfg t.m_lines (cfg.set_index addr) cfg.m_assoc).valid_line
        ≠ UINT_MAX ∧
      idx = (probe_vars_after cfg t.m_lines (cfg.set_index addr) cfg.m_assoc).valid_line) := by
  have hno : ∀ w, w < cfg.m_assoc →
      ¬ tag_hit cfg t.m_lines (cfg.set_index addr) (cfg.tag addr) w := by
    intro w hw hh
    by_cases hex : ∃ w, w < cfg.m_assoc ∧
        tag_hit cfg t.m_lines (cfg.set_index addr) (cfg.tag addr) w
    · have hs := Nat.find_spec hex
      have hmin : ∀ w', w' < Nat.find hex →
          ¬ tag_hit cfg t.m_lines (cfg.set_index addr) (cfg.tag addr) w' := by
        intro w' hw' hh'
        exact Nat.find_min hex hw' ⟨Nat.lt_trans hw' hs.1, hh'⟩
      unfold tag_array.probe at h
      simp only [probe_scan_first_hit cfg t.m_lines _ _ _ hs.2 hmin cfg.m_assoc hs.1] at h
      have h1 := (Prod.mk.inj (Except.ok.inj h)).1
      unfold hit_status at h1
      split_ifs at h1
    · exact hex ⟨w, hw, hh⟩
  refine ⟨hno, ?_⟩
  rw [probe_of_no_hit cfg t addr idx0 hno] at h
  unfold probe_finish at h
  split_ifs at h with h1 h2 h3 h4
  · cases h
  · have h5 := probe_return_miss_ok _ _ _ _ h
    rw [h5.2.1]
    exact ⟨h5.2.2, Or.inl ⟨h3, rfl⟩⟩
  · have h5 := probe_return_miss_ok _ _ _ _ h
    rw [h5.2.1]
    exact ⟨h5.2.2, Or.inr ⟨not_not.mp h3, h4, rfl⟩⟩

/-! ## Lemmas on `access` and on maps -/

theorem probe_lines_only (cfg : cache_config) (t t1 : tag_array) (addr idx : Nat)
    (h : t1.m_lines = t.m_lines) :
    tag_array.probe cfg t1 addr idx = tag_array.probe cfg t addr idx := by
  unfold tag_array.probe probe_finish probe_return_miss
  rw [h]

/-- The out-parameter `idx` as passed in only matters when `probe` reports
`RESERVATION_FAIL`. -/
theorem probe_idx_irrelevant (cfg : cache_config) (t : tag_array) (addr i0 i1 : Nat)
    (st : cache_request_status) (idx : Nat)
    (h : tag_array.probe cfg t addr i0 = Except.ok (st, idx))
    (hst : st ≠ cache_request_status.RESERVATION_FAIL) :
    tag_array.probe cfg t addr i1 = Except.ok (st, idx) := by
  unfold tag_array.probe at h ⊢
  cases hs : probe_scan cfg t.m_lines (cfg.set_index addr) (cfg.tag addr) cfg.m_assoc with
  | inl r =>
    simp only [hs] at h ⊢
    exact h
  | inr v =>
    simp only [hs] at h ⊢
    unfold probe_finish at h ⊢
    split_ifs at h ⊢ with h1 h2 h3 h4
    · exact absurd (Prod.mk.inj (Except.ok.inj h)).1.symm hst
    · exact h
    · exact h

theorem write_line_same (lines : Nat → cache_block_t) (idx : Nat) (l : cache_block_t) :
    write_line lines idx l idx = l := by
  simp [write_line]

theorem write_line_other (lines : Nat → cache_block_t) (idx : Nat) (l : cache_block_t)
    (j : Nat) (h : j ≠ idx) : write_line lines idx l j = lines j := by
  simp [write_line, h]

theorem u32_succ (n : Nat) (h : n < UINT_MAX) : u32 (n + 1) = n + 1 := by
  unfold UINT_MAX at h
  unfold u32
  omega

/-- After a probe that returned, the five-argument `access` returns too, with the status
and the way of the probe; it sets `wb` only when the way it evicts is MODIFIED. -/
theorem access_of_probe (cfg : cache_config) (t : tag_array) (addr time idx0 : Nat)
    (wb0 : Bool) (ev0 : cache_block_t) (st : cache_request_status) (idx : Nat)
    (hprobe : tag_array.probe cfg t addr idx0 = Except.ok (st, idx)) :
    ∃ r, tag_array.access cfg t addr time idx0 wb0 ev0 = Except.ok r ∧
      r.status = st ∧ r.idx = idx ∧
      (r.wb = true → wb0 = true ∨
        (t.m_lines idx).m_status = cache_block_state.MODIFIED) ∧
      (st ≠ cache_request_status.MISS → r.wb = wb0 ∧ r.evicted = ev0) := by
  have hp1 : tag_array.probe cfg { t with m_access := u32 (t.m_access + 1) } addr idx0 =
      Except.ok (st, idx) :=
    (probe_lines_only cfg t _ addr idx0 rfl).trans hprobe
  unfold tag_array.access
  simp only [hp1]
  cases st with
  | HIT =>
    obtain ⟨w, _, hidx, hhit, hs⟩ := probe_hit_inv cfg t addr idx0 idx _ hprobe (Or.inl rfl)
    have hst : (t.m_lines idx).m_status = cache_block_state.VALID ∨
        (t.m_lines idx).m_status = cache_block_state.MODIFIED := by
      unfold hit_status at hs
      cases h : (t.m_lines idx).m_status
      · unfold tag_hit set_line at hhit
        rw [← hidx] at hhit
        exact absurd h hhit.2
      · rw [h] at hs; simp at hs
      · exact Or.inl rfl
      · exact Or.inr rfl
    simp only [not_not.mpr hst, if_false]
    exact ⟨_, rfl, rfl, rfl, fun h => Or.inl h, fun _ => ⟨rfl, rfl⟩⟩
  | HIT_RESERVED =>
    obtain ⟨w, _, hidx, hhit, hs⟩ := probe_hit_inv cfg t addr idx0 idx _ hprobe (Or.inr rfl)
    have hst : (t.m_lines idx).m_status = cache_block_state.RESERVED := by
      unfold hit_status at hs
      by_contra hne
      rw [if_neg hne] at hs
      cases hs
    simp only [not_not.mpr hst, if_false]
    exact ⟨_, rfl, rfl, rfl, fun h => Or.inl h, fun _ => ⟨rfl, rfl⟩⟩
  | MISS =>
    have hres := (probe_miss_inv cfg t addr idx0 idx hprobe).2.1
    have hst : (t.m_lines idx).m_status = cache_block_state.VALID ∨
        (t.m_lines idx).m_status = cache_block_state.INVALID ∨
        (t.m_lines idx).m_status = cache_block_state.MODIFIED := by
      cases h : (t.m_lines idx).m_status
      · exact Or.inr (Or.inl rfl)
      · exact absurd h hres
      · exact Or.inl rfl
      · exact Or.inr (Or.inr rfl)
    simp only [not_not.mpr hst, if_false]
    by_cases hpol : cfg.m_alloc_policy = allocation_policy_t.ON_MISS
    · simp only [hpol, if_true]
      refine ⟨_, rfl, rfl, rfl, ?_, fun h => absurd rfl h⟩
      intro hwb
      by_cases hm : (t.m_lines idx).m_status = cache_block_state.MODIFIED
      · exact Or.inr hm
      · simp only [hm, if_false] at hwb
        exact Or.inl hwb
    · simp only [hpol, if_false]
      exact ⟨_, rfl, rfl, rfl, fun h => Or.inl h, fun h => absurd rfl h⟩
  | RESERVATION_FAIL =>
    exact ⟨_, rfl, rfl, rfl, fun h => Or.inl h, fun _ => ⟨rfl, rfl⟩⟩

/-- The tag-array access of `send_read_request` returns whenever the probe of the block
returns, provided a read-only caller never meets a MODIFIED line. -/
theorem send_read_tag_access_ok (cfg : cache_config) (read_only : Bool) (t : tag_array)
    (block_addr time cache_index : Nat) (wb : Bool) (evicted : cache_block_t)
    (st : cache_request_status) (idx : Nat)
    (hprobe : tag_array.probe cfg t block_addr cache_index = Except.ok (st, idx))
    (hro : read_only = true → ∀ i, (t.m_lines i).m_status ≠ cache_block_state.MODIFIED) :
    ∃ r, send_read_tag_access cfg read_only t block_addr time cache_index wb evicted
      = Except.ok r := by
  unfold send_read_tag_access
  by_cases hr : read_only = true
  · simp only [hr, if_true]
    unfold tag_array.access3
    obtain ⟨r, hacc, _, _, hwb, _⟩ :=
      access_of_probe cfg t block_addr time cache_index false empty_line st idx hprobe
    rw [hacc]
    have hnwb : ¬ r.wb = true := by
      intro h
      rcases hwb h with h1 | h1
      · cases h1
      · exact hro hr idx h1
    simp only [hnwb, if_false]
    exact ⟨_, rfl⟩
  · simp only [hr, if_false]
    obtain ⟨r, hacc, _⟩ :=
      access_of_probe cfg t block_addr time cache_index wb evicted st idx hprobe
    rw [hacc]
    exact ⟨_, rfl⟩

theorem lookup_map_set_same {β : Type} (m : List (Nat × β)) (k : Nat) (v : β) :
    (map_set m k v).lookup k = some v := by
  induction m with
  | nil => simp [map_set, List.lookup]
  | cons p rest ih =>
    obtain ⟨k1, v1⟩ := p
    unfold map_set
    by_cases h : k1 = k
    · simp [h, List.lookup]
    · have h2 : (k == k1) = false := by
        simp only [beq_eq_false_iff_ne, ne_eq]
        exact fun e => h e.symm
      simp only [h, if_false, List.lookup, h2]
      exact ih

theorem lookup_map_set_other {β : Type} (m : List (Nat × β)) (k k2 : Nat) (v : β)
    (hne : k2 ≠ k) : (map_set m k v).lookup k2 = m.lookup k2 := by
  induction m with
  | nil =>
    have h2 : (k2 == k) = false := by
      simp only [beq_eq_false_iff_ne, ne_eq]
      exact hne
    simp [map_set, List.lookup, h2]
  | cons p rest ih =>
    obtain ⟨k1, v1⟩ := p
    unfold map_set
    by_cases h : k1 = k
    · have h2 : (k2 == k) = false := by
        simp only [beq_eq_false_iff_ne, ne_eq]
        exact hne
      have h3 : (k2 == k1) = false := by rw [h]; exact h2
      simp [h, List.lookup, h2]
    · simp only [h, if_false, List.lookup]
      rw [ih]

theorem length_map_set_of_some {β : Type} (m : List (Nat × β)) (k : Nat) (v e : β)
    (h : m.lookup k = some e) : (map_set m k v).length = m.length := by
  induction m with
  | nil => simp [List.lookup] at h
  | cons p rest ih =>
    obtain ⟨k1, v1⟩ := p
    unfold map_set
    by_cases h1 : k1 = k
    · simp [h1]
    · have h2 : (k == k1) = false := by
        simp only [beq_eq_false_iff_ne, ne_eq]
        exact fun e => h1 e.symm
      simp only [List.lookup, h2] at h
      simp only [h1, if_false, List.length_cons, ih h]

theorem length_map_set_of_none {β : Type} (m : List (Nat × β)) (k : Nat) (v : β)
    (h : m.lookup k = none) : (map_set m k v).length = m.length + 1 := by
  induction m with
  | nil => simp [map_set]
  | cons p rest ih =>
    obtain ⟨k1, v1⟩ := p
    unfold map_set
    by_cases h1 : k1 = k
    · have h2 : (k == k1) = true := by simp [h1]
      simp [List.lookup, h2] at h
    · have h2 : (k == k1) = false := by
        simp only [beq_eq_false_iff_ne, ne_eq]
        exact fun e => h1 e.symm
      simp only [List.lookup, h2] at h
      simp only [h1, if_false, List.length_cons, ih h]

/-! ## Lemmas on the MSHR table and `send_read_request` -/

/-- Merging a request into an existing MSHR entry that has room: `add` returns, the
request is appended at the end of the entry's list, and nothing else in the table moves. -/
theorem mshr_add_merge (m : mshr_table) (block_addr mf : Nat) (isatomic : Bool)
    (e : mshr_entry)
    (hentry : m.m_data.lookup block_addr = some e)
    (hroom : e.m_list.length < m.m_max_merged)
    (hwf : m.m_data.length ≤ m.m_num_entries) :
    ∃ m1, m.add block_addr mf isatomic = Except.ok m1 ∧
      m1.m_data.lookup block_addr =
        some { m_list := e.m_list ++ [mf], m_has_atomic := e.m_has_atomic || isatomic } ∧
      (∀ b, b ≠ block_addr → m1.m_data.lookup b = m.m_data.lookup b) ∧
      m1.m_data.length = m.m_data.length ∧
      m1.m_current_response = m.m_current_response ∧
      m1.m_num_entries = m.m_num_entries ∧ m1.m_max_merged = m.m_max_merged := by
  unfold mshr_table.add
  have hlen1 : (map_set m.m_data block_addr
      { e with m_list := e.m_list ++ [mf] }).length = m.m_data.length :=
    length_map_set_of_some _ _ _ e hentry
  have hl : (e.m_list ++ [mf]).length ≤ m.m_max_merged := by
    rw [List.length_append, List.length_singleton]
    exact hroom
  simp only [hentry, Option.getD_some, hlen1, not_not.mpr hwf, if_false, not_not.mpr hl]
  refine ⟨_, rfl, ?_, ?_, ?_, rfl, rfl, rfl⟩
  · rw [lookup_map_set_same]
    cases isatomic <;> simp
  · intro b hb
    rw [lookup_map_set_other _ _ _ _ hb, lookup_map_set_other _ _ _ _ hb]
  · rw [length_map_set_of_some _ _ _ _ (lookup_map_set_same _ _ _), hlen1]

/-- Adding a request for a block that has no entry, in a table with a free entry. -/
theorem mshr_add_new (m : mshr_table) (block_addr mf : Nat) (isatomic : Bool)
    (hnone : m.m_data.lookup block_addr = none)
    (hroom : m.m_data.length < m.m_num_entries)
    (hmm : 1 ≤ m.m_max_merged) :
    ∃ m1, m.add block_addr mf isatomic = Except.ok m1 ∧
      m1.m_data.lookup block_addr = some { m_list := [mf], m_has_atomic := isatomic } := by
  unfold mshr_table.add
  have hlen1 : (map_set m.m_data block_addr
      { m_list := [] ++ [mf], m_has_atomic := false }).length = m.m_data.length + 1 :=
    length_map_set_of_none _ _ _ hnone
  have h1 : (map_set m.m_data block_addr
      { m_list := [] ++ [mf], m_has_atomic := false }).length ≤ m.m_num_entries := by
    rw [hlen1]; exact hroom
  have hl : ([] ++ [mf] : List Nat).length ≤ m.m_max_merged := by
    simpa using hmm
  simp only [hnone, Option.getD_none, not_not.mpr h1, if_false, not_not.mpr hl]
  refine ⟨_, rfl, ?_⟩
  rw [lookup_map_set_same]
  cases isatomic <;> simp

/-- The function `send_read_request` of a writable cache returns whenever the probe of the
block returns, and it sets `do_miss` exactly when the MSHR table is not full for the block
and the block either has an entry or the demand miss queue has a free slot. -/
theorem send_read_request_returns (cfg : cache_config) (c : baseline_cache)
    (addr block_addr cache_index mf time : Nat) (do_miss wb : Bool)
    (evicted : cache_block_t) (events : List cache_event) (wa : Bool)
    (st : cache_request_status) (idx : Nat)
    (hwf : c.m_mshrs.m_data.length ≤ c.m_mshrs.m_num_entries)
    (hmm : 1 ≤ c.m_mshrs.m_max_merged)
    (hprobe : tag_array.probe cfg c.m_tag_array block_addr cache_index
      = Except.ok (st, idx)) :
    ∃ r, c.send_read_request cfg addr block_addr cache_index mf time do_miss wb evicted
        events false wa = Except.ok r ∧
      (r.do_miss = true ↔ do_miss = true ∨
        (c.m_mshrs.full block_addr = false ∧
          (c.m_mshrs.probe block_addr = true ∨
            c.m_miss_queue.length < cfg.m_miss_queue_size))) := by
  obtain ⟨ta, hta⟩ := send_read_tag_access_ok cfg false c.m_tag_array block_addr time
    cache_index wb evicted st idx hprobe (fun h => absurd h (by decide))
  obtain ⟨tags, ci1, wb1, ev1⟩ := ta
  unfold baseline_cache.send_read_request
  cases hlk : c.m_mshrs.m_data.lookup block_addr with
  | some e =>
    have hhit : c.m_mshrs.probe block_addr = true := by
      unfold mshr_table.probe; rw [hlk]; rfl
    by_cases hroom : e.m_list.length < c.m_mshrs.m_max_merged
    · have hfull : c.m_mshrs.full block_addr = false := by
        unfold mshr_table.full
        rw [hlk]
        simp only [decide_eq_false_iff_not, ge_iff_le, not_le]
        exact hroom
      obtain ⟨m1, hadd, _⟩ :=
        mshr_add_merge c.m_mshrs block_addr mf (c.heap mf).m_isatomic e hlk hroom hwf
      simp only [hhit, hfull, Bool.not_false, and_self, if_true, hta, hadd]
      exact ⟨_, rfl, by simp⟩
    · have hfull : c.m_mshrs.full block_addr = true := by
        unfold mshr_table.full
        rw [hlk]
        simp only [decide_eq_true_eq, ge_iff_le]
        exact Nat.le_of_not_lt hroom
      simp only [hhit, hfull, Bool.not_true]
      refine ⟨_, rfl, ?_⟩
      simp
  | none =>
    have hhit : c.m_mshrs.probe block_addr = false := by
      unfold mshr_table.probe; rw [hlk]; rfl
    by_cases hroom : c.m_mshrs.m_data.length < c.m_mshrs.m_num_entries
    · have hfull : c.m_mshrs.full block_addr = false := by
        unfold mshr_table.full
        rw [hlk]
        simp only [decide_eq_false_iff_not, ge_iff_le, not_le]
        exact hroom
      by_cases hq : c.m_miss_queue.length < cfg.m_miss_queue_size
      · obtain ⟨m1, hadd, _⟩ :=
          mshr_add_new c.m_mshrs block_addr mf (c.heap mf).m_isatomic hlk hroom hmm
        simp only [hhit, hfull, Bool.not_false, hq, hta, hadd]
        refine ⟨_, rfl, ?_⟩
        simp
      · simp only [hhit, hfull, Bool.not_false, hq]
        refine ⟨_, rfl, ?_⟩
        simp
    · have hfull : c.m_mshrs.full block_addr = true := by
        unfold mshr_table.full
        rw [hlk]
        simp only [decide_eq_true_eq, ge_iff_le]
        exact Nat.le_of_not_lt hroom
      simp only [hhit, hfull, Bool.not_true]
      refine ⟨_, rfl, ?_⟩
      simp

/-! ## Lemmas on the read-miss handler -/

theorem miss_queue_full_iff (cfg : cache_config) (c : baseline_cache) (n : Nat) :
    c.miss_queue_full cfg n = false ↔ c.m_miss_queue.length + (n + 1) ≤ cfg.m_miss_queue_size := by
  unfold baseline_cache.miss_queue_full
  simp only [decide_eq_false_iff_not, ge_iff_le, not_le]
  omega

theorem mshr_full_false_iff (m : mshr_table) (block_addr : Nat) :
    m.full block_addr = false ↔
      ((∃ e, m.m_data.lookup block_addr = some e ∧ e.m_list.length < m.m_max_merged) ∨
       (m.m_data.lookup block_addr = none ∧ m.m_data.length < m.m_num_entries)) := by
  unfold mshr_table.full
  cases h : m.m_data.lookup block_addr with
  | none => simp
  | some e => simp

/-- The status `rd_miss_base` returns, in a state where the probe of the block returns and
the MSHR table respects its capacity. -/
theorem rd_miss_base_outcome (cfg : cache_config) (c : data_cache)
    (addr cache_index mf time : Nat) (events : List cache_event)
    (status : cache_request_status) (is_l1_cache : Bool)
    (st : cache_request_status) (idx : Nat)
    (hwf : c.m_mshrs.m_data.length ≤ c.m_mshrs.m_num_entries)
    (hmm : 1 ≤ c.m_mshrs.m_max_merged)
    (hprobe : tag_array.probe cfg c.m_tag_array (cfg.block_addr addr) cache_index
      = Except.ok (st, idx)) :
    ∃ r, c.rd_miss_base cfg addr cache_index mf time events status is_l1_cache
        = Except.ok r ∧
      (r.status = cache_request_status.MISS ∨
        r.status = cache_request_status.RESERVATION_FAIL) ∧
      (r.status = cache_request_status.MISS ↔
        c.m_miss_queue.length + 2 ≤ cfg.m_miss_queue_size ∧
        c.m_mshrs.full (cfg.block_addr addr) = false) := by
  unfold data_cache.rd_miss_base
  by_cases hq : c.miss_queue_full cfg 1 = true
  · rw [if_pos hq]
    refine ⟨_, rfl, Or.inr rfl, ?_⟩
    have hnq : ¬ c.m_miss_queue.length + 2 ≤ cfg.m_miss_queue_size := by
      intro h
      have := (miss_queue_full_iff cfg c.tobaseline_cache 1).mpr h
      rw [this] at hq
      cases hq
    simp [hnq]
  · have hq1 : c.miss_queue_full cfg 1 = false := by
      cases h : c.miss_queue_full cfg 1
      · rfl
      · exact absurd h hq
    have hq2 := (miss_queue_full_iff cfg c.tobaseline_cache 1).mp hq1
    obtain ⟨r, hr, hdm⟩ := send_read_request_returns cfg c.tobaseline_cache addr
      (cfg.block_addr addr) cache_index mf time false false empty_line events false st idx
      hwf hmm hprobe
    rw [if_neg hq]
    unfold data_cache.send_read_request
    simp only [hr]
    have hlen : c.m_miss_queue.length < cfg.m_miss_queue_size := by omega
    by_cases hd : r.do_miss = true
    · have hfull : c.m_mshrs.full (cfg.block_addr addr) = false := by
        rcases hdm.mp hd with h | h
        · cases h
        · exact h.1
      simp only [hd, if_true]
      split_ifs
      · exact ⟨_, rfl, Or.inl rfl, by simp [hq2, hfull]⟩
      · exact ⟨_, rfl, Or.inl rfl, by simp [hq2, hfull]⟩
    · have hfull : ¬ c.m_mshrs.full (cfg.block_addr addr) = false := by
        intro hf
        apply hd
        apply hdm.mpr
        right
        exact ⟨hf, Or.inr hlen⟩
      simp only [hd, if_false]
      exact ⟨_, rfl, Or.inr rfl, by simp [hfull]⟩

/-- When the demand miss queue lacks two free slots or the MSHR table is full for the
block, `rd_miss_base` returns `RESERVATION_FAIL` and changes nothing. -/
theorem rd_miss_base_refused (cfg : cache_config) (c : data_cache)
    (addr cache_index mf time : Nat) (events : List cache_event)
    (status : cache_request_status) (is_l1_cache : Bool)
    (h : ¬ (c.m_miss_queue.length + 2 ≤ cfg.m_miss_queue_size ∧
      c.m_mshrs.full (cfg.block_addr addr) = false)) :
    c.rd_miss_base cfg addr cache_index mf time events status is_l1_cache =
      Except.ok { status := cache_request_status.RESERVATION_FAIL, cache := c,
                  events := events } := by
  unfold data_cache.rd_miss_base
  by_cases hq : c.miss_queue_full cfg 1 = true
  · rw [if_pos hq]
  · rw [if_neg hq]
    have hq1 : c.miss_queue_full cfg 1 = false := by
      cases h1 : c.miss_queue_full cfg 1
      · rfl
      · exact absurd h1 hq
    have hq2 := (miss_queue_full_iff cfg c.tobaseline_cache 1).mp hq1
    have hfull : c.m_mshrs.full (cfg.block_addr addr) = true := by
      cases hf : c.m_mshrs.full (cfg.block_addr addr)
      · exact absurd ⟨hq2, hf⟩ h
      · rfl
    unfold data_cache.send_read_request baseline_cache.send_read_request
    simp only [hfull, Bool.not_true, Bool.false_eq_true, and_false, false_and, if_false]

/-- A read whose probe is `HIT_RESERVED` and whose block has an MSHR entry with room goes
through `rd_miss_base` as a merge: the status is `MISS`, and only the tag array (its
counters and the `m_used` flag of the line) and the MSHR table change. -/
theorem rd_miss_base_merge_reserved (cfg : cache_config) (c : data_cache)
    (addr cache_index mf time : Nat) (events : List cache_event)
    (status : cache_request_status) (is_l1_cache : Bool) (e : mshr_entry) (idx : Nat)
    (hentry : c.m_mshrs.m_data.lookup (cfg.block_addr addr) = some e)
    (hroom : e.m_list.length < c.m_mshrs.m_max_merged)
    (hwf : c.m_mshrs.m_data.length ≤ c.m_mshrs.m_num_entries)
    (hq : c.m_miss_queue.length + 2 ≤ cfg.m_miss_queue_size)
    (hprobe : tag_array.probe cfg c.m_tag_array (cfg.block_addr addr) cache_index
      = Except.ok (cache_request_status.HIT_RESERVED, idx)) :
    ∃ tags mshrs, c.rd_miss_base cfg addr cache_index mf time events status is_l1_cache =
      Except.ok { status := cache_request_status.MISS,
                  cache := { c with m_tag_array := tags, m_mshrs := mshrs },
                  events := events } := by
  have hq1 : ¬ c.miss_queue_full cfg 1 = true := by
    rw [(miss_queue_full_iff cfg c.tobaseline_cache 1).mpr hq]
    decide
  have hhit : c.m_mshrs.probe (cfg.block_addr addr) = true := by
    unfold mshr_table.probe; rw [hentry]; rfl
  have hfull : c.m_mshrs.full (cfg.block_addr addr) = false := by
    unfold mshr_table.full
    rw [hentry]
    simp only [decide_eq_false_iff_not, ge_iff_le, not_le]
    exact hroom
  obtain ⟨r, hacc, _, _, _, hframe⟩ := access_of_probe cfg c.m_tag_array (cfg.block_addr addr)
    time cache_index false empty_line _ idx hprobe
  have hwb := (hframe (by decide)).1
  obtain ⟨m1, hadd, _⟩ := mshr_add_merge c.m_mshrs (cfg.block_addr addr) mf
    (c.heap mf).m_isatomic e hentry hroom hwf
  unfold data_cache.rd_miss_base
  rw [if_neg hq1]
  unfold data_cache.send_read_request baseline_cache.send_read_request send_read_tag_access
  simp only [hhit, hfull, Bool.not_false, and_self, if_true, hacc, hadd, hwb,
    Bool.false_eq_true, if_false, false_and]
  exact ⟨_, _, rfl⟩

/-- The function `process_tag_probe` on such a merged read returns `MISS`, leaving the
statistics matrix and the request objects alone. -/
theorem process_tag_probe_merge_reserved (cfg : cache_config) (c : data_cache)
    (addr cache_index mf time : Nat) (events : List cache_event)
    (is_l1_cache : Bool) (e : mshr_entry) (idx : Nat)
    (hpw : cfg.m_data_port_width ≠ 0)
    (hentry : c.m_mshrs.m_data.lookup (cfg.block_addr addr) = some e)
    (hroom : e.m_list.length < c.m_mshrs.m_max_merged)
    (hwf : c.m_mshrs.m_data.length ≤ c.m_mshrs.m_num_entries)
    (hq : c.m_miss_queue.length + 2 ≤ cfg.m_miss_queue_size)
    (hprobe : tag_array.probe cfg c.m_tag_array (cfg.block_addr addr) cache_index
      = Except.ok (cache_request_status.HIT_RESERVED, idx)) :
    ∃ r, c.process_tag_probe cfg false cache_request_status.HIT_RESERVED addr cache_index mf
        time events is_l1_cache = Except.ok r ∧
      r.status = cache_request_status.MISS ∧
      r.cache.m_stats = c.m_stats ∧ r.cache.heap = c.heap := by
  obtain ⟨tags, mshrs, hrd⟩ := rd_miss_base_merge_reserved cfg c addr cache_index mf time
    events cache_request_status.HIT_RESERVED is_l1_cache e idx hentry hroom hwf hq hprobe
  unfold data_cache.process_tag_probe
  simp only [Bool.false_eq_true, if_false, hrd]
  have h1 : ¬ (cache_request_status.HIT_RESERVED = cache_request_status.HIT) := by decide
  have h2 : cache_request_status.HIT_RESERVED ≠ cache_request_status.RESERVATION_FAIL := by
    decide
  simp only [h1, h2, if_false, if_true, ne_eq, not_false_eq_true, hrd]
  unfold data_cache.use_data_port
  simp only [hpw, if_false]
  split_ifs
  · exact ⟨_, rfl, rfl, rfl, rfl⟩
  · exact ⟨_, rfl, rfl, rfl, rfl⟩

/-! ## Lemmas on refused and accepted misses -/

/-- The two ways `send_read_request` returns: either it enlisted the request (then `do_miss`
is set, the MSHR table was not full for the block, and the block had an entry or the demand
miss queue a free slot), or it took its last branch and handed everything back as it was. -/
theorem send_read_request_ok_cases (cfg : cache_config) (c : baseline_cache)
    (addr block_addr cache_index mf time : Nat) (do_miss wb : Bool)
    (evicted : cache_block_t) (events : List cache_event) (read_only wa : Bool)
    (r : read_request_result)
    (h : c.send_read_request cfg addr block_addr cache_index mf time do_miss wb evicted
        events read_only wa = Except.ok r) :
    (r.do_miss = true ∧ c.m_mshrs.full block_addr = false ∧
      (c.m_mshrs.probe block_addr = true ∨
        c.m_miss_queue.length < cfg.m_miss_queue_size)) ∨
    (r = { cache := c, do_miss := do_miss, wb := wb, evicted := evicted, events := events } ∧
      ¬ (c.m_mshrs.full block_addr = false ∧
        (c.m_mshrs.probe block_addr = true ∨
          c.m_miss_queue.length < cfg.m_miss_queue_size))) := by
  unfold baseline_cache.send_read_request at h
  simp only [Bool.not_eq_true'] at h
  by_cases h1 : c.m_mshrs.probe block_addr = true ∧ c.m_mshrs.full block_addr = false
  · rw [if_pos h1] at h
    left
    split at h
    · cases h
    · split at h
      · cases h
      · have h3 := Except.ok.inj h
        subst h3
        exact ⟨rfl, h1.2, Or.inl h1.1⟩
  · rw [if_neg h1] at h
    by_cases h2 : c.m_mshrs.probe block_addr = false ∧ c.m_mshrs.full block_addr = false ∧
        c.m_miss_queue.length < cfg.m_miss_queue_size
    · rw [if_pos h2] at h
      left
      split at h
      · cases h
      · split at h
        · cases h
        · have h3 := Except.ok.inj h
          subst h3
          exact ⟨rfl, h2.2.1, Or.inr h2.2.2⟩
    · rw [if_neg h2] at h
      right
      have h3 := Except.ok.inj h
      subst h3
      refine ⟨rfl, ?_⟩
      rintro ⟨hf, hp | hq⟩
      · exact h1 ⟨hp, hf⟩
      · cases hp : c.m_mshrs.probe block_addr
        · exact h2 ⟨hp, hf, hq⟩
        · exact h1 ⟨hp, hf⟩

/-- A `RESERVATION_FAIL` of `rd_miss_base` leaves the cache and the event list as they
were. -/
theorem rd_miss_base_atomic (cfg : cache_config) (c : data_cache)
    (addr cache_index mf time : Nat) (events : List cache_event)
    (status : cache_request_status) (is_l1_cache : Bool) (r : handler_result)
    (h : c.rd_miss_base cfg addr cache_index mf time events status is_l1_cache = Except.ok r)
    (hs : r.status = cache_request_status.RESERVATION_FAIL) :
    r.cache = c ∧ r.events = events := by
  unfold data_cache.rd_miss_base at h
  by_cases hq : c.miss_queue_full cfg 1 = true
  · rw [if_pos hq] at h
    have h3 := Except.ok.inj h
    subst h3
    exact ⟨rfl, rfl⟩
  · rw [if_neg hq] at h
    unfold data_cache.send_read_request at h
    cases hr : c.tobaseline_cache.send_read_request cfg addr (cfg.block_addr addr)
        cache_index mf time false false empty_line events false false with
    | error f =>
      simp only [hr] at h
      cases h
    | ok rr =>
      simp only [hr] at h
      rcases send_read_request_ok_cases cfg c.tobaseline_cache addr (cfg.block_addr addr)
        cache_index mf time false false empty_line events false false rr hr with
        ⟨hd, _⟩ | ⟨heq, _⟩
      · simp only [hd, if_true] at h
        split_ifs at h
        · have h3 := Except.ok.inj h
          subst h3
          cases hs
        · have h3 := Except.ok.inj h
          subst h3
          cases hs
      · subst heq
        simp only [Bool.false_eq_true, if_false] at h
        have h3 := Except.ok.inj h
        subst h3
        exact ⟨rfl, rfl⟩

/-- Once `wr_miss_wa` has passed its guard and enqueued the write, the allocate read finds
room: the result is never `RESERVATION_FAIL`. A `RESERVATION_FAIL` of `wr_miss_wa` comes
from the guard and leaves the cache and the event list as they were. -/
theorem wr_miss_wa_atomic (cfg : cache_config) (c : data_cache)
    (addr cache_index mf time : Nat) (events : List cache_event)
    (status : cache_request_status) (r : handler_result)
    (h : c.wr_miss_wa cfg addr cache_index mf time events status = Except.ok r)
    (hs : r.status = cache_request_status.RESERVATION_FAIL) :
    r.cache = c ∧ r.events = events := by
  simp only [data_cache.wr_miss_wa] at h
  split_ifs at h with hg
  · have h3 := Except.ok.inj h
    subst h3
    exact ⟨rfl, rfl⟩
  · exfalso
    rw [not_or] at hg
    obtain ⟨hq, hm⟩ := hg
    have hq1 : c.miss_queue_full cfg 2 = false := by
      cases h1 : c.miss_queue_full cfg 2
      · rfl
      · exact absurd h1 hq
    have hq2 := (miss_queue_full_iff cfg c.tobaseline_cache 2).mp hq1
    unfold data_cache.send_read_request at h
    split at h
    · cases h
    · rename_i c2 do_miss wb evicted events2 heq
      split at heq
      · cases heq
      · rename_i rr hr
        have heq1 := Except.ok.inj heq
        rcases send_read_request_ok_cases _ _ _ _ _ _ _ _ _ _ _ _ _ rr hr with
          ⟨hd, _⟩ | ⟨_, hn⟩
        · have hdm : do_miss = true := by
            have := congrArg (fun x => x.2.1) heq1
            simp only at this
            rw [← this]
            exact hd
          simp only [hdm, if_true] at h
          split_ifs at h
          · have h3 := Except.ok.inj h
            subst h3
            cases hs
          · have h3 := Except.ok.inj h
            subst h3
            cases hs
        · apply hn
          simp only [data_cache.send_write_request, baseline_cache.alloc_mf,
            List.length_append, List.length_singleton]
          simp only [Bool.not_eq_true', not_and, not_not] at hm
          cases hp : c.m_mshrs.probe (cfg.block_addr addr) with
          | true =>
            cases hf : c.m_mshrs.full (cfg.block_addr addr) with
            | false => exact ⟨rfl, Or.inl rfl⟩
            | true =>
              rw [hp, hf] at hm
              simp at hm
          | false =>
            cases hf : c.m_mshrs.full (cfg.block_addr addr) with
            | false => exact ⟨rfl, Or.inr (by omega)⟩
            | true =>
              rw [hp, hf] at hm
              simp at hm

/-- The three handlers that only enqueue a write refuse before touching anything. -/
theorem wr_miss_no_wa_atomic (cfg : cache_config) (c : data_cache)
    (addr cache_index mf time : Nat) (events : List cache_event)
    (status : cache_request_status) (r : handler_result)
    (h : c.wr_miss_no_wa cfg addr cache_index mf time events status = Except.ok r)
    (hs : r.status = cache_request_status.RESERVATION_FAIL) :
    r.cache = c ∧ r.events = events := by
  unfold data_cache.wr_miss_no_wa at h
  split_ifs at h
  · have h3 := Except.ok.inj h
    subst h3
    exact ⟨rfl, rfl⟩
  · have h3 := Except.ok.inj h
    subst h3
    cases hs

theorem wr_hit_wt_atomic (cfg : cache_config) (c : data_cache)
    (addr cache_index mf time : Nat) (events : List cache_event)
    (status : cache_request_status) (r : handler_result)
    (h : c.wr_hit_wt cfg addr cache_index mf time events status = Except.ok r)
    (hs : r.status = cache_request_status.RESERVATION_FAIL) :
    r.cache = c ∧ r.events = events := by
  unfold data_cache.wr_hit_wt at h
  split_ifs at h
  · have h3 := Except.ok.inj h
    subst h3
    exact ⟨rfl, rfl⟩
  · simp only at h
    split at h
    · cases h
    · have h3 := Except.ok.inj h
      subst h3
      cases hs

theorem wr_hit_we_atomic (cfg : cache_config) (c : data_cache)
    (addr cache_index mf time : Nat) (events : List cache_event)
    (status : cache_request_status) (r : handler_result)
    (h : c.wr_hit_we cfg addr cache_index mf time events status = Except.ok r)
    (hs : r.status = cache_request_status.RESERVATION_FAIL) :
    r.cache = c ∧ r.events = events := by
  unfold data_cache.wr_hit_we at h
  split_ifs at h
  · have h3 := Except.ok.inj h
    subst h3
    exact ⟨rfl, rfl⟩
  · have h3 := Except.ok.inj h
    subst h3
    cases hs

/-- Under ON_MISS, a probe of a set whose ways are all RESERVED and none of which holds the
tag returns `RESERVATION_FAIL` and leaves the index as it was passed in. -/
theorem probe_all_reserved (cfg : cache_config) (t : tag_array) (addr idx0 : Nat)
    (hpol : cfg.m_alloc_policy = allocation_policy_t.ON_MISS)
    (hall : ∀ w, w < cfg.m_assoc →
      (set_line cfg t.m_lines (cfg.set_index addr) w).m_status = cache_block_state.RESERVED ∧
      (set_line cfg t.m_lines (cfg.set_index addr) w).m_tag ≠ cfg.tag addr) :
    tag_array.probe cfg t addr idx0 =
      Except.ok (cache_request_status.RESERVATION_FAIL, idx0) := by
  have hno : ∀ w, w < cfg.m_assoc →
      ¬ tag_hit cfg t.m_lines (cfg.set_index addr) (cfg.tag addr) w := by
    intro w hw h
    exact (hall w hw).2 h.1
  have hA := (all_reserved_after cfg t.m_lines (cfg.set_index addr) cfg.m_assoc).mpr
    (fun w hw => (hall w hw).1)
  rw [probe_of_no_hit cfg t addr idx0 hno]
  unfold probe_finish
  rw [if_pos hA, if_pos hpol]

/-- With the probe status `RESERVATION_FAIL`, `process_tag_probe` calls no handler and
hands the cache and the event list back as they were. -/
theorem process_tag_probe_refused (cfg : cache_config) (c : data_cache) (wr : Bool)
    (addr cache_index mf time : Nat) (events : List cache_event) (is_l1_cache : Bool) :
    c.process_tag_probe cfg wr cache_request_status.RESERVATION_FAIL addr cache_index mf time
        events is_l1_cache =
      Except.ok { status := cache_request_status.RESERVATION_FAIL, cache := c,
                  events := events } := by
  unfold data_cache.process_tag_probe
  cases wr <;> simp [data_cache.use_data_port]

/-! ## Lemmas on accesses that evict -/

/-- What `tag_array::access` does after a probe that returned: it returns with the status
and the way of the probe, the lines are those of `lines_after_access`, and `wb` and
`evicted` are written exactly when a MODIFIED line is evicted. -/
theorem access_result (cfg : cache_config) (t : tag_array) (addr time idx0 : Nat)
    (wb0 : Bool) (ev0 : cache_block_t) (st : cache_request_status) (idx : Nat)
    (hprobe : tag_array.probe cfg t addr idx0 = Except.ok (st, idx)) :
    ∃ r, tag_array.access cfg t addr time idx0 wb0 ev0 = Except.ok r ∧
      r.status = st ∧ r.idx = idx ∧
      r.tags.m_lines = lines_after_access cfg t.m_lines addr time st idx ∧
      r.wb = (if evicts_dirty cfg t.m_lines st idx then true else wb0) ∧
      r.evicted = (if evicts_dirty cfg t.m_lines st idx then t.m_lines idx else ev0) := by
  have hp1 : tag_array.probe cfg { t with m_access := u32 (t.m_access + 1) } addr idx0 =
      Except.ok (st, idx) :=
    (probe_lines_only cfg t _ addr idx0 rfl).trans hprobe
  unfold tag_array.access
  simp only [hp1]
  cases st with
  | HIT =>
    obtain ⟨w, _, hidx, hhit, hs⟩ := probe_hit_inv cfg t addr idx0 idx _ hprobe (Or.inl rfl)
    have hst : (t.m_lines idx).m_status = cache_block_state.VALID ∨
        (t.m_lines idx).m_status = cache_block_state.MODIFIED := by
      unfold hit_status at hs
      cases h : (t.m_lines idx).m_status
      · unfold tag_hit set_line at hhit
        rw [← hidx] at hhit
        exact absurd h hhit.2
      · rw [h] at hs; simp at hs
      · exact Or.inl rfl
      · exact Or.inr rfl
    simp only [not_not.mpr hst, if_false]
    refine ⟨_, rfl, rfl, rfl, ?_, ?_, ?_⟩
    · split_ifs <;> rfl
    · simp [evicts_dirty]
    · simp [evicts_dirty]
  | HIT_RESERVED =>
    obtain ⟨w, _, hidx, hhit, hs⟩ := probe_hit_inv cfg t addr idx0 idx _ hprobe (Or.inr rfl)
    have hst : (t.m_lines idx).m_status = cache_block_state.RESERVED := by
      unfold hit_status at hs
      by_contra hne
      rw [if_neg hne] at hs
      cases hs
    simp only [not_not.mpr hst, if_false]
    refine ⟨_, rfl, rfl, rfl, ?_, ?_, ?_⟩
    · split_ifs <;> rfl
    · simp [evicts_dirty]
    · simp [evicts_dirty]
  | MISS =>
    have hres := (probe_miss_inv cfg t addr idx0 idx hprobe).2.1
    have hst : (t.m_lines idx).m_status = cache_block_state.VALID ∨
        (t.m_lines idx).m_status = cache_block_state.INVALID ∨
        (t.m_lines idx).m_status = cache_block_state.MODIFIED := by
      cases h : (t.m_lines idx).m_status
      · exact Or.inr (Or.inl rfl)
      · exact absurd h hres
      · exact Or.inl rfl
      · exact Or.inr (Or.inr rfl)
    simp only [not_not.mpr hst, if_false]
    by_cases hpol : cfg.m_alloc_policy = allocation_policy_t.ON_MISS
    · simp only [hpol, if_true]
      refine ⟨_, rfl, rfl, rfl, ?_, ?_, ?_⟩
      · unfold lines_after_access
        simp only [hpol, if_true]
        split_ifs <;> rfl
      · simp [evicts_dirty, hpol]
      · simp [evicts_dirty, hpol]
    · simp only [hpol, if_false]
      refine ⟨_, rfl, rfl, rfl, ?_, ?_, ?_⟩
      · unfold lines_after_access
        simp only [hpol, if_false]
        split_ifs <;> rfl
      · simp [evicts_dirty, hpol]
      · simp [evicts_dirty, hpol]
  | RESERVATION_FAIL =>
    refine ⟨_, rfl, rfl, rfl, rfl, ?_, ?_⟩
    · simp [evicts_dirty]
    · simp [evicts_dirty]

/-- The enlisting branch of `send_read_request`: for a block without MSHR entry, with a
free entry in the table and a free slot in the demand miss queue, the request is appended
to the queue, `READ_REQUEST_SENT` is recorded unless `wa` is set, and `wb` and `evicted`
tell whether the tag-array access evicted a MODIFIED line. -/
theorem send_read_request_new (cfg : cache_config) (c : baseline_cache)
    (addr block_addr cache_index mf time : Nat) (do_miss wb : Bool)
    (evicted : cache_block_t) (events : List cache_event) (wa : Bool)
    (st : cache_request_status) (idx : Nat)
    (hnone : c.m_mshrs.m_data.lookup block_addr = none)
    (hroom : c.m_mshrs.m_data.length < c.m_mshrs.m_num_entries)
    (hmm : 1 ≤ c.m_mshrs.m_max_merged)
    (hq : c.m_miss_queue.length < cfg.m_miss_queue_size)
    (hprobe : tag_array.probe cfg c.m_tag_array block_addr cache_index
      = Except.ok (st, idx)) :
    ∃ r, c.send_read_request cfg addr block_addr cache_index mf time do_miss wb evicted
        events false wa = Except.ok r ∧
      r.do_miss = true ∧
      r.wb = (if evicts_dirty cfg c.m_tag_array.m_lines st idx then true else wb) ∧
      r.evicted = (if evicts_dirty cfg c.m_tag_array.m_lines st idx
        then c.m_tag_array.m_lines idx else evicted) ∧
      r.events = (if wa = true then events
        else events ++ [cache_event.READ_REQUEST_SENT]) ∧
      r.cache.m_miss_queue = c.m_miss_queue ++ [mf] ∧
      r.cache.m_pref_miss_queue = c.m_pref_miss_queue ∧
      r.cache.next_mf = c.next_mf ∧
      r.cache.m_miss_queue_status = c.m_miss_queue_status := by
  have hhit : c.m_mshrs.probe block_addr = false := by
    unfold mshr_table.probe; rw [hnone]; rfl
  have hfull : c.m_mshrs.full block_addr = false := by
    unfold mshr_table.full
    rw [hnone]
    simp only [decide_eq_false_iff_not, ge_iff_le, not_le]
    exact hroom
  obtain ⟨ra, hacc, _, _, _, hwb, hev⟩ := access_result cfg c.m_tag_array block_addr time
    cache_index wb evicted st idx hprobe
  obtain ⟨m1, hadd, _⟩ :=
    mshr_add_new c.m_mshrs block_addr mf (c.heap mf).m_isatomic hnone hroom hmm
  unfold baseline_cache.send_read_request send_read_tag_access
  simp only [hhit, hfull, Bool.not_false, hq, hacc, hadd, Bool.false_eq_true, false_and,
    if_false, and_self, if_true]
  exact ⟨_, rfl, rfl, hwb, hev, rfl, rfl, rfl, rfl, rfl⟩

/-- A read miss through `rd_miss_base` that enlists its block and evicts a MODIFIED line
under a write policy other than WRITE_THROUGH: the read and then a writeback of the
victim's block are queued, and the events `READ_REQUEST_SENT` and
`WRITE_BACK_REQUEST_SENT` are recorded, in this order. -/
theorem rd_miss_base_dirty (cfg : cache_config) (c : data_cache)
    (addr cache_index mf time : Nat) (events : List cache_event)
    (status : cache_request_status) (is_l1_cache : Bool) (idx : Nat)
    (hpol : cfg.m_alloc_policy = allocation_policy_t.ON_MISS)
    (hwp : cfg.m_write_policy ≠ write_policy_t.WRITE_THROUGH)
    (hnone : c.m_mshrs.m_data.lookup (cfg.block_addr addr) = none)
    (hroom : c.m_mshrs.m_data.length < c.m_mshrs.m_num_entries)
    (hmm : 1 ≤ c.m_mshrs.m_max_merged)
    (hq : c.m_miss_queue.length + 2 ≤ cfg.m_miss_queue_size)
    (hprobe : tag_array.probe cfg c.m_tag_array (cfg.block_addr addr) cache_index
      = Except.ok (cache_request_status.MISS, idx))
    (hdirty : (c.m_tag_array.m_lines idx).m_status = cache_block_state.MODIFIED) :
    ∃ r, c.rd_miss_base cfg addr cache_index mf time events status is_l1_cache
        = Except.ok r ∧
      r.status = cache_request_status.MISS ∧
      r.events = events ++ [cache_event.READ_REQUEST_SENT,
        cache_event.WRITE_BACK_REQUEST_SENT] ∧
      r.cache.m_miss_queue = c.m_miss_queue ++ [mf, c.next_mf] ∧
      (r.cache.heap c.next_mf).m_addr = (c.m_tag_array.m_lines idx).m_block_addr ∧
      (r.cache.heap c.next_mf).m_is_write = true ∧
      r.cache.m_pref_miss_queue = c.m_pref_miss_queue := by
  have hq1 : ¬ c.miss_queue_full cfg 1 = true := by
    rw [(miss_queue_full_iff cfg c.tobaseline_cache 1).mpr hq]
    decide
  have hev : evicts_dirty cfg c.m_tag_array.m_lines cache_request_status.MISS idx :=
    ⟨rfl, hpol, hdirty⟩
  obtain ⟨rr, hrr, hdm, hwb, hevd, hevents, hqueue, hpq, hnext, hstat⟩ :=
    send_read_request_new cfg c.tobaseline_cache addr (cfg.block_addr addr) cache_index mf
      time false false empty_line events false _ idx hnone hroom hmm (by omega) hprobe
  rw [if_pos hev] at hwb hevd
  unfold data_cache.rd_miss_base
  rw [if_neg hq1]
  unfold data_cache.send_read_request
  simp only [hrr, hdm, hwb, if_true, true_and, hwp, ne_eq, not_false_eq_true]
  refine ⟨_, rfl, rfl, ?_, ?_, ?_, ?_, ?_⟩
  · simp [data_cache.send_write_request, hevents]
  · simp [data_cache.send_write_request, data_cache.alloc_writeback,
      baseline_cache.alloc_mf, hqueue, hnext]
  · simp [data_cache.send_write_request, data_cache.alloc_writeback,
      baseline_cache.alloc_mf, hnext, set_status, hevd]
  · simp [data_cache.send_write_request, data_cache.alloc_writeback,
      baseline_cache.alloc_mf, hnext, set_status]
  · simp [data_cache.send_write_request, data_cache.alloc_writeback,
      baseline_cache.alloc_mf, hpq]

/-- Both enlisting branches of `send_read_request` at once: when the MSHR table is not full
for the block and the block has an entry or the demand miss queue a free slot, the call
returns with `do_miss` set; `READ_REQUEST_SENT` is recorded only for a block without entry
and with `wa` clear, and only then is the request queued. -/
theorem send_read_request_enlists (cfg : cache_config) (c : baseline_cache)
    (addr block_addr cache_index mf time : Nat) (do_miss wb : Bool)
    (evicted : cache_block_t) (events : List cache_event) (wa : Bool)
    (st : cache_request_status) (idx : Nat)
    (hwf : c.m_mshrs.m_data.length ≤ c.m_mshrs.m_num_entries)
    (hmm : 1 ≤ c.m_mshrs.m_max_merged)
    (hfull : c.m_mshrs.full block_addr = false)
    (hq : c.m_mshrs.probe block_addr = true ∨
      c.m_miss_queue.length < cfg.m_miss_queue_size)
    (hprobe : tag_array.probe cfg c.m_tag_array block_addr cache_index
      = Except.ok (st, idx)) :
    ∃ r, c.send_read_request cfg addr block_addr cache_index mf time do_miss wb evicted
        events false wa = Except.ok r ∧
      r.do_miss = true ∧
      r.wb = (if evicts_dirty cfg c.m_tag_array.m_lines st idx then true else wb) ∧
      r.evicted = (if evicts_dirty cfg c.m_tag_array.m_lines st idx
        then c.m_tag_array.m_lines idx else evicted) ∧
      r.events = (if wa = true ∨ c.m_mshrs.probe block_addr = true then events
        else events ++ [cache_event.READ_REQUEST_SENT]) ∧
      r.cache.m_miss_queue = (if c.m_mshrs.probe block_addr = true then c.m_miss_queue
        else c.m_miss_queue ++ [mf]) ∧
      r.cache.next_mf = c.next_mf := by
  obtain ⟨ra, hacc, _, _, _, hwb, hev⟩ := access_result cfg c.m_tag_array block_addr time
    cache_index wb evicted st idx hprobe
  cases hlk : c.m_mshrs.m_data.lookup block_addr with
  | some e =>
    have hhit : c.m_mshrs.probe block_addr = true := by
      unfold mshr_table.probe; rw [hlk]; rfl
    have hroom : e.m_list.length < c.m_mshrs.m_max_merged := by
      rcases (mshr_full_false_iff c.m_mshrs block_addr).mp hfull with ⟨e1, he1, hl⟩ | ⟨hn, _⟩
      · rw [hlk] at he1
        cases he1
        exact hl
      · rw [hlk] at hn
        cases hn
    obtain ⟨m1, hadd, _⟩ :=
      mshr_add_merge c.m_mshrs block_addr mf (c.heap mf).m_isatomic e hlk hroom hwf
    unfold baseline_cache.send_read_request send_read_tag_access
    simp only [hhit, hfull, Bool.not_false, and_self, if_true, hacc, hadd,
      Bool.false_eq_true, if_false, or_true]
    exact ⟨_, rfl, rfl, hwb, hev, rfl, rfl, rfl⟩
  | none =>
    have hhit : c.m_mshrs.probe block_addr = false := by
      unfold mshr_table.probe; rw [hlk]; rfl
    have hroom : c.m_mshrs.m_data.length < c.m_mshrs.m_num_entries := by
      rcases (mshr_full_false_iff c.m_mshrs block_addr).mp hfull with ⟨e1, he1, _⟩ | ⟨_, hl⟩
      · rw [hlk] at he1
        cases he1
      · exact hl
    have hq1 : c.m_miss_queue.length < cfg.m_miss_queue_size := by
      rcases hq with h | h
      · rw [hhit] at h
        cases h
      · exact h
    obtain ⟨r, hr, hdm, hwb1, hev1, hevents, hqueue, _, hnext, _⟩ :=
      send_read_request_new cfg c addr block_addr cache_index mf time do_miss wb evicted
        events wa st idx hlk hroom hmm hq1 hprobe
    refine ⟨r, hr, hdm, hwb1, hev1, ?_, ?_, hnext⟩
    · rw [hevents]
      simp only [hhit, Bool.false_eq_true, or_false]
    · rw [hqueue]
      simp only [hhit, Bool.false_eq_true, if_false]

/-- A write miss through `wr_miss_wa` that passes the guard and evicts a MODIFIED line: the
status is `MISS` and the events recorded are those of `send_write_request` alone, the
allocate read being sent with `wa` set and the writeback being queued directly. -/
theorem wr_miss_wa_dirty (cfg : cache_config) (c : data_cache)
    (addr cache_index mf time : Nat) (events : List cache_event)
    (status : cache_request_status) (st : cache_request_status) (idx : Nat)
    (hwf : c.m_mshrs.m_data.length ≤ c.m_mshrs.m_num_entries)
    (hmm : 1 ≤ c.m_mshrs.m_max_merged)
    (hfull : c.m_mshrs.full (cfg.block_addr addr) = false)
    (hq : c.m_miss_queue.length + 3 ≤ cfg.m_miss_queue_size)
    (hprobe : tag_array.probe cfg c.m_tag_array (cfg.block_addr addr) cache_index
      = Except.ok (st, idx)) :
    ∃ r, c.wr_miss_wa cfg addr cache_index mf time events status = Except.ok r ∧
      r.status = cache_request_status.MISS ∧
      r.events = events ++ [cache_event.WRITE_REQUEST_SENT] ∧
      (evicts_dirty cfg c.m_tag_array.m_lines st idx →
        cfg.m_write_policy ≠ write_policy_t.WRITE_THROUGH →
        ∃ wbp, r.cache.m_miss_queue.getLast? = some wbp ∧
          (r.cache.heap wbp).m_addr = (c.m_tag_array.m_lines idx).m_block_addr ∧
          (r.cache.heap wbp).m_is_write = true) := by
  have hq1 : ¬ c.miss_queue_full cfg 2 = true := by
    rw [(miss_queue_full_iff cfg c.tobaseline_cache 2).mpr hq]
    decide
  have hguard : ¬ (c.miss_queue_full cfg 2 = true ∨
      (¬ (c.m_mshrs.probe (cfg.block_addr addr) = true ∧
          (!c.m_mshrs.full (cfg.block_addr addr)) = true) ∧
       ¬ (c.m_mshrs.probe (cfg.block_addr addr) = false ∧
          (!c.m_mshrs.full (cfg.block_addr addr)) = true ∧
          c.m_miss_queue.length < cfg.m_miss_queue_size))) := by
    rw [hfull]
    rintro (h | ⟨h1, h2⟩)
    · exact hq1 h
    · cases hp : c.m_mshrs.probe (cfg.block_addr addr)
      · exact h2 ⟨hp, rfl, by omega⟩
      · exact h1 ⟨hp, rfl⟩
  simp only [data_cache.wr_miss_wa]
  rw [if_neg hguard]
  obtain ⟨rr, hrr, hdm, hwb, hevd, hevents, _⟩ :=
    send_read_request_enlists cfg
      ({ (c.send_write_request mf cache_event.WRITE_REQUEST_SENT time events).1 with
          tobaseline_cache :=
            ((c.send_write_request mf cache_event.WRITE_REQUEST_SENT time
              events).1.tobaseline_cache.alloc_mf
              { m_addr := ((c.send_write_request mf cache_event.WRITE_REQUEST_SENT time
                  events).1.heap mf).m_addr,
                m_data_size := ((c.send_write_request mf cache_event.WRITE_REQUEST_SENT time
                  events).1.heap mf).m_data_size,
                m_ctrl_size := ((c.send_write_request mf cache_event.WRITE_REQUEST_SENT time
                  events).1.heap mf).m_ctrl_size,
                m_is_write := false, m_isatomic := false,
                m_access_type := c.m_wr_alloc_type,
                m_wid := ((c.send_write_request mf cache_event.WRITE_REQUEST_SENT time
                  events).1.heap mf).m_wid,
                m_sid := ((c.send_write_request mf cache_event.WRITE_REQUEST_SENT time
                  events).1.heap mf).m_sid,
                m_status := 0, m_status_change := 0 }).2 } : data_cache).tobaseline_cache
      addr (cfg.block_addr addr) cache_index
      ((c.send_write_request mf cache_event.WRITE_REQUEST_SENT time
        events).1.tobaseline_cache.alloc_mf
        { m_addr := ((c.send_write_request mf cache_event.WRITE_REQUEST_SENT time
            events).1.heap mf).m_addr,
          m_data_size := ((c.send_write_request mf cache_event.WRITE_REQUEST_SENT time
            events).1.heap mf).m_data_size,
          m_ctrl_size := ((c.send_write_request mf cache_event.WRITE_REQUEST_SENT time
            events).1.heap mf).m_ctrl_size,
          m_is_write := false, m_isatomic := false,
          m_access_type := c.m_wr_alloc_type,
          m_wid := ((c.send_write_request mf cache_event.WRITE_REQUEST_SENT time
            events).1.heap mf).m_wid,
          m_sid := ((c.send_write_request mf cache_event.WRITE_REQUEST_SENT time
            events).1.heap mf).m_sid,
          m_status := 0, m_status_change := 0 }).1
      time false false empty_line
      (c.send_write_request mf cache_event.WRITE_REQUEST_SENT time events).2 true st idx
      hwf hmm hfull
      (by
        cases hp : c.m_mshrs.probe (cfg.block_addr addr)
        · right
          simp only [data_cache.send_write_request, baseline_cache.alloc_mf,
            List.length_append, List.length_singleton]
          omega
        · left
          exact hp)
      hprobe
  unfold data_cache.send_read_request
  simp only [hrr, hdm, if_true]
  simp only [true_or, if_true] at hevents
  split_ifs with hw
  · refine ⟨_, rfl, rfl, by rw [hevents]; rfl, ?_⟩
    intro hd _
    have hevd1 : rr.evicted = c.m_tag_array.m_lines idx := hevd.trans (if_pos hd)
    refine ⟨_, List.getLast?_concat _, ?_, ?_⟩
    · simp [data_cache.alloc_writeback, baseline_cache.alloc_mf, set_status, hevd1]
    · simp [data_cache.alloc_writeback, baseline_cache.alloc_mf, set_status]
  · refine ⟨_, rfl, rfl, by rw [hevents]; rfl, ?_⟩
    intro hd hwp
    have hwb1 : rr.wb = true := hwb.trans (if_pos hd)
    exact absurd ⟨hwb1, hwp⟩ hw

/-! ## Lemmas on maps kept as association lists -/

theorem lookup_map_set {β : Type} (m : List (Nat × β)) (k k2 : Nat) (v : β) :
    (map_set m k v).lookup k2 = if k2 = k then some v else m.lookup k2 := by
  by_cases h : k2 = k
  · rw [if_pos h, h]
    exact lookup_map_set_same m k v
  · rw [if_neg h]
    exact lookup_map_set_other m k k2 v h

theorem lookup_map_erase {β : Type} (m : List (Nat × β)) (k k2 : Nat) :
    (map_erase m k).lookup k2 = if k2 = k then none else m.lookup k2 := by
  unfold map_erase
  induction m with
  | nil => simp [List.lookup]
  | cons p rest ih =>
    obtain ⟨k1, v1⟩ := p
    by_cases h1 : k1 = k
    · have hf : ((k1, v1).1 != k) = false := by simp [h1]
      rw [List.filter_cons_of_neg (by simp [h1])]
      rw [ih]
      by_cases h2 : k2 = k
      · simp [h2]
      · have h3 : (k2 == k1) = false := by
          simp only [beq_eq_false_iff_ne, ne_eq]
          rw [h1]
          exact h2
        simp [h2, List.lookup, h3]
    · rw [List.filter_cons_of_pos (by simp [h1])]
      by_cases h3 : k2 = k1
      · have h4 : ¬ k2 = k := by rw [h3]; exact h1
        simp [List.lookup, h3, h1]
      · have h5 : (k2 == k1) = false := by
          simp only [beq_eq_false_iff_ne, ne_eq]
          exact h3
        simp only [List.lookup, h5]
        exact ih

theorem mem_map_set {β : Type} (m : List (Nat × β)) (k : Nat) (v : β) (p : Nat × β)
    (h : p ∈ map_set m k v) : p = (k, v) ∨ p ∈ m := by
  induction m with
  | nil =>
    simp only [map_set, List.mem_singleton] at h
    exact Or.inl h
  | cons q rest ih =>
    obtain ⟨k1, v1⟩ := q
    unfold map_set at h
    by_cases h1 : k1 = k
    · simp only [h1, if_true, List.mem_cons] at h
      rcases h with h | h
      · exact Or.inl h
      · exact Or.inr (List.mem_cons_of_mem _ h)
    · simp only [h1, if_false, List.mem_cons] at h
      rcases h with h | h
      · exact Or.inr (by rw [h]; exact List.mem_cons_self _ _)
      · rcases ih h with h2 | h2
        · exact Or.inl h2
        · exact Or.inr (List.mem_cons_of_mem _ h2)

theorem mem_map_erase {β : Type} (m : List (Nat × β)) (k : Nat) (p : Nat × β)
    (h : p ∈ map_erase m k) : p ∈ m := by
  unfold map_erase at h
  exact (List.mem_filter.mp h).1

theorem length_map_erase_le {β : Type} (m : List (Nat × β)) (k : Nat) :
    (map_erase m k).length ≤ m.length := by
  unfold map_erase
  exact List.length_filter_le _ _

theorem map_erase_map_set {β : Type} (m : List (Nat × β)) (k : Nat) (v : β) :
    map_erase (map_set m k v) k = map_erase m k := by
  unfold map_erase
  induction m with
  | nil => simp [map_set]
  | cons q rest ih =>
    obtain ⟨k1, v1⟩ := q
    unfold map_set
    by_cases h1 : k1 = k
    · simp [h1]
    · simp only [h1, if_false]
      rw [List.filter_cons_of_pos (by simp [h1]), List.filter_cons_of_pos (by simp [h1]), ih]

theorem mem_of_lookup {β : Type} (m : List (Nat × β)) (k : Nat) (v : β)
    (h : m.lookup k = some v) : (k, v) ∈ m := by
  induction m with
  | nil => simp [List.lookup] at h
  | cons q rest ih =>
    obtain ⟨k1, v1⟩ := q
    by_cases h1 : k = k1
    · have h2 : (k == k1) = true := by simp [h1]
      simp only [List.lookup, h2] at h
      cases h
      rw [h1]
      exact List.mem_cons_self _ _
    · have h2 : (k == k1) = false := by
        simp only [beq_eq_false_iff_ne, ne_eq]
        exact h1
      simp only [List.lookup, h2] at h
      exact List.mem_cons_of_mem _ (ih h)

/-- The keys bound in a map are at most as many as its pairs: a duplicate-free list of
bound keys is no longer than the map. -/
theorem length_le_of_bound_keys {β : Type} (m : List (Nat × β)) (l : List Nat)
    (hnd : l.Nodup) (hb : ∀ b, b ∈ l → (m.lookup b).isSome = true) :
    l.length ≤ m.length := by
  have hsub : l ⊆ m.map Prod.fst := by
    intro b hbl
    have h1 := hb b hbl
    cases hlk : m.lookup b with
    | none => rw [hlk] at h1; cases h1
    | some v =>
      have := mem_of_lookup m b v hlk
      exact List.mem_map.mpr ⟨(b, v), this, rfl⟩
  have := (List.Nodup.subperm hnd hsub).length_le
  simpa using this

/-! ## Lemmas on runs of the MSHR table -/

/-- What a call of `add` that returns has done: the entry of the block holds the former
waiters followed by the request, the tables agree elsewhere, and the two assertions held. -/
theorem mshr_add_ok (m m1 : mshr_table) (block_addr mf : Nat) (isatomic : Bool)
    (h : m.add block_addr mf isatomic = Except.ok m1) :
    ∃ e1 e2 : mshr_entry,
      m1.m_data = map_set (map_set m.m_data block_addr e1) block_addr e2 ∧
      e1.m_list = m.waiters block_addr ++ [mf] ∧ e2.m_list = m.waiters block_addr ++ [mf] ∧
      (map_set m.m_data block_addr e1).length ≤ m.m_num_entries ∧
      (m.waiters block_addr ++ [mf]).length ≤ m.m_max_merged ∧
      m1.m_current_response = m.m_current_response ∧
      m1.m_num_entries = m.m_num_entries ∧ m1.m_max_merged = m.m_max_merged := by
  have hw : ((m.m_data.lookup block_addr).getD { m_list := [], m_has_atomic := false }).m_list
      = m.waiters block_addr := by
    unfold mshr_table.waiters
    cases m.m_data.lookup block_addr <;> rfl
  unfold mshr_table.add at h
  simp only at h
  split_ifs at h with h1 h2 h3
  · have h4 := Except.ok.inj h
    subst h4
    refine ⟨_, _, rfl, ?_, ?_, h1, ?_, rfl, rfl, rfl⟩
    · exact congrArg (· ++ [mf]) hw
    · exact congrArg (· ++ [mf]) hw
    · rw [← hw]
      exact h2
  · have h4 := Except.ok.inj h
    subst h4
    refine ⟨_, _, rfl, ?_, ?_, h1, ?_, rfl, rfl, rfl⟩
    · exact congrArg (· ++ [mf]) hw
    · exact congrArg (· ++ [mf]) hw
    · rw [← hw]
      exact h2

/-- After `add` the block has an entry, and every other block has the entry it had. -/
theorem mshr_add_lookup (m m1 : mshr_table) (block_addr mf : Nat) (isatomic : Bool)
    (h : m.add block_addr mf isatomic = Except.ok m1) :
    (m1.m_data.lookup block_addr).isSome = true ∧
    (∀ b, b ≠ block_addr → m1.m_data.lookup b = m.m_data.lookup b) ∧
    m1.m_current_response = m.m_current_response := by
  obtain ⟨e1, e2, hd, _, _, _, _, hr, _, _⟩ := mshr_add_ok m m1 block_addr mf isatomic h
  rw [hd]
  refine ⟨?_, ?_, hr⟩
  · rw [lookup_map_set_same]
    rfl
  · intro b hb
    rw [lookup_map_set_other _ _ _ _ hb, lookup_map_set_other _ _ _ _ hb]

theorem mshr_inv_add (n k : Nat) (m m1 : mshr_table) (block_addr mf : Nat)
    (isatomic : Bool) (hinv : mshr_inv n k m)
    (h : m.add block_addr mf isatomic = Except.ok m1) : mshr_inv n k m1 := by
  obtain ⟨e1, e2, hd, hl1, hl2, hlen, hmax, hr, hn, hk⟩ :=
    mshr_add_ok m m1 block_addr mf isatomic h
  obtain ⟨hsome, hother, _⟩ := mshr_add_lookup m m1 block_addr mf isatomic h
  refine ⟨hn.trans hinv.cap, hk.trans hinv.merged, ?_, ?_, ?_, ?_⟩
  · rw [hd, length_map_set_of_some _ _ _ e1 (lookup_map_set_same _ _ _), ← hinv.cap]
    exact hlen
  · intro p hp
    rw [hd] at hp
    have hlist : ∀ e : mshr_entry, e.m_list = m.waiters block_addr ++ [mf] →
        1 ≤ e.m_list.length ∧ e.m_list.length ≤ k := by
      intro e he
      rw [he, ← hinv.merged]
      exact ⟨by simp, hmax⟩
    rcases mem_map_set _ _ _ _ hp with hp1 | hp1
    · rw [hp1]
      exact hlist e2 hl2
    · rcases mem_map_set _ _ _ _ hp1 with hp2 | hp2
      · rw [hp2]
        exact hlist e1 hl1
      · exact hinv.lists p hp2
  · rw [hr]
    exact hinv.ready_nodup
  · intro b hb
    rw [hr] at hb
    by_cases hbb : b = block_addr
    · rw [hbb]
      exact hsome
    · rw [hother b hbb]
      exact hinv.ready_bound b hb

/-- Under the invariant, `add` returns whenever `full(block_addr)` is false, provided an
entry may hold at least one request. -/
theorem mshr_add_returns (n k : Nat) (m : mshr_table) (block_addr mf : Nat)
    (isatomic : Bool) (hk : 1 ≤ k) (hinv : mshr_inv n k m)
    (hfull : m.full block_addr = false) :
    ∃ m1, m.add block_addr mf isatomic = Except.ok m1 := by
  have hwf : m.m_data.length ≤ m.m_num_entries := by
    rw [hinv.cap]
    exact hinv.entries
  rcases (mshr_full_false_iff m block_addr).mp hfull with ⟨e, he, hl⟩ | ⟨hn, hl⟩
  · obtain ⟨m1, h, _⟩ := mshr_add_merge m block_addr mf isatomic e he hl hwf
    exact ⟨m1, h⟩
  · obtain ⟨m1, h, _⟩ := mshr_add_new m block_addr mf isatomic hn hl
      (by rw [hinv.merged]; exact hk)
    exact ⟨m1, h⟩

/-- Under the invariant, `mark_ready` returns for a block that has an entry and is not in
the ready queue, and the invariant holds afterwards. -/
theorem mshr_mark_ready_returns (n k : Nat) (m : mshr_table) (block_addr : Nat)
    (hinv : mshr_inv n k m) (hentry : (m.m_data.lookup block_addr).isSome = true)
    (hnew : block_addr ∉ m.m_current_response) :
    ∃ a, m.m_data.lookup block_addr = some a ∧
      m.mark_ready block_addr =
        Except.ok ({ m with m_current_response := m.m_current_response ++ [block_addr] },
          a.m_has_atomic) ∧
      mshr_inv n k { m with m_current_response := m.m_current_response ++ [block_addr] } := by
  cases hlk : m.m_data.lookup block_addr with
  | none => rw [hlk] at hentry; cases hentry
  | some a =>
    have hnd : (m.m_current_response ++ [block_addr]).Nodup := by
      rw [List.nodup_append]
      refine ⟨hinv.ready_nodup, List.nodup_singleton _, ?_⟩
      intro x hx hx1
      rw [List.mem_singleton] at hx1
      rw [hx1] at hx
      exact hnew hx
    have hb : ∀ b, b ∈ m.m_current_response ++ [block_addr] →
        (m.m_data.lookup b).isSome = true := by
      intro b hb
      rcases List.mem_append.mp hb with h1 | h1
      · exact hinv.ready_bound b h1
      · rw [List.mem_singleton] at h1
        rw [h1]
        exact hentry
    have hlen := length_le_of_bound_keys m.m_data _ hnd hb
    refine ⟨a, rfl, ?_, ?_⟩
    · unfold mshr_table.mark_ready
      simp only [hlk, not_not.mpr hlen, if_false]
    · exact ⟨hinv.cap, hinv.merged, hinv.entries, hinv.lists, hnd, hb⟩

/-- One call of `next_access` on a table whose ready queue starts with a block that has
waiters: the first waiter is returned; the entry is erased and the ready queue advanced
when it was the last one, and the entry keeps the remaining waiters otherwise. -/
theorem mshr_next_access_step (m : mshr_table) (b : Nat) (rest : List Nat) (e : mshr_entry)
    (x : Nat) (xs : List Nat)
    (hready : m.m_current_response = b :: rest)
    (hlk : m.m_data.lookup b = some e) (hl : e.m_list = x :: xs) :
    m.next_access = Except.ok (x,
      if xs = [] then { m with m_data := map_erase m.m_data b, m_current_response := rest }
      else { m with m_data := map_set m.m_data b { e with m_list := xs } }) := by
  unfold mshr_table.next_access
  simp only [hready, hlk, Option.getD_some, hl]
  cases xs with
  | nil => simp
  | cons y ys => simp

theorem mshr_inv_next_access (n k : Nat) (m : mshr_table) (hinv : mshr_inv n k m)
    (hready : m.access_ready = true) :
    ∃ x m1, m.next_access = Except.ok (x, m1) ∧ mshr_inv n k m1 := by
  unfold mshr_table.access_ready at hready
  cases hr : m.m_current_response with
  | nil => rw [hr] at hready; simp at hready
  | cons b rest =>
    have hb := hinv.ready_bound b (by rw [hr]; exact List.mem_cons_self _ _)
    cases hlk : m.m_data.lookup b with
    | none => rw [hlk] at hb; cases hb
    | some e =>
      have hmem := mem_of_lookup m.m_data b e hlk
      have hlen := hinv.lists (b, e) hmem
      cases hl : e.m_list with
      | nil => rw [hl] at hlen; simp at hlen
      | cons x xs =>
        have hstep := mshr_next_access_step m b rest e x xs hr hlk hl
        have hnd : (b :: rest).Nodup := by rw [← hr]; exact hinv.ready_nodup
        refine ⟨x, _, hstep, ?_⟩
        by_cases hxs : xs = []
        · rw [if_pos hxs]
          refine ⟨hinv.cap, hinv.merged, ?_, ?_, ?_, ?_⟩
          · exact Nat.le_trans (length_map_erase_le _ _) hinv.entries
          · intro p hp
            exact hinv.lists p (mem_map_erase _ _ _ hp)
          · exact (List.nodup_cons.mp hnd).2
          · intro b1 hb1
            have hne : b1 ≠ b := by
              intro heq
              rw [heq] at hb1
              exact (List.nodup_cons.mp hnd).1 hb1
            simp only [lookup_map_erase, hne, if_false]
            exact hinv.ready_bound b1 (by rw [hr]; exact List.mem_cons_of_mem _ hb1)
        · rw [if_neg hxs]
          refine ⟨hinv.cap, hinv.merged, ?_, ?_, ?_, ?_⟩
          · simp only
            rw [length_map_set_of_some _ _ _ e hlk]
            exact hinv.entries
          · intro p hp
            rcases mem_map_set _ _ _ _ hp with hp1 | hp1
            · rw [hp1]
              simp only
              rw [hl] at hlen
              simp only [List.length_cons] at hlen
              constructor
              · cases xs with
                | nil => exact absurd rfl hxs
                | cons y ys => simp
              · omega
            · exact hinv.lists p hp1
          · exact hinv.ready_nodup
          · intro b1 hb1
            simp only [lookup_map_set]
            split_ifs
            · rfl
            · exact hinv.ready_bound b1 hb1

/-- Every table reached under the discipline of the callers satisfies the invariant. -/
theorem mshr_reachable_inv (n k : Nat) (m : mshr_table) (h : mshr_reachable n k m) :
    mshr_inv n k m := by
  induction h with
  | empty =>
    exact ⟨rfl, rfl, Nat.zero_le _, fun p hp => absurd hp (List.not_mem_nil _),
      List.nodup_nil, fun b hb => absurd hb (List.not_mem_nil _)⟩
  | step m m1 op _ hallowed hrun ih =>
    cases op with
    | add block_addr mf isatomic =>
      exact mshr_inv_add n k m m1 block_addr mf isatomic ih hrun
    | mark_ready block_addr =>
      simp only [mshr_op.allowed, Bool.and_eq_true, Bool.not_eq_true',
        List.contains_eq_any_beq, List.any_eq_false, beq_iff_eq] at hallowed
      have hnew : block_addr ∉ m.m_current_response := by
        intro hmem
        exact hallowed.2 block_addr hmem rfl
      obtain ⟨a, _, hmr, hinv1⟩ := mshr_mark_ready_returns n k m block_addr ih
        (by unfold mshr_table.probe at hallowed; exact hallowed.1) hnew
      unfold mshr_table.run_op at hrun
      simp only [hmr] at hrun
      have := Except.ok.inj hrun
      rw [← this]
      exact hinv1
    | next_access =>
      obtain ⟨x, m2, hna, hinv1⟩ := mshr_inv_next_access n k m ih hallowed
      unfold mshr_table.run_op at hrun
      simp only [hna] at hrun
      have := Except.ok.inj hrun
      rw [← this]
      exact hinv1

/-! ## Lemmas on draining the ready queue -/

theorem mshr_waiters_of_lookup (m : mshr_table) (b : Nat) (hw : m.waiters b ≠ []) :
    ∃ e, m.m_data.lookup b = some e ∧ e.m_list = m.waiters b := by
  unfold mshr_table.waiters at hw ⊢
  cases h : m.m_data.lookup b with
  | none => rw [h] at hw; exact absurd rfl hw
  | some e => exact ⟨e, rfl, rfl⟩

/-- Draining the waiters of the block at the head of the ready queue: as many calls of
`next_access` as the block has waiters return them in order, erase the entry and advance
the ready queue. -/
theorem mshr_drain_block (l : List Nat) :
    ∀ (m : mshr_table) (b : Nat) (rest : List Nat) (e : mshr_entry),
      m.m_current_response = b :: rest → m.m_data.lookup b = some e → e.m_list = l →
      l ≠ [] →
      m.drain l.length =
        Except.ok (l, { m with m_data := map_erase m.m_data b,
                               m_current_response := rest }) := by
  induction l with
  | nil => intro m b rest e _ _ _ h; exact absurd rfl h
  | cons x xs ih =>
    intro m b rest e hready hlk hl _
    have hstep := mshr_next_access_step m b rest e x xs hready hlk hl
    cases xs with
    | nil =>
      simp only [List.length_singleton, mshr_table.drain, hstep, if_true]
    | cons y ys =>
      have hne : ¬ (y :: ys = []) := by simp
      rw [if_neg hne] at hstep
      have h1 := ih { m with m_data := map_set m.m_data b { e with m_list := y :: ys } } b rest
        { e with m_list := y :: ys } hready (lookup_map_set_same _ _ _) rfl (by simp)
      simp only [map_erase_map_set] at h1
      rw [List.length_cons, mshr_table.drain, hstep]
      simp only [h1]

theorem mshr_drain_append (n1 : Nat) :
    ∀ (m m1 m2 : mshr_table) (n2 : Nat) (l1 l2 : List Nat),
      m.drain n1 = Except.ok (l1, m1) → m1.drain n2 = Except.ok (l2, m2) →
      m.drain (n1 + n2) = Except.ok (l1 ++ l2, m2) := by
  induction n1 with
  | zero =>
    intro m m1 m2 n2 l1 l2 h1 h2
    simp only [mshr_table.drain] at h1
    obtain ⟨h3, h4⟩ := Prod.mk.inj (Except.ok.inj h1)
    subst h3
    subst h4
    rw [Nat.zero_add]
    exact h2
  | succ n ih =>
    intro m m1 m2 n2 l1 l2 h1 h2
    rw [Nat.succ_add]
    simp only [mshr_table.drain] at h1 ⊢
    cases hna : m.next_access with
    | error f => simp only [hna] at h1; cases h1
    | ok r =>
      obtain ⟨x, ma⟩ := r
      simp only [hna] at h1 ⊢
      cases hd : ma.drain n with
      | error f => simp only [hd] at h1; cases h1
      | ok r1 =>
        obtain ⟨xs, mb⟩ := r1
        simp only [hd] at h1
        have h3 := Prod.mk.inj (Except.ok.inj h1)
        rw [ih ma m1 m2 n2 xs l2 (by rw [hd, h3.2]) h2, ← h3.1]
        rfl

/-- Draining the blocks at the head of the ready queue one after the other: the waiters of
the blocks are returned block by block, each list in its order; afterwards the ready queue
holds what followed these blocks, the blocks have no entry, and every other entry is as it
was. -/
theorem mshr_drain_blocks (pre : List Nat) :
    ∀ (m : mshr_table) (post : List Nat),
      m.m_current_response = pre ++ post → pre.Nodup →
      (∀ b, b ∈ pre → m.waiters b ≠ []) →
      ∃ m1, m.drain (pre.flatMap m.waiters).length =
          Except.ok (pre.flatMap m.waiters, m1) ∧
        m1.m_current_response = post ∧
        (∀ b, b ∈ pre → m1.probe b = false) ∧
        (∀ b, b ∉ pre → m1.m_data.lookup b = m.m_data.lookup b) := by
  induction pre with
  | nil =>
    intro m post hready _ _
    exact ⟨m, rfl, hready, fun b hb => absurd hb (List.not_mem_nil _), fun b _ => rfl⟩
  | cons b pre1 ih =>
    intro m post hready hnd hw
    obtain ⟨e, hlk, hl⟩ := mshr_waiters_of_lookup m b (hw b (List.mem_cons_self _ _))
    have hblock := mshr_drain_block (m.waiters b) m b (pre1 ++ post) e hready hlk hl
      (hw b (List.mem_cons_self _ _))
    have hnd1 := List.nodup_cons.mp hnd
    have hsame : ∀ b1, b1 ≠ b →
        ({ m with m_data := map_erase m.m_data b,
                  m_current_response := pre1 ++ post } : mshr_table).waiters b1
          = m.waiters b1 := by
      intro b1 hb1
      unfold mshr_table.waiters
      simp only [lookup_map_erase, hb1, if_false]
    have hne : ∀ b1, b1 ∈ pre1 → b1 ≠ b := by
      intro b1 hb1 heq
      rw [heq] at hb1
      exact hnd1.1 hb1
    obtain ⟨m1, hd1, hr1, hp1, ho1⟩ := ih
      { m with m_data := map_erase m.m_data b, m_current_response := pre1 ++ post } post rfl
      hnd1.2 (fun b1 hb1 => by rw [hsame b1 (hne b1 hb1)]; exact hw b1 (List.mem_cons_of_mem _ hb1))
    have hflat : pre1.flatMap
        ({ m with m_data := map_erase m.m_data b,
                  m_current_response := pre1 ++ post } : mshr_table).waiters
        = pre1.flatMap m.waiters := by
      apply List.flatMap_congr
      intro b1 hb1
      exact hsame b1 (hne b1 hb1)
    rw [hflat] at hd1
    refine ⟨m1, ?_, hr1, ?_, ?_⟩
    · rw [List.flatMap_cons, List.length_append]
      exact mshr_drain_append _ m _ m1 _ _ _ hblock hd1
    · intro b1 hb1
      rcases List.mem_cons.mp hb1 with h | h
      · unfold mshr_table.probe
        rw [h, ho1 b hnd1.1]
        simp only [lookup_map_erase, if_true]
        rfl
      · exact hp1 b1 h
    · intro b1 hb1
      have h1 : b1 ∉ pre1 := fun h => hb1 (List.mem_cons_of_mem _ h)
      have h2 : b1 ≠ b := fun h => hb1 (by rw [h]; exact List.mem_cons_self _ _)
      rw [ho1 b1 h1]
      simp only [lookup_map_erase, h2, if_false]

/-- Marking a list of distinct blocks ready, each of which has an entry and none of which
is in the ready queue yet, on a table under the invariant: every call returns, the blocks
are appended to the ready queue in order and the entries are untouched. -/
theorem mshr_mark_ready_all_returns (n k : Nat) (bs : List Nat) :
    ∀ (m : mshr_table), mshr_inv n k m → bs.Nodup →
      (∀ b, b ∈ bs → (m.m_data.lookup b).isSome = true ∧ b ∉ m.m_current_response) →
      m.mark_ready_all bs =
        Except.ok { m with m_current_response := m.m_current_response ++ bs } := by
  induction bs with
  | nil =>
    intro m _ _ _
    simp [mshr_table.mark_ready_all]
  | cons b rest ih =>
    intro m hinv hnd hb
    have hb0 := hb b (List.mem_cons_self _ _)
    obtain ⟨a, _, hmr, hinv1⟩ := mshr_mark_ready_returns n k m b hinv hb0.1 hb0.2
    have hnd1 := List.nodup_cons.mp hnd
    have h1 := ih { m with m_current_response := m.m_current_response ++ [b] } hinv1 hnd1.2
      (by
        intro b1 hb1
        refine ⟨(hb b1 (List.mem_cons_of_mem _ hb1)).1, ?_⟩
        intro hmem
        rcases List.mem_append.mp hmem with h | h
        · exact (hb b1 (List.mem_cons_of_mem _ hb1)).2 h
        · rw [List.mem_singleton] at h
          rw [h] at hb1
          exact hnd1.1 hb1)
    simp only [mshr_table.mark_ready_all, hmr, h1, List.append_assoc, List.singleton_append]

/-! ## Lemmas on `baseline_cache::fill` -/

/-- The line `fill` leaves in the recorded way under ON_MISS: VALID, or MODIFIED when the
MSHR entry holds an atomic waiter, with the fill time stamped and the prefetch flag of the
request. -/
theorem fill_on_miss_ok (cfg : cache_config) (c : baseline_cache) (mf time : Nat)
    (e : extra_mf_fields) (a : mshr_entry)
    (hpol : cfg.m_alloc_policy = allocation_policy_t.ON_MISS)
    (hside : c.m_extra_mf_fields.lookup mf = some e)
    (hvalid : e.m_valid = true)
    (hentry : c.m_mshrs.m_data.lookup e.m_block_addr = some a)
    (hsize : c.m_mshrs.m_current_response.length < c.m_mshrs.m_data.length)
    (hpw : cfg.m_data_port_width ≠ 0) :
    c.fill cfg mf time = Except.ok
      { c with
        m_tag_array :=
          { c.m_tag_array with
            m_lines := write_line c.m_tag_array.m_lines e.m_cache_index
              { c.m_tag_array.m_lines e.m_cache_index with
                m_status := if a.m_has_atomic = true then cache_block_state.MODIFIED
                  else cache_block_state.VALID,
                m_fill_time := time,
                m_prefetch_line := (set_data_size c.heap mf e.m_data_size mf).m_is_prefetch } },
        m_mshrs := { c.m_mshrs with
          m_current_response := c.m_mshrs.m_current_response ++ [e.m_block_addr] },
        m_extra_mf_fields := map_erase c.m_extra_mf_fields mf,
        heap := set_data_size c.heap mf e.m_data_size,
        m_fill_port_occupied_cycles :=
          int_add_unsigned c.m_fill_port_occupied_cycles
            (cfg.m_line_sz / cfg.m_data_port_width) } := by
  have hlen : (c.m_mshrs.m_current_response ++ [e.m_block_addr]).length
      ≤ c.m_mshrs.m_data.length := by
    rw [List.length_append, List.length_singleton]
    exact hsize
  unfold baseline_cache.fill
  simp only [hside, hvalid, Bool.true_eq_false, if_false, hpol]
  unfold tag_array.pref_fill cache_block_t.pref_fill mshr_table.mark_ready
    baseline_cache.use_fill_port
  simp only [hpol, hentry, not_not.mpr hlen, ne_eq, not_true_eq_false, if_false,
    and_false, hpw]
  cases ha : a.m_has_atomic
  · simp
  · simp only [if_true]
    congr 2
    congr 1
    funext i
    unfold write_line
    by_cases hi : i = e.m_cache_index
    · simp [hi]
    · simp [hi]

/-- A fill under ON_MISS that returns found its conditions met: the record valid, an MSHR
entry for the recorded block, room in the ready queue, and a port width other than zero. -/
theorem fill_on_miss_conditions (cfg : cache_config) (c c1 : baseline_cache) (mf time : Nat)
    (e : extra_mf_fields)
    (hpol : cfg.m_alloc_policy = allocation_policy_t.ON_MISS)
    (hside : c.m_extra_mf_fields.lookup mf = some e)
    (h : c.fill cfg mf time = Except.ok c1) :
    e.m_valid = true ∧
    (∃ a, c.m_mshrs.m_data.lookup e.m_block_addr = some a) ∧
    c.m_mshrs.m_current_response.length < c.m_mshrs.m_data.length ∧
    cfg.m_data_port_width ≠ 0 := by
  unfold baseline_cache.fill at h
  simp only [hside, hpol] at h
  by_cases hvalid : e.m_valid = true
  swap
  · have hv : e.m_valid = false := by
      cases hh : e.m_valid
      · rfl
      · exact absurd hh hvalid
    simp only [hv, if_true] at h
    cases h
  simp only [hvalid, Bool.true_eq_false, if_false] at h
  unfold tag_array.pref_fill cache_block_t.pref_fill at h
  simp only [hpol, ne_eq, not_true_eq_false, if_false] at h
  unfold mshr_table.mark_ready at h
  cases hentry : c.m_mshrs.m_data.lookup e.m_block_addr with
  | none =>
    simp only [hentry] at h
    cases h
  | some a =>
    simp only [hentry] at h
    by_cases hlen : (c.m_mshrs.m_current_response ++ [e.m_block_addr]).length
        ≤ c.m_mshrs.m_data.length
    swap
    · simp only [hlen, not_false_eq_true, if_true] at h
      cases h
    simp only [hlen, not_true_eq_false, if_false, and_false] at h
    unfold baseline_cache.use_fill_port at h
    by_cases hpw : cfg.m_data_port_width = 0
    · simp only [hpw, if_true] at h
      cases h
    · refine ⟨hvalid, ⟨a, rfl⟩, ?_, hpw⟩
      rw [List.length_append, List.length_singleton] at hlen
      exact hlen

/-! ## The invariants under the elementary changes -/

/-- Two ways of two sets at the same index are the same way of the same set. -/
theorem line_index_inj (a s1 w1 s2 w2 : Nat) (h1 : w1 < a) (h2 : w2 < a)
    (h : s1 * a + w1 = s2 * a + w2) : s1 = s2 ∧ w1 = w2 := by
  have hs : s1 = s2 := by
    rcases Nat.lt_trichotomy s1 s2 with hlt | heq | hgt
    · exfalso
      have : (s1 + 1) * a ≤ s2 * a := Nat.mul_le_mul_right a hlt
      rw [Nat.add_mul, Nat.one_mul] at this
      omega
    · exact heq
    · exfalso
      have : (s2 + 1) * a ≤ s1 * a := Nat.mul_le_mul_right a hgt
      rw [Nat.add_mul, Nat.one_mul] at this
      omega
  refine ⟨hs, ?_⟩
  rw [hs] at h
  omega

/-- Rewriting a line keeps the tags unique when the tag stays and the line does not leave
the status INVALID. -/
theorem unique_tags_rewrite (cfg : cache_config) (lines : Nat → cache_block_t) (idx : Nat)
    (line : cache_block_t) (htag : line.m_tag = (lines idx).m_tag)
    (hst : line.m_status ≠ cache_block_state.INVALID →
      (lines idx).m_status ≠ cache_block_state.INVALID)
    (hu : unique_tags cfg lines) : unique_tags cfg (write_line lines idx line) := by
  have htag1 : ∀ i, (write_line lines idx line i).m_tag = (lines i).m_tag := by
    intro i
    unfold write_line
    split_ifs with hi
    · rw [hi]
      exact htag
    · rfl
  have hst1 : ∀ i, (write_line lines idx line i).m_status ≠ cache_block_state.INVALID →
      (lines i).m_status ≠ cache_block_state.INVALID := by
    intro i
    unfold write_line
    split_ifs with hi
    · rw [hi]
      exact hst
    · exact id
  intro s w1 w2 hw1 hw2 hne h1 h2
  unfold set_line at h1 h2 ⊢
  rw [htag1, htag1]
  exact hu s w1 w2 hw1 hw2 hne (hst1 _ h1) (hst1 _ h2)

/-- Installing a tag in a way of its set keeps the tags unique when the scan of the set
found no hit for the tag. -/
theorem unique_tags_install (cfg : cache_config) (lines : Nat → cache_block_t)
    (a idx w : Nat) (line : cache_block_t)
    (hw : w < cfg.m_assoc) (hidx : idx = cfg.set_index a * cfg.m_assoc + w)
    (hno : ∀ w1, w1 < cfg.m_assoc → ¬ tag_hit cfg lines (cfg.set_index a) (cfg.tag a) w1)
    (htag : line.m_tag = cfg.tag a)
    (hu : unique_tags cfg lines) : unique_tags cfg (write_line lines idx line) := by
  intro s w1 w2 hw1 hw2 hne h1 h2
  unfold set_line write_line at h1 h2 ⊢
  by_cases e1 : s * cfg.m_assoc + w1 = idx
  · have hi1 := line_index_inj cfg.m_assoc s w1 (cfg.set_index a) w hw1 hw (e1.trans hidx)
    have e2 : ¬ s * cfg.m_assoc + w2 = idx := by
      intro e2
      have hi2 := line_index_inj cfg.m_assoc s w2 (cfg.set_index a) w hw2 hw (e2.trans hidx)
      exact hne (hi1.2.trans hi2.2.symm)
    simp only [e1, e2, if_true, if_false] at h1 h2 ⊢
    rw [htag]
    intro heq
    apply hno w2 hw2
    unfold tag_hit set_line
    rw [← hi1.1]
    exact ⟨heq.symm, h2⟩
  · by_cases e2 : s * cfg.m_assoc + w2 = idx
    · have hi2 := line_index_inj cfg.m_assoc s w2 (cfg.set_index a) w hw2 hw (e2.trans hidx)
      simp only [e1, e2, if_true, if_false] at h1 h2 ⊢
      rw [htag]
      intro heq
      apply hno w1 hw1
      unfold tag_hit set_line
      rw [← hi2.1]
      exact ⟨heq, h1⟩
    · simp only [e1, e2, if_false] at h1 h2 ⊢
      exact hu s w1 w2 hw1 hw2 hne h1 h2

/-- Every elementary change keeps the tags of each set unique. -/
theorem unique_tags_step (cfg : cache_config) (s s1 : core_state)
    (h : core_step cfg s s1) (hu : unique_tags cfg s.lines) : unique_tags cfg s1.lines := by
  cases h with
  | touch idx line htag hst =>
    exact unique_tags_rewrite cfg s.lines idx line htag (fun h => by rw [← hst]; exact h) hu
  | install a idx w line hw hidx _ hno htag =>
    exact unique_tags_install cfg s.lines a idx w line hw hidx hno htag hu
  | hit_status idx st hvalid _ =>
    refine unique_tags_rewrite cfg s.lines idx _ rfl ?_ hu
    intro _
    rcases hvalid with h | h <;> rw [h] <;> decide
  | add block_addr mf isatomic m1 _ => exact hu
  | enlist block_addr mf isatomic m1 p idx sz _ _ _ => exact hu
  | push mf _ => exact hu
  | pop mf rest _ => exact hu
  | fill_on_miss p e line m1 has_atomic _ _ hres htag _ =>
    refine unique_tags_rewrite cfg s.lines e.m_cache_index line htag ?_ hu
    intro _
    rw [hres]
    decide
  | retire p e m1 has_atomic _ _ _ => exact hu
  | drain mf m1 _ => exact hu

theorem unique_tags_reach (cfg : cache_config) (s s1 : core_state)
    (h : core_reach cfg s s1) (hu : unique_tags cfg s.lines) : unique_tags cfg s1.lines := by
  induction h with
  | refl => exact hu
  | tail _ hstep ih => exact unique_tags_step cfg _ _ hstep ih

/-- Every elementary change keeps the demand miss queue within its size. -/
theorem queue_bound_step (cfg : cache_config) (s s1 : core_state)
    (h : core_step cfg s s1) (hq : s.queue.length ≤ cfg.m_miss_queue_size) :
    s1.queue.length ≤ cfg.m_miss_queue_size := by
  cases h with
  | touch idx line _ _ => exact hq
  | install a idx w line _ _ _ _ _ => exact hq
  | hit_status idx st _ _ => exact hq
  | add block_addr mf isatomic m1 _ => exact hq
  | enlist block_addr mf isatomic m1 p idx sz _ _ _ => exact hq
  | push mf hlt =>
    simp only [List.length_append, List.length_singleton]
    omega
  | pop mf rest hpop =>
    rw [hpop] at hq
    simp only [List.length_cons] at hq
    simp only
    omega
  | fill_on_miss p e line m1 has_atomic _ _ _ _ _ => exact hq
  | retire p e m1 has_atomic _ _ _ => exact hq
  | drain mf m1 _ => exact hq

theorem queue_bound_reach (cfg : cache_config) (s s1 : core_state)
    (h : core_reach cfg s s1) (hq : s.queue.length ≤ cfg.m_miss_queue_size) :
    s1.queue.length ≤ cfg.m_miss_queue_size := by
  induction h with
  | refl => exact hq
  | tail _ hstep ih => exact queue_bound_step cfg _ _ hstep ih

/-- What a call of `mark_ready` that returns has done. -/
theorem mshr_mark_ready_ok (m m1 : mshr_table) (b : Nat) (ha : Bool)
    (h : m.mark_ready b = Except.ok (m1, ha)) :
    m1 = { m with m_current_response := m.m_current_response ++ [b] } ∧
    (m.m_data.lookup b).isSome = true := by
  unfold mshr_table.mark_ready at h
  cases hlk : m.m_data.lookup b with
  | none =>
    simp only [hlk] at h
    cases h
  | some a =>
    simp only [hlk] at h
    split_ifs at h
    have h1 := (Prod.mk.inj (Except.ok.inj h)).1
    exact ⟨h1.symm, rfl⟩

/-- What a call of `next_access` that returns has done to the table: the ready queue
started with a block, and either its entry was erased and the queue advanced, or its entry
was rewritten and the queue left alone. -/
theorem mshr_next_access_ok (m m1 : mshr_table) (x : Nat)
    (h : m.next_access = Except.ok (x, m1)) :
    ∃ b rest, m.m_current_response = b :: rest ∧
      ((m1.m_data = map_erase m.m_data b ∧ m1.m_current_response = rest) ∨
       (∃ e, m1.m_data = map_set m.m_data b e ∧
          m1.m_current_response = m.m_current_response)) := by
  unfold mshr_table.next_access at h
  cases hr : m.m_current_response with
  | nil =>
    simp only [hr] at h
    cases h
  | cons b rest =>
    simp only [hr] at h
    refine ⟨b, rest, rfl, ?_⟩
    split at h
    · cases h
    · split_ifs at h
      · have h1 := (Prod.mk.inj (Except.ok.inj h)).2
        left
        rw [← h1]
        exact ⟨rfl, rfl⟩
      · have h1 := (Prod.mk.inj (Except.ok.inj h)).2
        right
        rw [← h1]
        exact ⟨_, rfl, rfl⟩

/-- Under ON_MISS and a tag function that tells the blocks of a set apart, every
elementary change keeps the invariant of the pending misses. -/
theorem pending_inv_step (cfg : cache_config)
    (hpol : cfg.m_alloc_policy = allocation_policy_t.ON_MISS)
    (hinj : tag_identifies_block cfg) (s s1 : core_state)
    (h : core_step cfg s s1) (hinv : pending_inv cfg s) : pending_inv cfg s1 := by
  cases h with
  | touch idx line htag hst =>
    refine ⟨?_, hinv.entry, hinv.distinct, hinv.ready_nodup, hinv.ready_bound⟩
    intro p e hp
    obtain ⟨h1, h2, h3, h4⟩ := hinv.reserved p e hp
    refine ⟨?_, ?_, h3, h4⟩
    · simp only [write_line]
      split_ifs with hi
      · rw [hst, ← hi]; exact h1
      · exact h1
    · simp only [write_line]
      split_ifs with hi
      · rw [htag, ← hi]; exact h2
      · exact h2
  | install a idx w line hw hidx hnr hno htag =>
    refine ⟨?_, hinv.entry, hinv.distinct, hinv.ready_nodup, hinv.ready_bound⟩
    intro p e hp
    obtain ⟨h1, h2, h3, h4⟩ := hinv.reserved p e hp
    have hne : e.m_cache_index ≠ idx := by
      intro heq
      rw [heq] at h1
      exact hnr h1
    simp only [write_line, hne, if_false]
    exact ⟨h1, h2, h3, h4⟩
  | hit_status idx st hvalid _ =>
    refine ⟨?_, hinv.entry, hinv.distinct, hinv.ready_nodup, hinv.ready_bound⟩
    intro p e hp
    obtain ⟨h1, h2, h3, h4⟩ := hinv.reserved p e hp
    have hne : e.m_cache_index ≠ idx := by
      intro heq
      rw [heq] at h1
      rcases hvalid with h | h <;> rw [h] at h1 <;> cases h1
    simp only [write_line, hne, if_false]
    exact ⟨h1, h2, h3, h4⟩
  | add block_addr mf isatomic m1 hadd =>
    obtain ⟨hsome, hother, hready⟩ := mshr_add_lookup s.mshrs m1 block_addr mf isatomic hadd
    have hkeep : ∀ b, (s.mshrs.m_data.lookup b).isSome = true →
        (m1.m_data.lookup b).isSome = true := by
      intro b hb
      by_cases hbb : b = block_addr
      · rw [hbb]; exact hsome
      · rw [hother b hbb]; exact hb
    refine ⟨hinv.reserved, ?_, hinv.distinct, ?_, ?_⟩
    · intro p e hp
      obtain ⟨h1, h2⟩ := hinv.entry p e hp
      exact ⟨hkeep _ h1, by simp only [hready]; exact h2⟩
    · simp only [hready]; exact hinv.ready_nodup
    · intro b hb
      simp only [hready] at hb
      exact hkeep b (hinv.ready_bound b hb)
  | enlist block_addr mf isatomic m1 p idx sz hnone hadd hline =>
    obtain ⟨hsome, hother, hready⟩ := mshr_add_lookup s.mshrs m1 block_addr mf isatomic hadd
    obtain ⟨hrange, hway, hres, htag⟩ := hline hpol
    have hkeep : ∀ b, (s.mshrs.m_data.lookup b).isSome = true →
        (m1.m_data.lookup b).isSome = true := by
      intro b hb
      by_cases hbb : b = block_addr
      · rw [hbb]; exact hsome
      · rw [hother b hbb]; exact hb
    have hfresh : block_addr ∉ s.mshrs.m_current_response := by
      intro hmem
      have := hinv.ready_bound block_addr hmem
      rw [hnone] at this
      cases this
    have hold : ∀ q f, s.side.lookup q = some f → f.m_block_addr ≠ block_addr := by
      intro q f hq heq
      have := (hinv.entry q f hq).1
      rw [heq, hnone] at this
      cases this
    refine ⟨?_, ?_, ?_, ?_, ?_⟩
    · intro q f hq
      simp only [lookup_map_set] at hq
      split_ifs at hq with hqp
      · have hf := Option.some.inj hq
        rw [← hf]
        exact ⟨hres, htag, hway, hrange⟩
      · exact hinv.reserved q f hq
    · intro q f hq
      simp only [lookup_map_set] at hq
      simp only [hready]
      split_ifs at hq with hqp
      · have hf := Option.some.inj hq
        rw [← hf]
        exact ⟨hsome, hfresh⟩
      · obtain ⟨h1, h2⟩ := hinv.entry q f hq
        exact ⟨hkeep _ h1, h2⟩
    · intro q1 q2 f1 f2 hne h1 h2
      simp only [lookup_map_set] at h1 h2
      split_ifs at h1 with e1
      · split_ifs at h2 with e2
        · exact absurd (e1.trans e2.symm) hne
        · have hf := Option.some.inj h1
          rw [← hf]
          exact fun heq => hold q2 f2 h2 heq.symm
      · split_ifs at h2 with e2
        · have hf := Option.some.inj h2
          rw [← hf]
          exact hold q1 f1 h1
        · exact hinv.distinct q1 q2 f1 f2 hne h1 h2
    · simp only [hready]; exact hinv.ready_nodup
    · intro b hb
      simp only [hready] at hb
      exact hkeep b (hinv.ready_bound b hb)
  | push mf _ =>
    exact ⟨hinv.reserved, hinv.entry, hinv.distinct, hinv.ready_nodup, hinv.ready_bound⟩
  | pop mf rest _ =>
    exact ⟨hinv.reserved, hinv.entry, hinv.distinct, hinv.ready_nodup, hinv.ready_bound⟩
  | fill_on_miss p e line m1 has_atomic _ hp hres htag hmark =>
    obtain ⟨hm1, hsome⟩ := mshr_mark_ready_ok s.mshrs m1 e.m_block_addr has_atomic hmark
    obtain ⟨_, hptag, ⟨wp, hwp, hpidx⟩, ⟨ap, hap⟩⟩ := hinv.reserved p e hp
    obtain ⟨_, hpready⟩ := hinv.entry p e hp
    have hothers : ∀ q f, (map_erase s.side p).lookup q = some f →
        q ≠ p ∧ s.side.lookup q = some f := by
      intro q f hq
      simp only [lookup_map_erase] at hq
      split_ifs at hq with hqp
      exact ⟨hqp, hq⟩
    subst hm1
    refine ⟨?_, ?_, ?_, ?_, ?_⟩
    · intro q f hq
      obtain ⟨hqp, hq1⟩ := hothers q f hq
      obtain ⟨h1, h2, ⟨wq, hwq, hqidx⟩, ⟨aq, haq⟩⟩ := hinv.reserved q f hq1
      have hne : f.m_cache_index ≠ e.m_cache_index := by
        intro heq
        have hset := (line_index_inj cfg.m_assoc _ wq _ wp hwq hwp
          (hqidx.symm.trans (heq.trans hpidx))).1
        have htags : cfg.tag f.m_block_addr = cfg.tag e.m_block_addr := by
          rw [← h2, ← hptag, heq]
        rw [haq, hap] at htags hset
        have := hinj aq ap htags hset
        rw [← haq, ← hap] at this
        exact hinv.distinct q p f e hqp hq1 hp this
      simp only [write_line, hne, if_false]
      exact ⟨h1, h2, ⟨wq, hwq, hqidx⟩, ⟨aq, haq⟩⟩
    · intro q f hq
      obtain ⟨hqp, hq1⟩ := hothers q f hq
      obtain ⟨h1, h2⟩ := hinv.entry q f hq1
      refine ⟨h1, ?_⟩
      intro hmem
      rcases List.mem_append.mp hmem with h | h
      · exact h2 h
      · rw [List.mem_singleton] at h
        exact hinv.distinct q p f e hqp hq1 hp h
    · intro q1 q2 f1 f2 hne h1 h2
      exact hinv.distinct q1 q2 f1 f2 hne (hothers q1 f1 h1).2 (hothers q2 f2 h2).2
    · show (s.mshrs.m_current_response ++ [e.m_block_addr]).Nodup
      rw [List.nodup_append]
      refine ⟨hinv.ready_nodup, List.nodup_singleton _, ?_⟩
      intro x hx hx1
      rw [List.mem_singleton] at hx1
      rw [hx1] at hx
      exact hpready hx
    · intro b hb
      rcases List.mem_append.mp hb with h | h
      · exact hinv.ready_bound b h
      · rw [List.mem_singleton] at h
        rw [h]
        exact hsome
  | retire p e m1 has_atomic hfill _ _ =>
    rw [hpol] at hfill
    cases hfill
  | drain mf m1 hna =>
    obtain ⟨b, rest, hready, hcase⟩ := mshr_next_access_ok s.mshrs m1 mf hna
    have hnd : (b :: rest).Nodup := by rw [← hready]; exact hinv.ready_nodup
    rcases hcase with ⟨hd, hr⟩ | ⟨e1, hd, hr⟩
    · refine ⟨hinv.reserved, ?_, hinv.distinct, ?_, ?_⟩
      · intro p e hp
        obtain ⟨h1, h2⟩ := hinv.entry p e hp
        have hne : e.m_block_addr ≠ b := by
          intro heq
          apply h2
          rw [hready, heq]
          exact List.mem_cons_self _ _
        refine ⟨?_, ?_⟩
        · simp only [hd, lookup_map_erase, hne, if_false]
          exact h1
        · simp only [hr]
          intro hmem
          apply h2
          rw [hready]
          exact List.mem_cons_of_mem _ hmem
      · simp only [hr]
        exact (List.nodup_cons.mp hnd).2
      · intro b1 hb1
        simp only [hr] at hb1
        have hne : b1 ≠ b := by
          intro heq
          rw [heq] at hb1
          exact (List.nodup_cons.mp hnd).1 hb1
        simp only [hd, lookup_map_erase, hne, if_false]
        exact hinv.ready_bound b1 (by rw [hready]; exact List.mem_cons_of_mem _ hb1)
    · have hkeep : ∀ b1, (s.mshrs.m_data.lookup b1).isSome = true →
          (m1.m_data.lookup b1).isSome = true := by
        intro b1 hb1
        rw [hd, lookup_map_set]
        split_ifs
        · rfl
        · exact hb1
      refine ⟨hinv.reserved, ?_, hinv.distinct, ?_, ?_⟩
      · intro p e hp
        obtain ⟨h1, h2⟩ := hinv.entry p e hp
        exact ⟨hkeep _ h1, by simp only [hr]; exact h2⟩
      · simp only [hr]; exact hinv.ready_nodup
      · intro b1 hb1
        simp only [hr] at hb1
        exact hkeep b1 (hinv.ready_bound b1 hb1)

theorem pending_inv_reach (cfg : cache_config)
    (hpol : cfg.m_alloc_policy = allocation_policy_t.ON_MISS)
    (hinj : tag_identifies_block cfg) (s s1 : core_state)
    (h : core_reach cfg s s1) (hinv : pending_inv cfg s) : pending_inv cfg s1 := by
  induction h with
  | refl => exact hinv
  | tail _ hstep ih => exact pending_inv_step cfg hpol hinj _ _ hstep ih

/-! ## The calls of the tag array as elementary changes -/

/-- The way a `MISS` of `probe` returns is a way of the set of the address. -/
theorem probe_miss_way (cfg : cache_config) (t : tag_array) (addr idx0 idx : Nat)
    (h : tag_array.probe cfg t addr idx0 = Except.ok (cache_request_status.MISS, idx)) :
    ∃ w, w < cfg.m_assoc ∧ idx = cfg.set_index addr * cfg.m_assoc + w := by
  have hI := invalid_inv_after cfg t.m_lines (cfg.set_index addr) cfg.m_assoc
  have hV := (victim_inv_after cfg t.m_lines (cfg.set_index addr) cfg.m_assoc).pick
  rcases (probe_miss_inv cfg t addr idx0 idx h).2.2 with ⟨hne, hidx⟩ | ⟨_, hne, hidx⟩
  · rcases hI with ⟨heq, _⟩ | ⟨w, hw, hline, _⟩
    · exact absurd heq hne
    · exact ⟨w, hw, hidx.trans hline⟩
  · rcases hV with ⟨heq, _⟩ | ⟨w, hw, hline, _⟩
    · exact absurd heq hne
    · exact ⟨w, hw, hidx.trans hline⟩

/-- A call of `tag_array::access` that returned has probed with the status and the way it
reports, and left the lines of `lines_after_access`. -/
theorem access_ok_inv (cfg : cache_config) (t : tag_array) (addr time idx0 : Nat)
    (wb0 : Bool) (ev0 : cache_block_t) (r : tag_access_result)
    (h : tag_array.access cfg t addr time idx0 wb0 ev0 = Except.ok r) :
    tag_array.probe cfg t addr idx0 = Except.ok (r.status, r.idx) ∧
    r.tags.m_lines = lines_after_access cfg t.m_lines addr time r.status r.idx := by
  cases hp : tag_array.probe cfg t addr idx0 with
  | error f =>
    have hp1 : tag_array.probe cfg { t with m_access := u32 (t.m_access + 1) } addr idx0 =
        Except.error f := (probe_lines_only cfg t _ addr idx0 rfl).trans hp
    unfold tag_array.access at h
    simp only [hp1] at h
    cases h
  | ok p =>
    obtain ⟨st, idx⟩ := p
    obtain ⟨r1, hr1, hst, hidx, hlines, _, _⟩ :=
      access_result cfg t addr time idx0 wb0 ev0 st idx hp
    rw [hr1] at h
    have h1 := Except.ok.inj h
    subst h1
    rw [hst, hidx]
    exact ⟨rfl, hlines⟩

/-- The same for the three-argument `access`. -/
theorem access3_ok_inv (cfg : cache_config) (t : tag_array) (addr time idx0 : Nat)
    (st : cache_request_status) (idx : Nat) (tags : tag_array)
    (h : tag_array.access3 cfg t addr time idx0 = Except.ok (st, idx, tags)) :
    tag_array.probe cfg t addr idx0 = Except.ok (st, idx) ∧
    tags.m_lines = lines_after_access cfg t.m_lines addr time st idx := by
  unfold tag_array.access3 at h
  cases ha : tag_array.access cfg t addr time idx0 false empty_line with
  | error f =>
    simp only [ha] at h
    cases h
  | ok r =>
    simp only [ha] at h
    split_ifs at h
    have h1 := Prod.mk.inj (Except.ok.inj h)
    have h2 := Prod.mk.inj h1.2
    obtain ⟨hp, hl⟩ := access_ok_inv cfg t addr time idx0 false empty_line r ha
    rw [← h1.1, ← h2.1, ← h2.2]
    exact ⟨hp, hl⟩

/-- The lines of an access are reached by an elementary change, or are the lines before. -/
theorem lines_after_access_reach (cfg : cache_config) (t : tag_array) (addr time idx0 : Nat)
    (st : cache_request_status) (idx : Nat)
    (hprobe : tag_array.probe cfg t addr idx0 = Except.ok (st, idx))
    (m : mshr_table) (side : List (Nat × extra_mf_fields)) (q : List Nat) :
    core_reach cfg { lines := t.m_lines, mshrs := m, side := side, queue := q }
      { lines := lines_after_access cfg t.m_lines addr time st idx, mshrs := m, side := side,
        queue := q } := by
  cases st with
  | HIT =>
    exact Relation.ReflTransGen.single
      (core_step.touch { lines := t.m_lines, mshrs := m, side := side, queue := q } idx _
        rfl rfl)
  | HIT_RESERVED =>
    exact Relation.ReflTransGen.single
      (core_step.touch { lines := t.m_lines, mshrs := m, side := side, queue := q } idx _
        rfl rfl)
  | MISS =>
    unfold lines_after_access
    simp only
    split_ifs with hpol
    · obtain ⟨w, hw, hidx⟩ := probe_miss_way cfg t addr idx0 idx hprobe
      obtain ⟨hno, hnr, _⟩ := probe_miss_inv cfg t addr idx0 idx hprobe
      exact Relation.ReflTransGen.single
        (core_step.install { lines := t.m_lines, mshrs := m, side := side, queue := q } addr
          idx w _ hw hidx hnr hno rfl)
    · exact Relation.ReflTransGen.refl
  | RESERVATION_FAIL => exact Relation.ReflTransGen.refl

/-- After an access whose probe hit, the line of the way is VALID or MODIFIED. -/
theorem lines_after_access_hit (cfg : cache_config) (t : tag_array) (addr time idx0 idx : Nat)
    (hprobe : tag_array.probe cfg t addr idx0 = Except.ok (cache_request_status.HIT, idx)) :
    (lines_after_access cfg t.m_lines addr time cache_request_status.HIT idx idx).m_status
        = cache_block_state.VALID ∨
    (lines_after_access cfg t.m_lines addr time cache_request_status.HIT idx idx).m_status
        = cache_block_state.MODIFIED := by
  obtain ⟨w, _, hidx, hhit, hs⟩ := probe_hit_inv cfg t addr idx0 idx _ hprobe (Or.inl rfl)
  unfold lines_after_access write_line
  simp only [if_true]
  unfold hit_status at hs
  cases h : (t.m_lines idx).m_status
  · unfold tag_hit set_line at hhit
    rw [← hidx] at hhit
    exact absurd h hhit.2
  · rw [h] at hs; simp at hs
  · exact Or.inl rfl
  · exact Or.inr rfl

/-- After an access whose probe found the line RESERVED or missed under ON_MISS, the line
of the way is RESERVED, holds the tag of the address and lies in the set of the address. -/
theorem lines_after_access_reserved (cfg : cache_config) (t : tag_array)
    (addr time idx0 : Nat) (st : cache_request_status) (idx : Nat)
    (hpol : cfg.m_alloc_policy = allocation_policy_t.ON_MISS)
    (hprobe : tag_array.probe cfg t addr idx0 = Except.ok (st, idx))
    (hst : st = cache_request_status.MISS ∨ st = cache_request_status.HIT_RESERVED) :
    (∃ w, w < cfg.m_assoc ∧ idx = cfg.set_index addr * cfg.m_assoc + w) ∧
    (lines_after_access cfg t.m_lines addr time st idx idx).m_status
      = cache_block_state.RESERVED ∧
    (lines_after_access cfg t.m_lines addr time st idx idx).m_tag = cfg.tag addr := by
  rcases hst with hst | hst
  · subst hst
    refine ⟨probe_miss_way cfg t addr idx0 idx hprobe, ?_, ?_⟩
    · simp [lines_after_access, hpol, write_line, cache_block_t.allocate]
    · simp [lines_after_access, hpol, write_line, cache_block_t.allocate]
  · subst hst
    obtain ⟨w, hw, hidx, hhit, hs⟩ := probe_hit_inv cfg t addr idx0 idx _ hprobe (Or.inr rfl)
    have hres : (t.m_lines idx).m_status = cache_block_state.RESERVED := by
      unfold hit_status at hs
      by_contra hne
      rw [if_neg hne] at hs
      cases hs
    refine ⟨⟨w, hw, hidx⟩, ?_, ?_⟩
    · simp [lines_after_access, write_line, hres]
    · unfold tag_hit set_line at hhit
      rw [← hidx] at hhit
      simp [lines_after_access, write_line, hhit.1]

/-! ## `send_read_request` and the policy handlers as elementary changes -/

/-- The tag-array access of `send_read_request` for a cache that is not read-only. -/
theorem send_read_tag_access_inv (cfg : cache_config) (t : tag_array)
    (block_addr time cache_index : Nat) (wb : Bool) (evicted : cache_block_t)
    (tags : tag_array) (idx : Nat) (wb1 : Bool) (ev1 : cache_block_t)
    (h : send_read_tag_access cfg false t block_addr time cache_index wb evicted
      = Except.ok (tags, idx, wb1, ev1)) :
    ∃ st, tag_array.probe cfg t block_addr cache_index = Except.ok (st, idx) ∧
      tags.m_lines = lines_after_access cfg t.m_lines block_addr time st idx := by
  unfold send_read_tag_access at h
  simp only [Bool.false_eq_true, if_false] at h
  cases ha : tag_array.access cfg t block_addr time cache_index wb evicted with
  | error f =>
    simp only [ha] at h
    cases h
  | ok r =>
    simp only [ha] at h
    have h1 := Prod.mk.inj (Except.ok.inj h)
    have h2 := Prod.mk.inj h1.2
    obtain ⟨hp, hl⟩ := access_ok_inv cfg t block_addr time cache_index wb evicted r ha
    rw [← h1.1, ← h2.1]
    exact ⟨r.status, hp, hl⟩

/-- A call of `send_read_request` of a data cache is a sequence of elementary changes,
provided the probe of the block does not hit a VALID or MODIFIED line and the block address
is one; the demand miss queue grows by one request at most. -/
theorem send_read_request_reach (cfg : cache_config) (c : baseline_cache)
    (addr block_addr cache_index mf time : Nat) (do_miss wb : Bool)
    (evicted : cache_block_t) (events : List cache_event) (wa : Bool)
    (r : read_request_result)
    (h : c.send_read_request cfg addr block_addr cache_index mf time do_miss wb evicted
        events false wa = Except.ok r)
    (hB : ∃ a, block_addr = cfg.block_addr a)
    (hst : ∀ st idx, tag_array.probe cfg c.m_tag_array block_addr cache_index
        = Except.ok (st, idx) →
      st = cache_request_status.MISS ∨ st = cache_request_status.HIT_RESERVED) :
    core_reach cfg c.core r.cache.core ∧
    r.cache.m_miss_queue.length ≤ c.m_miss_queue.length + 1 := by
  unfold baseline_cache.send_read_request at h
  simp only [Bool.not_eq_true'] at h
  by_cases h1 : c.m_mshrs.probe block_addr = true ∧ c.m_mshrs.full block_addr = false
  · rw [if_pos h1] at h
    cases hta : send_read_tag_access cfg false c.m_tag_array block_addr time cache_index wb
        evicted with
    | error f =>
      simp only [hta] at h
      cases h
    | ok ta =>
      obtain ⟨tags, idx, wb1, ev1⟩ := ta
      simp only [hta] at h
      cases hadd : c.m_mshrs.add block_addr mf (c.heap mf).m_isatomic with
      | error f =>
        simp only [hadd] at h
        cases h
      | ok m1 =>
        simp only [hadd] at h
        have h3 := Except.ok.inj h
        subst h3
        obtain ⟨st, hp, hl⟩ := send_read_tag_access_inv cfg c.m_tag_array block_addr time
          cache_index wb evicted tags idx wb1 ev1 hta
        refine ⟨?_, Nat.le_succ _⟩
        unfold baseline_cache.core
        simp only [hl]
        exact Relation.ReflTransGen.tail
          (lines_after_access_reach cfg c.m_tag_array block_addr time cache_index st idx hp
            c.m_mshrs c.m_extra_mf_fields c.m_miss_queue)
          (core_step.add _ block_addr mf (c.heap mf).m_isatomic m1 hadd)
  · rw [if_neg h1] at h
    by_cases h2 : c.m_mshrs.probe block_addr = false ∧ c.m_mshrs.full block_addr = false ∧
        c.m_miss_queue.length < cfg.m_miss_queue_size
    · rw [if_pos h2] at h
      cases hta : send_read_tag_access cfg false c.m_tag_array block_addr time cache_index wb
          evicted with
      | error f =>
        simp only [hta] at h
        cases h
      | ok ta =>
        obtain ⟨tags, idx, wb1, ev1⟩ := ta
        simp only [hta] at h
        cases hadd : c.m_mshrs.add block_addr mf (c.heap mf).m_isatomic with
        | error f =>
          simp only [hadd] at h
          cases h
        | ok m1 =>
          simp only [hadd] at h
          have h3 := Except.ok.inj h
          subst h3
          obtain ⟨st, hp, hl⟩ := send_read_tag_access_inv cfg c.m_tag_array block_addr time
            cache_index wb evicted tags idx wb1 ev1 hta
          have hnone : c.m_mshrs.m_data.lookup block_addr = none := by
            have := h2.1
            unfold mshr_table.probe at this
            cases hlk : c.m_mshrs.m_data.lookup block_addr with
            | none => rfl
            | some e => rw [hlk] at this; cases this
          refine ⟨?_, by simp⟩
          unfold baseline_cache.core
          simp only [hl]
          refine Relation.ReflTransGen.tail (Relation.ReflTransGen.tail
            (lines_after_access_reach cfg c.m_tag_array block_addr time cache_index st idx hp
              c.m_mshrs c.m_extra_mf_fields c.m_miss_queue)
            (core_step.enlist _ block_addr mf (c.heap mf).m_isatomic m1 mf idx
              (c.heap mf).m_data_size hnone hadd ?_))
            (core_step.push _ mf h2.2.2)
          intro hpol
          obtain ⟨hway, hres, htag⟩ := lines_after_access_reserved cfg c.m_tag_array
            block_addr time cache_index st idx hpol hp (hst st idx hp)
          exact ⟨hB, hway, hres, htag⟩
    · rw [if_neg h2] at h
      have h3 := Except.ok.inj h
      subst h3
      exact ⟨Relation.ReflTransGen.refl, Nat.le_succ _⟩

/-- The line a probe hits with status `HIT` is VALID or MODIFIED. -/
theorem probe_hit_valid (cfg : cache_config) (t : tag_array) (addr idx0 idx : Nat)
    (hprobe : tag_array.probe cfg t addr idx0 = Except.ok (cache_request_status.HIT, idx)) :
    (t.m_lines idx).m_status = cache_block_state.VALID ∨
    (t.m_lines idx).m_status = cache_block_state.MODIFIED := by
  obtain ⟨w, _, hidx, hhit, hs⟩ := probe_hit_inv cfg t addr idx0 idx _ hprobe (Or.inl rfl)
  unfold hit_status at hs
  cases h : (t.m_lines idx).m_status
  · unfold tag_hit set_line at hhit
    rw [← hidx] at hhit
    exact absurd h hhit.2
  · rw [h] at hs; simp at hs
  · exact Or.inl rfl
  · exact Or.inr rfl

/-- Queueing a write is a `push`. -/
theorem send_write_request_reach (cfg : cache_config) (c : data_cache) (mf : Nat)
    (request : cache_event) (time : Nat) (events : List cache_event)
    (hq : c.m_miss_queue.length < cfg.m_miss_queue_size) :
    core_reach cfg c.core (c.send_write_request mf request time events).1.core :=
  Relation.ReflTransGen.single (core_step.push c.core mf hq)

/-- Marking the line of a hit MODIFIED or INVALID is a `hit_status`. -/
theorem set_block_status_reach (cfg : cache_config) (c : data_cache) (idx : Nat)
    (st : cache_block_state)
    (hline : (c.m_tag_array.m_lines idx).m_status = cache_block_state.VALID ∨
      (c.m_tag_array.m_lines idx).m_status = cache_block_state.MODIFIED)
    (hst : st = cache_block_state.MODIFIED ∨ st = cache_block_state.INVALID) :
    core_reach cfg c.core (c.set_block_status idx st).core :=
  Relation.ReflTransGen.single (core_step.hit_status c.core idx st hline hst)

/-- The three-argument access of a hit handler, followed by the handler's view of the line:
the access is a `touch` of the line the probe hit, which stays VALID or MODIFIED. -/
theorem access3_hit_reach (cfg : cache_config) (c : data_cache)
    (addr time cache_index : Nat) (st : cache_request_status) (idx : Nat) (tags : tag_array)
    (hprobe : tag_array.probe cfg c.m_tag_array addr cache_index
      = Except.ok (cache_request_status.HIT, cache_index))
    (h : tag_array.access3 cfg c.m_tag_array addr time cache_index
      = Except.ok (st, idx, tags)) :
    core_reach cfg c.core ({ c with m_tag_array := tags } : data_cache).core ∧
    ((tags.m_lines idx).m_status = cache_block_state.VALID ∨
      (tags.m_lines idx).m_status = cache_block_state.MODIFIED) := by
  obtain ⟨hp, hl⟩ := access3_ok_inv cfg c.m_tag_array addr time cache_index st idx tags h
  rw [hprobe] at hp
  obtain ⟨hst, hidx⟩ := Prod.mk.inj (Except.ok.inj hp)
  subst hst
  subst hidx
  constructor
  · unfold baseline_cache.core
    simp only [hl]
    exact lines_after_access_reach cfg c.m_tag_array addr time cache_index _ _ hprobe
      c.m_mshrs c.m_extra_mf_fields c.m_miss_queue
  · rw [hl]
    exact lines_after_access_hit cfg c.m_tag_array addr time cache_index cache_index hprobe

theorem wr_hit_wb_reach (cfg : cache_config) (c : data_cache)
    (addr cache_index mf time : Nat) (events : List cache_event)
    (status : cache_request_status) (r : handler_result)
    (hprobe : tag_array.probe cfg c.m_tag_array (cfg.block_addr addr) cache_index
      = Except.ok (cache_request_status.HIT, cache_index))
    (h : c.wr_hit_wb cfg addr cache_index mf time events status = Except.ok r) :
    core_reach cfg c.core r.cache.core := by
  unfold data_cache.wr_hit_wb at h
  simp only at h
  cases ha : tag_array.access3 cfg c.m_tag_array (cfg.block_addr addr) time cache_index with
  | error f =>
    simp only [ha] at h
    cases h
  | ok p =>
    obtain ⟨st, idx, tags⟩ := p
    simp only [ha] at h
    have h1 := Except.ok.inj h
    subst h1
    obtain ⟨hreach, hline⟩ := access3_hit_reach cfg c (cfg.block_addr addr) time cache_index
      st idx tags hprobe ha
    exact hreach.trans (set_block_status_reach cfg _ idx _ hline (Or.inl rfl))

theorem wr_hit_wt_reach (cfg : cache_config) (c : data_cache)
    (addr cache_index mf time : Nat) (events : List cache_event)
    (status : cache_request_status) (r : handler_result)
    (hprobe : tag_array.probe cfg c.m_tag_array (cfg.block_addr addr) cache_index
      = Except.ok (cache_request_status.HIT, cache_index))
    (h : c.wr_hit_wt cfg addr cache_index mf time events status = Except.ok r) :
    core_reach cfg c.core r.cache.core := by
  unfold data_cache.wr_hit_wt at h
  by_cases hq : c.miss_queue_full cfg 0 = true
  · rw [if_pos hq] at h
    have h1 := Except.ok.inj h
    subst h1
    exact Relation.ReflTransGen.refl
  · rw [if_neg hq] at h
    have hq1 : c.miss_queue_full cfg 0 = false := by
      cases hh : c.miss_queue_full cfg 0
      · rfl
      · exact absurd hh hq
    have hlen := (miss_queue_full_iff cfg c.tobaseline_cache 0).mp hq1
    simp only at h
    cases ha : tag_array.access3 cfg c.m_tag_array (cfg.block_addr addr) time cache_index with
    | error f =>
      simp only [ha] at h
      cases h
    | ok p =>
      obtain ⟨st, idx, tags⟩ := p
      simp only [ha] at h
      have h1 := Except.ok.inj h
      subst h1
      obtain ⟨hreach, hline⟩ := access3_hit_reach cfg c (cfg.block_addr addr) time
        cache_index st idx tags hprobe ha
      exact (hreach.trans (set_block_status_reach cfg _ idx _ hline (Or.inl rfl))).trans
        (send_write_request_reach cfg _ mf cache_event.WRITE_REQUEST_SENT time events (by
          show c.m_miss_queue.length < cfg.m_miss_queue_size
          omega))

theorem wr_hit_we_reach (cfg : cache_config) (c : data_cache)
    (addr cache_index mf time : Nat) (events : List cache_event)
    (status : cache_request_status) (r : handler_result) (a : Nat)
    (hprobe : tag_array.probe cfg c.m_tag_array a cache_index
      = Except.ok (cache_request_status.HIT, cache_index))
    (h : c.wr_hit_we cfg addr cache_index mf time events status = Except.ok r) :
    core_reach cfg c.core r.cache.core := by
  unfold data_cache.wr_hit_we at h
  by_cases hq : c.miss_queue_full cfg 0 = true
  · rw [if_pos hq] at h
    have h1 := Except.ok.inj h
    subst h1
    exact Relation.ReflTransGen.refl
  · rw [if_neg hq] at h
    have hq1 : c.miss_queue_full cfg 0 = false := by
      cases hh : c.miss_queue_full cfg 0
      · rfl
      · exact absurd hh hq
    have hlen := (miss_queue_full_iff cfg c.tobaseline_cache 0).mp hq1
    have h1 := Except.ok.inj h
    subst h1
    exact (send_write_request_reach cfg c mf cache_event.WRITE_REQUEST_SENT time events
      (by omega)).trans
      (set_block_status_reach cfg _ cache_index _
        (probe_hit_valid cfg c.m_tag_array a cache_index cache_index hprobe) (Or.inr rfl))

theorem rd_hit_base_reach (cfg : cache_config) (c : data_cache)
    (addr cache_index mf time : Nat) (events : List cache_event)
    (status : cache_request_status) (r : handler_result)
    (hprobe : tag_array.probe cfg c.m_tag_array (cfg.block_addr addr) cache_index
      = Except.ok (cache_request_status.HIT, cache_index))
    (h : c.rd_hit_base cfg addr cache_index mf time events status = Except.ok r) :
    core_reach cfg c.core r.cache.core := by
  unfold data_cache.rd_hit_base at h
  simp only at h
  cases ha : tag_array.access3 cfg c.m_tag_array (cfg.block_addr addr) time cache_index with
  | error f =>
    simp only [ha] at h
    cases h
  | ok p =>
    obtain ⟨st, idx, tags⟩ := p
    simp only [ha] at h
    obtain ⟨hreach, hline⟩ := access3_hit_reach cfg c (cfg.block_addr addr) time cache_index
      st idx tags hprobe ha
    split_ifs at h
    · have h1 := Except.ok.inj h
      subst h1
      exact hreach.trans (set_block_status_reach cfg _ idx _ hline (Or.inl rfl))
    · have h1 := Except.ok.inj h
      subst h1
      exact hreach

theorem wr_miss_no_wa_reach (cfg : cache_config) (c : data_cache)
    (addr cache_index mf time : Nat) (events : List cache_event)
    (status : cache_request_status) (r : handler_result)
    (h : c.wr_miss_no_wa cfg addr cache_index mf time events status = Except.ok r) :
    core_reach cfg c.core r.cache.core := by
  unfold data_cache.wr_miss_no_wa at h
  by_cases hq : c.miss_queue_full cfg 0 = true
  · rw [if_pos hq] at h
    have h1 := Except.ok.inj h
    subst h1
    exact Relation.ReflTransGen.refl
  · rw [if_neg hq] at h
    have hq1 : c.miss_queue_full cfg 0 = false := by
      cases hh : c.miss_queue_full cfg 0
      · rfl
      · exact absurd hh hq
    have hlen := (miss_queue_full_iff cfg c.tobaseline_cache 0).mp hq1
    have h1 := Except.ok.inj h
    subst h1
    exact send_write_request_reach cfg c mf cache_event.WRITE_REQUEST_SENT time events
      (by omega)

theorem rd_miss_base_reach (cfg : cache_config) (c : data_cache)
    (addr cache_index mf time : Nat) (events : List cache_event)
    (status : cache_request_status) (is_l1_cache : Bool) (r : handler_result)
    (hst : ∀ st idx, tag_array.probe cfg c.m_tag_array (cfg.block_addr addr) cache_index
        = Except.ok (st, idx) →
      st = cache_request_status.MISS ∨ st = cache_request_status.HIT_RESERVED)
    (h : c.rd_miss_base cfg addr cache_index mf time events status is_l1_cache
      = Except.ok r) :
    core_reach cfg c.core r.cache.core := by
  unfold data_cache.rd_miss_base at h
  by_cases hq : c.miss_queue_full cfg 1 = true
  · rw [if_pos hq] at h
    have h1 := Except.ok.inj h
    subst h1
    exact Relation.ReflTransGen.refl
  · rw [if_neg hq] at h
    have hq1 : c.miss_queue_full cfg 1 = false := by
      cases hh : c.miss_queue_full cfg 1
      · rfl
      · exact absurd hh hq
    have hlen := (miss_queue_full_iff cfg c.tobaseline_cache 1).mp hq1
    unfold data_cache.send_read_request at h
    cases hr : c.tobaseline_cache.send_read_request cfg addr (cfg.block_addr addr)
        cache_index mf time false false empty_line events false false with
    | error f =>
      simp only [hr] at h
      cases h
    | ok rr =>
      simp only [hr] at h
      obtain ⟨hreach, hlen1⟩ := send_read_request_reach cfg c.tobaseline_cache addr
        (cfg.block_addr addr) cache_index mf time false false empty_line events false rr
        hr ⟨addr, rfl⟩ hst
      split_ifs at h
      · have h1 := Except.ok.inj h
        subst h1
        refine hreach.trans (Relation.ReflTransGen.single ?_)
        exact core_step.push rr.cache.core _ (by
          show rr.cache.m_miss_queue.length < cfg.m_miss_queue_size
          omega)
      · have h1 := Except.ok.inj h
        subst h1
        exact hreach
      · have h1 := Except.ok.inj h
        subst h1
        exact hreach

theorem wr_miss_wa_reach (cfg : cache_config) (c : data_cache)
    (addr cache_index mf time : Nat) (events : List cache_event)
    (status : cache_request_status) (r : handler_result)
    (hst : ∀ st idx, tag_array.probe cfg c.m_tag_array (cfg.block_addr addr) cache_index
        = Except.ok (st, idx) →
      st = cache_request_status.MISS ∨ st = cache_request_status.HIT_RESERVED)
    (h : c.wr_miss_wa cfg addr cache_index mf time events status = Except.ok r) :
    core_reach cfg c.core r.cache.core := by
  simp only [data_cache.wr_miss_wa] at h
  split_ifs at h with hg
  · have h1 := Except.ok.inj h
    subst h1
    exact Relation.ReflTransGen.refl
  · rw [not_or] at hg
    have hq1 : c.miss_queue_full cfg 2 = false := by
      cases hh : c.miss_queue_full cfg 2
      · rfl
      · exact absurd hh hg.1
    have hlen := (miss_queue_full_iff cfg c.tobaseline_cache 2).mp hq1
    have hpush := send_write_request_reach cfg c mf cache_event.WRITE_REQUEST_SENT time events
      (by omega)
    unfold data_cache.send_read_request at h
    split at h
    · cases h
    · rename_i c2 do_miss wb evicted events2 heq
      split at heq
      · cases heq
      · rename_i rr hr
        have heq1 := Prod.mk.inj (Except.ok.inj heq)
        obtain ⟨hreach, hlen1⟩ := send_read_request_reach cfg _ _ _ _ _ _ _ _ _ _ _ rr
          hr ⟨addr, rfl⟩ hst
        have hc2 : c2.core = rr.cache.core := by rw [← heq1.1]
        have hc2q : c2.m_miss_queue = rr.cache.m_miss_queue := by rw [← heq1.1]
        have hreach2 : core_reach cfg c.core c2.core := by
          rw [hc2]
          exact hpush.trans hreach
        simp only [data_cache.send_write_request, baseline_cache.alloc_mf,
          List.length_append, List.length_singleton] at hlen1
        split_ifs at h
        · have h1 := Except.ok.inj h
          subst h1
          refine hreach2.trans (Relation.ReflTransGen.single ?_)
          exact core_step.push c2.core _ (by
            show c2.m_miss_queue.length < cfg.m_miss_queue_size
            rw [hc2q]
            omega)
        · have h1 := Except.ok.inj h
          subst h1
          exact hreach2
        · have h1 := Except.ok.inj h
          subst h1
          exact hreach2

theorem use_data_port_core (cfg : cache_config) (c c1 : data_cache) (mf : Nat)
    (outcome : cache_request_status) (events : List cache_event)
    (h : c.use_data_port cfg mf outcome events = Except.ok c1) : c1.core = c.core := by
  unfold data_cache.use_data_port at h
  cases outcome <;> simp only at h <;> (try split_ifs at h) <;>
    (have h1 := Except.ok.inj h
     subst h1
     rfl)

theorem m_wr_hit_reach (cfg : cache_config) (c : data_cache)
    (addr cache_index mf time : Nat) (events : List cache_event)
    (status : cache_request_status) (r : handler_result)
    (hprobe : tag_array.probe cfg c.m_tag_array (cfg.block_addr addr) cache_index
      = Except.ok (cache_request_status.HIT, cache_index))
    (h : c.m_wr_hit cfg addr cache_index mf time events status = Except.ok r) :
    core_reach cfg c.core r.cache.core := by
  unfold data_cache.m_wr_hit at h
  cases hp : cfg.m_write_policy <;> simp only [hp] at h
  · cases h
  · exact wr_hit_wb_reach cfg c addr cache_index mf time events status r hprobe h
  · exact wr_hit_wt_reach cfg c addr cache_index mf time events status r hprobe h
  · exact wr_hit_we_reach cfg c addr cache_index mf time events status r _ hprobe h
  · unfold data_cache.wr_hit_global_we_local_wb at h
    split_ifs at h
    · exact wr_hit_we_reach cfg c addr cache_index mf time events status r _ hprobe h
    · exact wr_hit_wb_reach cfg c addr cache_index mf time events status r hprobe h

theorem m_wr_miss_reach (cfg : cache_config) (c : data_cache)
    (addr cache_index mf time : Nat) (events : List cache_event)
    (status : cache_request_status) (r : handler_result)
    (hst : ∀ st idx, tag_array.probe cfg c.m_tag_array (cfg.block_addr addr) cache_index
        = Except.ok (st, idx) →
      st = cache_request_status.MISS ∨ st = cache_request_status.HIT_RESERVED)
    (h : c.m_wr_miss cfg addr cache_index mf time events status = Except.ok r) :
    core_reach cfg c.core r.cache.core := by
  unfold data_cache.m_wr_miss at h
  cases hp : cfg.m_write_alloc_policy <;> simp only [hp] at h
  · exact wr_miss_no_wa_reach cfg c addr cache_index mf time events status r h
  · exact wr_miss_wa_reach cfg c addr cache_index mf time events status r hst h

/-- A call of `process_tag_probe` with the status and the way the probe of the block just
returned is a sequence of elementary changes. -/
theorem process_tag_probe_reach (cfg : cache_config) (c : data_cache) (wr : Bool)
    (probe_status : cache_request_status) (addr cache_index mf time : Nat)
    (events : List cache_event) (is_l1_cache : Bool) (r : handler_result)
    (hprobe : tag_array.probe cfg c.m_tag_array (cfg.block_addr addr) UINT_MAX
      = Except.ok (probe_status, cache_index))
    (h : c.process_tag_probe cfg wr probe_status addr cache_index mf time events is_l1_cache
      = Except.ok r) :
    core_reach cfg c.core r.cache.core := by
  have hp1 : probe_status ≠ cache_request_status.RESERVATION_FAIL →
      tag_array.probe cfg c.m_tag_array (cfg.block_addr addr) cache_index
        = Except.ok (probe_status, cache_index) :=
    fun hne => probe_idx_irrelevant cfg c.m_tag_array (cfg.block_addr addr) UINT_MAX
      cache_index probe_status cache_index hprobe hne
  have hmiss : probe_status ≠ cache_request_status.HIT →
      probe_status ≠ cache_request_status.RESERVATION_FAIL →
      ∀ st idx, tag_array.probe cfg c.m_tag_array (cfg.block_addr addr) cache_index
          = Except.ok (st, idx) →
        st = cache_request_status.MISS ∨ st = cache_request_status.HIT_RESERVED := by
    intro h1 h2 st idx hp
    rw [hp1 h2] at hp
    have h3 := (Prod.mk.inj (Except.ok.inj hp)).1
    rw [← h3]
    cases probe_status
    · exact absurd rfl h1
    · exact Or.inr rfl
    · exact Or.inl rfl
    · exact absurd rfl h2
  unfold data_cache.process_tag_probe at h
  simp only at h
  split at h
  · cases h
  · rename_i r1 hr1
    split at h
    · cases h
    · rename_i c1 hc1
      have h1 := Except.ok.inj h
      subst h1
      have hcore := use_data_port_core cfg r1.cache c1 mf r1.status r1.events hc1
      show core_reach cfg c.core c1.core
      rw [hcore]
      cases wr with
      | true =>
        simp only [if_true] at hr1
        by_cases hhit : probe_status = cache_request_status.HIT
        · rw [if_pos hhit] at hr1
          subst hhit
          exact m_wr_hit_reach cfg c addr cache_index mf time events
            cache_request_status.HIT r1 (hp1 (by decide)) hr1
        · rw [if_neg hhit] at hr1
          by_cases hrf : probe_status = cache_request_status.RESERVATION_FAIL
          · simp only [hrf, ne_eq, not_true_eq_false, if_false] at hr1
            have h2 := Except.ok.inj hr1
            subst h2
            exact Relation.ReflTransGen.refl
          · simp only [ne_eq, hrf, not_false_eq_true, if_true] at hr1
            exact m_wr_miss_reach cfg c addr cache_index mf time events probe_status r1
              (hmiss hhit hrf) hr1
      | false =>
        simp only [Bool.false_eq_true, if_false] at hr1
        by_cases hhit : probe_status = cache_request_status.HIT
        · rw [if_pos hhit] at hr1
          subst hhit
          exact rd_hit_base_reach cfg c addr cache_index mf time events
            cache_request_status.HIT r1 (hp1 (by decide)) hr1
        · rw [if_neg hhit] at hr1
          by_cases hrf : probe_status = cache_request_status.RESERVATION_FAIL
          · simp only [hrf, ne_eq, not_true_eq_false, if_false] at hr1
            have h2 := Except.ok.inj hr1
            subst h2
            exact Relation.ReflTransGen.refl
          · simp only [ne_eq, hrf, not_false_eq_true, if_true] at hr1
            exact rd_miss_base_reach cfg c addr cache_index mf time events probe_status
              is_l1_cache r1 (hmiss hhit hrf) hr1

/-! ## The calls of the host as elementary changes -/

/-- A call of `pref_access` that returned `MISS` probed a miss and left the lines an access
with that probe leaves; with any other status it left the tag array alone. -/
theorem pref_access_ok_inv (cfg : cache_config) (t : tag_array) (addr time idx0 : Nat)
    (wb0 : Bool) (ev0 : cache_block_t) (read_only : Bool) (r : tag_access_result)
    (h : tag_array.pref_access cfg t addr time idx0 wb0 ev0 read_only = Except.ok r) :
    (r.status = cache_request_status.MISS →
      tag_array.probe cfg t addr idx0 = Except.ok (cache_request_status.MISS, r.idx) ∧
      r.tags.m_lines =
        lines_after_access cfg t.m_lines addr time cache_request_status.MISS r.idx) ∧
    (r.status ≠ cache_request_status.MISS → r.tags = t) := by
  unfold tag_array.pref_access at h
  cases hp : tag_array.probe cfg t addr idx0 with
  | error f =>
    simp only [hp] at h
    cases h
  | ok p =>
    obtain ⟨st, idx⟩ := p
    simp only [hp] at h
    cases st <;> simp only at h <;> (try split_ifs at h) <;>
      (have h4 := Except.ok.inj h
       subst h4
       refine ⟨?_, ?_⟩
       · intro hh
         first
         | (cases hh
            done)
         | exact ⟨rfl, by simp [lines_after_access, *]⟩
       · intro hh
         first
         | rfl
         | exact absurd rfl hh)

/-- A call of `send_read_request_pref` of a data cache is a sequence of elementary changes
that leaves the demand miss queue alone. -/
theorem send_read_request_pref_reach (cfg : cache_config) (c : baseline_cache)
    (pref_addr pref_block_addr pref_cache_index pref_mf time : Nat)
    (pref_do_miss pref_wb : Bool) (pref_evicted : cache_block_t)
    (events : List cache_event) (read_only wa : Bool) (r : read_request_result)
    (h : c.send_read_request_pref cfg pref_addr pref_block_addr pref_cache_index pref_mf time
        pref_do_miss pref_wb pref_evicted events read_only wa = Except.ok r)
    (hB : ∃ a, pref_block_addr = cfg.block_addr a) :
    core_reach cfg c.core r.cache.core := by
  unfold baseline_cache.send_read_request_pref at h
  simp only [Bool.not_eq_true'] at h
  by_cases h1 : c.m_mshrs.probe pref_block_addr = true
  · rw [if_pos h1] at h
    have h2 := Except.ok.inj h
    subst h2
    exact Relation.ReflTransGen.refl
  · rw [if_neg h1] at h
    by_cases h2 : c.m_mshrs.probe pref_block_addr = false ∧
        c.m_mshrs.full pref_block_addr = false ∧
        c.m_pref_miss_queue.length < cfg.m_miss_queue_size ∧ c.m_miss_queue.length < 3
    · rw [if_pos h2] at h
      cases hpa : c.m_tag_array.pref_access cfg pref_block_addr time pref_cache_index pref_wb
          pref_evicted read_only with
      | error f =>
        simp only [hpa] at h
        cases h
      | ok ra =>
        simp only [hpa] at h
        obtain ⟨hmiss, hother⟩ := pref_access_ok_inv cfg c.m_tag_array pref_block_addr time
          pref_cache_index pref_wb pref_evicted read_only ra hpa
        by_cases hst : ra.status = cache_request_status.MISS
        · rw [if_pos hst] at h
          obtain ⟨hp, hl⟩ := hmiss hst
          cases hadd : c.m_mshrs.add pref_block_addr pref_mf (c.heap pref_mf).m_isatomic with
          | error f =>
            simp only [hadd] at h
            cases h
          | ok m1 =>
            simp only [hadd] at h
            have h3 := Except.ok.inj h
            subst h3
            have hnone : c.m_mshrs.m_data.lookup pref_block_addr = none := by
              have := h2.1
              unfold mshr_table.probe at this
              cases hlk : c.m_mshrs.m_data.lookup pref_block_addr with
              | none => rfl
              | some e => rw [hlk] at this; cases this
            unfold baseline_cache.core
            simp only [hl]
            refine Relation.ReflTransGen.tail
              (lines_after_access_reach cfg c.m_tag_array pref_block_addr time
                pref_cache_index _ ra.idx hp c.m_mshrs c.m_extra_mf_fields c.m_miss_queue)
              (core_step.enlist _ pref_block_addr pref_mf (c.heap pref_mf).m_isatomic m1
                pref_mf ra.idx (c.heap pref_mf).m_data_size hnone hadd ?_)
            intro hpol
            obtain ⟨hway, hres, htag⟩ := lines_after_access_reserved cfg c.m_tag_array
              pref_block_addr time pref_cache_index _ ra.idx hpol hp (Or.inl rfl)
            exact ⟨hB, hway, hres, htag⟩
        · rw [if_neg hst] at h
          have h3 := Except.ok.inj h
          subst h3
          unfold baseline_cache.core
          simp only [hother hst]
          exact Relation.ReflTransGen.refl
    · rw [if_neg h2] at h
      have h3 := Except.ok.inj h
      subst h3
      exact Relation.ReflTransGen.refl

/-- The prefetch block of `data_cache::access` is a sequence of elementary changes. -/
theorem access_prefetch_reach (cfg : cache_config) (c c1 : data_cache) (pref_mf time : Nat)
    (events events1 : List cache_event) (pf : prefetch_req)
    (h : c.access_prefetch cfg pref_mf time events pf = Except.ok (c1, events1)) :
    core_reach cfg c.core c1.core := by
  unfold data_cache.access_prefetch at h
  simp only at h
  split_ifs at h with hg
  · split at h
    · cases h
    · rename_i rr hrr
      have hreach := send_read_request_pref_reach cfg _ _ _ _ _ _ _ _ _ _ _ _ rr hrr
        ⟨pf.addr, rfl⟩
      split_ifs at h
      · have h1 := (Prod.mk.inj (Except.ok.inj h)).1
        rw [← h1]
        exact hreach
      · have h1 := (Prod.mk.inj (Except.ok.inj h)).1
        rw [← h1]
        exact hreach
      · have h1 := (Prod.mk.inj (Except.ok.inj h)).1
        rw [← h1]
        exact hreach
  · have h1 := (Prod.mk.inj (Except.ok.inj h)).1
    exact h1 ▸ Relation.ReflTransGen.refl

/-- A call of `data_cache::access` is a sequence of elementary changes. -/
theorem access_reach (cfg : cache_config) (c : data_cache) (addr mf : Nat)
    (pref_mf : Option Nat) (time : Nat) (events : List cache_event) (is_l1_cache : Bool)
    (pf : prefetch_req) (r : handler_result)
    (h : c.access cfg addr mf pref_mf time events is_l1_cache pf = Except.ok r) :
    core_reach cfg c.core r.cache.core := by
  unfold data_cache.access at h
  by_cases hsz : ¬ (c.heap mf).m_data_size ≤ cfg.m_line_sz
  · rw [if_pos hsz] at h
    cases h
  rw [if_neg hsz] at h
  simp only at h
  cases hp : tag_array.probe cfg c.m_tag_array (cfg.block_addr addr) UINT_MAX with
  | error f =>
    simp only [hp] at h
    cases h
  | ok p =>
    obtain ⟨probe_status, cache_index⟩ := p
    simp only [hp] at h
    cases hptp : c.process_tag_probe cfg (c.heap mf).m_is_write probe_status addr cache_index
        mf time events is_l1_cache with
    | error f =>
      simp only [hptp] at h
      cases h
    | ok r1 =>
      simp only [hptp] at h
      have hreach1 := process_tag_probe_reach cfg c _ probe_status addr cache_index mf time
        events is_l1_cache r1 hp hptp
      split at h
      · cases h
      · rename_i c1 events1 hpre
        have h1 := Except.ok.inj h
        subst h1
        show core_reach cfg c.core c1.core
        refine hreach1.trans ?_
        cases pref_mf with
        | none =>
          simp only at hpre
          have h2 := (Prod.mk.inj (Except.ok.inj hpre)).1
          exact h2 ▸ Relation.ReflTransGen.refl
        | some p =>
          simp only at hpre
          by_cases hl1 : is_l1_cache = true
          · rw [if_pos hl1] at hpre
            exact access_prefetch_reach cfg r1.cache c1 p time r1.events events1 pf hpre
          · rw [if_neg hl1] at hpre
            have h2 := (Prod.mk.inj (Except.ok.inj hpre)).1
            exact h2 ▸ Relation.ReflTransGen.refl

theorem mshr_mark_ready_eq (m : mshr_table) (b : Nat) (a : mshr_entry)
    (hentry : m.m_data.lookup b = some a)
    (hsize : m.m_current_response.length < m.m_data.length) :
    m.mark_ready b =
      Except.ok ({ m with m_current_response := m.m_current_response ++ [b] },
        a.m_has_atomic) := by
  have hlen : (m.m_current_response ++ [b]).length ≤ m.m_data.length := by
    rw [List.length_append, List.length_singleton]
    exact hsize
  unfold mshr_table.mark_ready
  simp only [hentry, not_not.mpr hlen, if_false]

/-- A fill under ON_MISS whose recorded way is RESERVED is the elementary change
`fill_on_miss`. -/
theorem fill_on_miss_reach (cfg : cache_config) (c c1 : baseline_cache) (mf time : Nat)
    (hpol : cfg.m_alloc_policy = allocation_policy_t.ON_MISS)
    (hres : ∀ e, c.m_extra_mf_fields.lookup mf = some e →
      (c.m_tag_array.m_lines e.m_cache_index).m_status = cache_block_state.RESERVED)
    (h : c.fill cfg mf time = Except.ok c1) : core_reach cfg c.core c1.core := by
  cases hside : c.m_extra_mf_fields.lookup mf with
  | none =>
    unfold baseline_cache.fill at h
    simp only [hside] at h
    cases h
  | some e =>
    obtain ⟨hvalid, ⟨a, hentry⟩, hsize, hpw⟩ :=
      fill_on_miss_conditions cfg c c1 mf time e hpol hside h
    rw [fill_on_miss_ok cfg c mf time e a hpol hside hvalid hentry hsize hpw] at h
    have h1 := Except.ok.inj h
    subst h1
    exact Relation.ReflTransGen.single
      (core_step.fill_on_miss c.core mf e _ _ a.m_has_atomic hpol hside (hres e hside) rfl
        (mshr_mark_ready_eq c.m_mshrs e.m_block_addr a hentry hsize))

/-- A fill under ON_FILL installs the line of the block and retires the record. -/
theorem fill_on_fill_reach (cfg : cache_config) (c c1 : baseline_cache) (mf time : Nat)
    (hpol : cfg.m_alloc_policy = allocation_policy_t.ON_FILL)
    (h : c.fill cfg mf time = Except.ok c1) : core_reach cfg c.core c1.core := by
  unfold baseline_cache.fill at h
  cases hside : c.m_extra_mf_fields.lookup mf with
  | none =>
    simp only [hside] at h
    cases h
  | some e =>
    simp only [hside, hpol] at h
    split_ifs at h with hv
    unfold tag_array.fill at h
    simp only [hpol, ne_eq, not_true_eq_false, if_false] at h
    cases hp : tag_array.probe cfg c.m_tag_array e.m_block_addr 0 with
    | error f =>
      simp only [hp] at h
      cases h
    | ok p =>
      obtain ⟨st, idx⟩ := p
      simp only [hp] at h
      by_cases hst : st = cache_request_status.MISS
      swap
      · simp only [hst, not_false_eq_true, if_true] at h
        cases h
      subst hst
      simp only [not_true_eq_false, if_false] at h
      cases hmr : c.m_mshrs.mark_ready e.m_block_addr with
      | error f =>
        simp only [hmr] at h
        cases h
      | ok q =>
        obtain ⟨m1, ha⟩ := q
        simp only [hmr] at h
        cases ha with
        | true =>
          simp only [hpol, true_and] at h
          simp at h
        | false =>
          simp only [Bool.false_eq_true, false_and, if_false] at h
          unfold baseline_cache.use_fill_port at h
          split_ifs at h
          have h1 := Except.ok.inj h
          subst h1
          obtain ⟨w, hw, hidx⟩ := probe_miss_way cfg c.m_tag_array e.m_block_addr 0 idx hp
          obtain ⟨hno, hnr, _⟩ := probe_miss_inv cfg c.m_tag_array e.m_block_addr 0 idx hp
          unfold baseline_cache.core
          simp only
          exact Relation.ReflTransGen.tail
            (Relation.ReflTransGen.single
              (core_step.install
                { lines := c.m_tag_array.m_lines, mshrs := c.m_mshrs,
                  side := c.m_extra_mf_fields, queue := c.m_miss_queue }
                e.m_block_addr idx w _ hw hidx hnr hno rfl))
            (core_step.retire _ mf e m1 false hpol hside hmr)

/-- A call of `baseline_cache::fill` is a sequence of elementary changes, provided that
under ON_MISS the way recorded for the request is RESERVED. -/
theorem fill_reach (cfg : cache_config) (c c1 : baseline_cache) (mf time : Nat)
    (hres : cfg.m_alloc_policy = allocation_policy_t.ON_MISS →
      ∀ e, c.m_extra_mf_fields.lookup mf = some e →
        (c.m_tag_array.m_lines e.m_cache_index).m_status = cache_block_state.RESERVED)
    (h : c.fill cfg mf time = Except.ok c1) : core_reach cfg c.core c1.core := by
  cases hpol : cfg.m_alloc_policy with
  | ON_MISS => exact fill_on_miss_reach cfg c c1 mf time hpol (hres hpol) h
  | ON_FILL => exact fill_on_fill_reach cfg c c1 mf time hpol h

/-- A call of `baseline_cache::fill` leaves the demand miss queue alone. -/
theorem fill_miss_queue (cfg : cache_config) (c c1 : baseline_cache) (mf time : Nat)
    (h : c.fill cfg mf time = Except.ok c1) : c1.m_miss_queue = c.m_miss_queue := by
  unfold baseline_cache.fill at h
  cases hl : c.m_extra_mf_fields.lookup mf with
  | none =>
    rw [hl] at h
    cases h
  | some e =>
    rw [hl] at h
    dsimp only at h
    by_cases hv : e.m_valid = false
    · rw [if_pos hv] at h
      cases h
    · rw [if_neg hv] at h
      cases hfl : (match cfg.m_alloc_policy with
          | allocation_policy_t.ON_MISS =>
            c.m_tag_array.pref_fill cfg e.m_cache_index time
              (set_data_size c.heap mf e.m_data_size mf).m_is_prefetch
          | allocation_policy_t.ON_FILL => c.m_tag_array.fill cfg e.m_block_addr time) with
      | error f =>
        rw [hfl] at h
        cases h
      | ok tags =>
        rw [hfl] at h
        dsimp only at h
        cases hmr : c.m_mshrs.mark_ready e.m_block_addr with
        | error f =>
          rw [hmr] at h
          cases h
        | ok q =>
          obtain ⟨m1, ha⟩ := q
          rw [hmr] at h
          dsimp only at h
          split_ifs at h <;>
            (unfold baseline_cache.use_fill_port at h
             split_ifs at h
             have h1 := Except.ok.inj h
             rw [← h1])

theorem replenish_core (c c1 : baseline_cache)
    (h : c.replenish_port_bandwidth = Except.ok c1) : c1.core = c.core := by
  unfold baseline_cache.replenish_port_bandwidth at h
  simp only at h
  split_ifs at h <;>
    (have h1 := Except.ok.inj h
     subst h1
     rfl)

/-- A call of `baseline_cache::cycle` pops the demand miss queue or leaves the core alone. -/
theorem cycle_reach (cfg : cache_config) (c c1 : baseline_cache)
    (memport_full : Nat → Bool → Bool) (pushed : Option Nat)
    (h : c.cycle memport_full = Except.ok (c1, pushed)) : core_reach cfg c.core c1.core := by
  unfold baseline_cache.cycle at h
  simp only at h
  split at h
  · cases h
  · rename_i c2 hc2
    have h1 := (Prod.mk.inj (Except.ok.inj h)).1
    subst h1
    rw [replenish_core _ _ hc2]
    show core_reach cfg c.core (baseline_cache.core _)
    cases hpq : c.m_pref_miss_queue with
    | cons mf rest =>
      simp only [hpq]
      split_ifs
      · exact Relation.ReflTransGen.refl
      · exact Relation.ReflTransGen.refl
    | nil =>
      simp only [hpq]
      cases hq : c.m_miss_queue with
      | cons mf rest =>
        simp only [hq]
        split_ifs
        · exact Relation.ReflTransGen.single (core_step.pop c.core mf rest hq)
        · exact Relation.ReflTransGen.refl
      | nil => exact Relation.ReflTransGen.refl

/-- Every call of the host other than `flush` is a sequence of elementary changes, provided
that under ON_MISS the ways recorded in the side table are RESERVED. -/
theorem run_op_reach (cfg : cache_config) (c c1 : data_cache) (op : cache_op)
    (hnf : op.is_flush = false)
    (hres : cfg.m_alloc_policy = allocation_policy_t.ON_MISS →
      ∀ p e, c.m_extra_mf_fields.lookup p = some e →
        (c.m_tag_array.m_lines e.m_cache_index).m_status = cache_block_state.RESERVED)
    (h : c.run_op cfg op = Except.ok c1) :
    core_reach cfg c.core c1.core := by
  cases op with
  | access addr mf pref_mf time events is_l1_cache pf =>
    simp only [data_cache.run_op] at h
    split at h
    · cases h
    · rename_i r hr
      have h1 := Except.ok.inj h
      subst h1
      exact access_reach cfg c addr mf pref_mf time events is_l1_cache pf r hr
  | fill mf time =>
    simp only [data_cache.run_op] at h
    split at h
    · cases h
    · rename_i b hb
      have h1 := Except.ok.inj h
      subst h1
      exact fill_reach cfg c.tobaseline_cache b mf time (fun hpol e he => hres hpol mf e he) hb
  | cycle memport_full =>
    simp only [data_cache.run_op] at h
    split at h
    · cases h
    · rename_i b pushed hb
      have h1 := Except.ok.inj h
      subst h1
      exact cycle_reach cfg c.tobaseline_cache b memport_full pushed hb
  | flush => cases hnf
  | next_access =>
    simp only [data_cache.run_op] at h
    split at h
    · cases h
    · rename_i mf m1 hna
      have h1 := Except.ok.inj h
      subst h1
      exact Relation.ReflTransGen.single (core_step.drain c.core mf m1 hna)
  | host_store p obj =>
    simp only [data_cache.run_op] at h
    have h1 := Except.ok.inj h
    subst h1
    exact Relation.ReflTransGen.refl

/-- The core after `flush`: the lines lose their status, the rest stays. -/
theorem run_op_flush (cfg : cache_config) (c c1 : data_cache)
    (h : c.run_op cfg cache_op.flush = Except.ok c1) :
    c1.m_miss_queue = c.m_miss_queue ∧
    (∀ i, (c1.m_tag_array.m_lines i).m_tag = (c.m_tag_array.m_lines i).m_tag) ∧
    (∀ i, (c1.m_tag_array.m_lines i).m_status ≠ cache_block_state.INVALID →
      (c.m_tag_array.m_lines i).m_status ≠ cache_block_state.INVALID) := by
  simp only [data_cache.run_op] at h
  have h1 := Except.ok.inj h
  subst h1
  refine ⟨rfl, ?_, ?_⟩
  · intro i
    simp only [tag_array.flush]
    split_ifs <;> rfl
  · intro i
    simp only [tag_array.flush]
    split_ifs
    · intro hh
      exact absurd rfl hh
    · exact id

theorem unique_tags_mono (cfg : cache_config) (lines lines1 : Nat → cache_block_t)
    (htag : ∀ i, (lines1 i).m_tag = (lines i).m_tag)
    (hst : ∀ i, (lines1 i).m_status ≠ cache_block_state.INVALID →
      (lines i).m_status ≠ cache_block_state.INVALID)
    (hu : unique_tags cfg lines) : unique_tags cfg lines1 := by
  intro s w1 w2 hw1 hw2 hne h1 h2
  unfold set_line at h1 h2 ⊢
  rw [htag, htag]
  exact hu s w1 w2 hw1 hw2 hne (hst _ h1) (hst _ h2)

/-- Every call of the host keeps the demand miss queue within its size. -/
theorem run_op_queue (cfg : cache_config) (c c1 : data_cache) (op : cache_op)
    (h : c.run_op cfg op = Except.ok c1)
    (hq : c.m_miss_queue.length ≤ cfg.m_miss_queue_size) :
    c1.m_miss_queue.length ≤ cfg.m_miss_queue_size := by
  cases op with
  | access addr mf pref_mf time events is_l1_cache pf =>
    simp only [data_cache.run_op] at h
    split at h
    · cases h
    · rename_i r hr
      have h1 := Except.ok.inj h
      subst h1
      exact queue_bound_reach cfg c.core r.cache.core
        (access_reach cfg c addr mf pref_mf time events is_l1_cache pf r hr) hq
  | fill mf time =>
    simp only [data_cache.run_op] at h
    split at h
    · cases h
    · rename_i b hb
      have h1 := Except.ok.inj h
      subst h1
      show b.m_miss_queue.length ≤ cfg.m_miss_queue_size
      rw [fill_miss_queue cfg c.tobaseline_cache b mf time hb]
      exact hq
  | cycle memport_full =>
    simp only [data_cache.run_op] at h
    split at h
    · cases h
    · rename_i b pushed hb
      have h1 := Except.ok.inj h
      subst h1
      exact queue_bound_reach cfg c.core b.core
        (cycle_reach cfg c.tobaseline_cache b memport_full pushed hb) hq
  | flush =>
    rw [(run_op_flush cfg c c1 h).1]
    exact hq
  | next_access =>
    simp only [data_cache.run_op] at h
    split at h
    · cases h
    · have h1 := Except.ok.inj h
      subst h1
      exact hq
  | host_store p obj =>
    simp only [data_cache.run_op] at h
    have h1 := Except.ok.inj h
    subst h1
    exact hq

theorem run_ops_queue (cfg : cache_config) (ops : List cache_op) :
    ∀ (c c1 : data_cache), c.run_ops cfg ops = Except.ok c1 →
      c.m_miss_queue.length ≤ cfg.m_miss_queue_size →
      c1.m_miss_queue.length ≤ cfg.m_miss_queue_size := by
  induction ops with
  | nil =>
    intro c c1 h hq
    simp only [data_cache.run_ops] at h
    have h1 := Except.ok.inj h
    subst h1
    exact hq
  | cons op rest ih =>
    intro c c1 h hq
    simp only [data_cache.run_ops] at h
    split at h
    · cases h
    · rename_i c2 hc2
      exact ih c2 c1 h (run_op_queue cfg c c2 op hc2 hq)

/-- Under ON_FILL no fill writes a recorded way, and the calls of the host, `flush`
included, keep the tags of each set unique. -/
theorem run_ops_unique_on_fill (cfg : cache_config)
    (hpol : cfg.m_alloc_policy = allocation_policy_t.ON_FILL) (ops : List cache_op) :
    ∀ (c c1 : data_cache), c.run_ops cfg ops = Except.ok c1 →
      unique_tags cfg c.m_tag_array.m_lines → unique_tags cfg c1.m_tag_array.m_lines := by
  have hno : cfg.m_alloc_policy = allocation_policy_t.ON_MISS → False := by
    intro h
    rw [hpol] at h
    cases h
  induction ops with
  | nil =>
    intro c c1 h hu
    simp only [data_cache.run_ops] at h
    have h1 := Except.ok.inj h
    subst h1
    exact hu
  | cons op rest ih =>
    intro c c1 h hu
    simp only [data_cache.run_ops] at h
    split at h
    · cases h
    · rename_i c2 hc2
      refine ih c2 c1 h ?_
      cases hf : op.is_flush with
      | false =>
        exact unique_tags_reach cfg c.core c2.core
          (run_op_reach cfg c c2 op hf (fun hp => (hno hp).elim) hc2) hu
      | true =>
        cases op <;> simp only [cache_op.is_flush] at hf <;> try cases hf
        obtain ⟨_, h2, h3⟩ := run_op_flush cfg c c2 hc2
        exact unique_tags_mono cfg _ _ h2 h3 hu

/-- A flush made while the side table is empty keeps the invariant of the pending misses:
there are none. -/
theorem flush_idle_pending (cfg : cache_config) (c c1 : data_cache)
    (h : c.run_op cfg cache_op.flush = Except.ok c1)
    (hidle : c.m_extra_mf_fields = []) (hinv : pending_inv cfg c.core) :
    pending_inv cfg c1.core := by
  simp only [data_cache.run_op] at h
  have h1 := Except.ok.inj h
  subst h1
  have hnone : ∀ p, c.m_extra_mf_fields.lookup p = none := by
    intro p
    rw [hidle]
    rfl
  refine ⟨?_, ?_, ?_, hinv.ready_nodup, hinv.ready_bound⟩
  · intro p e hp
    have hp1 : c.m_extra_mf_fields.lookup p = some e := hp
    rw [hnone p] at hp1
    cases hp1
  · intro p e hp
    have hp1 : c.m_extra_mf_fields.lookup p = some e := hp
    rw [hnone p] at hp1
    cases hp1
  · intro p q e f _ hp
    have hp1 : c.m_extra_mf_fields.lookup p = some e := hp
    rw [hnone p] at hp1
    cases hp1

/-- Under ON_MISS and a tag function that tells the blocks of a set apart, the calls of the
host keep the tags of each set unique and the invariant of the pending misses, when every
flush is made while no request awaits its fill. -/
theorem run_ops_unique_on_miss (cfg : cache_config)
    (hpol : cfg.m_alloc_policy = allocation_policy_t.ON_MISS)
    (hinj : tag_identifies_block cfg) (ops : List cache_op) :
    ∀ (c c1 : data_cache), c.run_ops cfg ops = Except.ok c1 →
      c.flush_when_idle cfg ops = true →
      unique_tags cfg c.m_tag_array.m_lines → pending_inv cfg c.core →
      unique_tags cfg c1.m_tag_array.m_lines ∧ pending_inv cfg c1.core := by
  induction ops with
  | nil =>
    intro c c1 h _ hu hinv
    simp only [data_cache.run_ops] at h
    have h1 := Except.ok.inj h
    subst h1
    exact ⟨hu, hinv⟩
  | cons op rest ih =>
    intro c c1 h hidle hu hinv
    simp only [data_cache.run_ops] at h
    cases hc2 : c.run_op cfg op with
    | error f =>
      rw [hc2] at h
      cases h
    | ok c2 =>
      rw [hc2] at h
      simp only [data_cache.flush_when_idle, hc2, Bool.and_eq_true, Bool.or_eq_true,
        Bool.not_eq_true'] at hidle
      obtain ⟨hfl, hrest⟩ := hidle
      cases hf : op.is_flush with
      | false =>
        have hreach := run_op_reach cfg c c2 op hf
          (fun _ p e he => (hinv.reserved p e he).1) hc2
        exact ih c2 c1 h hrest (unique_tags_reach cfg c.core c2.core hreach hu)
          (pending_inv_reach cfg hpol hinj c.core c2.core hreach hinv)
      | true =>
        have hempty : c.m_extra_mf_fields = [] := by
          rcases hfl with hfl | hfl
          · rw [hf] at hfl
            cases hfl
          · exact List.isEmpty_iff.mp hfl
        cases op <;> simp only [cache_op.is_flush] at hf <;> try cases hf
        obtain ⟨_, h2, h3⟩ := run_op_flush cfg c c2 hc2
        exact ih c2 c1 h hrest (unique_tags_mono cfg _ _ h2 h3 hu)
          (flush_idle_pending cfg c c2 hc2 hempty hinv)

/-- Without `flush`, under ON_MISS and a tag function that tells the blocks of a set apart,
the calls of the host keep the invariant of the pending misses. -/
theorem run_ops_pending (cfg : cache_config)
    (hpol : cfg.m_alloc_policy = allocation_policy_t.ON_MISS)
    (hinj : tag_identifies_block cfg) (ops : List cache_op) :
    ∀ (c c1 : data_cache), c.run_ops cfg ops = Except.ok c1 →
      (∀ op, op ∈ ops → op.is_flush = false) →
      pending_inv cfg c.core → pending_inv cfg c1.core := by
  induction ops with
  | nil =>
    intro c c1 h _ hinv
    simp only [data_cache.run_ops] at h
    have h1 := Except.ok.inj h
    subst h1
    exact hinv
  | cons op rest ih =>
    intro c c1 h hnf hinv
    simp only [data_cache.run_ops] at h
    split at h
    · cases h
    · rename_i c2 hc2
      have hreach := run_op_reach cfg c c2 op (hnf op (List.mem_cons_self _ _))
        (fun _ p e he => (hinv.reserved p e he).1) hc2
      exact ih c2 c1 h (fun o ho => hnf o (List.mem_cons_of_mem _ ho))
        (pending_inv_reach cfg hpol hinj c.core c2.core hreach hinv)

/-- An empty cache satisfies the invariants. -/
theorem empty_invariants (cfg : cache_config) (c : data_cache) (h : c.empty) :
    unique_tags cfg c.m_tag_array.m_lines ∧
    c.m_miss_queue.length ≤ cfg.m_miss_queue_size ∧ pending_inv cfg c.core := by
  obtain ⟨hl, hd, hr, hq, _, hs⟩ := h
  refine ⟨?_, ?_, ?_⟩
  · intro s w1 w2 _ _ _ h1 _
    exact absurd (hl _) h1
  · rw [hq]
    exact Nat.zero_le _
  · unfold baseline_cache.core
    refine ⟨?_, ?_, ?_, ?_, ?_⟩
    · intro p e hp
      simp only [hs, List.lookup] at hp
      cases hp
    · intro p e hp
      simp only [hs, List.lookup] at hp
      cases hp
    · intro p q e f _ hp
      simp only [hs, List.lookup] at hp
      cases hp
    · simp only [hr]
      exact List.nodup_nil
    · intro b hb
      simp only [hr] at hb
      exact absurd hb (List.not_mem_nil _)

/-! ## Lemmas on the set index function -/

theorem u32_of_lt (n : Nat) (h : n < 4294967296) : u32 n = n := Nat.mod_eq_of_lt h

theorem shiftRight_and (a m k : Nat) : (a &&& m) >>> k = (a >>> k) &&& (m >>> k) := by
  apply Nat.eq_of_testBit_eq
  intro i
  simp only [Nat.testBit_shiftRight, Nat.testBit_and]

/-- Masking with a single bit leaves that bit in its place. -/
theorem and_two_pow_eq (x i : Nat) : x &&& 2 ^ i = 2 ^ i * addr_bit x i := by
  have hb : x.testBit i = decide (x / 2 ^ i % 2 = 1) := Nat.testBit_to_div_mod
  by_cases h : x / 2 ^ i % 2 = 1
  · rw [addr_bit, h, Nat.mul_one]
    apply Nat.eq_of_testBit_eq
    intro j
    rw [Nat.testBit_and, Nat.testBit_two_pow]
    by_cases hij : i = j
    · subst hij; simp [hb, h]
    · simp [hij]
  · have h0 : x / 2 ^ i % 2 = 0 := by omega
    rw [addr_bit, h0, Nat.mul_zero]
    apply Nat.eq_of_testBit_eq
    intro j
    rw [Nat.testBit_and, Nat.testBit_two_pow]
    by_cases hij : i = j
    · subst hij; simp [hb, h0]
    · simp [hij]

theorem addr_bit_lt (a i : Nat) : addr_bit a i < 2 := Nat.mod_lt _ (by decide)

theorem addr_bit_shift (a k i : Nat) : addr_bit (a >>> k) i = addr_bit a (k + i) := by
  rw [addr_bit, addr_bit, Nat.shiftRight_eq_div_pow, Nat.div_div_eq_div_mul, ← pow_add]

/-- The upper value the source computes is the number the five address bits spell. -/
theorem upper_xor_eq (addr : Nat) :
    (u32 ((addr &&& 57344) >>> 13) ||| u32 ((addr &&& 131072) >>> 14)) |||
      u32 ((addr &&& 524288) >>> 15) = fermi_upper addr := by
  have e1 : (addr &&& 57344) >>> 13 = addr / 8192 % 8 := by
    rw [shiftRight_and]
    have h : (57344 : Nat) >>> 13 = 2 ^ 3 - 1 := by decide
    rw [h, Nat.and_pow_two_sub_one_eq_mod, Nat.shiftRight_eq_div_pow]
  have e2 : (addr &&& 131072) >>> 14 = 2 ^ 3 * addr_bit addr 17 := by
    rw [shiftRight_and]
    have h : (131072 : Nat) >>> 14 = 2 ^ 3 := by decide
    rw [h, and_two_pow_eq, addr_bit_shift]
  have e3 : (addr &&& 524288) >>> 15 = 2 ^ 4 * addr_bit addr 19 := by
    rw [shiftRight_and]
    have h : (524288 : Nat) >>> 15 = 2 ^ 4 := by decide
    rw [h, and_two_pow_eq, addr_bit_shift]
  have b17 := addr_bit_lt addr 17
  have b19 := addr_bit_lt addr 19
  have l1 : addr / 8192 % 8 < 2 ^ 3 := Nat.mod_lt _ (by decide)
  rw [e1, e2, e3, u32_of_lt _ (by omega), u32_of_lt _ (by omega), u32_of_lt _ (by omega),
    Nat.or_comm (addr / 8192 % 8), ← Nat.mul_add_lt_is_or l1,
    Nat.or_comm, ← Nat.mul_add_lt_is_or (by omega)]
  simp only [fermi_upper, addr_bit]
  norm_num
  omega

theorem fermi_upper_lt (addr : Nat) : fermi_upper addr < 32 := by
  have b13 := addr_bit_lt addr 13
  have b14 := addr_bit_lt addr 14
  have b15 := addr_bit_lt addr 15
  have b17 := addr_bit_lt addr 17
  have b19 := addr_bit_lt addr 19
  unfold fermi_upper
  omega

/-- The lower value of the hashing function: five bits of the line number. -/
theorem lower_xor_eq (addr l : Nat) : u32 ((addr >>> l) &&& 31) = (addr >>> l) % 32 := by
  have h : (31 : Nat) = 2 ^ 5 - 1 := by decide
  rw [h, Nat.and_pow_two_sub_one_eq_mod]
  exact u32_of_lt _ (by have := Nat.mod_lt (addr >>> l) (show 0 < 2 ^ 5 by decide); omega)

/-- Bit 12 of the address, moved to position 5. -/
theorem bit12_eq (addr : Nat) : u32 ((addr &&& 4096) >>> 7) = 2 ^ 5 * addr_bit addr 12 := by
  have e : (addr &&& 4096) >>> 7 = 2 ^ 5 * addr_bit addr 12 := by
    rw [shiftRight_and]
    have h : (4096 : Nat) >>> 7 = 2 ^ 5 := by decide
    rw [h, and_two_pow_eq, addr_bit_shift]
  have b := addr_bit_lt addr 12
  rw [e]
  exact u32_of_lt _ (by omega)

/-- The hashed set index for 32 sets. -/
theorem set_index_fermi_32 (cfg : l1d_cache_config) (addr : Nat)
    (hfn : cfg.m_set_index_function = set_index_function.FERMI_HASH_SET_FUNCTION)
    (hn : cfg.m_nset = 32) :
    cfg.set_index addr = Except.ok (((addr >>> cfg.m_line_sz_log2) % 32) ^^^ fermi_upper addr) := by
  have hlt : ((addr >>> cfg.m_line_sz_log2) % 32) ^^^ fermi_upper addr < 2 ^ 5 :=
    Nat.xor_lt_two_pow (Nat.mod_lt _ (by decide)) (fermi_upper_lt addr)
  unfold l1d_cache_config.set_index
  simp only [hfn, hn, lower_xor_eq, upper_xor_eq]
  simp only [true_or, if_true, Nat.reduceEqDiff, if_false]
  rw [if_neg (by omega)]

/-- The hashed set index for 64 sets. -/
theorem set_index_fermi_64 (cfg : l1d_cache_config) (addr : Nat)
    (hfn : cfg.m_set_index_function = set_index_function.FERMI_HASH_SET_FUNCTION)
    (hn : cfg.m_nset = 64) :
    cfg.set_index addr = Except.ok
      ((((addr >>> cfg.m_line_sz_log2) % 32) ^^^ fermi_upper addr) + 32 * addr_bit addr 12) := by
  have hlt : ((addr >>> cfg.m_line_sz_log2) % 32) ^^^ fermi_upper addr < 2 ^ 5 :=
    Nat.xor_lt_two_pow (Nat.mod_lt _ (by decide)) (fermi_upper_lt addr)
  have b := addr_bit_lt addr 12
  have hor : (((addr >>> cfg.m_line_sz_log2) % 32) ^^^ fermi_upper addr) |||
      2 ^ 5 * addr_bit addr 12 =
      (((addr >>> cfg.m_line_sz_log2) % 32) ^^^ fermi_upper addr) + 32 * addr_bit addr 12 := by
    rw [Nat.or_comm, ← Nat.mul_add_lt_is_or hlt]
    omega
  unfold l1d_cache_config.set_index
  simp only [hfn, hn, lower_xor_eq, upper_xor_eq, bit12_eq, hor]
  simp only [or_true, if_true]
  rw [if_neg (by omega)]

/-- The linear set index. -/
theorem set_index_linear (cfg : l1d_cache_config) (addr : Nat)
    (hfn : cfg.m_set_index_function = set_index_function.LINEAR_SET_FUNCTION)
    (h1 : 1 ≤ cfg.m_nset) (h2 : cfg.m_nset ≤ UINT_MAX) :
    cfg.set_index addr = Except.ok ((addr >>> cfg.m_line_sz_log2) &&& (cfg.m_nset - 1)) := by
  have hm : u32 (cfg.m_nset + 4294967295) = cfg.m_nset - 1 := by
    unfold u32
    unfold UINT_MAX at h2
    omega
  have hle : (addr >>> cfg.m_line_sz_log2) &&& (cfg.m_nset - 1) ≤ cfg.m_nset - 1 :=
    Nat.and_le_right
  unfold l1d_cache_config.set_index
  simp only [hfn, hm]
  unfold UINT_MAX at h2
  rw [u32_of_lt _ (by omega), if_neg (by omega)]

/-! ## Lemmas on the bandwidth manager -/

/-- The cycle count `use_data_port` computes on a hit is the ceiling of the quotient. -/
theorem ceil_div_eq (a b : Nat) (hb : 0 < b) :
    a / b + (if a % b > 0 then 1 else 0) = ceil_div a b := by
  have hbq : (0 : ℚ) < (b : ℚ) := by exact_mod_cast hb
  have hdm : b * (a / b) + a % b = a := Nat.div_add_mod a b
  have hdmq : (b : ℚ) * ((a / b : ℕ) : ℚ) + ((a % b : ℕ) : ℚ) = (a : ℚ) := by
    exact_mod_cast hdm
  have hr : a % b < b := Nat.mod_lt a hb
  have hrq : ((a % b : ℕ) : ℚ) < (b : ℚ) := by exact_mod_cast hr
  symm
  unfold ceil_div
  by_cases h : a % b > 0
  · rw [if_pos h, Nat.ceil_eq_iff (Nat.succ_ne_zero _)]
    have hpos : (0 : ℚ) < ((a % b : ℕ) : ℚ) := by exact_mod_cast h
    constructor
    · rw [lt_div_iff₀ hbq]
      have : (a / b).succ - 1 = a / b := rfl
      rw [this]
      nlinarith
    · rw [div_le_iff₀ hbq]
      push_cast
      nlinarith
  · rw [if_neg h, Nat.add_zero]
    have h0 : a % b = 0 := by omega
    rw [h0] at hdmq
    have : (a : ℚ) / (b : ℚ) = ((a / b : ℕ) : ℚ) := by
      rw [div_eq_iff (ne_of_gt hbq)]
      push_cast at hdmq ⊢
      linarith
    rw [this, Nat.ceil_natCast]

theorem was_writeback_sent_iff (events : List cache_event) :
    was_writeback_sent events = true ↔ cache_event.WRITE_BACK_REQUEST_SENT ∈ events := by
  unfold was_writeback_sent
  rw [List.any_eq_true]
  constructor
  · rintro ⟨e, he, hd⟩
    rw [decide_eq_true_iff] at hd
    exact hd ▸ he
  · intro h
    exact ⟨_, h, by simp⟩

/-- A value in the range of an `int` is its own reading as an `int`. -/
theorem to_i32_of_range (z : Int) (h1 : -2147483648 ≤ z) (h2 : z ≤ 2147483647) :
    to_i32 z = z := by
  unfold to_i32
  omega

/-- The sum `counter += cycles` depends on the cycles modulo 2^32 only. -/
theorem int_add_unsigned_wrap (counter : Int) (cycles : Nat) :
    int_add_unsigned counter cycles = to_i32 (counter + (cycles : Int)) := by
  unfold int_add_unsigned to_i32 u32
  push_cast
  omega

/-- The sum `counter += cycles` is the sum of the integers when that lies in the range of an
`int`. -/
theorem int_add_unsigned_eq (counter : Int) (cycles : Nat)
    (h1 : -2147483648 ≤ counter + (cycles : Int))
    (h2 : counter + (cycles : Int) ≤ 2147483647) :
    int_add_unsigned counter cycles = counter + (cycles : Int) := by
  rw [int_add_unsigned_wrap, to_i32_of_range _ h1 h2]

theorem int_add_unsigned_zero (counter : Int) (h1 : -2147483648 ≤ counter)
    (h2 : counter ≤ 2147483647) : int_add_unsigned counter 0 = counter := by
  rw [int_add_unsigned_eq counter 0 (by simpa using h1) (by simpa using h2)]
  simp

/-- With a port of positive width `use_data_port` returns; it adds the cycles of §4.4 to
the data-port counter, as `int += unsigned` does, and leaves the fill-port counter alone;
on a RESERVATION_FAIL, and on a HIT_RESERVED or a MISS that sent no writeback, it makes no
assignment at all. -/
theorem use_data_port_cycles (cfg : cache_config) (c : data_cache) (mf : Nat)
    (outcome : cache_request_status) (events : List cache_event)
    (hpw : 0 < cfg.m_data_port_width) :
    ∃ c1, c.use_data_port cfg mf outcome events = Except.ok c1 ∧
      (c1.m_data_port_occupied_cycles = int_add_unsigned c.m_data_port_occupied_cycles
        (data_port_cycles cfg.m_line_sz cfg.m_data_port_width (c.heap mf).m_data_size
          outcome events) ∨
       (data_port_cycles cfg.m_line_sz cfg.m_data_port_width (c.heap mf).m_data_size
          outcome events = 0 ∧
        c1.m_data_port_occupied_cycles = c.m_data_port_occupied_cycles)) ∧
      c1.m_fill_port_occupied_cycles = c.m_fill_port_occupied_cycles := by
  have hne : cfg.m_data_port_width ≠ 0 := by omega
  unfold data_cache.use_data_port data_port_cycles
  cases outcome
  · simp only [hne, if_false]
    refine ⟨_, rfl, Or.inl ?_, rfl⟩
    show int_add_unsigned c.m_data_port_occupied_cycles _ = _
    rw [← ceil_div_eq _ _ hpw]
  · simp only [hne, if_false]
    by_cases hw : was_writeback_sent events = true
    · rw [if_pos hw, if_pos ((was_writeback_sent_iff events).mp hw)]
      exact ⟨_, rfl, Or.inl rfl, rfl⟩
    · rw [if_neg hw, if_neg (fun h => hw ((was_writeback_sent_iff events).mpr h))]
      exact ⟨_, rfl, Or.inr ⟨rfl, rfl⟩, rfl⟩
  · simp only [hne, if_false]
    by_cases hw : was_writeback_sent events = true
    · rw [if_pos hw, if_pos ((was_writeback_sent_iff events).mp hw)]
      exact ⟨_, rfl, Or.inl rfl, rfl⟩
    · rw [if_neg hw, if_neg (fun h => hw ((was_writeback_sent_iff events).mpr h))]
      exact ⟨_, rfl, Or.inr ⟨rfl, rfl⟩, rfl⟩
  · exact ⟨_, rfl, Or.inr ⟨rfl, rfl⟩, rfl⟩

/-- The function `replenish_port_bandwidth` on counters that are not negative. -/
theorem replenish_returns (c : baseline_cache)
    (hd : 0 ≤ c.m_data_port_occupied_cycles) (hf : 0 ≤ c.m_fill_port_occupied_cycles) :
    ∃ c1, c.replenish_port_bandwidth = Except.ok c1 ∧
      c1.m_data_port_occupied_cycles =
        (if 0 < c.m_data_port_occupied_cycles then c.m_data_port_occupied_cycles - 1
         else 0) ∧
      c1.m_fill_port_occupied_cycles =
        (if 0 < c.m_fill_port_occupied_cycles then c.m_fill_port_occupied_cycles - 1
         else 0) := by
  unfold baseline_cache.replenish_port_bandwidth
  simp only [gt_iff_lt, ge_iff_le]
  by_cases h1 : 0 < c.m_data_port_occupied_cycles
  · by_cases h2 : 0 < c.m_fill_port_occupied_cycles
    · simp only [h1, h2, if_true]
      rw [if_neg (by omega), if_neg (by omega)]
      exact ⟨_, rfl, rfl, rfl⟩
    · have h3 : c.m_fill_port_occupied_cycles = 0 := by omega
      simp only [h1, h2, if_true, if_false]
      rw [if_neg (by omega), if_neg (by omega)]
      exact ⟨_, rfl, rfl, h3⟩
  · have h0 : c.m_data_port_occupied_cycles = 0 := by omega
    by_cases h2 : 0 < c.m_fill_port_occupied_cycles
    · simp only [h1, h2, if_true, if_false]
      rw [if_neg (by omega), if_neg (by omega)]
      exact ⟨_, rfl, h0, rfl⟩
    · have h3 : c.m_fill_port_occupied_cycles = 0 := by omega
      simp only [h1, h2, if_false]
      rw [if_neg (by omega), if_neg (by omega)]
      exact ⟨_, rfl, h0, h3⟩

/-! ## What the handlers leave alone: the statistics matrix and the prefetch miss queue -/

theorem stats_frame_refl (c : baseline_cache) : stats_frame c c := ⟨rfl, rfl⟩

theorem stats_frame_trans (a b c : baseline_cache) (h1 : stats_frame a b)
    (h2 : stats_frame b c) : stats_frame a c :=
  ⟨h2.1.trans h1.1, h2.2.trans h1.2⟩

theorem send_read_request_frame (cfg : cache_config) (c : baseline_cache)
    (addr block_addr cache_index mf time : Nat) (do_miss wb : Bool)
    (evicted : cache_block_t) (events : List cache_event) (read_only wa : Bool)
    (r : read_request_result)
    (h : c.send_read_request cfg addr block_addr cache_index mf time do_miss wb evicted
        events read_only wa = Except.ok r) :
    stats_frame c r.cache := by
  unfold baseline_cache.send_read_request at h
  simp only [Bool.not_eq_true'] at h
  by_cases h1 : c.m_mshrs.probe block_addr = true ∧ c.m_mshrs.full block_addr = false
  · rw [if_pos h1] at h
    split at h
    · cases h
    · split at h
      · cases h
      · have h3 := Except.ok.inj h
        subst h3
        exact ⟨rfl, rfl⟩
  · rw [if_neg h1] at h
    by_cases h2 : c.m_mshrs.probe block_addr = false ∧ c.m_mshrs.full block_addr = false ∧
        c.m_miss_queue.length < cfg.m_miss_queue_size
    · rw [if_pos h2] at h
      split at h
      · cases h
      · split at h
        · cases h
        · have h3 := Except.ok.inj h
          subst h3
          exact ⟨rfl, rfl⟩
    · rw [if_neg h2] at h
      have h3 := Except.ok.inj h
      subst h3
      exact ⟨rfl, rfl⟩

theorem data_send_read_request_frame (cfg : cache_config) (c c1 : data_cache)
    (addr block_addr cache_index mf time : Nat) (do_miss wb : Bool)
    (evicted : cache_block_t) (events : List cache_event) (read_only wa : Bool)
    (x : Bool × Bool × cache_block_t × List cache_event)
    (h : c.send_read_request cfg addr block_addr cache_index mf time do_miss wb evicted
        events read_only wa = Except.ok (c1, x)) :
    stats_frame c.tobaseline_cache c1.tobaseline_cache := by
  unfold data_cache.send_read_request at h
  split at h
  · cases h
  · rename_i rr hr
    have h1 := (Prod.mk.inj (Except.ok.inj h)).1
    subst h1
    exact send_read_request_frame cfg _ _ _ _ _ _ _ _ _ _ _ _ rr hr

theorem wr_hit_wb_frame (cfg : cache_config) (c : data_cache)
    (addr cache_index mf time : Nat) (events : List cache_event)
    (status : cache_request_status) (r : handler_result)
    (h : c.wr_hit_wb cfg addr cache_index mf time events status = Except.ok r) :
    stats_frame c.tobaseline_cache r.cache.tobaseline_cache := by
  unfold data_cache.wr_hit_wb at h
  simp only at h
  split at h
  · cases h
  · have h1 := Except.ok.inj h
    subst h1
    exact ⟨rfl, rfl⟩

theorem wr_hit_wt_frame (cfg : cache_config) (c : data_cache)
    (addr cache_index mf time : Nat) (events : List cache_event)
    (status : cache_request_status) (r : handler_result)
    (h : c.wr_hit_wt cfg addr cache_index mf time events status = Except.ok r) :
    stats_frame c.tobaseline_cache r.cache.tobaseline_cache := by
  unfold data_cache.wr_hit_wt at h
  by_cases hq : c.miss_queue_full cfg 0 = true
  · rw [if_pos hq] at h
    have h1 := Except.ok.inj h
    subst h1
    exact ⟨rfl, rfl⟩
  · rw [if_neg hq] at h
    simp only at h
    split at h
    · cases h
    · have h1 := Except.ok.inj h
      subst h1
      exact ⟨rfl, rfl⟩

theorem wr_hit_we_frame (cfg : cache_config) (c : data_cache)
    (addr cache_index mf time : Nat) (events : List cache_event)
    (status : cache_request_status) (r : handler_result)
    (h : c.wr_hit_we cfg addr cache_index mf time events status = Except.ok r) :
    stats_frame c.tobaseline_cache r.cache.tobaseline_cache := by
  unfold data_cache.wr_hit_we at h
  by_cases hq : c.miss_queue_full cfg 0 = true
  · rw [if_pos hq] at h
    have h1 := Except.ok.inj h
    subst h1
    exact ⟨rfl, rfl⟩
  · rw [if_neg hq] at h
    have h1 := Except.ok.inj h
    subst h1
    exact ⟨rfl, rfl⟩

theorem rd_hit_base_frame (cfg : cache_config) (c : data_cache)
    (addr cache_index mf time : Nat) (events : List cache_event)
    (status : cache_request_status) (r : handler_result)
    (h : c.rd_hit_base cfg addr cache_index mf time events status = Except.ok r) :
    stats_frame c.tobaseline_cache r.cache.tobaseline_cache := by
  unfold data_cache.rd_hit_base at h
  simp only at h
  split at h
  · cases h
  · split_ifs at h
    · have h1 := Except.ok.inj h
      subst h1
      exact ⟨rfl, rfl⟩
    · have h1 := Except.ok.inj h
      subst h1
      exact ⟨rfl, rfl⟩

theorem wr_miss_no_wa_frame (cfg : cache_config) (c : data_cache)
    (addr cache_index mf time : Nat) (events : List cache_event)
    (status : cache_request_status) (r : handler_result)
    (h : c.wr_miss_no_wa cfg addr cache_index mf time events status = Except.ok r) :
    stats_frame c.tobaseline_cache r.cache.tobaseline_cache := by
  unfold data_cache.wr_miss_no_wa at h
  by_cases hq : c.miss_queue_full cfg 0 = true
  · rw [if_pos hq] at h
    have h1 := Except.ok.inj h
    subst h1
    exact ⟨rfl, rfl⟩
  · rw [if_neg hq] at h
    have h1 := Except.ok.inj h
    subst h1
    exact ⟨rfl, rfl⟩

theorem rd_miss_base_frame (cfg : cache_config) (c : data_cache)
    (addr cache_index mf time : Nat) (events : List cache_event)
    (status : cache_request_status) (is_l1_cache : Bool) (r : handler_result)
    (h : c.rd_miss_base cfg addr cache_index mf time events status is_l1_cache
      = Except.ok r) :
    stats_frame c.tobaseline_cache r.cache.tobaseline_cache := by
  unfold data_cache.rd_miss_base at h
  by_cases hq : c.miss_queue_full cfg 1 = true
  · rw [if_pos hq] at h
    have h1 := Except.ok.inj h
    subst h1
    exact ⟨rfl, rfl⟩
  · rw [if_neg hq] at h
    simp only at h
    split at h
    · cases h
    · rename_i c1 do_miss wb evicted events1 heq
      have hf := data_send_read_request_frame cfg c c1 _ _ _ _ _ _ _ _ _ _ _ _ heq
      split_ifs at h
      · have h1 := Except.ok.inj h
        subst h1
        exact ⟨hf.1, hf.2⟩
      · have h1 := Except.ok.inj h
        subst h1
        exact hf
      · have h1 := Except.ok.inj h
        subst h1
        exact hf

theorem wr_miss_wa_frame (cfg : cache_config) (c : data_cache)
    (addr cache_index mf time : Nat) (events : List cache_event)
    (status : cache_request_status) (r : handler_result)
    (h : c.wr_miss_wa cfg addr cache_index mf time events status = Except.ok r) :
    stats_frame c.tobaseline_cache r.cache.tobaseline_cache := by
  simp only [data_cache.wr_miss_wa] at h
  split_ifs at h with hg
  · have h1 := Except.ok.inj h
    subst h1
    exact ⟨rfl, rfl⟩
  · split at h
    · cases h
    · rename_i c2 do_miss wb evicted events2 heq
      have hf := data_send_read_request_frame cfg _ c2 _ _ _ _ _ _ _ _ _ _ _ _ heq
      split_ifs at h
      · have h1 := Except.ok.inj h
        subst h1
        exact ⟨hf.1, hf.2⟩
      · have h1 := Except.ok.inj h
        subst h1
        exact hf
      · have h1 := Except.ok.inj h
        subst h1
        exact hf

theorem use_data_port_frame (cfg : cache_config) (c c1 : data_cache) (mf : Nat)
    (outcome : cache_request_status) (events : List cache_event)
    (h : c.use_data_port cfg mf outcome events = Except.ok c1) :
    stats_frame c.tobaseline_cache c1.tobaseline_cache ∧ c1.heap = c.heap := by
  unfold data_cache.use_data_port at h
  cases outcome <;> simp only at h <;> (try split_ifs at h) <;>
    (have h1 := Except.ok.inj h
     subst h1
     exact ⟨⟨rfl, rfl⟩, rfl⟩)

/-- The function `process_tag_probe` changes neither the statistics matrix nor the prefetch
miss queue. -/
theorem process_tag_probe_frame (cfg : cache_config) (c : data_cache) (wr : Bool)
    (probe_status : cache_request_status) (addr cache_index mf time : Nat)
    (events : List cache_event) (is_l1_cache : Bool) (r : handler_result)
    (h : c.process_tag_probe cfg wr probe_status addr cache_index mf time events is_l1_cache
      = Except.ok r) :
    stats_frame c.tobaseline_cache r.cache.tobaseline_cache := by
  unfold data_cache.process_tag_probe at h
  simp only at h
  split at h
  · cases h
  · rename_i r1 hr1
    split at h
    · cases h
    · rename_i c1 hc1
      have h1 := Except.ok.inj h
      subst h1
      have hport := (use_data_port_frame cfg r1.cache c1 mf r1.status r1.events hc1).1
      refine stats_frame_trans _ _ _ ?_ hport
      cases wr with
      | true =>
        simp only [if_true] at hr1
        by_cases hhit : probe_status = cache_request_status.HIT
        · rw [if_pos hhit] at hr1
          unfold data_cache.m_wr_hit at hr1
          cases hp : cfg.m_write_policy <;> simp only [hp] at hr1
          · cases hr1
          · exact wr_hit_wb_frame cfg c addr cache_index mf time events _ r1 hr1
          · exact wr_hit_wt_frame cfg c addr cache_index mf time events _ r1 hr1
          · exact wr_hit_we_frame cfg c addr cache_index mf time events _ r1 hr1
          · unfold data_cache.wr_hit_global_we_local_wb at hr1
            split_ifs at hr1
            · exact wr_hit_we_frame cfg c addr cache_index mf time events _ r1 hr1
            · exact wr_hit_wb_frame cfg c addr cache_index mf time events _ r1 hr1
        · rw [if_neg hhit] at hr1
          by_cases hrf : probe_status = cache_request_status.RESERVATION_FAIL
          · simp only [hrf, ne_eq, not_true_eq_false, if_false] at hr1
            have h2 := Except.ok.inj hr1
            subst h2
            exact ⟨rfl, rfl⟩
          · simp only [ne_eq, hrf, not_false_eq_true, if_true] at hr1
            unfold data_cache.m_wr_miss at hr1
            cases hp : cfg.m_write_alloc_policy <;> simp only [hp] at hr1
            · exact wr_miss_no_wa_frame cfg c addr cache_index mf time events _ r1 hr1
            · exact wr_miss_wa_frame cfg c addr cache_index mf time events _ r1 hr1
      | false =>
        simp only [Bool.false_eq_true, if_false] at hr1
        by_cases hhit : probe_status = cache_request_status.HIT
        · rw [if_pos hhit] at hr1
          exact rd_hit_base_frame cfg c addr cache_index mf time events _ r1 hr1
        · rw [if_neg hhit] at hr1
          by_cases hrf : probe_status = cache_request_status.RESERVATION_FAIL
          · simp only [hrf, ne_eq, not_true_eq_false, if_false] at hr1
            have h2 := Except.ok.inj hr1
            subst h2
            exact ⟨rfl, rfl⟩
          · simp only [ne_eq, hrf, not_false_eq_true, if_true] at hr1
            exact rd_miss_base_frame cfg c addr cache_index mf time events _ is_l1_cache
              r1 hr1

/-! ## Lemmas on the prefetch path -/

/-- A prefetch whose block has an MSHR entry is handed back untouched. -/
theorem send_read_request_pref_hit (cfg : cache_config) (c : baseline_cache)
    (pref_addr pref_block_addr pref_cache_index pref_mf time : Nat)
    (pref_do_miss pref_wb : Bool) (pref_evicted : cache_block_t)
    (events : List cache_event) (read_only wa : Bool)
    (h : c.m_mshrs.probe pref_block_addr = true) :
    c.send_read_request_pref cfg pref_addr pref_block_addr pref_cache_index pref_mf time
        pref_do_miss pref_wb pref_evicted events read_only wa =
      Except.ok { cache := c, do_miss := pref_do_miss, wb := pref_wb,
                  evicted := pref_evicted, events := events } := by
  unfold baseline_cache.send_read_request_pref
  simp only [h, if_true]

/-- The two ways `send_read_request_pref` returns: the prefetch miss queue is as it was and
`pref_do_miss` keeps its value, or the queue had a free slot, the carrier was appended to it
and `pref_do_miss` is set. The statistics matrix and the demand miss queue stay. -/
theorem send_read_request_pref_cases (cfg : cache_config) (c : baseline_cache)
    (pref_addr pref_block_addr pref_cache_index pref_mf time : Nat)
    (pref_do_miss pref_wb : Bool) (pref_evicted : cache_block_t)
    (events : List cache_event) (read_only wa : Bool) (r : read_request_result)
    (h : c.send_read_request_pref cfg pref_addr pref_block_addr pref_cache_index pref_mf time
        pref_do_miss pref_wb pref_evicted events read_only wa = Except.ok r) :
    r.cache.m_stats = c.m_stats ∧ r.cache.m_miss_queue = c.m_miss_queue ∧
      r.cache.next_mf = c.next_mf ∧ r.events = events ∧
    ((r.cache.m_pref_miss_queue = c.m_pref_miss_queue ∧ r.do_miss = pref_do_miss) ∨
     (c.m_pref_miss_queue.length < cfg.m_miss_queue_size ∧
      r.cache.m_pref_miss_queue = c.m_pref_miss_queue ++ [pref_mf] ∧ r.do_miss = true)) := by
  unfold baseline_cache.send_read_request_pref at h
  simp only [Bool.not_eq_true'] at h
  by_cases h1 : c.m_mshrs.probe pref_block_addr = true
  · rw [if_pos h1] at h
    have h3 := Except.ok.inj h
    subst h3
    exact ⟨rfl, rfl, rfl, rfl, Or.inl ⟨rfl, rfl⟩⟩
  · rw [if_neg h1] at h
    by_cases h2 : c.m_mshrs.probe pref_block_addr = false ∧
        c.m_mshrs.full pref_block_addr = false ∧
        c.m_pref_miss_queue.length < cfg.m_miss_queue_size ∧ c.m_miss_queue.length < 3
    · rw [if_pos h2] at h
      split at h
      · cases h
      · rename_i ra hra
        by_cases hm : ra.status = cache_request_status.MISS
        · rw [if_pos hm] at h
          split at h
          · cases h
          · have h3 := Except.ok.inj h
            subst h3
            exact ⟨rfl, rfl, rfl, rfl, Or.inr ⟨h2.2.2.1, rfl, rfl⟩⟩
        · rw [if_neg hm] at h
          have h3 := Except.ok.inj h
          subst h3
          exact ⟨rfl, rfl, rfl, rfl, Or.inl ⟨rfl, rfl⟩⟩
    · rw [if_neg h2] at h
      have h3 := Except.ok.inj h
      subst h3
      exact ⟨rfl, rfl, rfl, rfl, Or.inl ⟨rfl, rfl⟩⟩

/-- The prefetch block of `data_cache::access` leaves the statistics matrix, the demand miss
queue and the event list alone; the prefetch miss queue is as before, or it had a free slot
and has gained the carrier and at most the writeback behind it. -/
theorem access_prefetch_cases (cfg : cache_config) (c c1 : data_cache) (pref_mf time : Nat)
    (events events1 : List cache_event) (pf : prefetch_req)
    (h : c.access_prefetch cfg pref_mf time events pf = Except.ok (c1, events1)) :
    c1.m_stats = c.m_stats ∧ c1.m_miss_queue = c.m_miss_queue ∧ events1 = events ∧
    (c1.m_pref_miss_queue = c.m_pref_miss_queue ∨
     (c.m_pref_miss_queue.length < cfg.m_miss_queue_size ∧
      (c1.m_pref_miss_queue = c.m_pref_miss_queue ++ [pref_mf] ∨
       c1.m_pref_miss_queue = c.m_pref_miss_queue ++ [pref_mf, c.next_mf]))) := by
  unfold data_cache.access_prefetch at h
  dsimp only at h
  by_cases hg : pf.addr > 0 ∧ pf.addr ≤ 2415919103 ∧
      (pf.valid = true ∨ (pf.valid = false ∧ pf.put_time < 10))
  swap
  · rw [if_neg hg] at h
    have h1 := Prod.mk.inj (Except.ok.inj h)
    rw [← h1.1, ← h1.2]
    exact ⟨rfl, rfl, rfl, Or.inl rfl⟩
  rw [if_pos hg] at h
  split at h
  · cases h
  · rename_i r hr
    obtain ⟨hs, hq, hn, he, hcase⟩ := send_read_request_pref_cases cfg _ _ _ _ _ _ _ _ _ _ _ _
      r hr
    rcases hcase with ⟨hp, hd⟩ | ⟨hlt, hp, hd⟩
    · have hdm : r.do_miss = false := hd
      simp only [hdm, Bool.false_eq_true, if_false] at h
      have h1 := Prod.mk.inj (Except.ok.inj h)
      rw [← h1.1, ← h1.2]
      exact ⟨hs, hq, he, Or.inl hp⟩
    · simp only [hd, if_true] at h
      split_ifs at h
      · have h1 := Prod.mk.inj (Except.ok.inj h)
        rw [← h1.1, ← h1.2]
        have hp1 : r.cache.m_pref_miss_queue = c.m_pref_miss_queue ++ [pref_mf] := hp
        have hn1 : r.cache.next_mf = c.next_mf := hn
        refine ⟨hs, hq, he, Or.inr ⟨hlt, Or.inr ?_⟩⟩
        show r.cache.m_pref_miss_queue ++ [r.cache.next_mf]
          = c.m_pref_miss_queue ++ [pref_mf, c.next_mf]
        rw [hp1, hn1, List.append_assoc, List.singleton_append]
      · have h1 := Prod.mk.inj (Except.ok.inj h)
        rw [← h1.1, ← h1.2]
        exact ⟨hs, hq, he, Or.inr ⟨hlt, Or.inl hp⟩⟩

/-- The function `send_read_request_pref` writes neither the warp nor the address of a
request object. -/
theorem send_read_request_pref_heap (cfg : cache_config) (c : baseline_cache)
    (pref_addr pref_block_addr pref_cache_index pref_mf time : Nat)
    (pref_do_miss pref_wb : Bool) (pref_evicted : cache_block_t)
    (events : List cache_event) (read_only wa : Bool) (r : read_request_result)
    (h : c.send_read_request_pref cfg pref_addr pref_block_addr pref_cache_index pref_mf time
        pref_do_miss pref_wb pref_evicted events read_only wa = Except.ok r) :
    ∀ q, (r.cache.heap q).m_wid = (c.heap q).m_wid ∧
      (r.cache.heap q).m_addr = (c.heap q).m_addr := by
  intro q
  unfold baseline_cache.send_read_request_pref at h
  simp only [Bool.not_eq_true'] at h
  by_cases h1 : c.m_mshrs.probe pref_block_addr = true
  · rw [if_pos h1] at h
    have h3 := Except.ok.inj h
    subst h3
    exact ⟨rfl, rfl⟩
  · rw [if_neg h1] at h
    by_cases h2 : c.m_mshrs.probe pref_block_addr = false ∧
        c.m_mshrs.full pref_block_addr = false ∧
        c.m_pref_miss_queue.length < cfg.m_miss_queue_size ∧ c.m_miss_queue.length < 3
    · rw [if_pos h2] at h
      split at h
      · cases h
      · rename_i ra hra
        by_cases hm : ra.status = cache_request_status.MISS
        · rw [if_pos hm] at h
          split at h
          · cases h
          · have h3 := Except.ok.inj h
            subst h3
            show (set_status (set_data_size c.heap pref_mf cfg.m_line_sz) pref_mf
                c.m_miss_queue_status time q).m_wid = _ ∧
              (set_status (set_data_size c.heap pref_mf cfg.m_line_sz) pref_mf
                c.m_miss_queue_status time q).m_addr = _
            unfold set_status set_data_size
            by_cases hq : q = pref_mf
            · subst hq
              simp
            · simp [hq]
        · rw [if_neg hm] at h
          have h3 := Except.ok.inj h
          subst h3
          exact ⟨rfl, rfl⟩
    · rw [if_neg h2] at h
      have h3 := Except.ok.inj h
      subst h3
      exact ⟨rfl, rfl⟩

/-- The prefetch block of `data_cache::access` with its gate open: the carrier takes the
warp and the block address of the candidate and is handed to `send_read_request_pref`
together with the address of the candidate; the block stops where that call stops, and
what it leaves is what that call leaves, with at most the writeback of a line evicted for
the prefetch queued behind the carrier. -/
theorem access_prefetch_open (cfg : cache_config) (c : data_cache) (p time : Nat)
    (events : List cache_event) (pf : prefetch_req)
    (hg : pf.addr > 0 ∧ pf.addr ≤ 2415919103 ∧
      (pf.valid = true ∨ (pf.valid = false ∧ pf.put_time < 10))) :
    (∀ f, c.access_prefetch cfg p time events pf = Except.error f ↔
      ({ c with heap := set_warp_id_addr c.heap p pf.warp_id (cfg.block_addr pf.addr) }
        : data_cache).tobaseline_cache.send_read_request_pref cfg pf.addr
        (cfg.block_addr pf.addr) UINT_MAX p time false false empty_line events false false
        = Except.error f) ∧
    ∀ c1 ev1, c.access_prefetch cfg p time events pf = Except.ok (c1, ev1) →
      ∃ r, ({ c with heap := set_warp_id_addr c.heap p pf.warp_id (cfg.block_addr pf.addr) }
        : data_cache).tobaseline_cache.send_read_request_pref cfg pf.addr
        (cfg.block_addr pf.addr) UINT_MAX p time false false empty_line events false false
        = Except.ok r ∧
      ev1 = events ∧
      c1.m_tag_array = r.cache.m_tag_array ∧ c1.m_mshrs = r.cache.m_mshrs ∧
      c1.m_extra_mf_fields = r.cache.m_extra_mf_fields ∧
      c1.m_miss_queue = c.m_miss_queue ∧
      ((r.do_miss = false ∧ c1.m_pref_miss_queue = c.m_pref_miss_queue) ∨
        (r.do_miss = true ∧
          (c1.m_pref_miss_queue = c.m_pref_miss_queue ++ [p] ∨
            c1.m_pref_miss_queue = c.m_pref_miss_queue ++ [p, c.next_mf]))) ∧
      (p ≠ c.next_mf →
        (c1.heap p).m_wid = pf.warp_id ∧ (c1.heap p).m_addr = cfg.block_addr pf.addr) := by
  unfold data_cache.access_prefetch
  dsimp only
  rw [if_pos hg]
  cases hr : ({ c with heap := set_warp_id_addr c.heap p pf.warp_id (cfg.block_addr pf.addr) }
      : data_cache).tobaseline_cache.send_read_request_pref cfg pf.addr
      (cfg.block_addr pf.addr) UINT_MAX p time false false empty_line events false false with
  | error f0 =>
    dsimp only
    refine ⟨fun f => ⟨fun h => ?_, fun h => ?_⟩, fun c1 ev1 h => ?_⟩
    · rw [Except.error.inj h]
    · rw [Except.error.inj h]
    · cases h
  | ok r =>
    dsimp only
    obtain ⟨_, hq, hn, he, hcase⟩ := send_read_request_pref_cases cfg _ _ _ _ _ _ _ _ _ _ _ _
      r hr
    have hheap := send_read_request_pref_heap cfg _ _ _ _ _ _ _ _ _ _ _ _ r hr p
    have hwid : (r.cache.heap p).m_wid = pf.warp_id := by
      rw [hheap.1]
      show (set_warp_id_addr c.heap p pf.warp_id (cfg.block_addr pf.addr) p).m_wid = _
      simp [set_warp_id_addr]
    have haddr : (r.cache.heap p).m_addr = cfg.block_addr pf.addr := by
      rw [hheap.2]
      show (set_warp_id_addr c.heap p pf.warp_id (cfg.block_addr pf.addr) p).m_addr = _
      simp [set_warp_id_addr]
    have hq1 : r.cache.m_miss_queue = c.m_miss_queue := hq
    have hn1 : r.cache.next_mf = c.next_mf := hn
    constructor
    · intro f
      constructor
      · intro h
        split_ifs at h
      · intro h
        cases h
    · intro c1 ev1 h
      refine ⟨r, rfl, ?_⟩
      rcases hcase with ⟨hp, hd⟩ | ⟨_, hp, hd⟩
      · have hdm : r.do_miss = false := hd
        have hp1 : r.cache.m_pref_miss_queue = c.m_pref_miss_queue := hp
        simp only [hdm, Bool.false_eq_true, if_false] at h
        have h1 := Prod.mk.inj (Except.ok.inj h)
        rw [← h1.1, ← h1.2]
        exact ⟨he, rfl, rfl, rfl, hq1, Or.inl ⟨hdm, hp1⟩, fun _ => ⟨hwid, haddr⟩⟩
      · have hp1 : r.cache.m_pref_miss_queue = c.m_pref_miss_queue ++ [p] := hp
        simp only [hd, if_true] at h
        split_ifs at h
        · have h1 := Prod.mk.inj (Except.ok.inj h)
          rw [← h1.1, ← h1.2]
          refine ⟨he, rfl, rfl, rfl, hq1, Or.inr ⟨hd, Or.inr ?_⟩, fun hne => ?_⟩
          · show r.cache.m_pref_miss_queue ++ [r.cache.next_mf]
              = c.m_pref_miss_queue ++ [p, c.next_mf]
            rw [hp1, hn1, List.append_assoc, List.singleton_append]
          · have hne1 : p ≠ r.cache.next_mf := by
              rw [hn1]
              exact hne
            show (set_status (fun q => if q = r.cache.next_mf then _ else r.cache.heap q)
                r.cache.next_mf _ time p).m_wid = _ ∧
              (set_status (fun q => if q = r.cache.next_mf then _ else r.cache.heap q)
                r.cache.next_mf _ time p).m_addr = _
            unfold set_status
            simp only [if_neg hne1]
            exact ⟨hwid, haddr⟩
        · have h1 := Prod.mk.inj (Except.ok.inj h)
          rw [← h1.1, ← h1.2]
          exact ⟨he, rfl, rfl, rfl, hq1, Or.inr ⟨hd, Or.inl hp1⟩, fun _ => ⟨hwid, haddr⟩⟩

/-- What `data_cache::access` does to the statistics matrix and to the prefetch miss
queue: one cell of the matrix is incremented, that of the access type of the request and of
the status `select_stats_status` picks from the probe status and the returned status; the
prefetch miss queue is as before or had a free slot and has gained at most two requests. -/
theorem access_stats_and_queue (cfg : cache_config) (c : data_cache) (addr mf : Nat)
    (pref_mf : Option Nat) (time : Nat) (events : List cache_event) (is_l1_cache : Bool)
    (pf : prefetch_req) (r : handler_result)
    (h : c.access cfg addr mf pref_mf time events is_l1_cache pf = Except.ok r) :
    (∃ probe_status idx,
      tag_array.probe cfg c.m_tag_array (cfg.block_addr addr) UINT_MAX
        = Except.ok (probe_status, idx) ∧
      r.cache.m_stats = fun ty st =>
        if ty = (r.cache.heap mf).m_access_type ∧
            st = select_stats_status probe_status r.status then u32 (c.m_stats ty st + 1)
        else c.m_stats ty st) ∧
    (r.cache.m_pref_miss_queue = c.m_pref_miss_queue ∨
     (c.m_pref_miss_queue.length < cfg.m_miss_queue_size ∧
      r.cache.m_pref_miss_queue.length ≤ c.m_pref_miss_queue.length + 2)) := by
  unfold data_cache.access at h
  by_cases hsz : ¬ (c.heap mf).m_data_size ≤ cfg.m_line_sz
  · rw [if_pos hsz] at h
    cases h
  · rw [if_neg hsz] at h
    simp only at h
    split at h
    · cases h
    · rename_i probe_status cache_index hprobe
      split at h
      · cases h
      · rename_i r1 hr1
        have hf := process_tag_probe_frame cfg c _ probe_status addr cache_index mf time
          events is_l1_cache r1 hr1
        split at h
        · cases h
        · rename_i c1 events1 hpre
          have h1 := Except.ok.inj h
          subst h1
          have hc1 : c1.m_stats = r1.cache.m_stats ∧
              (c1.m_pref_miss_queue = r1.cache.m_pref_miss_queue ∨
               (r1.cache.m_pref_miss_queue.length < cfg.m_miss_queue_size ∧
                (c1.m_pref_miss_queue.length ≤ r1.cache.m_pref_miss_queue.length + 2))) := by
            cases pref_mf with
            | none =>
              have h2 := Prod.mk.inj (Except.ok.inj hpre)
              rw [← h2.1]
              exact ⟨rfl, Or.inl rfl⟩
            | some p =>
              by_cases hl1 : is_l1_cache = true
              · simp only [hl1, if_true] at hpre
                obtain ⟨hs, _, _, hq⟩ := access_prefetch_cases cfg r1.cache c1 p time
                  r1.events events1 pf hpre
                refine ⟨hs, ?_⟩
                rcases hq with hq | ⟨hlt, hq | hq⟩
                · exact Or.inl hq
                · exact Or.inr ⟨hlt, by rw [hq]; simp⟩
                · exact Or.inr ⟨hlt, by rw [hq]; simp⟩
              · simp only [hl1, if_false] at hpre
                have h2 := Prod.mk.inj (Except.ok.inj hpre)
                rw [← h2.1]
                exact ⟨rfl, Or.inl rfl⟩
          refine ⟨⟨probe_status, cache_index, hprobe, ?_⟩, ?_⟩
          · show (c1.inc_stats _ _).m_stats = _
            unfold data_cache.inc_stats
            simp only [hc1.1, hf.1]
          · show c1.m_pref_miss_queue = _ ∨ _
            rw [← hf.2]
            rcases hc1.2 with hq | ⟨hlt, hq⟩
            · exact Or.inl hq
            · exact Or.inr ⟨hlt, hq⟩

/-- The function `cycle` is its first statement followed by the sampling of the ports and
the replenishing of their bandwidth. -/
theorem cycle_eq (c : baseline_cache) (memport_full : Nat → Bool → Bool) :
    c.cycle memport_full =
      match ((c.cycle_send memport_full).1.sample_cache_port_utility
          (!(c.cycle_send memport_full).1.data_port_free)
          (!(c.cycle_send memport_full).1.fill_port_free)).replenish_port_bandwidth with
      | Except.error f => Except.error f
      | Except.ok c1 => Except.ok (c1, (c.cycle_send memport_full).2) := rfl

theorem replenish_queues (c c1 : baseline_cache)
    (h : c.replenish_port_bandwidth = Except.ok c1) :
    c1.m_pref_miss_queue = c.m_pref_miss_queue ∧ c1.m_miss_queue = c.m_miss_queue := by
  unfold baseline_cache.replenish_port_bandwidth at h
  simp only at h
  split_ifs at h <;>
    (have h3 := Except.ok.inj h
     subst h3
     exact ⟨rfl, rfl⟩)

/-- A tick that returns leaves the queues as its first statement left them, and hands
downstream what that statement sent. -/
theorem cycle_queues (c c1 : baseline_cache) (sent : Option Nat)
    (memport_full : Nat → Bool → Bool) (h : c.cycle memport_full = Except.ok (c1, sent)) :
    c1.m_pref_miss_queue = (c.cycle_send memport_full).1.m_pref_miss_queue ∧
    c1.m_miss_queue = (c.cycle_send memport_full).1.m_miss_queue ∧
    sent = (c.cycle_send memport_full).2 := by
  rw [cycle_eq] at h
  split at h
  · cases h
  · rename_i c2 hc2
    have h2 := Prod.mk.inj (Except.ok.inj h)
    obtain ⟨hp, hm⟩ := replenish_queues _ c2 hc2
    rw [← h2.1, ← h2.2]
    exact ⟨hp, hm, rfl⟩

/-- A tick returns when neither occupancy counter is negative. -/
theorem cycle_returns (c : baseline_cache) (memport_full : Nat → Bool → Bool)
    (hd : 0 ≤ c.m_data_port_occupied_cycles) (hf : 0 ≤ c.m_fill_port_occupied_cycles) :
    ∃ c1, c.cycle memport_full = Except.ok (c1, (c.cycle_send memport_full).2) := by
  have hd1 : (c.cycle_send memport_full).1.m_data_port_occupied_cycles
      = c.m_data_port_occupied_cycles := by
    unfold baseline_cache.cycle_send
    split
    · split_ifs <;> rfl
    · split
      · split_ifs <;> rfl
      · rfl
  have hf1 : (c.cycle_send memport_full).1.m_fill_port_occupied_cycles
      = c.m_fill_port_occupied_cycles := by
    unfold baseline_cache.cycle_send
    split
    · split_ifs <;> rfl
    · split
      · split_ifs <;> rfl
      · rfl
  obtain ⟨c1, h1, _⟩ := replenish_returns
    ((c.cycle_send memport_full).1.sample_cache_port_utility
      (!(c.cycle_send memport_full).1.data_port_free)
      (!(c.cycle_send memport_full).1.fill_port_free))
    (by show 0 ≤ (c.cycle_send memport_full).1.m_data_port_occupied_cycles; rw [hd1]; exact hd)
    (by show 0 ≤ (c.cycle_send memport_full).1.m_fill_port_occupied_cycles; rw [hf1]; exact hf)
  exact ⟨c1, by rw [cycle_eq, h1]⟩

theorem cycle_send_pref_accept (c : baseline_cache) (memport_full : Nat → Bool → Bool)
    (p : Nat) (rest : List Nat) (hq : c.m_pref_miss_queue = p :: rest)
    (ha : memport_full (c.heap p).size (c.heap p).m_is_write = false) :
    c.cycle_send memport_full = ({ c with m_pref_miss_queue := rest }, some p) := by
  unfold baseline_cache.cycle_send
  simp only [hq, ha, if_true]

theorem cycle_send_pref_refuse (c : baseline_cache) (memport_full : Nat → Bool → Bool)
    (p : Nat) (rest : List Nat) (hq : c.m_pref_miss_queue = p :: rest)
    (hr : memport_full (c.heap p).size (c.heap p).m_is_write = true) :
    c.cycle_send memport_full = (c, none) := by
  unfold baseline_cache.cycle_send
  simp only [hq, hr, Bool.true_eq_false, if_false]

theorem cycle_send_demand_accept (c : baseline_cache) (memport_full : Nat → Bool → Bool)
    (d : Nat) (rest : List Nat) (hq : c.m_pref_miss_queue = [])
    (hmq : c.m_miss_queue = d :: rest)
    (ha : memport_full (c.heap d).size (c.heap d).m_is_write = false) :
    c.cycle_send memport_full = ({ c with m_miss_queue := rest }, some d) := by
  unfold baseline_cache.cycle_send
  simp only [hq, hmq, ha, if_true]

theorem cycle_send_demand_refuse (c : baseline_cache) (memport_full : Nat → Bool → Bool)
    (d : Nat) (rest : List Nat) (hq : c.m_pref_miss_queue = [])
    (hmq : c.m_miss_queue = d :: rest)
    (hr : memport_full (c.heap d).size (c.heap d).m_is_write = true) :
    c.cycle_send memport_full = (c, none) := by
  unfold baseline_cache.cycle_send
  simp only [hq, hmq, hr, Bool.true_eq_false, if_false]

theorem cycle_send_idle (c : baseline_cache) (memport_full : Nat → Bool → Bool)
    (hq : c.m_pref_miss_queue = []) (hmq : c.m_miss_queue = []) :
    c.cycle_send memport_full = (c, none) := by
  unfold baseline_cache.cycle_send
  simp only [hq, hmq]

/-- The first statement of a tick sends at most one request, taken from one of the queues. -/
theorem cycle_send_count (c : baseline_cache) (memport_full : Nat → Bool → Bool) :
    (c.cycle_send memport_full).1.m_pref_miss_queue.length +
        (c.cycle_send memport_full).1.m_miss_queue.length +
        (if (c.cycle_send memport_full).2.isSome then 1 else 0)
      = c.m_pref_miss_queue.length + c.m_miss_queue.length := by
  cases hq : c.m_pref_miss_queue with
  | cons p rest =>
    cases ha : memport_full (c.heap p).size (c.heap p).m_is_write with
    | false =>
      rw [cycle_send_pref_accept c memport_full p rest hq ha]
      simp only [Option.isSome_some, if_true, List.length_cons]
      omega
    | true =>
      rw [cycle_send_pref_refuse c memport_full p rest hq ha]
      simp only [Option.isSome_none, Bool.false_eq_true, if_false, hq, Nat.add_zero]
  | nil =>
    cases hmq : c.m_miss_queue with
    | cons d rest =>
      cases ha : memport_full (c.heap d).size (c.heap d).m_is_write with
      | false =>
        rw [cycle_send_demand_accept c memport_full d rest hq hmq ha]
        simp only [Option.isSome_some, if_true, List.length_cons, hq]
        omega
      | true =>
        rw [cycle_send_demand_refuse c memport_full d rest hq hmq ha]
        simp only [Option.isSome_none, Bool.false_eq_true, if_false, hq, hmq, Nat.add_zero]
    | nil =>
      rw [cycle_send_idle c memport_full hq hmq]
      simp only [Option.isSome_none, Bool.false_eq_true, if_false, hq, hmq, Nat.add_zero]

theorem cycle_send_pref_le (c : baseline_cache) (memport_full : Nat → Bool → Bool) :
    (c.cycle_send memport_full).1.m_pref_miss_queue.length ≤ c.m_pref_miss_queue.length := by
  unfold baseline_cache.cycle_send
  split
  · rename_i mf rest hpq
    split_ifs
    · show rest.length ≤ _
      rw [hpq, List.length_cons]
      omega
    · exact Nat.le_refl _
  · split
    · split_ifs <;> exact Nat.le_refl _
    · exact Nat.le_refl _

/-- One call of the host keeps the prefetch miss queue within one request above
`m_miss_queue_size`. -/
theorem run_op_pref_bound (cfg : cache_config) (c c1 : data_cache) (op : cache_op)
    (h : c.run_op cfg op = Except.ok c1)
    (hb : c.m_pref_miss_queue.length ≤ cfg.m_miss_queue_size + 1) :
    c1.m_pref_miss_queue.length ≤ cfg.m_miss_queue_size + 1 := by
  cases op with
  | access addr mf pref_mf time events is_l1_cache pf =>
    simp only [data_cache.run_op] at h
    split at h
    · cases h
    · rename_i r hr
      have h1 := Except.ok.inj h
      subst h1
      rcases (access_stats_and_queue cfg c addr mf pref_mf time events is_l1_cache pf r
        hr).2 with hq | ⟨hlt, hq⟩
      · rw [hq]
        exact hb
      · omega
  | fill mf time =>
    simp only [data_cache.run_op] at h
    split at h
    · cases h
    · rename_i b hbf
      have h1 := Except.ok.inj h
      subst h1
      show b.m_pref_miss_queue.length ≤ _
      have hq : b.m_pref_miss_queue = c.m_pref_miss_queue := by
        unfold baseline_cache.fill at hbf
        split at hbf
        · cases hbf
        · split_ifs at hbf
          simp only at hbf
          split at hbf
          · cases hbf
          · split at hbf
            · cases hbf
            · split_ifs at hbf <;>
                (unfold baseline_cache.use_fill_port at hbf
                 split_ifs at hbf
                 have h2 := Except.ok.inj hbf
                 subst h2
                 rfl)
      rw [hq]
      exact hb
  | cycle memport_full =>
    simp only [data_cache.run_op] at h
    split at h
    · cases h
    · rename_i b sent hbc
      have h1 := Except.ok.inj h
      subst h1
      show b.m_pref_miss_queue.length ≤ _
      rw [(cycle_queues c.tobaseline_cache b sent memport_full hbc).1]
      have := cycle_send_pref_le c.tobaseline_cache memport_full
      omega
  | flush =>
    simp only [data_cache.run_op] at h
    have h1 := Except.ok.inj h
    subst h1
    exact hb
  | next_access =>
    simp only [data_cache.run_op] at h
    split at h
    · cases h
    · have h1 := Except.ok.inj h
      subst h1
      exact hb
  | host_store p obj =>
    simp only [data_cache.run_op] at h
    have h1 := Except.ok.inj h
    subst h1
    exact hb

/-- A sequence of calls of the host keeps the prefetch miss queue within one request above
`m_miss_queue_size`. -/
theorem run_ops_pref_bound (cfg : cache_config) (ops : List cache_op) :
    ∀ c c1 : data_cache, c.run_ops cfg ops = Except.ok c1 →
      c.m_pref_miss_queue.length ≤ cfg.m_miss_queue_size + 1 →
      c1.m_pref_miss_queue.length ≤ cfg.m_miss_queue_size + 1 := by
  induction ops with
  | nil =>
    intro c c1 h hb
    have h1 := Except.ok.inj h
    subst h1
    exact hb
  | cons op rest ih =>
    intro c c1 h hb
    simp only [data_cache.run_ops] at h
    cases h2 : c.run_op cfg op with
    | error f =>
      rw [h2] at h
      cases h
    | ok c2 =>
      rw [h2] at h
      exact ih c2 c1 h (run_op_pref_bound cfg c c2 op h2 hb)

/-! ## Lemmas on probes of sets with invalid lines -/

/-- A probe of a set in which no way gives a tag hit and some way is INVALID returns MISS,
as long as the line indices of the set stay below the sentinel `(unsigned)-1`. -/
theorem probe_miss_of_invalid (cfg : cache_config) (t : tag_array) (addr idx0 : Nat)
    (hfit : (cfg.set_index addr + 1) * cfg.m_assoc ≤ UINT_MAX)
    (hno : ∀ w, w < cfg.m_assoc →
      ¬ tag_hit cfg t.m_lines (cfg.set_index addr) (cfg.tag addr) w)
    (hinv : ∃ w, w < cfg.m_assoc ∧
      (set_line cfg t.m_lines (cfg.set_index addr) w).m_status = cache_block_state.INVALID) :
    ∃ idx, tag_array.probe cfg t addr idx0 = Except.ok (cache_request_status.MISS, idx) := by
  obtain ⟨w0, hw0, hst0⟩ := hinv
  rw [probe_of_no_hit cfg t addr idx0 hno]
  unfold probe_finish
  have hall : ¬ (probe_vars_after cfg t.m_lines (cfg.set_index addr)
      cfg.m_assoc).all_reserved = true := by
    intro h
    have h1 := (all_reserved_after cfg t.m_lines (cfg.set_index addr) cfg.m_assoc).mp h w0 hw0
    rw [hst0] at h1
    cases h1
  rw [if_neg hall]
  rcases invalid_inv_after cfg t.m_lines (cfg.set_index addr) cfg.m_assoc with
    ⟨_, hnone⟩ | ⟨w, hw, hiv, hst, _⟩
  · exact absurd hst0 (hnone w0 hw0)
  · have hne : (probe_vars_after cfg t.m_lines (cfg.set_index addr) cfg.m_assoc).invalid_line
        ≠ UINT_MAX := by
      rw [hiv]
      have : cfg.set_index addr * cfg.m_assoc + w < (cfg.set_index addr + 1) * cfg.m_assoc := by
        rw [Nat.add_mul, Nat.one_mul]
        exact Nat.add_lt_add_left hw _
      omega
    rw [if_pos hne, hiv]
    unfold probe_return_miss
    unfold set_line at hst
    rw [if_pos (by rw [hst]; decide)]
    exact ⟨_, rfl⟩

theorem flush_lines (cfg : cache_config) (t : tag_array) (i : Nat)
    (h : i < cfg.m_nset * cfg.m_assoc) :
    ((t.flush cfg).m_lines i).m_status = cache_block_state.INVALID := by
  unfold tag_array.flush
  simp only [h, if_true]

theorem set_line_in_range (cfg : cache_config) (s w : Nat) (hs : s < cfg.m_nset)
    (hw : w < cfg.m_assoc) : s * cfg.m_assoc + w < cfg.m_nset * cfg.m_assoc := by
  have h1 : s * cfg.m_assoc + w < (s + 1) * cfg.m_assoc := by
    rw [Nat.add_mul, Nat.one_mul]
    exact Nat.add_lt_add_left hw _
  have h2 : (s + 1) * cfg.m_assoc ≤ cfg.m_nset * cfg.m_assoc :=
    Nat.mul_le_mul_right _ hs
  omega

/-- The tag array of the dirty scenario holds no tag twice in a set. -/
theorem tags_valid_modified_unique : unique_tags scenario_cfg tags_valid_modified.m_lines := by
  intro s w1 w2 h1 h2 hne hs1 hs2
  have ha : scenario_cfg.m_assoc = 2 := rfl
  rw [ha] at h1 h2
  have hout : ∀ i, 2 ≤ i →
      (tags_valid_modified.m_lines i).m_status = cache_block_state.INVALID := by
    intro i hi
    obtain ⟨k, rfl⟩ : ∃ k, i = k + 2 := ⟨i - 2, by omega⟩
    rfl
  unfold set_line at hs1 hs2 ⊢
  rw [ha] at hs1 hs2 ⊢
  rcases Nat.eq_zero_or_pos s with hz | hpos
  · subst hz
    have c1 : w1 = 0 ∨ w1 = 1 := by omega
    have c2 : w2 = 0 ∨ w2 = 1 := by omega
    rcases c1 with rfl | rfl <;> rcases c2 with rfl | rfl
    · exact absurd rfl hne
    · decide
    · decide
    · exact absurd rfl hne
  · exact absurd (hout _ (by omega)) hs1

/-! ## Lemmas on the scan loop of `calcu_addr` -/

theorem scan_pick_iff (e : stride_entry) (lead : Int) (req x : Nat) :
    scan_pick e lead req x = true ↔
      (x : Int) ≠ lead ∧ e.in_window lead x = true ∧ req ≠ e.predicted lead x := by
  simp [scan_pick]

theorem drop_cons_inv (ws : List Nat) (it x : Nat) (t : List Nat)
    (h : ws.drop it = x :: t) : ws[it]? = some x ∧ ws.drop (it + 1) = t ∧ it < ws.length := by
  have hlt : it < ws.length := by
    by_contra hge
    rw [List.drop_eq_nil_of_le (Nat.le_of_not_lt hge)] at h
    cases h
  rw [List.drop_eq_getElem_cons hlt] at h
  have h1 := List.cons.inj h
  refine ⟨?_, h1.2, hlt⟩
  rw [List.getElem?_eq_getElem hlt, h1.1]

/-- One entry of the loop body at a position inside the warp set other than `it_end`. -/
theorem calcu_addr_loop_step (e : stride_entry) (lead : Int) (req : Nat) (ws : List Nat)
    (it_end fuel it k x : Nat) (hx : ws[it]? = some x) (hne : it ≠ it_end) :
    calcu_addr_loop e lead req ws it_end (fuel + 1) it k =
      if scan_pick e lead req x = true then
        Except.ok (some { it := it, found := some x, iterations := k + 1 })
      else calcu_addr_loop e lead req ws it_end fuel (it + 1) (k + 1) := by
  have hlt : it < ws.length := by
    by_contra hge
    rw [List.getElem?_eq_none (Nat.le_of_not_lt hge)] at hx
    cases hx
  have hn : it ≠ ws.length := Nat.ne_of_lt hlt
  have hne1 : ¬ it_end = it := fun h => hne h.symm
  rw [calcu_addr_loop]
  simp only [hne, hn, if_false, false_and, hx, hne1]
  by_cases h1 : (x : Int) = lead
  · have hp : ¬ scan_pick e lead req x = true := by
      rw [scan_pick_iff]
      exact fun h => h.1 h1
    rw [if_neg hp, if_pos h1]
  · by_cases h2 : e.in_window lead x = true ∧ req ≠ e.predicted lead x
    · have hp : scan_pick e lead req x = true := (scan_pick_iff e lead req x).mpr ⟨h1, h2⟩
      rw [if_pos hp, if_neg h1, if_pos h2]
    · have hp : ¬ scan_pick e lead req x = true := by
        rw [scan_pick_iff]
        exact fun h => h2 h.2
      rw [if_neg hp, if_neg h1, if_neg h2]

/-- The loop left at its condition. -/
theorem calcu_addr_loop_done (e : stride_entry) (lead : Int) (req : Nat) (ws : List Nat)
    (it_end fuel k : Nat) :
    calcu_addr_loop e lead req ws it_end fuel it_end k =
      Except.ok (some { it := it_end, found := none, iterations := k }) := by
  cases fuel <;> simp [calcu_addr_loop]

/-- A stretch of the warp set without candidate and without the position `it_end` is
passed, one entry of the body per position. -/
theorem calcu_addr_loop_pass (e : stride_entry) (lead : Int) (req : Nat) (ws : List Nat)
    (it_end : Nat) :
    ∀ (l rest : List Nat) (fuel it k : Nat), ws.drop it = l ++ rest →
      (∀ j, it ≤ j → j < it + l.length → j ≠ it_end) →
      l.find? (scan_pick e lead req) = none →
      calcu_addr_loop e lead req ws it_end (fuel + l.length) it k =
        calcu_addr_loop e lead req ws it_end fuel (it + l.length) (k + l.length) := by
  intro l
  induction l with
  | nil => intro rest fuel it k _ _ _; rfl
  | cons y l ih =>
    intro rest fuel it k hdrop hpos hfind
    obtain ⟨hx, hdrop1, _⟩ := drop_cons_inv ws it y (l ++ rest) hdrop
    have hy : ¬ scan_pick e lead req y = true := by
      intro hy
      rw [List.find?_cons_of_pos _ hy] at hfind
      cases hfind
    have hfind1 : l.find? (scan_pick e lead req) = none := by
      rw [List.find?_cons_of_neg _ hy] at hfind
      exact hfind
    have hne : it ≠ it_end := hpos it (Nat.le_refl _) (by simp)
    have hlen : fuel + (y :: l).length = (fuel + l.length) + 1 := by simp [Nat.add_assoc]
    rw [hlen, calcu_addr_loop_step e lead req ws it_end _ it k y hx hne, if_neg hy,
      ih rest fuel (it + 1) (k + 1) hdrop1
        (fun j h1 h2 => hpos j (by omega) (by simp only [List.length_cons]; omega)) hfind1]
    have h1 : it + 1 + l.length = it + (y :: l).length := by
      simp only [List.length_cons]; omega
    have h2 : k + 1 + l.length = k + (y :: l).length := by
      simp only [List.length_cons]; omega
    rw [h1, h2]

/-- A stretch of the warp set with a candidate and without the position `it_end` ends the
loop at its first candidate. -/
theorem calcu_addr_loop_hit (e : stride_entry) (lead : Int) (req : Nat) (ws : List Nat)
    (it_end : Nat) :
    ∀ (l rest : List Nat) (fuel it k x : Nat), ws.drop it = l ++ rest →
      (∀ j, it ≤ j → j < it + l.length → j ≠ it_end) →
      l.find? (scan_pick e lead req) = some x → l.length ≤ fuel →
      ∃ ex, calcu_addr_loop e lead req ws it_end fuel it k = Except.ok (some ex) ∧
        ex.found = some x ∧ ex.iterations ≤ k + l.length := by
  intro l
  induction l with
  | nil => intro rest fuel it k x _ _ hfind; cases hfind
  | cons y l ih =>
    intro rest fuel it k x hdrop hpos hfind hfuel
    obtain ⟨hx, hdrop1, _⟩ := drop_cons_inv ws it y (l ++ rest) hdrop
    have hne : it ≠ it_end := hpos it (Nat.le_refl _) (by simp)
    obtain ⟨f, hf⟩ : ∃ f, fuel = f + 1 :=
      ⟨fuel - 1, by simp only [List.length_cons] at hfuel; omega⟩
    subst hf
    rw [calcu_addr_loop_step e lead req ws it_end f it k y hx hne]
    by_cases hy : scan_pick e lead req y = true
    · rw [List.find?_cons_of_pos _ hy] at hfind
      rw [if_pos hy]
      refine ⟨_, rfl, ?_, ?_⟩
      · exact hfind
      · simp only [List.length_cons]; omega
    · rw [List.find?_cons_of_neg _ hy] at hfind
      rw [if_neg hy]
      obtain ⟨ex, h1, h2, h3⟩ := ih rest f (it + 1) (k + 1) x hdrop1
        (fun j h1 h2 => hpos j (by omega) (by simp only [List.length_cons]; omega)) hfind
        (by simp only [List.length_cons] at hfuel; omega)
      exact ⟨ex, h1, h2, by simp only [List.length_cons]; omega⟩

/-- At `end()` the loop wraps to the beginning: if `it_end` is neither `end()` nor the
beginning, the entry of the body is the one at position 0. -/
theorem calcu_addr_loop_wrap (e : stride_entry) (lead : Int) (req : Nat) (ws : List Nat)
    (it_end fuel k : Nat) (hn : ws ≠ []) (h1 : it_end ≠ ws.length) (h2 : it_end ≠ 0) :
    calcu_addr_loop e lead req ws it_end (fuel + 1) ws.length k =
      calcu_addr_loop e lead req ws it_end (fuel + 1) 0 k := by
  have hlen : ws.length ≠ 0 := fun h => hn (List.length_eq_zero.mp h)
  have h3 : ¬ ws.length = it_end := fun h => h1 h.symm
  have h4 : ¬ 0 = it_end := fun h => h2 h.symm
  have h5 : ¬ 0 = ws.length := fun h => hlen h.symm
  conv_lhs => unfold calcu_addr_loop
  conv_rhs => unfold calcu_addr_loop
  simp only [h3, h4, h5, h1, if_false, if_true, and_false, false_and]

/-- At `end()` with `it_end` at the beginning, the loop wraps, treats position 0 and is
left. -/
theorem calcu_addr_loop_wrap_last (e : stride_entry) (lead : Int) (req : Nat) (ws : List Nat)
    (fuel k y : Nat) (t : List Nat) (hws : ws = y :: t) :
    calcu_addr_loop e lead req ws 0 (fuel + 1) ws.length k =
      Except.ok (some { it := 0,
                        found := if scan_pick e lead req y = true then some y else none,
                        iterations := k + 1 }) := by
  subst hws
  unfold calcu_addr_loop
  have h1 : ¬ (y :: t).length = 0 := by simp
  have h2 : ¬ ((y :: t).length = (y :: t).length ∧ 0 = (y :: t).length) := by
    intro h; exact h1 h.2.symm
  have h0 : ¬ (y :: t).length = 0 := h1
  have h00 : ¬ 0 = (y :: t).length := fun h => h1 h.symm
  rw [if_neg h0, if_neg (fun h => h00 h.2)]
  simp only [if_true, List.getElem?_cons_zero]
  by_cases h3 : (y : Int) = lead
  · have hp : ¬ scan_pick e lead req y = true := by
      rw [scan_pick_iff]
      exact fun h => h.1 h3
    rw [if_neg hp, if_pos h3]
  · by_cases h4 : e.in_window lead y = true ∧ req ≠ e.predicted lead y
    · have hp : scan_pick e lead req y = true := (scan_pick_iff e lead req y).mpr ⟨h3, h4⟩
      rw [if_pos hp, if_neg h3, if_pos h4]
    · have hp : ¬ scan_pick e lead req y = true := by
        rw [scan_pick_iff]
        exact fun h => h4 h.2
      rw [if_neg hp, if_neg h3, if_neg h4]

/-- What the loop hands over when it returns, whatever the positions it started from: a
warp found is a member of the warp set that passes the candidate test, and without a warp
found the loop was left at `it_end`. -/
theorem calcu_addr_loop_sound (e : stride_entry) (lead : Int) (req : Nat) (ws : List Nat)
    (it_end : Nat) :
    ∀ (fuel it k : Nat) (ex : scan_exit),
      calcu_addr_loop e lead req ws it_end fuel it k = Except.ok (some ex) →
      (ex.found = none → ex.it = it_end) ∧
      (∀ x, ex.found = some x → x ∈ ws ∧ scan_pick e lead req x = true) := by
  intro fuel
  induction fuel with
  | zero =>
    intro it k ex h
    unfold calcu_addr_loop at h
    split_ifs at h with h1
    · have h2 := Option.some.inj (Except.ok.inj h)
      subst h2
      exact ⟨fun _ => h1, fun x hx => by cases hx⟩
    · cases h
  | succ fuel ih =>
    intro it k ex h
    rw [calcu_addr_loop] at h
    by_cases h1 : it = it_end
    · rw [if_pos h1] at h
      have h3 := Option.some.inj (Except.ok.inj h)
      subst h3
      exact ⟨fun _ => h1, fun x hx => by cases hx⟩
    · rw [if_neg h1] at h
      by_cases h2 : it = ws.length ∧ it_end = ws.length
      · rw [if_pos h2] at h
        cases h
      · rw [if_neg h2] at h
        simp only at h
        generalize (if it = ws.length then 0 else it) = it1 at h
        cases hx : ws[it1]? with
        | none =>
          simp only [hx] at h
          cases h
        | some x =>
          simp only [hx] at h
          have hmem : x ∈ ws := List.mem_iff_getElem?.mpr ⟨it1, hx⟩
          by_cases h3 : (x : Int) = lead
          · rw [if_pos h3] at h
            by_cases h4 : it_end = it1
            · rw [if_pos h4] at h
              by_cases h5 : it_end = 0
              · rw [if_pos h5] at h
                have h9 := Option.some.inj (Except.ok.inj h)
                subst h9
                exact ⟨fun _ => h4.symm, fun x hx => by cases hx⟩
              · rw [if_neg h5] at h
                cases h
            · rw [if_neg h4] at h
              exact ih _ _ ex h
          · rw [if_neg h3] at h
            by_cases h6 : e.in_window lead x = true ∧ req ≠ e.predicted lead x
            · rw [if_pos h6] at h
              have h9 := Option.some.inj (Except.ok.inj h)
              subst h9
              refine ⟨fun hx => (by cases hx), fun z hz => ?_⟩
              have hz1 : x = z := Option.some.inj hz
              subst hz1
              exact ⟨hmem, (scan_pick_iff e lead req x).mpr ⟨h3, h6⟩⟩
            · rw [if_neg h6] at h
              by_cases h4 : it_end = it1
              · rw [if_pos h4] at h
                by_cases h5 : it_end = 0
                · rw [if_pos h5] at h
                  have h9 := Option.some.inj (Except.ok.inj h)
                  subst h9
                  exact ⟨fun _ => h4.symm, fun x hx => by cases hx⟩
                · rw [if_neg h5] at h
                  cases h
              · rw [if_neg h4] at h
                exact ih _ _ ex h

theorem find_one (p : Nat → Bool) (y : Nat) :
    [y].find? p = if p y = true then some y else none := by
  by_cases h : p y = true
  · rw [List.find?_cons_of_pos _ h, if_pos h]
  · rw [List.find?_cons_of_neg _ h, if_neg h]
    rfl

theorem find_append_none (p : Nat → Bool) (l1 l2 : List Nat) (h : l1.find? p = none) :
    (l1 ++ l2).find? p = l2.find? p := by
  rw [List.find?_append, h]
  rfl

theorem find_append_some (p : Nat → Bool) (l1 l2 : List Nat) (x : Nat)
    (h : l1.find? p = some x) : (l1 ++ l2).find? p = some x := by
  rw [List.find?_append, h]
  rfl

/-- The scan of `calcu_addr` from a new offset `w` inside the warp set: the start assertion
holds, the loop returns after at most `ws.length` entries of its body, a warp it found is
the first candidate in rotation order, and without a warp found the loop was left at
`it_end` and the only position of the rotation that can still hold a candidate is
`it_end`. -/
theorem calcu_addr_loop_spec (e : stride_entry) (lead : Int) (req : Nat) (ws : List Nat)
    (w fuel : Nat) (hw : w < ws.length) (hfuel : ws.length ≤ fuel) :
    w ≠ scan_end ws.length w ∧
    ∃ ex, calcu_addr_loop e lead req ws (scan_end ws.length w) fuel w 0 =
        Except.ok (some ex) ∧
      ex.iterations ≤ ws.length ∧
      (∀ x, ex.found = some x → (rotation ws w).find? (scan_pick e lead req) = some x) ∧
      (ex.found = none → ex.it = scan_end ws.length w ∧
        (rotation ws w).find? (scan_pick e lead req) =
          match ws[scan_end ws.length w]? with
          | some y => if scan_pick e lead req y = true then some y else none
          | none => none) := by
  obtain rfl | rfl | h2 : w = 0 ∨ w = 1 ∨ 2 ≤ w := by omega
  · have hend : scan_end ws.length 0 = ws.length := by simp [scan_end]
    rw [hend]
    refine ⟨by omega, ?_⟩
    have hrot : rotation ws 0 = ws := by simp [rotation]
    have hpos : ∀ j, 0 ≤ j → j < 0 + ws.length → j ≠ ws.length := fun j _ h => by omega
    have hdrop : ws.drop 0 = ws ++ [] := by simp
    have hnone : ws[ws.length]? = none := List.getElem?_eq_none (Nat.le_refl _)
    rw [hrot, hnone]
    cases hfind : ws.find? (scan_pick e lead req) with
    | none =>
      obtain ⟨f, hf⟩ : ∃ f, fuel = f + ws.length := ⟨fuel - ws.length, by omega⟩
      subst hf
      rw [calcu_addr_loop_pass e lead req ws ws.length ws [] f 0 0 hdrop hpos hfind,
        Nat.zero_add, calcu_addr_loop_done]
      exact ⟨_, rfl, Nat.le_refl _, fun x hx => (by cases hx), fun _ => ⟨rfl, rfl⟩⟩
    | some x =>
      obtain ⟨ex, h1, h3, h4⟩ :=
        calcu_addr_loop_hit e lead req ws ws.length ws [] fuel 0 0 x hdrop hpos hfind hfuel
      refine ⟨ex, h1, by omega, ?_, ?_⟩
      · intro z hz
        rw [← h3, hz]
      · intro hn
        rw [h3] at hn
        cases hn
  · have hend : scan_end ws.length 1 = 0 := by simp [scan_end]
    rw [hend]
    refine ⟨by omega, ?_⟩
    obtain ⟨y, t, hws⟩ : ∃ y t, ws = y :: t := by
      cases ws with
      | nil => simp at hw
      | cons y t => exact ⟨y, t, rfl⟩
    have hrot : rotation ws 1 = t ++ [y] := by subst hws; simp [rotation]
    have hdrop : ws.drop 1 = t ++ [] := by subst hws; simp
    have hlen : ws.length = t.length + 1 := by subst hws; simp
    have hpos : ∀ j, 1 ≤ j → j < 1 + t.length → j ≠ 0 := fun j h _ => by omega
    have h0 : ws[0]? = some y := by subst hws; simp
    rw [hrot, h0]
    simp only
    cases hfind : t.find? (scan_pick e lead req) with
    | some x =>
      obtain ⟨ex, h1, h3, h4⟩ :=
        calcu_addr_loop_hit e lead req ws 0 t [] fuel 1 0 x hdrop hpos hfind (by omega)
      refine ⟨ex, h1, by omega, ?_, ?_⟩
      · intro z hz
        rw [find_append_some _ _ _ _ hfind, ← h3, hz]
      · intro hn
        rw [h3] at hn
        cases hn
    | none =>
      obtain ⟨f, hf⟩ : ∃ f, fuel = (f + 1) + t.length := ⟨fuel - t.length - 1, by omega⟩
      subst hf
      have h1 : 1 + t.length = ws.length := by omega
      rw [calcu_addr_loop_pass e lead req ws 0 t [] (f + 1) 1 0 hdrop hpos hfind, h1,
        calcu_addr_loop_wrap_last e lead req ws f _ y t hws]
      refine ⟨_, rfl, (by simp only; omega), ?_, ?_⟩
      · intro x hx
        simp only at hx
        rw [find_append_none _ _ _ hfind, find_one]
        exact hx
      · intro hn
        simp only at hn
        refine ⟨rfl, ?_⟩
        rw [find_append_none _ _ _ hfind, find_one]
  · have hend : scan_end ws.length w = w - 1 := by
      unfold scan_end
      rw [if_neg (by omega)]
    rw [hend]
    refine ⟨by omega, ?_⟩
    have hlt : w - 1 < ws.length := by omega
    have hy : ws[w - 1]? = some (ws[w - 1]) := List.getElem?_eq_getElem hlt
    have htake : ws.take w = ws.take (w - 1) ++ [ws[w - 1]] := by
      have h3 : w = (w - 1) + 1 := by omega
      conv_lhs => rw [h3, List.take_succ, hy]
      rfl
    have hrot : rotation ws w = ws.drop w ++ (ws.take (w - 1) ++ [ws[w - 1]]) := by
      unfold rotation
      rw [htake]
    have hdrop1 : ws.drop w = ws.drop w ++ [] := by simp
    have hlen1 : (ws.drop w).length = ws.length - w := List.length_drop w ws
    have hpos1 : ∀ j, w ≤ j → j < w + (ws.drop w).length → j ≠ w - 1 :=
      fun j h _ => by omega
    have hdrop2 : ws.drop 0 = ws.take (w - 1) ++ ws.drop (w - 1) := by
      simp [List.take_append_drop]
    have hlen2 : (ws.take (w - 1)).length = w - 1 := by
      rw [List.length_take]
      omega
    have hpos2 : ∀ j, 0 ≤ j → j < 0 + (ws.take (w - 1)).length → j ≠ w - 1 :=
      fun j _ h => by omega
    have hne : ws ≠ [] := by
      intro h
      rw [h] at hw
      simp at hw
    rw [hrot, hy]
    simp only
    cases hfind1 : (ws.drop w).find? (scan_pick e lead req) with
    | some x =>
      obtain ⟨ex, h1, h3, h4⟩ :=
        calcu_addr_loop_hit e lead req ws (w - 1) (ws.drop w) [] fuel w 0 x hdrop1 hpos1
          hfind1 (by omega)
      refine ⟨ex, h1, by omega, ?_, ?_⟩
      · intro z hz
        rw [find_append_some _ _ _ _ hfind1, ← h3, hz]
      · intro hn
        rw [h3] at hn
        cases hn
    | none =>
      obtain ⟨f, hf⟩ : ∃ f, fuel = (f + 1) + (ws.drop w).length :=
        ⟨fuel - (ws.drop w).length - 1, by omega⟩
      have h5 : w + (ws.drop w).length = ws.length := by omega
      rw [hf, calcu_addr_loop_pass e lead req ws (w - 1) (ws.drop w) [] (f + 1) w 0 hdrop1
          hpos1 hfind1, h5,
        calcu_addr_loop_wrap e lead req ws (w - 1) f _ hne (by omega) (by omega)]
      cases hfind2 : (ws.take (w - 1)).find? (scan_pick e lead req) with
      | some x =>
        obtain ⟨ex, h1, h3, h4⟩ :=
          calcu_addr_loop_hit e lead req ws (w - 1) (ws.take (w - 1)) (ws.drop (w - 1))
            (f + 1) 0 (0 + (ws.drop w).length) x hdrop2 hpos2 hfind2 (by omega)
        refine ⟨ex, h1, by omega, ?_, ?_⟩
        · intro z hz
          rw [find_append_none _ _ _ hfind1, find_append_some _ _ _ _ hfind2, ← h3, hz]
        · intro hn
          rw [h3] at hn
          cases hn
      | none =>
        obtain ⟨g, hg⟩ : ∃ g, f + 1 = g + (ws.take (w - 1)).length :=
          ⟨f + 1 - (ws.take (w - 1)).length, by omega⟩
        rw [hg, calcu_addr_loop_pass e lead req ws (w - 1) (ws.take (w - 1))
            (ws.drop (w - 1)) g 0 (0 + (ws.drop w).length) hdrop2 hpos2 hfind2, hlen2,
          Nat.zero_add, calcu_addr_loop_done]
        refine ⟨_, rfl, (by simp only; omega), fun x hx => (by cases hx), fun _ => ⟨rfl, ?_⟩⟩
        rw [find_append_none _ _ _ hfind1, find_append_none _ _ _ hfind2, find_one]

/-! ## Lemmas on `calcu_addr` -/

theorem set_entry_same (p : cache_prefetch) (i : Int) (e : stride_entry) :
    (p.set_entry i e).m_stride_buffer i = e := by
  simp [cache_prefetch.set_entry]

theorem set_entry_other (p : cache_prefetch) (i j : Int) (e : stride_entry) (h : j ≠ i) :
    (p.set_entry i e).m_stride_buffer j = p.m_stride_buffer j := by
  simp [cache_prefetch.set_entry, h]

theorem scan_pick_set_cta (e : stride_entry) (c : Int) (x : cta_entry) (lead : Int)
    (req : Nat) : scan_pick (e.set_cta c x) lead req = scan_pick e lead req := rfl

theorem commit_req (p : cache_prefetch) (lead : Int) (x : Nat) :
    (p.commit lead x).m_prefetch_req =
      { valid := true, addr := (p.m_stride_buffer p.last_pc_index).predicted lead x,
        warp_id := x, put_time := 0 } := rfl

/-- With a valid request the block after the scan loop does nothing. -/
theorem calcu_addr_tail_valid (p : cache_prefetch) (lead : Int) (ws : List Nat)
    (it it_end : Nat) (hv : p.m_prefetch_req.valid = true) :
    p.calcu_addr_tail lead ws it it_end = Except.ok p := by
  unfold cache_prefetch.calcu_addr_tail
  simp only
  cases ws[it_end]? with
  | none => rfl
  | some y =>
    simp only
    rw [if_neg]
    rw [hv]
    simp

/-- After a loop left at `it_end` without a request, the block after the loop commits the
warp at `it_end` if it is a candidate. -/
theorem calcu_addr_tail_end (p : cache_prefetch) (lead : Int) (ws : List Nat)
    (it_end : Nat) (hv : p.m_prefetch_req.valid = false) :
    p.calcu_addr_tail lead ws it_end it_end =
      Except.ok (match ws[it_end]? with
        | some y =>
          if scan_pick (p.m_stride_buffer p.last_pc_index) lead p.m_prefetch_req.addr y = true
          then p.commit lead y else p
        | none => p) := by
  unfold cache_prefetch.calcu_addr_tail
  simp only
  cases hy : ws[it_end]? with
  | none => rfl
  | some y =>
    simp only
    have hlt : it_end ≠ ws.length := by
      intro h
      rw [List.getElem?_eq_none (Nat.le_of_eq h.symm)] at hy
      cases hy
    by_cases h1 : (y : Int) = lead
    · have hp : ¬ scan_pick (p.m_stride_buffer p.last_pc_index) lead p.m_prefetch_req.addr y
          = true := by
        rw [scan_pick_iff]
        exact fun h => h.1 h1
      rw [if_neg hp, if_neg (fun h => h.1 h1)]
    · rw [if_pos ⟨h1, hlt, hv⟩]
      by_cases h2 : (p.m_stride_buffer p.last_pc_index).in_window lead y = true
      · rw [if_pos h2]
        by_cases h3 : p.m_prefetch_req.addr ≠
            (p.m_stride_buffer p.last_pc_index).predicted lead y
        · rw [if_pos h3, if_pos ((scan_pick_iff _ _ _ _).mpr ⟨h1, h2, h3⟩)]
        · rw [if_neg h3, if_neg]
          rw [scan_pick_iff]
          exact fun h => h3 h.2.2
      · rw [if_neg h2, if_neg]
        rw [scan_pick_iff]
        exact fun h => h2 h.2.1

/-- The scan block entered without a valid request, with the stored offset inside the
warp set: with as many entries of the loop body allowed as the warp set has elements, the
block returns the state `scan_result`. -/
theorem scan_block_spec (fuel : Nat) (p : cache_prefetch) (c lead : Int)
    (hw : ((p.m_stride_buffer p.last_pc_index).m_cta_entry c).warp_offset <
      ((p.m_stride_buffer p.last_pc_index).m_cta_entry c).warp_set.length)
    (hfuel : ((p.m_stride_buffer p.last_pc_index).m_cta_entry c).warp_set.length ≤ fuel)
    (hv : p.m_prefetch_req.valid = false) :
    p.scan_block fuel c lead = Except.ok (some (p.scan_result c lead)) := by
  obtain ⟨hstart, ex, hloop, _, hsome, hnone⟩ :=
    calcu_addr_loop_spec (p.m_stride_buffer p.last_pc_index) lead p.m_prefetch_req.addr
      ((p.m_stride_buffer p.last_pc_index).m_cta_entry c).warp_set _ fuel hw hfuel
  unfold cache_prefetch.scan_block cache_prefetch.scan_result cache_prefetch.first_candidate
  simp only
  rw [if_neg hstart, hloop]
  simp only
  cases hf : ex.found with
  | some x =>
    simp only
    rw [calcu_addr_tail_valid _ _ _ _ _ (by rw [commit_req]), hsome x hf]
  | none =>
    simp only
    obtain ⟨hit, hcand⟩ := hnone hf
    rw [hit, calcu_addr_tail_end _ _ _ _ hv, hcand]
    cases ((p.m_stride_buffer p.last_pc_index).m_cta_entry c).warp_set[scan_end
        ((p.m_stride_buffer p.last_pc_index).m_cta_entry c).warp_set.length
        ((p.m_stride_buffer p.last_pc_index).m_cta_entry c).warp_offset]? with
    | none => rfl
    | some y =>
      simp only
      by_cases hp : scan_pick (p.m_stride_buffer p.last_pc_index) lead
          p.m_prefetch_req.addr y = true
      · rw [if_pos hp, if_pos hp]
      · rw [if_neg hp, if_neg hp]

theorem set_cta_same (e : stride_entry) (c : Int) (x : cta_entry) :
    (e.set_cta c x).m_cta_entry c = x := by
  simp [stride_entry.set_cta]

theorem set_cta_other (e : stride_entry) (c d : Int) (x : cta_entry) (h : d ≠ c) :
    (e.set_cta c x).m_cta_entry d = e.m_cta_entry d := by
  simp [stride_entry.set_cta, h]

theorem advance_entry (p : cache_prefetch) (c : Int) :
    (p.advance c).m_stride_buffer (p.advance c).last_pc_index =
      (p.m_stride_buffer p.last_pc_index).set_cta c
        { (p.m_stride_buffer p.last_pc_index).m_cta_entry c with
          warp_offset := (((p.m_stride_buffer p.last_pc_index).m_cta_entry c).warp_offset + 1) %
            ((p.m_stride_buffer p.last_pc_index).m_cta_entry c).warp_set.length } :=
  set_entry_same _ _ _

/-- What the scan block reads after the offset has moved on, in terms of the state before:
the warp set, the new offset, the candidate test and the predicted addresses. -/
theorem advance_facts (p : cache_prefetch) (c : Int) :
    (((p.advance c).m_stride_buffer (p.advance c).last_pc_index).m_cta_entry c).warp_set =
      ((p.m_stride_buffer p.last_pc_index).m_cta_entry c).warp_set ∧
    (((p.advance c).m_stride_buffer (p.advance c).last_pc_index).m_cta_entry c).warp_offset =
      (((p.m_stride_buffer p.last_pc_index).m_cta_entry c).warp_offset + 1) %
        ((p.m_stride_buffer p.last_pc_index).m_cta_entry c).warp_set.length ∧
    (∀ lead req, scan_pick ((p.advance c).m_stride_buffer (p.advance c).last_pc_index) lead req
      = scan_pick (p.m_stride_buffer p.last_pc_index) lead req) ∧
    (∀ lead x, ((p.advance c).m_stride_buffer (p.advance c).last_pc_index).predicted lead x
      = (p.m_stride_buffer p.last_pc_index).predicted lead x) ∧
    (p.advance c).m_prefetch_req = p.m_prefetch_req := by
  rw [advance_entry, set_cta_same]
  exact ⟨rfl, rfl, fun _ _ => rfl, fun _ _ => rfl, rfl⟩

/-- The request a scan block leaves valid, whatever the bound on the loop: it is committed
for a member of the warp set that passes the candidate test. -/
theorem scan_block_sound (fuel : Nat) (p : cache_prefetch) (c lead : Int) (r : prefetch_req)
    (hv : p.m_prefetch_req.valid = false)
    (hr : req_of (p.scan_block fuel c lead) = some r) (hvalid : r.valid = true) :
    ∃ x, x ∈ ((p.m_stride_buffer p.last_pc_index).m_cta_entry c).warp_set ∧
      scan_pick (p.m_stride_buffer p.last_pc_index) lead p.m_prefetch_req.addr x = true ∧
      r = { valid := true, addr := (p.m_stride_buffer p.last_pc_index).predicted lead x,
            warp_id := x, put_time := 0 } := by
  unfold cache_prefetch.scan_block at hr
  simp only at hr
  split_ifs at hr with h1
  · cases hr
  · cases hloop : calcu_addr_loop (p.m_stride_buffer p.last_pc_index) lead
        p.m_prefetch_req.addr ((p.m_stride_buffer p.last_pc_index).m_cta_entry c).warp_set
        (scan_end ((p.m_stride_buffer p.last_pc_index).m_cta_entry c).warp_set.length
          ((p.m_stride_buffer p.last_pc_index).m_cta_entry c).warp_offset) fuel
        ((p.m_stride_buffer p.last_pc_index).m_cta_entry c).warp_offset 0 with
    | error f =>
      rw [hloop] at hr
      cases hr
    | ok o =>
      cases o with
      | none =>
        rw [hloop] at hr
        cases hr
      | some ex =>
        rw [hloop] at hr
        simp only at hr
        obtain ⟨hnone, hsome⟩ := calcu_addr_loop_sound _ _ _ _ _ _ _ _ ex hloop
        cases hf : ex.found with
        | some x =>
          rw [hf] at hr
          simp only at hr
          rw [calcu_addr_tail_valid _ _ _ _ _ (by rw [commit_req])] at hr
          have h2 : (p.commit lead x).m_prefetch_req = r := Option.some.inj hr
          rw [commit_req] at h2
          exact ⟨x, (hsome x hf).1, (hsome x hf).2, h2.symm⟩
        | none =>
          rw [hf] at hr
          simp only at hr
          rw [hnone hf, calcu_addr_tail_end _ _ _ _ hv] at hr
          cases hy : ((p.m_stride_buffer p.last_pc_index).m_cta_entry c).warp_set[scan_end
              ((p.m_stride_buffer p.last_pc_index).m_cta_entry c).warp_set.length
              ((p.m_stride_buffer p.last_pc_index).m_cta_entry c).warp_offset]? with
          | none =>
            rw [hy] at hr
            have h2 : p.m_prefetch_req = r := Option.some.inj hr
            rw [← h2, hv] at hvalid
            cases hvalid
          | some y =>
            rw [hy] at hr
            simp only at hr
            by_cases hp : scan_pick (p.m_stride_buffer p.last_pc_index) lead
                p.m_prefetch_req.addr y = true
            · rw [if_pos hp] at hr
              have h2 : (p.commit lead y).m_prefetch_req = r := Option.some.inj hr
              rw [commit_req] at h2
              exact ⟨y, List.mem_iff_getElem?.mpr ⟨_, hy⟩, hp, h2.symm⟩
            · rw [if_neg hp] at hr
              have h2 : p.m_prefetch_req = r := Option.some.inj hr
              rw [← h2, hv] at hvalid
              cases hvalid

/-- The scan of `calcu_addr`, entered without a valid request on an active CTA with a
committed stride and a non-empty warp set: with as many entries of the loop body allowed as
the warp set has elements, the call returns the state `scan_result` of the state with the
offset moved on. -/
theorem calcu_addr_scan (fuel : Nat) (p : cache_prefetch) (wid c lead_wid lead : Int)
    (hact : ((p.m_stride_buffer p.last_pc_index).m_cta_entry c).active = true)
    (hstride : (p.m_stride_buffer p.last_pc_index).m_last_stride ≠ 0 ∧
      (p.m_stride_buffer p.last_pc_index).valid_stride = true)
    (hlead : p.select_lead wid c lead_wid = Except.ok lead)
    (hne : ((p.m_stride_buffer p.last_pc_index).m_cta_entry c).warp_set ≠ [])
    (hfuel : ((p.m_stride_buffer p.last_pc_index).m_cta_entry c).warp_set.length ≤ fuel)
    (hv : p.m_prefetch_req.valid = false) :
    p.calcu_addr fuel wid c lead_wid =
      Except.ok (some ((p.advance c).scan_result c lead)) := by
  have hlen : ((p.m_stride_buffer p.last_pc_index).m_cta_entry c).warp_set.length ≠ 0 :=
    fun h => hne (List.length_eq_zero.mp h)
  have hact1 : ¬ ((p.m_stride_buffer p.last_pc_index).m_cta_entry c).active = false := by
    rw [hact]
    simp
  obtain ⟨hws, hoff, _, _, hreq⟩ := advance_facts p c
  unfold cache_prefetch.calcu_addr
  simp only
  rw [if_neg hact1, if_pos hstride, hlead]
  simp only
  rw [if_neg hlen]
  apply scan_block_spec
  · rw [hws, hoff]
    exact Nat.mod_lt _ (Nat.pos_of_ne_zero hlen)
  · rw [hws]
    exact hfuel
  · rw [hreq]
    exact hv

/-- The request after the scan of `calcu_addr`, in terms of the state before the call. -/
theorem scan_result_req (p : cache_prefetch) (c lead : Int) :
    ((p.advance c).scan_result c lead).m_prefetch_req =
      match (rotation ((p.m_stride_buffer p.last_pc_index).m_cta_entry c).warp_set
          ((((p.m_stride_buffer p.last_pc_index).m_cta_entry c).warp_offset + 1) %
            ((p.m_stride_buffer p.last_pc_index).m_cta_entry c).warp_set.length)).find?
          (scan_pick (p.m_stride_buffer p.last_pc_index) lead p.m_prefetch_req.addr) with
      | some x =>
        { valid := true, addr := (p.m_stride_buffer p.last_pc_index).predicted lead x,
          warp_id := x, put_time := 0 }
      | none => p.m_prefetch_req := by
  obtain ⟨hws, hoff, hpick, hpred, hreq⟩ := advance_facts p c
  unfold cache_prefetch.scan_result cache_prefetch.first_candidate
  simp only
  rw [hws, hoff, hpick, hreq]
  cases (rotation ((p.m_stride_buffer p.last_pc_index).m_cta_entry c).warp_set
      ((((p.m_stride_buffer p.last_pc_index).m_cta_entry c).warp_offset + 1) %
        ((p.m_stride_buffer p.last_pc_index).m_cta_entry c).warp_set.length)).find?
      (scan_pick (p.m_stride_buffer p.last_pc_index) lead p.m_prefetch_req.addr) with
  | none => exact hreq
  | some x =>
    simp only
    rw [commit_req, hpred]

/-! ## Lemmas on the stride table -/

theorem probe_entry_scan_none (p : cache_prefetch) (pc : Nat) :
    ∀ k i, p.probe_entry_scan pc k i = -1 ↔
      ∀ j : Nat, i ≤ j → j < i + k → (p.m_stride_buffer (j : Int)).pc ≠ pc := by
  intro k
  induction k with
  | zero =>
    intro i
    simp only [cache_prefetch.probe_entry_scan, true_iff]
    intro j h1 h2
    omega
  | succ k ih =>
    intro i
    rw [cache_prefetch.probe_entry_scan]
    by_cases h : (p.m_stride_buffer (i : Int)).pc = pc
    · rw [if_pos h]
      constructor
      · intro h1
        omega
      · intro h1
        exact absurd h (h1 i (Nat.le_refl _) (by omega))
    · rw [if_neg h, ih]
      constructor
      · intro h1 j h2 h3
        rcases Nat.eq_or_lt_of_le h2 with h4 | h4
        · rw [← h4]
          exact h
        · exact h1 j h4 (by omega)
      · intro h1 j h2 h3
        exact h1 j (by omega) (by omega)

theorem mem_tracked (p : cache_prefetch) (pc : Nat) :
    pc ∈ p.tracked ↔ ∃ j : Nat, j < p.fill_counter ∧ (p.m_stride_buffer (j : Int)).pc = pc := by
  unfold cache_prefetch.tracked
  simp only [List.mem_map, List.mem_range]

/-- The lookup `probe_entry` returns `-1` exactly for the PCs that are not tracked. -/
theorem probe_entry_none_iff (p : cache_prefetch) (pc : Nat) :
    p.probe_entry pc = -1 ↔ pc ∉ p.tracked := by
  unfold cache_prefetch.probe_entry
  rw [probe_entry_scan_none, mem_tracked]
  constructor
  · intro h ⟨j, h1, h2⟩
    exact h j (Nat.zero_le _) (by omega) h2
  · intro h j _ h2 h3
    exact h ⟨j, by omega, h3⟩

theorem tracked_length (p : cache_prefetch) : p.tracked.length = p.fill_counter := by
  simp [cache_prefetch.tracked]

theorem tracked_congr (p p1 : cache_prefetch) (hfc : p1.fill_counter = p.fill_counter)
    (hpc : ∀ i, (p1.m_stride_buffer i).pc = (p.m_stride_buffer i).pc) :
    p1.tracked = p.tracked := by
  unfold cache_prefetch.tracked
  rw [hfc]
  exact List.map_congr_left (fun i _ => hpc i)

theorem activate_pc (e : stride_entry) (cta_id : Nat) : (e.activate cta_id).pc = e.pc := by
  unfold stride_entry.activate
  split_ifs <;> rfl

theorem count_load_pc (e : stride_entry) (warp_id warp_addr : Nat) :
    (e.count_load warp_id warp_addr).pc = e.pc := by
  unfold stride_entry.count_load
  simp only
  split_ifs <;> rfl

theorem join_warp_pc (e : stride_entry) (cta_id warp_id : Nat) :
    (e.join_warp cta_id warp_id).pc = e.pc := by
  unfold stride_entry.join_warp
  simp only
  split_ifs <;> rfl

theorem record_load_pc (e : stride_entry) (cta_id warp_id warp_addr : Nat) :
    (e.record_load cta_id warp_id warp_addr).pc = e.pc := by
  show ((((e.activate cta_id).count_load warp_id warp_addr).join_warp cta_id warp_id).pc) = _
  rw [join_warp_pc, count_load_pc, activate_pc]

theorem stride_same_table (p : cache_prefetch) (cta_id warp_id warp_addr : Nat)
    (pc_index : Int) :
    (p.calculate_inter_warp_stride cta_id warp_id warp_addr pc_index).fill_counter =
      p.fill_counter ∧
    ∀ i, ((p.calculate_inter_warp_stride cta_id warp_id warp_addr pc_index).m_stride_buffer
      i).pc = (p.m_stride_buffer i).pc := by
  refine ⟨rfl, fun i => ?_⟩
  show ((p.set_entry pc_index _).m_stride_buffer i).pc = _
  by_cases h : i = pc_index
  · rw [h, set_entry_same, record_load_pc]
  · rw [set_entry_other _ _ _ _ h]

theorem trace_same_table (p : cache_prefetch) (cta_id warp_id warp_addr : Nat)
    (pc_index : Int) :
    (p.trace_warp_addr cta_id warp_id warp_addr pc_index).fill_counter = p.fill_counter ∧
    ∀ i, ((p.trace_warp_addr cta_id warp_id warp_addr pc_index).m_stride_buffer i).pc =
      (p.m_stride_buffer i).pc := by
  refine ⟨rfl, fun i => ?_⟩
  unfold cache_prefetch.trace_warp_addr
  simp only
  by_cases h : i = pc_index
  · rw [h, set_entry_same]
    rfl
  · rw [set_entry_other _ _ _ _ h]

theorem select_same_table (rule : List Int → Int × Bool) (p : cache_prefetch) (i : Int) :
    (p.select_inter_stride rule i).fill_counter = p.fill_counter ∧
    ∀ j, ((p.select_inter_stride rule i).m_stride_buffer j).pc = (p.m_stride_buffer j).pc := by
  refine ⟨rfl, fun j => ?_⟩
  unfold cache_prefetch.select_inter_stride
  simp only
  by_cases h : j = i
  · rw [h, set_entry_same]
  · rw [set_entry_other _ _ _ _ h]

theorem select_all_same_table (rule : List Int → Int × Bool) :
    ∀ (k : Nat) (p : cache_prefetch) (i : Nat),
      (cache_prefetch.select_all rule p k i).fill_counter = p.fill_counter ∧
      ∀ j, ((cache_prefetch.select_all rule p k i).m_stride_buffer j).pc =
        (p.m_stride_buffer j).pc := by
  intro k
  induction k with
  | zero => intro p i; exact ⟨rfl, fun _ => rfl⟩
  | succ k ih =>
    intro p i
    rw [cache_prefetch.select_all]
    obtain ⟨h1, h2⟩ := ih (p.select_inter_stride rule (i : Int)) (i + 1)
    obtain ⟨h3, h4⟩ := select_same_table rule p (i : Int)
    exact ⟨h1.trans h3, fun j => (h2 j).trans (h4 j)⟩

/-- The insertion `fill_entry` with room in the table: the PC is appended to the tracked
ones. -/
theorem fill_entry_tracked (p : cache_prefetch) (pc : Nat) (h : p.fill_counter < 32) :
    ∃ p1, p.fill_entry pc = Except.ok p1 ∧ p1.fill_counter = p.fill_counter + 1 ∧
      p1.tracked = p.tracked ++ [pc] := by
  unfold cache_prefetch.fill_entry
  rw [if_neg (not_not.mpr h)]
  refine ⟨_, rfl, rfl, ?_⟩
  unfold cache_prefetch.tracked
  simp only
  rw [List.range_succ, List.map_append]
  congr 1
  · apply List.map_congr_left
    intro i hi
    have h1 : (i : Int) ≠ (p.fill_counter : Int) := by
      have := List.mem_range.mp hi
      omega
    rw [set_entry_other _ _ _ _ h1]
  · simp only [List.map_cons, List.map_nil]
    rw [set_entry_same]

/-- One locality probe seen from the stride table: the prefetcher block returns, the
capacity invariant is kept, the tracked PCs are unchanged or extended by the PC of the
request, which then was not tracked while the table had room, and a full table probed with
an untracked PC leaves the prefetcher as it was. -/
theorem locality_update_table (rule : List Int → Int × Bool) (p : cache_prefetch)
    (mf : mem_fetch) (tag time : Nat) (h : table_inv p) :
    ∃ p1, p.locality_update rule mf tag time = Except.ok p1 ∧ table_inv p1 ∧
      (p1.tracked = p.tracked ∨
        (p1.tracked = p.tracked ++ [mf.m_pc] ∧ mf.m_pc ∉ p.tracked ∧ p.fill_counter < 32)) ∧
      (p.fill_counter = 32 → mf.m_pc ∉ p.tracked → p1 = p) := by
  obtain ⟨hcap, hnodup⟩ := h
  unfold cache_prefetch.locality_update
  simp only
  by_cases hA : p.probe_entry mf.m_pc = -1 ∧ p.full_entry = false ∧ mf.m_thread0_active = true
  · rw [if_pos hA]
    have hroom : p.fill_counter < 32 := by
      have h1 := hA.2.1
      unfold cache_prefetch.full_entry at h1
      have h2 : p.fill_counter ≠ 32 := by simpa using h1
      omega
    have hnew : mf.m_pc ∉ p.tracked := (probe_entry_none_iff p mf.m_pc).mp hA.1
    obtain ⟨p1, h1, h2, h3⟩ := fill_entry_tracked p mf.m_pc hroom
    rw [h1]
    simp only
    rw [if_neg (fun hc => hc.2.2 hA.1)]
    refine ⟨p1, rfl, ⟨by omega, ?_⟩, Or.inr ⟨h3, hnew, hroom⟩, fun h4 _ => by omega⟩
    rw [h3]
    exact List.Nodup.append hnodup (List.nodup_singleton _)
      (fun x hx hx1 => hnew (by rw [List.mem_singleton.mp hx1] at hx; exact hx))
  · rw [if_neg hA]
    by_cases hB : p.probe_entry mf.m_pc ≠ -1 ∧ mf.m_thread0_active = true
    · rw [if_pos hB]
      simp only
      obtain ⟨h1, h2⟩ := stride_same_table p mf.m_ctaid mf.m_wid tag (p.probe_entry mf.m_pc)
      obtain ⟨h3, h4⟩ := trace_same_table
        (p.calculate_inter_warp_stride mf.m_ctaid mf.m_wid tag (p.probe_entry mf.m_pc))
        mf.m_ctaid mf.m_wid tag (p.probe_entry mf.m_pc)
      have htr := tracked_congr p _ (h3.trans h1) (fun i => (h4 i).trans (h2 i))
      have hfull : p.fill_counter = 32 → mf.m_pc ∉ p.tracked → False :=
        fun _ hn => hB.1 ((probe_entry_none_iff p mf.m_pc).mpr hn)
      split_ifs with hC
      · obtain ⟨h5, h6⟩ := select_all_same_table rule
          ((p.calculate_inter_warp_stride mf.m_ctaid mf.m_wid tag
            (p.probe_entry mf.m_pc)).trace_warp_addr mf.m_ctaid mf.m_wid tag
            (p.probe_entry mf.m_pc)).fill_counter
          ((p.calculate_inter_warp_stride mf.m_ctaid mf.m_wid tag
            (p.probe_entry mf.m_pc)).trace_warp_addr mf.m_ctaid mf.m_wid tag
            (p.probe_entry mf.m_pc)) 0
        have htr1 := tracked_congr p _ (h5.trans (h3.trans h1))
          (fun i => (h6 i).trans ((h4 i).trans (h2 i)))
        refine ⟨_, rfl, ⟨?_, ?_⟩, Or.inl htr1, fun h7 h8 => (hfull h7 h8).elim⟩
        · rw [h5, h3, h1]
          exact hcap
        · rw [htr1]
          exact hnodup
      · refine ⟨_, rfl, ⟨?_, ?_⟩, Or.inl htr, fun h7 h8 => (hfull h7 h8).elim⟩
        · rw [h3, h1]
          exact hcap
        · rw [htr]
          exact hnodup
    · rw [if_neg hB]
      simp only
      split_ifs with hC
      · obtain ⟨h5, h6⟩ := select_all_same_table rule p.fill_counter p 0
        have htr1 := tracked_congr p _ h5 h6
        refine ⟨_, rfl, ⟨?_, ?_⟩, Or.inl htr1, fun _ h8 => ?_⟩
        · rw [h5]
          exact hcap
        · rw [htr1]
          exact hnodup
        · exact absurd ((probe_entry_none_iff p mf.m_pc).mpr h8) hC.2.2
      · exact ⟨p, rfl, ⟨hcap, hnodup⟩, Or.inl rfl, fun _ _ => rfl⟩

/-- The capacity invariant over a run of locality probes: the run returns, the invariant
holds at its end, and the tracked PCs at the start are a prefix of those at the end. -/
theorem run_updates_table (rule : List Int → Int × Bool) :
    ∀ (probes : List (mem_fetch × Nat × Nat)) (p : cache_prefetch), table_inv p →
      ∃ p1, p.run_updates rule probes = Except.ok p1 ∧ table_inv p1 ∧
        p.tracked <+: p1.tracked := by
  intro probes
  induction probes with
  | nil => intro p h; exact ⟨p, rfl, h, List.prefix_refl _⟩
  | cons a rest ih =>
    intro p h
    obtain ⟨mf, tag, time⟩ := a
    obtain ⟨p1, h1, h2, h3, _⟩ := locality_update_table rule p mf tag time h
    obtain ⟨p2, h4, h5, h6⟩ := ih p1 h2
    rw [cache_prefetch.run_updates, h1]
    refine ⟨p2, h4, h5, ?_⟩
    rcases h3 with h3 | ⟨h3, _⟩
    · rw [← h3]
      exact h6
    · exact List.IsPrefix.trans (by rw [h3]; exact List.prefix_append _ _) h6

/-! ## Lemmas on `calculate_inter_warp_stride` -/

theorem activate_fields (e : stride_entry) (cta_id : Nat) :
    (e.activate cta_id).m_warp_entry = e.m_warp_entry ∧
    (e.activate cta_id).m_inter_warp_stride = e.m_inter_warp_stride ∧
    (e.activate cta_id).active_cta_num =
      (if (e.m_cta_entry cta_id).active = false then e.active_cta_num + 1
       else e.active_cta_num) ∧
    ∀ d, (e.activate cta_id).m_cta_entry d =
      if d = (cta_id : Int) then { e.m_cta_entry cta_id with active := true }
      else e.m_cta_entry d := by
  unfold stride_entry.activate
  by_cases h : (e.m_cta_entry cta_id).active = false
  · rw [if_pos h, if_pos h]
    exact ⟨rfl, rfl, rfl, fun d => rfl⟩
  · rw [if_neg h, if_neg h]
    refine ⟨rfl, rfl, rfl, fun d => ?_⟩
    by_cases hd : d = (cta_id : Int)
    · rw [if_pos hd, hd]
      have h1 : (e.m_cta_entry cta_id).active = true := by
        cases hb : (e.m_cta_entry cta_id).active
        · exact absurd hb h
        · rfl
      cases hc : e.m_cta_entry cta_id
      rw [hc] at h1
      simp only at h1
      rw [h1]
    · rw [if_neg hd]

theorem count_load_fields (e : stride_entry) (warp_id warp_addr : Nat) :
    (e.count_load warp_id warp_addr).m_cta_entry = e.m_cta_entry ∧
    (e.count_load warp_id warp_addr).m_inter_warp_stride = e.m_inter_warp_stride ∧
    (e.count_load warp_id warp_addr).active_cta_num = e.active_cta_num ∧
    ∀ x, (e.count_load warp_id warp_addr).m_warp_entry x =
      if x = (warp_id : Int) then
        { e.m_warp_entry warp_id with
          warp_ld_inst_num := (e.m_warp_entry warp_id).warp_ld_inst_num + 1 }
      else e.m_warp_entry x := by
  unfold stride_entry.count_load
  simp only
  split_ifs <;> exact ⟨rfl, rfl, rfl, fun x => rfl⟩

theorem join_warp_fields (e : stride_entry) (cta_id warp_id : Nat) :
    (e.join_warp cta_id warp_id).m_warp_entry = e.m_warp_entry ∧
    (e.join_warp cta_id warp_id).m_inter_warp_stride = e.m_inter_warp_stride ∧
    (e.join_warp cta_id warp_id).active_cta_num = e.active_cta_num ∧
    ∀ d, (e.join_warp cta_id warp_id).m_cta_entry d =
      if d = (cta_id : Int) then
        { e.m_cta_entry cta_id with
          warp_set := join_set (e.m_cta_entry cta_id).warp_set warp_id }
      else e.m_cta_entry d := by
  unfold stride_entry.join_warp join_set
  simp only
  by_cases h : (e.m_cta_entry cta_id).warp_set.any (fun x => decide (x = warp_id)) = false
  · rw [if_pos h, if_pos h]
    exact ⟨rfl, rfl, rfl, fun d => rfl⟩
  · rw [if_neg h, if_neg h]
    refine ⟨rfl, rfl, rfl, fun d => ?_⟩
    by_cases hd : d = (cta_id : Int)
    · rw [if_pos hd, hd]
    · rw [if_neg hd]

/-- The stride loop in list form: the history is extended by the stride of the first other
warp with the load count of `warp_id`, if that stride is not zero. -/
theorem record_stride_eq (e : stride_entry) (warp_id warp_addr : Nat) :
    ∀ l : List Nat, record_stride e warp_id warp_addr l =
      match l.find? (fun x => decide (x ≠ warp_id ∧ e.ld_num x = e.ld_num warp_id)) with
      | none => e.m_inter_warp_stride
      | some x =>
        if e.stride_to warp_id warp_addr x ≠ 0 then
          e.m_inter_warp_stride ++ [e.stride_to warp_id warp_addr x]
        else e.m_inter_warp_stride := by
  intro l
  induction l with
  | nil => rfl
  | cons y l ih =>
    rw [record_stride]
    by_cases h1 : y = warp_id
    · rw [if_pos h1, ih, List.find?_cons_of_neg]
      simp [h1]
    · rw [if_neg h1]
      by_cases h2 : e.ld_num y = e.ld_num warp_id
      · rw [if_pos h2, List.find?_cons_of_pos]
        · rfl
        · simp [h1, h2]
      · rw [if_neg h2, ih, List.find?_cons_of_neg]
        simp [h2]

/-- The fields of the table entry after `calculate_inter_warp_stride`, in terms of the entry
before: the CTA parts, the count of active CTAs, the warp parts and the stride history. -/
theorem record_load_fields (e : stride_entry) (cta_id warp_id warp_addr : Nat) :
    (∀ d, (e.record_load cta_id warp_id warp_addr).m_cta_entry d =
      if d = (cta_id : Int) then
        { active := true,
          warp_set := join_set (e.m_cta_entry cta_id).warp_set warp_id,
          warp_offset := (e.m_cta_entry cta_id).warp_offset }
      else e.m_cta_entry d) ∧
    (e.record_load cta_id warp_id warp_addr).active_cta_num =
      (if (e.m_cta_entry cta_id).active = false then e.active_cta_num + 1
       else e.active_cta_num) ∧
    (∀ x : Int, x ≠ (warp_id : Int) →
      (e.record_load cta_id warp_id warp_addr).m_warp_entry x = e.m_warp_entry x) ∧
    (e.record_load cta_id warp_id warp_addr).ld_num warp_id = e.ld_num warp_id + 1 ∧
    ((e.record_load cta_id warp_id warp_addr).m_warp_entry warp_id).inter_warp_last_addr =
      warp_addr ∧
    (e.record_load cta_id warp_id warp_addr).m_inter_warp_stride =
      match (join_set (e.m_cta_entry cta_id).warp_set warp_id).find?
          (fun x => decide (x ≠ warp_id ∧ e.ld_num x = e.ld_num warp_id + 1)) with
      | none => e.m_inter_warp_stride
      | some x =>
        if e.stride_to warp_id warp_addr x ≠ 0 then
          e.m_inter_warp_stride ++ [e.stride_to warp_id warp_addr x]
        else e.m_inter_warp_stride := by
  obtain ⟨ha1, ha2, ha3, ha4⟩ := activate_fields e cta_id
  obtain ⟨hc1, hc2, hc3, hc4⟩ := count_load_fields (e.activate cta_id) warp_id warp_addr
  obtain ⟨hj1, hj2, hj3, hj4⟩ :=
    join_warp_fields ((e.activate cta_id).count_load warp_id warp_addr) cta_id warp_id
  have hcta : ∀ d, (e.record_load cta_id warp_id warp_addr).m_cta_entry d =
      if d = (cta_id : Int) then
        { active := true,
          warp_set := join_set (e.m_cta_entry cta_id).warp_set warp_id,
          warp_offset := (e.m_cta_entry cta_id).warp_offset }
      else e.m_cta_entry d := by
    intro d
    show (((e.activate cta_id).count_load warp_id warp_addr).join_warp cta_id
      warp_id).m_cta_entry d = _
    rw [hj4, hc1, ha4, ha4]
    by_cases hd : d = (cta_id : Int)
    · rw [if_pos hd, if_pos hd, if_pos rfl]
    · rw [if_neg hd, if_neg hd, if_neg hd]
  have hwarp : ∀ x : Int, ((((e.activate cta_id).count_load warp_id warp_addr).join_warp
      cta_id warp_id).set_warp warp_id
        { ((((e.activate cta_id).count_load warp_id warp_addr).join_warp cta_id
            warp_id).m_warp_entry warp_id) with inter_warp_last_addr := warp_addr }
      ).m_warp_entry x =
      if x = (warp_id : Int) then
        { e.m_warp_entry warp_id with
          warp_ld_inst_num := (e.m_warp_entry warp_id).warp_ld_inst_num + 1,
          inter_warp_last_addr := warp_addr }
      else e.m_warp_entry x := by
    intro x
    unfold stride_entry.set_warp
    simp only
    rw [hj1, hc4, hc4, ha1]
    by_cases hx : x = (warp_id : Int)
    · rw [if_pos hx, if_pos hx, if_pos rfl]
    · rw [if_neg hx, if_neg hx, if_neg hx]
  refine ⟨hcta, ?_, ?_, ?_, ?_, ?_⟩
  · show (((e.activate cta_id).count_load warp_id warp_addr).join_warp cta_id
      warp_id).active_cta_num = _
    rw [hj3, hc3, ha3]
  · intro x hx
    have h1 := hwarp x
    rw [if_neg hx] at h1
    exact h1
  · have h1 := hwarp warp_id
    rw [if_pos rfl] at h1
    show ((e.record_load cta_id warp_id warp_addr).m_warp_entry warp_id).warp_ld_inst_num = _
    exact congrArg warp_entry.warp_ld_inst_num h1
  · have h1 := hwarp warp_id
    rw [if_pos rfl] at h1
    exact congrArg warp_entry.inter_warp_last_addr h1
  · show record_stride _ warp_id warp_addr _ = _
    rw [record_stride_eq]
    have hset : ((((e.activate cta_id).count_load warp_id warp_addr).join_warp cta_id
        warp_id).set_warp warp_id
          { ((((e.activate cta_id).count_load warp_id warp_addr).join_warp cta_id
              warp_id).m_warp_entry warp_id) with inter_warp_last_addr := warp_addr }
        ).m_cta_entry cta_id =
        { active := true,
          warp_set := join_set (e.m_cta_entry cta_id).warp_set warp_id,
          warp_offset := (e.m_cta_entry cta_id).warp_offset } := by
      have h1 := hcta cta_id
      rw [if_pos rfl] at h1
      exact h1
    have hhist : ((((e.activate cta_id).count_load warp_id warp_addr).join_warp cta_id
        warp_id).set_warp warp_id
          { ((((e.activate cta_id).count_load warp_id warp_addr).join_warp cta_id
              warp_id).m_warp_entry warp_id) with inter_warp_last_addr := warp_addr }
        ).m_inter_warp_stride = e.m_inter_warp_stride := by
      show (((e.activate cta_id).count_load warp_id warp_addr).join_warp cta_id
        warp_id).m_inter_warp_stride = _
      rw [hj2, hc2, ha2]
    rw [hset, hhist]
    simp only
    have hpred : ∀ x : Nat,
        decide (x ≠ warp_id ∧
          stride_entry.ld_num ((((e.activate cta_id).count_load warp_id warp_addr).join_warp
            cta_id warp_id).set_warp warp_id
              { ((((e.activate cta_id).count_load warp_id warp_addr).join_warp cta_id
                  warp_id).m_warp_entry warp_id) with inter_warp_last_addr := warp_addr })
            x =
          stride_entry.ld_num ((((e.activate cta_id).count_load warp_id warp_addr).join_warp
            cta_id warp_id).set_warp warp_id
              { ((((e.activate cta_id).count_load warp_id warp_addr).join_warp cta_id
                  warp_id).m_warp_entry warp_id) with inter_warp_last_addr := warp_addr })
            warp_id) =
        decide (x ≠ warp_id ∧ e.ld_num x = e.ld_num warp_id + 1) := by
      intro x
      unfold stride_entry.ld_num
      rw [hwarp x, hwarp warp_id, if_pos rfl]
      by_cases hx : x = warp_id
      · simp [hx]
      · have hx1 : (x : Int) ≠ (warp_id : Int) := by omega
        rw [if_neg hx1]
    rw [funext hpred]
    cases hfind : (join_set (e.m_cta_entry cta_id).warp_set warp_id).find?
        (fun x => decide (x ≠ warp_id ∧ e.ld_num x = e.ld_num warp_id + 1)) with
    | none => rfl
    | some x =>
      simp only
      have hx : x ≠ warp_id := by
        have h1 := List.find?_some hfind
        simp only [decide_eq_true_eq] at h1
        exact h1.1
      have hx1 : (x : Int) ≠ (warp_id : Int) := by omega
      have hst : stride_entry.stride_to ((((e.activate cta_id).count_load warp_id
          warp_addr).join_warp cta_id warp_id).set_warp warp_id
            { ((((e.activate cta_id).count_load warp_id warp_addr).join_warp cta_id
                warp_id).m_warp_entry warp_id) with inter_warp_last_addr := warp_addr })
          warp_id warp_addr x = e.stride_to warp_id warp_addr x := by
        unfold stride_entry.stride_to stride_entry.addr_stride
        rw [hwarp x, if_neg hx1]
      rw [hst]

theorem join_set_mem (ws : List Nat) (w x : Nat) : x ∈ join_set ws w ↔ x ∈ ws ∨ x = w := by
  unfold join_set
  by_cases h : ws.any (fun x => decide (x = w)) = false
  · rw [if_pos h, (List.perm_insertionSort _ _).mem_iff]
    simp
  · rw [if_neg h]
    have h1 : ws.any (fun x => decide (x = w)) = true := by
      cases hb : ws.any (fun x => decide (x = w))
      · exact absurd hb h
      · rfl
    obtain ⟨y, hy, hyw⟩ := List.any_eq_true.mp h1
    have hyw1 : y = w := by simpa using hyw
    constructor
    · exact fun hx => Or.inl hx
    · rintro (hx | hx)
      · exact hx
      · rw [hx, ← hyw1]
        exact hy

theorem join_set_ne_nil (ws : List Nat) (w : Nat) : join_set ws w ≠ [] := by
  intro h
  have h1 : w ∈ join_set ws w := (join_set_mem ws w w).mpr (Or.inr rfl)
  rw [h] at h1
  cases h1

/-- A strictly ascending warp set stays strictly ascending when a warp joins it. -/
theorem join_set_sorted (ws : List Nat) (w : Nat)
    (h : List.Sorted (fun a b => a < b) ws) :
    List.Sorted (fun a b => a < b) (join_set ws w) := by
  unfold join_set
  by_cases h1 : ws.any (fun x => decide (x = w)) = false
  · rw [if_pos h1]
    have hnot : w ∉ ws := by
      intro hw
      have h2 : ws.any (fun x => decide (x = w)) = true :=
        List.any_eq_true.mpr ⟨w, hw, by simp⟩
      rw [h1] at h2
      cases h2
    have hnodup : (ws ++ [w]).Nodup := by
      refine List.Nodup.append h.nodup (List.nodup_singleton _) ?_
      intro x hx hx1
      rw [List.mem_singleton.mp hx1] at hx
      exact hnot hx
    have hnodup1 : (List.insertionSort (fun a b => a ≤ b) (ws ++ [w])).Nodup :=
      (List.perm_insertionSort _ _).nodup_iff.mpr hnodup
    exact (List.sorted_insertionSort (fun a b : Nat => a ≤ b) (ws ++ [w])).lt_of_le hnodup1
  · rw [if_neg h1]
    exact h

/-- The invariant of a stride entry is kept by `calculate_inter_warp_stride`. -/
theorem record_load_inv (e : stride_entry) (cta_id warp_id warp_addr : Nat)
    (h : stride_entry_inv e) : stride_entry_inv (e.record_load cta_id warp_id warp_addr) := by
  obtain ⟨hsorted, hnonempty, S, hS, hcard⟩ := h
  obtain ⟨hcta, hnum, _⟩ := record_load_fields e cta_id warp_id warp_addr
  refine ⟨fun d => ?_, fun d hd => ?_, ?_⟩
  · rw [hcta d]
    by_cases h1 : d = (cta_id : Int)
    · rw [if_pos h1]
      exact join_set_sorted _ _ (hsorted cta_id)
    · rw [if_neg h1]
      exact hsorted d
  · rw [hcta d] at hd ⊢
    by_cases h1 : d = (cta_id : Int)
    · rw [if_pos h1]
      exact join_set_ne_nil _ _
    · rw [if_neg h1] at hd ⊢
      exact hnonempty d hd
  · by_cases hact : (e.m_cta_entry cta_id).active = false
    · refine ⟨insert (cta_id : Int) S, fun d => ?_, ?_⟩
      · rw [hcta d, Finset.mem_insert]
        by_cases h1 : d = (cta_id : Int)
        · rw [if_pos h1]
          exact ⟨fun _ => rfl, fun _ => Or.inl h1⟩
        · rw [if_neg h1, ← hS d]
          exact ⟨fun h2 => h2.resolve_left h1, fun h2 => Or.inr h2⟩
      · have hnot : (cta_id : Int) ∉ S := by
          intro h1
          have h2 := (hS cta_id).mp h1
          rw [hact] at h2
          cases h2
        rw [hnum, if_pos hact, Finset.card_insert_of_not_mem hnot, hcard]
        push_cast
        rfl
    · refine ⟨S, fun d => ?_, ?_⟩
      · rw [hcta d]
        by_cases h1 : d = (cta_id : Int)
        · rw [if_pos h1, hS d, h1]
          have h2 : (e.m_cta_entry cta_id).active = true := by
            cases hb : (e.m_cta_entry cta_id).active
            · exact absurd hb hact
            · rfl
          exact ⟨fun _ => rfl, fun _ => h2⟩
        · rw [if_neg h1]
          exact hS d
      · rw [hnum, if_neg hact, hcard]

theorem stride_entry_at (p : cache_prefetch) (cta_id warp_id warp_addr : Nat)
    (pc_index i : Int) :
    (p.calculate_inter_warp_stride cta_id warp_id warp_addr pc_index).m_stride_buffer i =
      if i = pc_index then (p.m_stride_buffer pc_index).record_load cta_id warp_id warp_addr
      else p.m_stride_buffer i := rfl

/-- The invariant of the prefetcher is kept by `calculate_inter_warp_stride`, after which
the CTA of the call is active in the entry of the call and holds the warp of the call. -/
theorem stride_inv (p : cache_prefetch) (cta_id warp_id warp_addr : Nat) (pc_index : Int)
    (h : prefetcher_inv p) :
    prefetcher_inv (p.calculate_inter_warp_stride cta_id warp_id warp_addr pc_index) ∧
    (((p.calculate_inter_warp_stride cta_id warp_id warp_addr pc_index).m_stride_buffer
      pc_index).m_cta_entry cta_id).active = true ∧
    warp_id ∈ (((p.calculate_inter_warp_stride cta_id warp_id warp_addr
      pc_index).m_stride_buffer pc_index).m_cta_entry cta_id).warp_set := by
  obtain ⟨hcta, _⟩ := record_load_fields (p.m_stride_buffer pc_index) cta_id warp_id warp_addr
  have hact : (((p.calculate_inter_warp_stride cta_id warp_id warp_addr
      pc_index).m_stride_buffer pc_index).m_cta_entry cta_id).active = true := by
    rw [stride_entry_at, if_pos rfl, hcta, if_pos rfl]
  refine ⟨⟨fun i => ?_, fun _ => ⟨cta_id, hact⟩⟩, hact, ?_⟩
  · rw [stride_entry_at]
    by_cases h1 : i = pc_index
    · rw [if_pos h1]
      exact record_load_inv _ _ _ _ (h.1 pc_index)
    · rw [if_neg h1]
      exact h.1 i
  · rw [stride_entry_at, if_pos rfl, hcta, if_pos rfl]
    exact (join_set_mem _ _ _).mpr (Or.inr rfl)

/-- Active flags and warp set members are kept by `calculate_inter_warp_stride`. -/
theorem stride_grows (p : cache_prefetch) (cta_id warp_id warp_addr : Nat) (pc_index : Int)
    (i d : Int) :
    (((p.m_stride_buffer i).m_cta_entry d).active = true →
      (((p.calculate_inter_warp_stride cta_id warp_id warp_addr pc_index).m_stride_buffer
        i).m_cta_entry d).active = true) ∧
    ∀ x, x ∈ ((p.m_stride_buffer i).m_cta_entry d).warp_set →
      x ∈ (((p.calculate_inter_warp_stride cta_id warp_id warp_addr pc_index).m_stride_buffer
        i).m_cta_entry d).warp_set := by
  obtain ⟨hcta, _⟩ := record_load_fields (p.m_stride_buffer pc_index) cta_id warp_id warp_addr
  rw [stride_entry_at]
  by_cases h1 : i = pc_index
  · rw [if_pos h1, hcta, h1]
    by_cases h2 : d = (cta_id : Int)
    · rw [if_pos h2, h2]
      exact ⟨fun _ => rfl, fun x hx => (join_set_mem _ _ _).mpr (Or.inl hx)⟩
    · rw [if_neg h2]
      exact ⟨fun h3 => h3, fun x hx => hx⟩
  · rw [if_neg h1]
    exact ⟨fun h3 => h3, fun x hx => hx⟩

/-- The invariant over a run of calls of `calculate_inter_warp_stride`: it holds at the end,
where every CTA that a call of the run named is active in the entry of that call and holds
the warp of that call, and what was active or in a warp set at the start still is. -/
theorem run_strides_inv :
    ∀ (calls : List (Nat × Nat × Nat × Int)) (p : cache_prefetch), prefetcher_inv p →
      prefetcher_inv (p.run_strides calls) ∧
      (∀ call ∈ calls,
        ((((p.run_strides calls).m_stride_buffer call.2.2.2).m_cta_entry call.1).active = true ∧
          call.2.1 ∈ (((p.run_strides calls).m_stride_buffer call.2.2.2).m_cta_entry
            call.1).warp_set)) ∧
      (∀ i d, (((p.m_stride_buffer i).m_cta_entry d).active = true →
          (((p.run_strides calls).m_stride_buffer i).m_cta_entry d).active = true) ∧
        ∀ x, x ∈ ((p.m_stride_buffer i).m_cta_entry d).warp_set →
          x ∈ (((p.run_strides calls).m_stride_buffer i).m_cta_entry d).warp_set) ∧
      (calls ≠ [] → (p.run_strides calls).last_pc_index ≠ -1 ∨
        ∃ call ∈ calls, call.2.2.2 = -1) := by
  intro calls
  induction calls with
  | nil =>
    intro p h
    exact ⟨h, fun call hc => (by cases hc), fun i d => ⟨fun h1 => h1, fun x hx => hx⟩,
      fun h1 => absurd rfl h1⟩
  | cons a rest ih =>
    intro p h
    obtain ⟨cta_id, warp_id, warp_addr, pc_index⟩ := a
    obtain ⟨h1, h2, h3⟩ := stride_inv p cta_id warp_id warp_addr pc_index h
    obtain ⟨h4, h5, h6, h7⟩ := ih _ h1
    rw [cache_prefetch.run_strides]
    refine ⟨h4, ?_, ?_, ?_⟩
    · intro call hc
      rcases List.mem_cons.mp hc with hc1 | hc1
      · rw [hc1]
        exact ⟨(h6 pc_index cta_id).1 h2, (h6 pc_index cta_id).2 warp_id h3⟩
      · exact h5 call hc1
    · intro i d
      obtain ⟨g1, g2⟩ := stride_grows p cta_id warp_id warp_addr pc_index i d
      exact ⟨fun hx => (h6 i d).1 (g1 hx), fun x hx => (h6 i d).2 x (g2 x hx)⟩
    · intro _
      by_cases hr : rest = []
      · rw [hr]
        by_cases hp : pc_index = -1
        · exact Or.inr ⟨_, List.mem_cons_self _ _, hp⟩
        · exact Or.inl hp
      · rcases h7 hr with h8 | ⟨call, hc, h8⟩
        · exact Or.inl h8
        · exact Or.inr ⟨call, List.mem_cons_of_mem _ hc, h8⟩

theorem init_table_inv : table_inv cache_prefetch_init :=
  ⟨by decide, List.nodup_nil⟩

theorem init_entry_inv : stride_entry_inv stride_entry_init := by
  refine ⟨fun _ => List.sorted_nil, fun _ h => ?_, ∅, fun c => ?_, rfl⟩
  · cases h
  · constructor
    · intro hc
      cases hc
    · intro hc
      cases hc

theorem init_prefetcher_inv : prefetcher_inv cache_prefetch_init :=
  ⟨fun _ => init_entry_inv, fun h => absurd rfl h⟩

/-- A value read as a `long long` lies in the range of a `long long`. -/
theorem to_i64_range (z : Int) :
    -9223372036854775808 ≤ to_i64 z ∧ to_i64 z ≤ 9223372036854775807 := by
  unfold to_i64
  omega

/-- Where the quotient of a `long long` by an `int` is defined, the truncating quotient is a
`long long`. -/
theorem sdiv_in_range (a b : Int) (h1 : -9223372036854775808 ≤ a)
    (h2 : a ≤ 9223372036854775807) (hd : sdiv_defined a b) :
    -9223372036854775808 ≤ Int.tdiv a b ∧ Int.tdiv a b ≤ 9223372036854775807 := by
  obtain ⟨hb, hov⟩ := hd
  by_cases hb1 : b = 1
  · subst hb1
    rw [Int.tdiv_one]
    exact ⟨h1, h2⟩
  by_cases hb2 : b = -1
  · subst hb2
    rw [Int.tdiv_neg, Int.tdiv_one]
    have ha : a ≠ -9223372036854775808 := fun h => hov ⟨h, rfl⟩
    omega
  have hnat : (Int.tdiv a b).natAbs = a.natAbs / b.natAbs := Int.natAbs_tdiv a b
  have hb3 : 2 ≤ b.natAbs := by omega
  have hle : a.natAbs / b.natAbs ≤ a.natAbs / 2 :=
    Nat.div_le_div_left hb3 (by decide)
  have ha : a.natAbs ≤ 9223372036854775808 := by omega
  have hq : (Int.tdiv a b).natAbs ≤ 4611686018427387904 := by
    rw [hnat]
    omega
  omega

/-! ## Lemmas on `calculate_inter_pref_addr` -/

theorem scan_frame_refl (p : cache_prefetch) : scan_frame p p :=
  ⟨rfl, rfl, fun _ => ⟨rfl, rfl, rfl, rfl, fun _ => ⟨rfl, rfl⟩⟩⟩

theorem scan_frame_trans (p p1 p2 : cache_prefetch) (h1 : scan_frame p p1)
    (h2 : scan_frame p1 p2) : scan_frame p p2 := by
  obtain ⟨a1, a2, a3⟩ := h1
  obtain ⟨b1, b2, b3⟩ := h2
  refine ⟨b1.trans a1, b2.trans a2, fun i => ?_⟩
  obtain ⟨c1, c2, c3, c4, c5⟩ := a3 i
  obtain ⟨d1, d2, d3, d4, d5⟩ := b3 i
  exact ⟨d1.trans c1, d2.trans c2, d3.trans c3, d4.trans c4,
    fun c => ⟨(d5 c).1.trans (c5 c).1, (d5 c).2.trans (c5 c).2⟩⟩

/-- Replacing a table entry by one with the same frame fields, and the request by any
other, stays inside the frame. -/
theorem set_entry_frame (p : cache_prefetch) (i : Int) (e : stride_entry) (r : prefetch_req)
    (h1 : e.active_cta_num = (p.m_stride_buffer i).active_cta_num)
    (h2 : e.pc = (p.m_stride_buffer i).pc)
    (h3 : e.m_last_stride = (p.m_stride_buffer i).m_last_stride)
    (h4 : e.valid_stride = (p.m_stride_buffer i).valid_stride)
    (h5 : ∀ c, (e.m_cta_entry c).active = ((p.m_stride_buffer i).m_cta_entry c).active ∧
      (e.m_cta_entry c).warp_set = ((p.m_stride_buffer i).m_cta_entry c).warp_set) :
    scan_frame p { (p.set_entry i e) with m_prefetch_req := r } := by
  refine ⟨rfl, rfl, fun j => ?_⟩
  show (((p.set_entry i e).m_stride_buffer j).active_cta_num = _ ∧ _)
  by_cases hj : j = i
  · rw [hj, set_entry_same]
    exact ⟨h1, h2, h3, h4, h5⟩
  · rw [set_entry_other _ _ _ _ hj]
    exact ⟨rfl, rfl, rfl, rfl, fun _ => ⟨rfl, rfl⟩⟩

theorem advance_frame (p : cache_prefetch) (c : Int) : scan_frame p (p.advance c) := by
  refine set_entry_frame p p.last_pc_index _ p.m_prefetch_req rfl rfl rfl rfl (fun d => ?_)
  by_cases hd : d = c
  · rw [hd, set_cta_same]
    exact ⟨rfl, rfl⟩
  · rw [set_cta_other _ _ _ _ hd]
    exact ⟨rfl, rfl⟩

theorem commit_frame (p : cache_prefetch) (lead : Int) (x : Nat) :
    scan_frame p (p.commit lead x) := by
  unfold cache_prefetch.commit
  simp only
  apply set_entry_frame
  all_goals split_ifs
  all_goals first | rfl | exact fun _ => ⟨rfl, rfl⟩

theorem scan_result_frame (p : cache_prefetch) (c lead : Int) :
    scan_frame p (p.scan_result c lead) := by
  unfold cache_prefetch.scan_result
  cases p.first_candidate c lead with
  | none => exact scan_frame_refl p
  | some x => exact commit_frame p lead x

/-- The leader is found whenever the warp set of the CTA is not empty. -/
theorem select_lead_ok (p : cache_prefetch) (wid c lead_wid : Int)
    (hne : ((p.m_stride_buffer p.last_pc_index).m_cta_entry c).warp_set ≠ []) :
    ∃ lead, p.select_lead wid c lead_wid = Except.ok lead := by
  unfold cache_prefetch.select_lead
  simp only
  by_cases h1 : lead_wid = -1
  · rw [if_pos h1]
    exact ⟨wid, rfl⟩
  · rw [if_neg h1]
    by_cases h2 : lead_wid = -2
    · rw [if_pos h2]
      cases hws : ((p.m_stride_buffer p.last_pc_index).m_cta_entry c).warp_set with
      | nil => exact absurd hws hne
      | cons x0 t =>
        simp only
        unfold cache_prefetch.find_warp_id
        simp only
        rw [hws]
        split_ifs
        · exact ⟨_, rfl⟩
        · exact ⟨_, rfl⟩
    · rw [if_neg h2]
      exact ⟨-2, rfl⟩

/-- A call of `calcu_addr` made without a valid request returns, inside the frame, when the
count of active CTAs is not zero, an active target CTA has a non-empty warp set, and the
loop is allowed as many entries of its body as the warp set of the target has elements. -/
theorem calcu_addr_returns (fuel : Nat) (p : cache_prefetch) (wid c lead_wid : Int)
    (hnum : (p.m_stride_buffer p.last_pc_index).active_cta_num ≠ 0)
    (hne : ((p.m_stride_buffer p.last_pc_index).m_cta_entry c).active = true →
      ((p.m_stride_buffer p.last_pc_index).m_cta_entry c).warp_set ≠ [])
    (hfuel : ((p.m_stride_buffer p.last_pc_index).m_cta_entry c).warp_set.length ≤ fuel)
    (hv : p.m_prefetch_req.valid = false) :
    ∃ p1, p.calcu_addr fuel wid c lead_wid = Except.ok (some p1) ∧ scan_frame p p1 := by
  by_cases hact : ((p.m_stride_buffer p.last_pc_index).m_cta_entry c).active = false
  · unfold cache_prefetch.calcu_addr
    simp only
    rw [if_pos hact, if_neg hnum]
    refine ⟨_, rfl, ?_⟩
    exact set_entry_frame p p.last_pc_index _ p.m_prefetch_req rfl rfl rfl rfl
      (fun _ => ⟨rfl, rfl⟩)
  · have hact1 : ((p.m_stride_buffer p.last_pc_index).m_cta_entry c).active = true := by
      cases hb : ((p.m_stride_buffer p.last_pc_index).m_cta_entry c).active
      · exact absurd hb hact
      · rfl
    by_cases hstride : (p.m_stride_buffer p.last_pc_index).m_last_stride ≠ 0 ∧
        (p.m_stride_buffer p.last_pc_index).valid_stride = true
    · obtain ⟨lead, hlead⟩ := select_lead_ok p wid c lead_wid (hne hact1)
      rw [calcu_addr_scan fuel p wid c lead_wid lead hact1 hstride hlead (hne hact1) hfuel hv]
      exact ⟨_, rfl, scan_frame_trans _ _ _ (advance_frame p c) (scan_result_frame _ c lead)⟩
    · unfold cache_prefetch.calcu_addr
      simp only
      rw [if_neg hact, if_neg hstride]
      exact ⟨p, rfl, scan_frame_refl p⟩

/-- What a frame keeps of the entry of the last recorded load. -/
theorem frame_last (p p1 : cache_prefetch) (h : scan_frame p p1) :
    p1.last_pc_index = p.last_pc_index ∧
    (p1.m_stride_buffer p1.last_pc_index).active_cta_num =
      (p.m_stride_buffer p.last_pc_index).active_cta_num ∧
    ∀ c, ((p1.m_stride_buffer p1.last_pc_index).m_cta_entry c).active =
        ((p.m_stride_buffer p.last_pc_index).m_cta_entry c).active ∧
      ((p1.m_stride_buffer p1.last_pc_index).m_cta_entry c).warp_set =
        ((p.m_stride_buffer p.last_pc_index).m_cta_entry c).warp_set := by
  obtain ⟨h1, _, h3⟩ := h
  rw [h1]
  exact ⟨rfl, (h3 _).1, (h3 _).2.2.2.2⟩

/-- The invariant of the prefetcher depends on the frame only. -/
theorem prefetcher_inv_frame (p p1 : cache_prefetch) (h : scan_frame p p1)
    (hinv : prefetcher_inv p) : prefetcher_inv p1 := by
  obtain ⟨hl, hn, hc⟩ := frame_last p p1 h
  obtain ⟨_, _, h3⟩ := h
  refine ⟨fun i => ?_, fun hlast => ?_⟩
  · obtain ⟨s1, s2, S, s3, s4⟩ := hinv.1 i
    obtain ⟨f1, _, _, _, f5⟩ := h3 i
    refine ⟨fun c => ?_, fun c hact => ?_, S, fun c => ?_, ?_⟩
    · rw [(f5 c).2]
      exact s1 c
    · rw [(f5 c).2]
      rw [(f5 c).1] at hact
      exact s2 c hact
    · rw [(f5 c).1]
      exact s3 c
    · rw [f1]
      exact s4
  · rw [hl] at hlast
    obtain ⟨c, hact⟩ := hinv.2 hlast
    exact ⟨c, by rw [(hc c).1]; exact hact⟩

/-- Under the invariant the entry of the last recorded load has a non-zero count of active
CTAs, and each of its active CTAs a non-empty warp set. -/
theorem inv_divisors (p : cache_prefetch) (hinv : prefetcher_inv p)
    (hlast : p.last_pc_index ≠ -1) :
    (p.m_stride_buffer p.last_pc_index).active_cta_num ≠ 0 ∧
    ∀ c, ((p.m_stride_buffer p.last_pc_index).m_cta_entry c).active = true →
      ((p.m_stride_buffer p.last_pc_index).m_cta_entry c).warp_set.length ≠ 0 := by
  obtain ⟨_, s2, S, s3, s4⟩ := hinv.1 p.last_pc_index
  obtain ⟨c, hact⟩ := hinv.2 hlast
  refine ⟨?_, fun d hd h0 => s2 d hd (List.length_eq_zero.mp h0)⟩
  rw [s4]
  have hpos : 0 < S.card := Finset.card_pos.mpr ⟨c, (s3 c).mpr hact⟩
  omega

theorem reset_req_frame (p : cache_prefetch) : scan_frame p p.reset_req :=
  ⟨rfl, rfl, fun _ => ⟨rfl, rfl, rfl, rfl, fun _ => ⟨rfl, rfl⟩⟩⟩

theorem next_cta_offset_frame (p : cache_prefetch) : scan_frame p p.next_cta_offset :=
  set_entry_frame p p.last_pc_index _ p.m_prefetch_req rfl rfl rfl rfl (fun _ => ⟨rfl, rfl⟩)

/-- Under the invariant `calculate_inter_pref_addr` returns, inside the frame, when each
scan is allowed as many entries of the loop body as the warp set it scans has elements. -/
theorem calculate_inter_pref_addr_returns (fuel : Nat) (p : cache_prefetch) (wid cta_id : Int)
    (hinv : prefetcher_inv p)
    (hfuel : ∀ c, ((p.m_stride_buffer p.last_pc_index).m_cta_entry c).warp_set.length ≤ fuel) :
    ∃ p1, p.calculate_inter_pref_addr fuel wid cta_id = Except.ok (some p1) ∧
      scan_frame p p1 := by
  unfold cache_prefetch.calculate_inter_pref_addr
  simp only
  have hl0 : p.reset_req.last_pc_index = p.last_pc_index := rfl
  by_cases hlast : p.last_pc_index = -1
  · rw [if_pos (hl0.trans hlast)]
    exact ⟨_, rfl, reset_req_frame p⟩
  · rw [if_neg (by rw [hl0]; exact hlast)]
    obtain ⟨hnum, hne⟩ := inv_divisors p hinv hlast
    have hne1 : ∀ c, ((p.m_stride_buffer p.last_pc_index).m_cta_entry c).active = true →
        ((p.m_stride_buffer p.last_pc_index).m_cta_entry c).warp_set ≠ [] :=
      fun c hc h0 => hne c hc (by rw [h0]; rfl)
    have hn0 : (p.reset_req.m_stride_buffer p.reset_req.last_pc_index).active_cta_num =
        (p.m_stride_buffer p.last_pc_index).active_cta_num := rfl
    rw [if_neg (by rw [hn0]; exact hnum)]
    have hf1 : scan_frame p p.reset_req.next_cta_offset :=
      scan_frame_trans _ _ _ (reset_req_frame p) (next_cta_offset_frame _)
    have hv1 : p.reset_req.next_cta_offset.m_prefetch_req.valid = false := rfl
    have hcall : ∀ (q : cache_prefetch) (c lw : Int), scan_frame p q →
        q.m_prefetch_req.valid = false →
        ∃ q1, q.calcu_addr fuel wid c lw = Except.ok (some q1) ∧ scan_frame p q1 := by
      intro q c lw hq hvq
      obtain ⟨_, nq, cq⟩ := frame_last _ _ hq
      obtain ⟨q1, hq1, hfq⟩ := calcu_addr_returns fuel q wid c lw
        (by rw [nq]; exact hnum)
        (by rw [(cq _).1, (cq _).2]; exact hne1 _)
        (by rw [(cq _).2]; exact hfuel _) hvq
      exact ⟨q1, hq1, scan_frame_trans _ _ _ hq hfq⟩
    obtain ⟨p2, hp2, hf2⟩ := hcall _
      (Int.tmod (cta_id + 2) (p.reset_req.next_cta_offset.m_stride_buffer
        p.reset_req.next_cta_offset.last_pc_index).active_cta_num) (-2) hf1 hv1
    rw [hp2]
    simp only
    have hstep : ∃ p3, p2.calcu_addr_unless_valid fuel wid cta_id (-1) = Except.ok (some p3) ∧
        scan_frame p p3 := by
      unfold cache_prefetch.calcu_addr_unless_valid
      by_cases hv2 : p2.m_prefetch_req.valid = false
      · rw [if_pos hv2]
        exact hcall p2 cta_id (-1) hf2 hv2
      · rw [if_neg hv2]
        exact ⟨p2, rfl, hf2⟩
    obtain ⟨p3, hp3, hf3⟩ := hstep
    rw [hp3]
    simp only
    obtain ⟨_, n3, _⟩ := frame_last _ _ hf3
    by_cases hv3 : p3.m_prefetch_req.valid = false
    · rw [if_pos hv3, if_neg (by rw [n3]; exact hnum)]
      exact hcall p3 _ (-2) hf3 hv3
    · rw [if_neg hv3]
      exact ⟨p3, rfl, hf3⟩

/-! ## Lemmas on `probe_locality` -/

/-- A way loop of `probe` that ran to its end met no tag hit and left the locals of
`probe_vars_after`. -/
theorem probe_scan_inr (cfg : cache_config) (lines : Nat → cache_block_t) (s tag : Nat) :
    ∀ k v, probe_scan cfg lines s tag k = Sum.inr v →
      v = probe_vars_after cfg lines s k ∧ ∀ w, w < k → ¬ tag_hit cfg lines s tag w := by
  intro k
  induction k with
  | zero =>
    intro v h
    have h1 : probe_init = v := Sum.inr.inj h
    exact ⟨h1.symm, fun w hw => absurd hw (Nat.not_lt_zero w)⟩
  | succ k ih =>
    intro v h
    rw [probe_scan] at h
    cases hk : probe_scan cfg lines s tag k with
    | inl r =>
      rw [hk] at h
      cases h
    | inr v1 =>
      rw [hk] at h
      simp only at h
      obtain ⟨hv1, hno⟩ := ih v1 hk
      by_cases hhit : tag_hit cfg lines s tag k
      · rw [probe_way_hit cfg lines s tag k v1 hhit] at h
        cases h
      · rw [probe_way_no_hit cfg lines s tag k v1 hhit] at h
        have h1 := Sum.inr.inj h
        refine ⟨?_, fun w hw => ?_⟩
        · rw [← h1, hv1]
          rfl
        · rcases Nat.lt_succ_iff_lt_or_eq.mp hw with h2 | h2
          · exact hno w h2
          · rw [h2]
            exact hhit

/-- The way loop of `probe_locality` returns and records what the way loop of `probe`
does. -/
theorem probe_locality_scan_forget (cfg : cache_config) (lines : Nat → cache_block_t)
    (s tag : Nat) (wle : warp_locality_evaluation) :
    ∀ k, (match probe_locality_scan cfg lines s tag wle k with
      | Sum.inl r => (Sum.inl (r.1, r.2.1) : Sum (cache_request_status × Nat) probe_vars)
      | Sum.inr r => Sum.inr r.1) = probe_scan cfg lines s tag k := by
  intro k
  induction k with
  | zero => rfl
  | succ k ih =>
    rw [probe_locality_scan, probe_scan]
    cases hk : probe_locality_scan cfg lines s tag wle k with
    | inl r =>
      rw [hk] at ih
      simp only at ih
      rw [← ih]
    | inr r =>
      obtain ⟨v, wle1⟩ := r
      rw [hk] at ih
      simp only at ih
      rw [← ih]
      simp only
      unfold probe_locality_way probe_way
      simp only
      by_cases ht : (lines (s * cfg.m_assoc + k)).m_tag = tag
      · rw [if_pos ht, if_pos ht]
        cases (lines (s * cfg.m_assoc + k)).m_status <;> rfl
      · rw [if_neg ht, if_neg ht]

/-- After a way loop that ran to its end, the assertion at the end of `probe` holds for the
way it returns. -/
theorem probe_finish_after (cfg : cache_config) (t : tag_array) (s idx : Nat) :
    probe_finish cfg t idx (probe_vars_after cfg t.m_lines s cfg.m_assoc) =
      if (probe_vars_after cfg t.m_lines s cfg.m_assoc).all_reserved = true then
        if cfg.m_alloc_policy = allocation_policy_t.ON_MISS then
          Except.ok (cache_request_status.RESERVATION_FAIL, idx)
        else Except.error fault.probe_alloc_policy
      else if (probe_vars_after cfg t.m_lines s cfg.m_assoc).invalid_line ≠ UINT_MAX then
        Except.ok (cache_request_status.MISS,
          (probe_vars_after cfg t.m_lines s cfg.m_assoc).invalid_line)
      else if (probe_vars_after cfg t.m_lines s cfg.m_assoc).valid_line ≠ UINT_MAX then
        Except.ok (cache_request_status.MISS,
          (probe_vars_after cfg t.m_lines s cfg.m_assoc).valid_line)
      else Except.error fault.probe_abort := by
  have hI := invalid_inv_after cfg t.m_lines s cfg.m_assoc
  have hV := victim_inv_after cfg t.m_lines s cfg.m_assoc
  unfold probe_finish
  by_cases hall : (probe_vars_after cfg t.m_lines s cfg.m_assoc).all_reserved = true
  · rw [if_pos hall, if_pos hall]
  · rw [if_neg hall, if_neg hall]
    by_cases hiv : (probe_vars_after cfg t.m_lines s cfg.m_assoc).invalid_line ≠ UINT_MAX
    · rw [if_pos hiv, if_pos hiv]
      unfold probe_return_miss
      rw [if_pos]
      rcases hI with ⟨hmax, _⟩ | ⟨w, hw, hidx, hst, _⟩
      · exact absurd hmax hiv
      · rw [hidx]
        unfold set_line at hst
        rw [hst]
        decide
    · rw [if_neg hiv, if_neg hiv]
      by_cases hvl : (probe_vars_after cfg t.m_lines s cfg.m_assoc).valid_line ≠ UINT_MAX
      · rw [if_pos hvl, if_pos hvl]
        unfold probe_return_miss
        rw [if_pos]
        rcases hV.pick with ⟨hmax, _⟩ | ⟨w, hw, hidx, hr, _, _⟩
        · exact absurd hmax hvl
        · rw [hidx]
          exact hr.1
      · rw [if_neg hvl, if_neg hvl]

/-- The refinement: with the prefetcher block returning the state `pf`, `probe_locality`
reports the status and the way of `probe`, and leaves the tag array as it was. -/
theorem probe_locality_eq (cfg : cache_config) (rule : List Int → Int × Bool)
    (t : locality_tag_array) (addr idx : Nat) (mf : mem_fetch) (time : Nat)
    (pf : cache_prefetch)
    (hpf : t.m_cache_prefetch.locality_update rule mf (cfg.tag addr) time = Except.ok pf) :
    probe_view (t.probe_locality cfg rule addr idx mf time) =
      t.totag_array.probe cfg addr idx ∧
    ∀ st i t1, t.probe_locality cfg rule addr idx mf time = Except.ok (st, i, t1) →
      t1.totag_array = t.totag_array ∧ t1.m_cache_prefetch = pf := by
  have hforget := probe_locality_scan_forget cfg t.m_lines (cfg.set_index addr)
    (cfg.tag addr) t.m_wle cfg.m_assoc
  unfold locality_tag_array.probe_locality tag_array.probe
  simp only
  rw [hpf]
  simp only
  cases hk : probe_locality_scan cfg t.m_lines (cfg.set_index addr) (cfg.tag addr) t.m_wle
      cfg.m_assoc with
  | inl r =>
    obtain ⟨st, i, wle⟩ := r
    rw [hk] at hforget
    simp only at hforget
    rw [← hforget]
    simp only
    refine ⟨rfl, fun st1 i1 t1 h => ?_⟩
    have h1 := (Prod.mk.inj (Prod.mk.inj (Except.ok.inj h)).2).2
    rw [← h1]
    exact ⟨rfl, rfl⟩
  | inr r =>
    obtain ⟨v, wle⟩ := r
    rw [hk] at hforget
    simp only at hforget
    rw [← hforget]
    simp only
    obtain ⟨hv, _⟩ := probe_scan_inr cfg t.m_lines (cfg.set_index addr) (cfg.tag addr)
      cfg.m_assoc v hforget.symm
    rw [hv, probe_finish_after]
    by_cases hall : (probe_vars_after cfg t.m_lines (cfg.set_index addr)
        cfg.m_assoc).all_reserved = true
    · rw [if_pos hall, if_pos hall]
      by_cases hpol : cfg.m_alloc_policy = allocation_policy_t.ON_MISS
      · rw [if_pos hpol, if_pos hpol]
        refine ⟨rfl, fun st1 i1 t1 h => ?_⟩
        have h1 := (Prod.mk.inj (Prod.mk.inj (Except.ok.inj h)).2).2
        rw [← h1]
        exact ⟨rfl, rfl⟩
      · rw [if_neg hpol, if_neg hpol]
        exact ⟨rfl, fun st1 i1 t1 h => by cases h⟩
    · rw [if_neg hall, if_neg hall]
      by_cases hiv : (probe_vars_after cfg t.m_lines (cfg.set_index addr)
          cfg.m_assoc).invalid_line ≠ UINT_MAX
      · rw [if_pos hiv, if_pos hiv]
        refine ⟨rfl, fun st1 i1 t1 h => ?_⟩
        have h1 := (Prod.mk.inj (Prod.mk.inj (Except.ok.inj h)).2).2
        rw [← h1]
        exact ⟨rfl, rfl⟩
      · rw [if_neg hiv, if_neg hiv]
        by_cases hvl : (probe_vars_after cfg t.m_lines (cfg.set_index addr)
            cfg.m_assoc).valid_line ≠ UINT_MAX
        · rw [if_pos hvl, if_pos hvl]
          refine ⟨rfl, fun st1 i1 t1 h => ?_⟩
          have h1 := (Prod.mk.inj (Prod.mk.inj (Except.ok.inj h)).2).2
          rw [← h1]
          exact ⟨rfl, rfl⟩
        · rw [if_neg hvl, if_neg hvl]
          exact ⟨rfl, fun st1 i1 t1 h => by cases h⟩

/-! ## Lemmas on the read-only cache -/

theorem lines_after_access_no_modified (cfg : cache_config) (lines : Nat → cache_block_t)
    (addr time : Nat) (st : cache_request_status) (idx : Nat)
    (h : ∀ i, (lines i).m_status ≠ cache_block_state.MODIFIED) :
    ∀ i, (lines_after_access cfg lines addr time st idx i).m_status
      ≠ cache_block_state.MODIFIED := by
  intro i
  unfold lines_after_access
  cases st with
  | HIT =>
    simp only
    unfold write_line
    by_cases hi : i = idx
    · rw [if_pos hi]
      exact h idx
    · rw [if_neg hi]
      exact h i
  | HIT_RESERVED =>
    simp only
    unfold write_line
    by_cases hi : i = idx
    · rw [if_pos hi]
      exact h idx
    · rw [if_neg hi]
      exact h i
  | MISS =>
    simp only
    split_ifs
    · unfold write_line
      by_cases hi : i = idx
      · rw [if_pos hi]
        unfold cache_block_t.allocate
        simp
      · rw [if_neg hi]
        exact h i
    · exact h i
  | RESERVATION_FAIL => exact h i

/-- A probe stops only in one of its own three faults. -/
theorem probe_error_cases (cfg : cache_config) (t : tag_array) (addr idx : Nat) (f : fault)
    (h : tag_array.probe cfg t addr idx = Except.error f) :
    f = fault.probe_alloc_policy ∨ f = fault.probe_abort ∨
      f = fault.probe_victim_reserved := by
  unfold tag_array.probe at h
  simp only at h
  split at h
  · cases h
  · unfold probe_finish probe_return_miss at h
    split_ifs at h
    all_goals (cases h; simp)

/-- On a tag array without MODIFIED line the three-argument `access` never stops in its
assertion `!wb`, the five-argument `access` entered with `wb = false` returns with
`wb = false`, and neither leaves a MODIFIED line. -/
theorem access3_clean (cfg : cache_config) (t : tag_array) (addr time idx : Nat)
    (h : ∀ i, (t.m_lines i).m_status ≠ cache_block_state.MODIFIED) :
    tag_array.access3 cfg t addr time idx ≠ Except.error fault.access_wb ∧
    (∀ r, tag_array.access cfg t addr time idx false empty_line = Except.ok r →
      r.wb = false) ∧
    (∀ st i tags, tag_array.access3 cfg t addr time idx = Except.ok (st, i, tags) →
      tag_array.probe cfg t addr idx = Except.ok (st, i) ∧
      ∀ j, (tags.m_lines j).m_status ≠ cache_block_state.MODIFIED) := by
  have hwb : ∀ r, tag_array.access cfg t addr time idx false empty_line = Except.ok r →
      r.wb = false := by
    intro r hr
    obtain ⟨hp, _⟩ := access_ok_inv cfg t addr time idx false empty_line r hr
    obtain ⟨r1, hr1, _, _, _, hw, _⟩ :=
      access_result cfg t addr time idx false empty_line r.status r.idx hp
    rw [hr] at hr1
    have h1 := Except.ok.inj hr1
    rw [h1, hw, if_neg]
    intro hd
    exact h r.idx hd.2.2
  refine ⟨?_, hwb, ?_⟩
  · intro herr
    unfold tag_array.access3 at herr
    cases ha : tag_array.access cfg t addr time idx false empty_line with
    | error f =>
      rw [ha] at herr
      simp only at herr
      have h1 : f = fault.access_wb := Except.error.inj herr
      cases hp : tag_array.probe cfg t addr idx with
      | error g =>
        have hp1 : tag_array.probe cfg { t with m_access := u32 (t.m_access + 1) } addr idx =
            Except.error g := (probe_lines_only cfg t _ addr idx rfl).trans hp
        unfold tag_array.access at ha
        simp only [hp1] at ha
        have h2 : g = f := Except.error.inj ha
        rcases probe_error_cases cfg t addr idx g hp with h3 | h3 | h3 <;>
          (rw [h3] at h2; rw [← h2] at h1; cases h1)
      | ok p =>
        obtain ⟨st, i⟩ := p
        obtain ⟨r1, hr1, _⟩ := access_result cfg t addr time idx false empty_line st i hp
        rw [hr1] at ha
        cases ha
    | ok r =>
      rw [ha] at herr
      simp only at herr
      rw [if_neg (by rw [hwb r ha]; simp)] at herr
      cases herr
  · intro st i tags h3
    obtain ⟨hp, hl⟩ := access3_ok_inv cfg t addr time idx st i tags h3
    refine ⟨hp, fun j => ?_⟩
    rw [hl]
    exact lines_after_access_no_modified cfg t.m_lines addr time st i h j

theorem set_data_size_isatomic (heap : Nat → mem_fetch) (mf size q : Nat) :
    (set_data_size heap mf size q).m_isatomic = (heap q).m_isatomic := by
  unfold set_data_size
  by_cases h : q = mf
  · rw [if_pos h, h]
  · rw [if_neg h]

theorem set_status_isatomic (heap : Nat → mem_fetch) (mf status time q : Nat) :
    (set_status heap mf status time q).m_isatomic = (heap q).m_isatomic := by
  unfold set_status
  by_cases h : q = mf
  · rw [if_pos h, h]
  · rw [if_neg h]

/-- Adding a request that is not atomic to an MSHR table without atomic flag leaves it
without atomic flag, and stops in no fault other than the two of `add`. -/
theorem mshr_add_clean (m : mshr_table) (block_addr mf : Nat)
    (h : ∀ b e, m.m_data.lookup b = some e → e.m_has_atomic = false) :
    m.add block_addr mf false ≠ Except.error fault.access_wb ∧
    ∀ m1, m.add block_addr mf false = Except.ok m1 →
      ∀ b e, m1.m_data.lookup b = some e → e.m_has_atomic = false := by
  unfold mshr_table.add
  simp only [Bool.false_eq_true, if_false]
  constructor
  · intro herr
    split_ifs at herr <;> cases herr
  · intro m1 h1 b e hb
    split_ifs at h1
    have h2 := Except.ok.inj h1
    rw [← h2] at hb
    simp only at hb
    rw [lookup_map_set, lookup_map_set] at hb
    by_cases hbb : b = block_addr
    · rw [if_pos hbb] at hb
      have h3 := Option.some.inj hb
      rw [← h3]
      simp only
      cases hl : m.m_data.lookup block_addr with
      | none => rfl
      | some e0 => exact h block_addr e0 hl
    · rw [if_neg hbb, if_neg hbb] at hb
      exact h b e hb

theorem ro_ok_case (r0 : read_request_result) (h : ro_inv r0.cache) :
    (Except.ok r0 : Except fault read_request_result) ≠ Except.error fault.access_wb ∧
    ∀ r, (Except.ok r0 : Except fault read_request_result) = Except.ok r → ro_inv r.cache := by
  refine ⟨fun he => ?_, fun r hr => ?_⟩
  · cases he
  · rw [← Except.ok.inj hr]
    exact h

theorem ro_error_case (f : fault) (h : f ≠ fault.access_wb) :
    (Except.error f : Except fault read_request_result) ≠ Except.error fault.access_wb ∧
    ∀ r, (Except.error f : Except fault read_request_result) = Except.ok r →
      ro_inv r.cache := by
  refine ⟨fun he => h (Except.error.inj he), fun r hr => ?_⟩
  cases hr

/-- The read-only `send_read_request` keeps the invariant and never stops in the assertion
`!wb`. -/
theorem send_read_request_ro (cfg : cache_config) (c : baseline_cache)
    (addr block_addr cache_index mf time : Nat) (do_miss wb : Bool)
    (evicted : cache_block_t) (events : List cache_event) (wa : Bool) (h : ro_inv c) :
    c.send_read_request cfg addr block_addr cache_index mf time do_miss wb evicted events
      true wa ≠ Except.error fault.access_wb ∧
    ∀ r, c.send_read_request cfg addr block_addr cache_index mf time do_miss wb evicted
        events true wa = Except.ok r → ro_inv r.cache := by
  obtain ⟨hlines, hmshr, hheap⟩ := h
  obtain ⟨hnwb, _, hacc⟩ := access3_clean cfg c.m_tag_array block_addr time cache_index hlines
  obtain ⟨hadd1, hadd2⟩ := mshr_add_clean c.m_mshrs block_addr mf hmshr
  have hatom : (c.heap mf).m_isatomic = false := hheap mf
  have htag : ∀ x, send_read_tag_access cfg true c.m_tag_array block_addr time cache_index wb
      evicted = x →
      x ≠ Except.error fault.access_wb ∧
      ∀ tags ci wb1 ev1, x = Except.ok (tags, ci, wb1, ev1) →
        ∀ j, (tags.m_lines j).m_status ≠ cache_block_state.MODIFIED := by
    intro x hx
    unfold send_read_tag_access at hx
    rw [if_pos rfl] at hx
    cases ha : tag_array.access3 cfg c.m_tag_array block_addr time cache_index with
    | error f =>
      rw [ha] at hx
      simp only at hx
      rw [← hx]
      refine ⟨fun he => ?_, fun _ _ _ _ he => ?_⟩
      · have h1 : f = fault.access_wb := Except.error.inj he
        rw [h1] at ha
        exact hnwb ha
      · cases he
    | ok r =>
      obtain ⟨st, i, tags⟩ := r
      rw [ha] at hx
      simp only at hx
      rw [← hx]
      refine ⟨fun he => ?_, fun tags1 ci wb1 ev1 he => ?_⟩
      · cases he
      · have h1 := (Prod.mk.inj (Except.ok.inj he)).1
        rw [← h1]
        exact (hacc st i tags ha).2
  unfold baseline_cache.send_read_request
  simp only
  rw [hatom]
  by_cases hA : c.m_mshrs.probe block_addr = true ∧ (!c.m_mshrs.full block_addr) = true
  · rw [if_pos hA]
    cases hx : send_read_tag_access cfg true c.m_tag_array block_addr time cache_index wb
        evicted with
    | error f =>
      dsimp only
      exact ro_error_case f (fun hf => (htag _ hx).1 (by rw [hf]))
    | ok x =>
      obtain ⟨tags, ci, wb1, ev1⟩ := x
      have hl := (htag _ hx).2 tags ci wb1 ev1 rfl
      dsimp only
      cases hm : c.m_mshrs.add block_addr mf false with
      | error f =>
        dsimp only
        exact ro_error_case f (fun hf => hadd1 (by rw [hm, hf]))
      | ok m1 =>
        dsimp only
        exact ro_ok_case _ ⟨hl, hadd2 m1 hm, hheap⟩
  · rw [if_neg hA]
    by_cases hB : c.m_mshrs.probe block_addr = false ∧ (!c.m_mshrs.full block_addr) = true ∧
        c.m_miss_queue.length < cfg.m_miss_queue_size
    · rw [if_pos hB]
      cases hx : send_read_tag_access cfg true c.m_tag_array block_addr time cache_index wb
          evicted with
      | error f =>
        dsimp only
        exact ro_error_case f (fun hf => (htag _ hx).1 (by rw [hf]))
      | ok x =>
        obtain ⟨tags, ci, wb1, ev1⟩ := x
        have hl := (htag _ hx).2 tags ci wb1 ev1 rfl
        dsimp only
        cases hm : c.m_mshrs.add block_addr mf false with
        | error f =>
          dsimp only
          exact ro_error_case f (fun hf => hadd1 (by rw [hm, hf]))
        | ok m1 =>
          dsimp only
          refine ro_ok_case _ ⟨hl, hadd2 m1 hm, fun q => ?_⟩
          show (set_status (set_data_size c.heap mf cfg.m_line_sz) mf c.m_miss_queue_status
            time q).m_isatomic = false
          rw [set_status_isatomic, set_data_size_isatomic]
          exact hheap q
    · rw [if_neg hB]
      exact ro_ok_case _ ⟨hlines, hmshr, hheap⟩

theorem inc_stats_ro (c : baseline_cache) (ty : mem_access_type) (st : cache_request_status)
    (h : ro_inv c) : ro_inv (c.inc_stats ty st) := h

/-- The part of `read_only_cache::access` after the probe keeps the invariant, never stops
in the assertion `!wb`, and yields HIT, MISS or RESERVATION_FAIL. -/
theorem serve_ro (cfg : cache_config) (c : baseline_cache)
    (addr block_addr cache_index mf time : Nat) (events : List cache_event)
    (status : cache_request_status) (h : ro_inv c)
    (hprobe : tag_array.probe cfg c.m_tag_array block_addr UINT_MAX
      = Except.ok (status, cache_index)) :
    read_only_cache.serve cfg c addr block_addr cache_index mf time events status
      ≠ Except.error fault.access_wb ∧
    ∀ st c1 ev, read_only_cache.serve cfg c addr block_addr cache_index mf time events status
        = Except.ok (st, c1, ev) →
      ro_inv c1 ∧ (st = cache_request_status.HIT ∨ st = cache_request_status.MISS ∨
        st = cache_request_status.RESERVATION_FAIL) := by
  obtain ⟨hnwb, _, hacc⟩ := access3_clean cfg c.m_tag_array block_addr time cache_index h.1
  obtain ⟨hs1, hs2⟩ := send_read_request_ro cfg c addr block_addr cache_index mf time false
    false empty_line events false h
  unfold read_only_cache.serve
  by_cases hhit : status = cache_request_status.HIT
  · rw [if_pos hhit]
    cases ha : tag_array.access3 cfg c.m_tag_array block_addr time cache_index with
    | error f =>
      dsimp only
      refine ⟨fun he => ?_, fun st c1 ev he => ?_⟩
      · rw [← Except.error.inj he] at hnwb
        exact hnwb ha
      · cases he
    | ok r =>
      obtain ⟨st, i, tags⟩ := r
      dsimp only
      refine ⟨fun he => ?_, fun st1 c1 ev he => ?_⟩
      · cases he
      · have h1 := Prod.mk.inj (Except.ok.inj he)
        have h2 := (Prod.mk.inj h1.2).1
        obtain ⟨hp, hl⟩ := hacc st i tags ha
        have hp0 : tag_array.probe cfg c.m_tag_array block_addr cache_index
            = Except.ok (status, cache_index) :=
          probe_idx_irrelevant cfg c.m_tag_array block_addr UINT_MAX cache_index status
            cache_index hprobe (by rw [hhit]; decide)
        rw [hp0] at hp
        have h3 := (Prod.mk.inj (Except.ok.inj hp)).1
        refine ⟨?_, Or.inl ?_⟩
        · rw [← h2]
          exact ⟨hl, h.2.1, h.2.2⟩
        · rw [← h1.1, ← h3, hhit]
  · rw [if_neg hhit]
    by_cases hrf : status ≠ cache_request_status.RESERVATION_FAIL
    · rw [if_pos hrf]
      by_cases hq : c.miss_queue_full cfg 0 = false
      · rw [if_pos hq]
        cases hr : c.send_read_request cfg addr block_addr cache_index mf time false false
            empty_line events true false with
        | error f =>
          dsimp only
          refine ⟨fun he => ?_, fun st c1 ev he => ?_⟩
          · rw [← Except.error.inj he] at hs1
            exact hs1 hr
          · cases he
        | ok r =>
          dsimp only
          refine ⟨fun he => ?_, fun st c1 ev he => ?_⟩
          · cases he
          · have h1 := Prod.mk.inj (Except.ok.inj he)
            have h2 := (Prod.mk.inj h1.2).1
            refine ⟨?_, ?_⟩
            · rw [← h2]
              exact hs2 r hr
            · rw [← h1.1]
              by_cases hd : r.do_miss = true
              · rw [if_pos hd]
                exact Or.inr (Or.inl rfl)
              · rw [if_neg hd]
                exact Or.inr (Or.inr rfl)
      · rw [if_neg hq]
        refine ⟨fun he => ?_, fun st c1 ev he => ?_⟩
        · cases he
        · have h1 := Prod.mk.inj (Except.ok.inj he)
          have h2 := (Prod.mk.inj h1.2).1
          rw [← h2, ← h1.1]
          exact ⟨h, Or.inr (Or.inr rfl)⟩
    · rw [if_neg hrf]
      refine ⟨fun he => ?_, fun st c1 ev he => ?_⟩
      · cases he
      · have h1 := Prod.mk.inj (Except.ok.inj he)
        have h2 := (Prod.mk.inj h1.2).1
        rw [← h2, ← h1.1]
        exact ⟨h, Or.inr (Or.inr rfl)⟩

/-- A call of `read_only_cache::access` keeps the invariant, never stops in the assertion
`!wb`, and returns HIT, MISS or RESERVATION_FAIL. -/
theorem access_ro (cfg : cache_config) (c : baseline_cache) (addr mf time : Nat)
    (events : List cache_event) (h : ro_inv c) :
    read_only_cache.access cfg c addr mf time events ≠ Except.error fault.access_wb ∧
    ∀ r, read_only_cache.access cfg c addr mf time events = Except.ok r →
      ro_inv r.cache ∧ (r.status = cache_request_status.HIT ∨
        r.status = cache_request_status.MISS ∨
        r.status = cache_request_status.RESERVATION_FAIL) := by
  unfold read_only_cache.access
  by_cases h1 : ¬ (c.heap mf).m_data_size ≤ cfg.m_line_sz
  · rw [if_pos h1]
    exact ⟨fun he => (by cases he), fun r hr => (by cases hr)⟩
  · rw [if_neg h1]
    by_cases h2 : cfg.m_write_policy ≠ write_policy_t.READ_ONLY
    · rw [if_pos h2]
      exact ⟨fun he => (by cases he), fun r hr => (by cases hr)⟩
    · rw [if_neg h2]
      by_cases h3 : (c.heap mf).m_is_write = true
      · rw [if_pos h3]
        exact ⟨fun he => (by cases he), fun r hr => (by cases hr)⟩
      · rw [if_neg h3]
        dsimp only
        cases hp : tag_array.probe cfg c.m_tag_array (cfg.block_addr addr) UINT_MAX with
        | error f =>
          dsimp only
          refine ⟨fun he => ?_, fun r hr => ?_⟩
          · have h4 : f = fault.access_wb := Except.error.inj he
            rcases probe_error_cases cfg c.m_tag_array _ _ f hp with h5 | h5 | h5 <;>
              (rw [h5] at h4; cases h4)
          · cases hr
        | ok p =>
          obtain ⟨status, cache_index⟩ := p
          dsimp only
          obtain ⟨hs1, hs2⟩ := serve_ro cfg c addr (cfg.block_addr addr) cache_index mf time
            events status h hp
          cases hs : read_only_cache.serve cfg c addr (cfg.block_addr addr) cache_index mf
              time events status with
          | error f =>
            dsimp only
            refine ⟨fun he => ?_, fun r hr => ?_⟩
            · rw [← Except.error.inj he] at hs1
              exact hs1 hs
            · cases hr
          | ok x =>
            obtain ⟨st, c1, ev⟩ := x
            dsimp only
            refine ⟨fun he => ?_, fun r hr => ?_⟩
            · cases he
            · obtain ⟨h6, h7⟩ := hs2 st c1 ev hs
              rw [← Except.ok.inj hr]
              exact ⟨inc_stats_ro c1 _ _ h6, h7⟩

/-- A call of `baseline_cache::fill` keeps the invariant. -/
theorem fill_ro (cfg : cache_config) (c c1 : baseline_cache) (mf time : Nat) (h : ro_inv c)
    (hf : c.fill cfg mf time = Except.ok c1) : ro_inv c1 := by
  obtain ⟨hlines, hmshr, hheap⟩ := h
  unfold baseline_cache.fill at hf
  cases hl : c.m_extra_mf_fields.lookup mf with
  | none =>
    rw [hl] at hf
    cases hf
  | some e =>
    rw [hl] at hf
    dsimp only at hf
    by_cases hv : e.m_valid = false
    · rw [if_pos hv] at hf
      cases hf
    · rw [if_neg hv] at hf
      have hfilled : ∀ tags, (match cfg.m_alloc_policy with
          | allocation_policy_t.ON_MISS =>
            c.m_tag_array.pref_fill cfg e.m_cache_index time
              (set_data_size c.heap mf e.m_data_size mf).m_is_prefetch
          | allocation_policy_t.ON_FILL => c.m_tag_array.fill cfg e.m_block_addr time)
            = Except.ok tags →
          ∀ i, (tags.m_lines i).m_status ≠ cache_block_state.MODIFIED := by
        intro tags ht i
        cases hpol : cfg.m_alloc_policy with
        | ON_MISS =>
          rw [hpol] at ht
          dsimp only at ht
          unfold tag_array.pref_fill cache_block_t.pref_fill at ht
          split_ifs at ht
          have h1 := Except.ok.inj ht
          rw [← h1]
          dsimp only
          unfold write_line
          by_cases hi : i = e.m_cache_index
          · rw [if_pos hi]
            simp
          · rw [if_neg hi]
            exact hlines i
        | ON_FILL =>
          rw [hpol] at ht
          dsimp only at ht
          unfold tag_array.fill at ht
          split_ifs at ht
          cases hp : tag_array.probe cfg c.m_tag_array e.m_block_addr 0 with
          | error f =>
            rw [hp] at ht
            cases ht
          | ok p =>
            obtain ⟨st, idx⟩ := p
            rw [hp] at ht
            dsimp only at ht
            split_ifs at ht
            unfold cache_block_t.fill cache_block_t.allocate at ht
            dsimp only at ht
            have h1 := Except.ok.inj ht
            rw [← h1]
            dsimp only
            unfold write_line
            by_cases hi : i = idx
            · rw [if_pos hi]
              simp
            · rw [if_neg hi]
              exact hlines i
      cases hfl : (match cfg.m_alloc_policy with
          | allocation_policy_t.ON_MISS =>
            c.m_tag_array.pref_fill cfg e.m_cache_index time
              (set_data_size c.heap mf e.m_data_size mf).m_is_prefetch
          | allocation_policy_t.ON_FILL => c.m_tag_array.fill cfg e.m_block_addr time) with
      | error f =>
        rw [hfl] at hf
        cases hf
      | ok tags =>
        rw [hfl] at hf
        dsimp only at hf
        have htl := hfilled tags hfl
        unfold mshr_table.mark_ready at hf
        cases hlk : c.m_mshrs.m_data.lookup e.m_block_addr with
        | none =>
          rw [hlk] at hf
          cases hf
        | some a =>
          rw [hlk] at hf
          dsimp only at hf
          have ha : a.m_has_atomic = false := hmshr _ a hlk
          rw [ha] at hf
          split_ifs at hf
          · dsimp only at hf
            simp only [Bool.false_eq_true, false_and, if_false] at hf
            unfold baseline_cache.use_fill_port at hf
            split_ifs at hf
            have h1 := Except.ok.inj hf
            rw [← h1]
            refine ⟨htl, hmshr, fun q => ?_⟩
            show (set_data_size c.heap mf e.m_data_size q).m_isatomic = false
            rw [set_data_size_isatomic]
            exact hheap q

/-- The invariant over a run of calls made to a read-only cache. -/
theorem run_ops_ro (cfg : cache_config) :
    ∀ (ops : List ro_op) (c c1 : baseline_cache), ro_inv c →
      read_only_cache.run_ops cfg c ops = Except.ok c1 → ro_inv c1 := by
  intro ops
  induction ops with
  | nil =>
    intro c c1 h hr
    rw [← Except.ok.inj hr]
    exact h
  | cons op rest ih =>
    intro c c1 h hr
    rw [read_only_cache.run_ops] at hr
    cases hop : read_only_cache.run_op cfg c op with
    | error f =>
      rw [hop] at hr
      cases hr
    | ok c2 =>
      rw [hop] at hr
      dsimp only at hr
      refine ih c2 c1 ?_ hr
      cases op with
      | access addr mf time =>
        unfold read_only_cache.run_op at hop
        dsimp only at hop
        cases ha : read_only_cache.access cfg c addr mf time [] with
        | error f =>
          rw [ha] at hop
          cases hop
        | ok r =>
          rw [ha] at hop
          dsimp only at hop
          rw [← Except.ok.inj hop]
          exact ((access_ro cfg c addr mf time [] h).2 r ha).1
      | fill mf time => exact fill_ro cfg c c2 mf time h hop

/-- The scenario cache as constructed satisfies the invariant of the read-only cache. -/
theorem scenario_ro_inv : ro_inv scenario_empty.tobaseline_cache := by
  refine ⟨fun i => ?_, fun b e hb => ?_, fun q => rfl⟩
  · show (lines_of [] i).m_status ≠ cache_block_state.MODIFIED
    unfold lines_of
    simp [empty_line]
  · cases hb

/-! ## Properties of `tag_array::probe` (C1 to C5) -/

/-- C1 (`tag_array::probe`, hit classification). If some way of the target set holds
`tag(addr)` on a line that is not `INVALID`, then `probe` returns the index of the first
such way in scan order, with status `HIT_RESERVED` when that line is `RESERVED` and `HIT`
when it is `VALID` or `MODIFIED`. -/
theorem probe_hit_classification (cfg : cache_config) (t : tag_array) (addr idx0 : Nat)
    (h : ∃ w, w < cfg.m_assoc ∧
      tag_hit cfg t.m_lines (cfg.set_index addr) (cfg.tag addr) w) :
    ∃ w, w < cfg.m_assoc ∧
      tag_hit cfg t.m_lines (cfg.set_index addr) (cfg.tag addr) w ∧
      (∀ w', w' < w → ¬ tag_hit cfg t.m_lines (cfg.set_index addr) (cfg.tag addr) w') ∧
      ((t.m_lines (cfg.set_index addr * cfg.m_assoc + w)).m_status
          = cache_block_state.RESERVED →
        tag_array.probe cfg t addr idx0 = Except.ok
          (cache_request_status.HIT_RESERVED, cfg.set_index addr * cfg.m_assoc + w)) ∧
      ((t.m_lines (cfg.set_index addr * cfg.m_assoc + w)).m_status
          = cache_block_state.VALID ∨
        (t.m_lines (cfg.set_index addr * cfg.m_assoc + w)).m_status
          = cache_block_state.MODIFIED →
        tag_array.probe cfg t addr idx0 = Except.ok
          (cache_request_status.HIT, cfg.set_index addr * cfg.m_assoc + w)) := by
  have hw := Nat.find_spec h
  have hmin : ∀ w', w' < Nat.find h →
      ¬ tag_hit cfg t.m_lines (cfg.set_index addr) (cfg.tag addr) w' := by
    intro w' hw' hh
    exact Nat.find_min h hw' ⟨Nat.lt_trans hw' hw.1, hh⟩
  have hp : tag_array.probe cfg t addr idx0 = Except.ok
      (hit_status (set_line cfg t.m_lines (cfg.set_index addr) (Nat.find h)).m_status,
        cfg.set_index addr * cfg.m_assoc + Nat.find h) := by
    unfold tag_array.probe
    simp only [probe_scan_first_hit cfg t.m_lines _ _ _ hw.2 hmin cfg.m_assoc hw.1]
  refine ⟨Nat.find h, hw.1, hw.2, hmin, ?_, ?_⟩
  · intro hs
    rw [hp]
    unfold set_line hit_status
    simp [hs]
  · intro hs
    rw [hp]
    unfold set_line hit_status
    rcases hs with hs | hs <;> simp [hs]

/-- Witness of C1: in set 0 of the scenario cache, way 0 holds block `0x0000` as VALID and
way 1 holds block `0x2000` as RESERVED; a probe of `0x2000` hits way 1. -/
theorem probe_hit_classification_witness :
    (∃ w, w < scenario_cfg.m_assoc ∧
      tag_hit scenario_cfg tags_valid_reserved.m_lines
        (scenario_cfg.set_index 8192) (scenario_cfg.tag 8192) w) ∧
    ∃ w, w < scenario_cfg.m_assoc ∧
      tag_hit scenario_cfg tags_valid_reserved.m_lines
        (scenario_cfg.set_index 8192) (scenario_cfg.tag 8192) w ∧
      (∀ w', w' < w → ¬ tag_hit scenario_cfg tags_valid_reserved.m_lines
        (scenario_cfg.set_index 8192) (scenario_cfg.tag 8192) w') ∧
      ((tags_valid_reserved.m_lines
            (scenario_cfg.set_index 8192 * scenario_cfg.m_assoc + w)).m_status
          = cache_block_state.RESERVED →
        tag_array.probe scenario_cfg tags_valid_reserved 8192 UINT_MAX = Except.ok
          (cache_request_status.HIT_RESERVED,
            scenario_cfg.set_index 8192 * scenario_cfg.m_assoc + w)) ∧
      ((tags_valid_reserved.m_lines
            (scenario_cfg.set_index 8192 * scenario_cfg.m_assoc + w)).m_status
          = cache_block_state.VALID ∨
        (tags_valid_reserved.m_lines
            (scenario_cfg.set_index 8192 * scenario_cfg.m_assoc + w)).m_status
          = cache_block_state.MODIFIED →
        tag_array.probe scenario_cfg tags_valid_reserved 8192 UINT_MAX = Except.ok
          (cache_request_status.HIT,
            scenario_cfg.set_index 8192 * scenario_cfg.m_assoc + w)) :=
  ⟨⟨1, by decide, by decide⟩,
    probe_hit_classification scenario_cfg tags_valid_reserved 8192 UINT_MAX
      ⟨1, by decide, by decide⟩⟩

/-- C2, the failing input. Set 0 of the scenario cache (ON_MISS, LRU) holds two VALID lines
whose `m_last_access_time` is `4294967295`; a probe of `0x4000` finds no tag hit and not
every way RESERVED, and the run ends in `abort()` instead of returning `MISS`. -/
theorem probe_aborts_at_max_time :
    scenario_cfg.m_alloc_policy = allocation_policy_t.ON_MISS ∧
    (∀ w, w < scenario_cfg.m_assoc → ¬ tag_hit scenario_cfg tags_max_time.m_lines
      (scenario_cfg.set_index 16384) (scenario_cfg.tag 16384) w) ∧
    (∀ w, w < scenario_cfg.m_assoc →
      (set_line scenario_cfg tags_max_time.m_lines (scenario_cfg.set_index 16384) w).m_status
        = cache_block_state.VALID) ∧
    tag_array.probe scenario_cfg tags_max_time 16384 UINT_MAX =
      Except.error fault.probe_abort := by
  decide

/-- The part of C2 that holds on the code: without a tag hit, `probe` yields
`RESERVATION_FAIL` under ON_MISS exactly when every way of the set is RESERVED, and when
some way is INVALID (below the sentinel index) or replaceable with a policy time stamp
below `2^32 - 1` it yields `MISS`. -/
theorem probe_no_hit_outcome (cfg : cache_config) (t : tag_array) (addr idx0 : Nat)
    (hpol : cfg.m_alloc_policy = allocation_policy_t.ON_MISS)
    (hno : ∀ w, w < cfg.m_assoc →
      ¬ tag_hit cfg t.m_lines (cfg.set_index addr) (cfg.tag addr) w) :
    ((∃ idx, tag_array.probe cfg t addr idx0 =
        Except.ok (cache_request_status.RESERVATION_FAIL, idx)) ↔
      ∀ w, w < cfg.m_assoc →
        (set_line cfg t.m_lines (cfg.set_index addr) w).m_status
          = cache_block_state.RESERVED) ∧
    ((cfg.set_index addr + 1) * cfg.m_assoc ≤ UINT_MAX →
      (∃ w, w < cfg.m_assoc ∧
        ((set_line cfg t.m_lines (cfg.set_index addr) w).m_status
            = cache_block_state.INVALID ∨
          replaceable (set_line cfg t.m_lines (cfg.set_index addr) w) ∧
            policy_time cfg (set_line cfg t.m_lines (cfg.set_index addr) w) < UINT_MAX)) →
      ∃ idx, tag_array.probe cfg t addr idx0 =
        Except.ok (cache_request_status.MISS, idx)) := by
  have hA := all_reserved_after cfg t.m_lines (cfg.set_index addr) cfg.m_assoc
  have hI := invalid_inv_after cfg t.m_lines (cfg.set_index addr) cfg.m_assoc
  have hV := victim_inv_after cfg t.m_lines (cfg.set_index addr) cfg.m_assoc
  rw [probe_of_no_hit cfg t addr idx0 hno]
  unfold probe_finish
  constructor
  · constructor
    · rintro ⟨idx, h⟩
      rw [← hA]
      by_contra hall
      rw [if_neg hall] at h
      split_ifs at h
      all_goals exact absurd (probe_return_miss_ok _ _ _ _ h).1 (by decide)
    · intro hall
      rw [← hA] at hall
      exact ⟨idx0, by simp [hall, hpol]⟩
  · intro hfit ⟨w, hw, hcase⟩
    have hidx : ∀ w', w' < cfg.m_assoc →
        cfg.set_index addr * cfg.m_assoc + w' ≠ UINT_MAX := by
      intro w' hw'
      have : cfg.set_index addr * cfg.m_assoc + w' < (cfg.set_index addr + 1) * cfg.m_assoc := by
        rw [Nat.add_mul, Nat.one_mul]
        exact Nat.add_lt_add_left hw' _
      omega
    have hnall : ¬ (probe_vars_after cfg t.m_lines (cfg.set_index addr) cfg.m_assoc).all_reserved
        = true := by
      intro hb
      have := hA.mp hb w hw
      rcases hcase with h | h
      · rw [this] at h; cases h
      · exact h.1.1 this
    rw [if_neg hnall]
    rcases hI with ⟨hmax, hnone⟩ | ⟨wi, hwi, hiv, hst, _⟩
    · rcases hcase with h | ⟨hr, hpt⟩
      · exact absurd h (hnone w hw)
      · rcases hV.pick with ⟨_, hts⟩ | ⟨wv, hwv, hvl, hrv, _, _⟩
        · have := hV.lower w hw hr
          omega
        · have hne := hidx wv hwv
          rw [← hvl] at hne
          have hres : (t.m_lines (probe_vars_after cfg t.m_lines (cfg.set_index addr)
              cfg.m_assoc).valid_line).m_status ≠ cache_block_state.RESERVED := by
            rw [hvl]; exact hrv.1
          rw [if_neg (not_not.mpr hmax), if_pos hne]
          unfold probe_return_miss
          rw [if_pos hres]
          exact ⟨_, rfl⟩
    · have hne := hidx wi hwi
      rw [← hiv] at hne
      have hres : (t.m_lines (probe_vars_after cfg t.m_lines (cfg.set_index addr)
          cfg.m_assoc).invalid_line).m_status ≠ cache_block_state.RESERVED := by
        rw [hiv]
        unfold set_line at hst
        rw [hst]
        decide
      rw [if_pos hne]
      unfold probe_return_miss
      rw [if_pos hres]
      exact ⟨_, rfl⟩

/-- C3 (`tag_array::probe`, replacement victim). When `probe` returns `MISS` and the target
set has no INVALID way, the returned way is a non-RESERVED way of the set whose policy time
stamp (`m_last_access_time` under LRU, `m_alloc_time` under FIFO, see `policy_time`) is
minimal among the non-RESERVED ways, and every non-RESERVED way before it in scan order has
a strictly larger time stamp, so among ways of equal minimal time it is the first. The
statement holds whatever the time stamps are, in particular for every set whose time stamps
are below `2^32 - 1`. -/
theorem probe_miss_victim_min_time (cfg : cache_config) (t : tag_array)
    (addr idx0 idx : Nat)
    (hmiss : tag_array.probe cfg t addr idx0 = Except.ok (cache_request_status.MISS, idx))
    (hnoinv : ∀ w, w < cfg.m_assoc →
      (set_line cfg t.m_lines (cfg.set_index addr) w).m_status ≠ cache_block_state.INVALID) :
    ∃ w, w < cfg.m_assoc ∧ idx = cfg.set_index addr * cfg.m_assoc + w ∧
      (set_line cfg t.m_lines (cfg.set_index addr) w).m_status ≠ cache_block_state.RESERVED ∧
      (∀ w', w' < cfg.m_assoc →
        (set_line cfg t.m_lines (cfg.set_index addr) w').m_status
          ≠ cache_block_state.RESERVED →
        policy_time cfg (set_line cfg t.m_lines (cfg.set_index addr) w) ≤
          policy_time cfg (set_line cfg t.m_lines (cfg.set_index addr) w')) ∧
      (∀ w', w' < w →
        (set_line cfg t.m_lines (cfg.set_index addr) w').m_status
          ≠ cache_block_state.RESERVED →
        policy_time cfg (set_line cfg t.m_lines (cfg.set_index addr) w) <
          policy_time cfg (set_line cfg t.m_lines (cfg.set_index addr) w')) := by
  obtain ⟨_, _, hsel⟩ := probe_miss_inv cfg t addr idx0 idx hmiss
  have hI := invalid_inv_after cfg t.m_lines (cfg.set_index addr) cfg.m_assoc
  have hV := victim_inv_after cfg t.m_lines (cfg.set_index addr) cfg.m_assoc
  have hImax : (probe_vars_after cfg t.m_lines (cfg.set_index addr) cfg.m_assoc).invalid_line
      = UINT_MAX := by
    rcases hI with ⟨h, _⟩ | ⟨w, hw, _, hst, _⟩
    · exact h
    · exact absurd hst (hnoinv w hw)
  rcases hsel with ⟨hne, _⟩ | ⟨_, hvne, hidx⟩
  · exact absurd hImax hne
  · rcases hV.pick with ⟨hvmax, _⟩ | ⟨w, hw, hvl, hr, hpt, hfirst⟩
    · exact absurd hvmax hvne
    · refine ⟨w, hw, hidx.trans hvl, hr.1, ?_, ?_⟩
      · intro w' hw' hres
        rw [hpt]
        exact hV.lower w' hw' ⟨hres, hnoinv w' hw'⟩
      · intro w' hw' hres
        rw [hpt]
        exact hfirst w' hw' ⟨hres, hnoinv w' (Nat.lt_trans hw' hw)⟩

/-- Witness of C3: set 0 of the scenario cache holds a VALID line last accessed at time 7
and a MODIFIED line last accessed at time 5; a probe of `0x4000` misses and picks way 1. -/
theorem probe_miss_victim_min_time_witness :
    tag_array.probe scenario_cfg tags_valid_modified 16384 UINT_MAX =
      Except.ok (cache_request_status.MISS, 1) ∧
    ∃ w, w < scenario_cfg.m_assoc ∧
      1 = scenario_cfg.set_index 16384 * scenario_cfg.m_assoc + w ∧
      (set_line scenario_cfg tags_valid_modified.m_lines (scenario_cfg.set_index 16384)
        w).m_status ≠ cache_block_state.RESERVED ∧
      (∀ w', w' < scenario_cfg.m_assoc →
        (set_line scenario_cfg tags_valid_modified.m_lines (scenario_cfg.set_index 16384)
          w').m_status ≠ cache_block_state.RESERVED →
        policy_time scenario_cfg
            (set_line scenario_cfg tags_valid_modified.m_lines
              (scenario_cfg.set_index 16384) w) ≤
          policy_time scenario_cfg
            (set_line scenario_cfg tags_valid_modified.m_lines
              (scenario_cfg.set_index 16384) w')) ∧
      (∀ w', w' < w →
        (set_line scenario_cfg tags_valid_modified.m_lines (scenario_cfg.set_index 16384)
          w').m_status ≠ cache_block_state.RESERVED →
        policy_time scenario_cfg
            (set_line scenario_cfg tags_valid_modified.m_lines
              (scenario_cfg.set_index 16384) w) <
          policy_time scenario_cfg
            (set_line scenario_cfg tags_valid_modified.m_lines
              (scenario_cfg.set_index 16384) w')) :=
  ⟨by decide,
    probe_miss_victim_min_time scenario_cfg tags_valid_modified 16384 UINT_MAX 1
      (by decide) (by decide)⟩

/-- C4, counterexample. Both ways of set 0 of the scenario cache are INVALID; a probe of
`0x4000` returns `MISS` with way index 1, although way 0 (line index 0) is the first
INVALID way of the set. -/
theorem probe_invalid_not_first :
    tag_array.probe scenario_cfg tags_empty 16384 UINT_MAX =
      Except.ok (cache_request_status.MISS, 1) ∧
    scenario_cfg.set_index 16384 * scenario_cfg.m_assoc + 0 = 0 ∧
    (tags_empty.m_lines 0).m_status = cache_block_state.INVALID := by
  decide

/-- C4 as amended (`tag_array::probe`, INVALID preference). When `probe` returns `MISS` and
the target set contains at least one INVALID way, the returned way is the last INVALID way
of the set in scan order (the highest-numbered one); it is INVALID, hence never a
replaceable VALID or MODIFIED way. The line indices of the set are assumed to lie below the
sentinel `(unsigned)-1`. -/
theorem probe_miss_prefers_last_invalid (cfg : cache_config) (t : tag_array)
    (addr idx0 idx : Nat)
    (hfit : (cfg.set_index addr + 1) * cfg.m_assoc ≤ UINT_MAX)
    (hmiss : tag_array.probe cfg t addr idx0 = Except.ok (cache_request_status.MISS, idx))
    (hinv : ∃ w, w < cfg.m_assoc ∧
      (set_line cfg t.m_lines (cfg.set_index addr) w).m_status = cache_block_state.INVALID) :
    ∃ w, w < cfg.m_assoc ∧ idx = cfg.set_index addr * cfg.m_assoc + w ∧
      (t.m_lines idx).m_status = cache_block_state.INVALID ∧
      ∀ w', w < w' → w' < cfg.m_assoc →
        (set_line cfg t.m_lines (cfg.set_index addr) w').m_status
          ≠ cache_block_state.INVALID := by
  obtain ⟨_, _, hsel⟩ := probe_miss_inv cfg t addr idx0 idx hmiss
  obtain ⟨w0, hw0, hst0⟩ := hinv
  rcases invalid_inv_after cfg t.m_lines (cfg.set_index addr) cfg.m_assoc with
    ⟨_, hnone⟩ | ⟨w, hw, hiv, hst, hlast⟩
  · exact absurd hst0 (hnone w0 hw0)
  · have hne : (probe_vars_after cfg t.m_lines (cfg.set_index addr) cfg.m_assoc).invalid_line
        ≠ UINT_MAX := by
      rw [hiv]
      have : cfg.set_index addr * cfg.m_assoc + w < (cfg.set_index addr + 1) * cfg.m_assoc := by
        rw [Nat.add_mul, Nat.one_mul]
        exact Nat.add_lt_add_left hw _
      omega
    rcases hsel with ⟨_, hidx⟩ | ⟨hmax, _, _⟩
    · refine ⟨w, hw, hidx.trans hiv, ?_, hlast⟩
      rw [hidx, hiv]
      exact hst
    · exact absurd hmax hne

/-- Witness of C4 as amended: with both ways of set 0 INVALID the probe of `0x4000` returns
way 1, the last INVALID way. -/
theorem probe_miss_prefers_last_invalid_witness :
    (scenario_cfg.set_index 16384 + 1) * scenario_cfg.m_assoc ≤ UINT_MAX ∧
    tag_array.probe scenario_cfg tags_empty 16384 UINT_MAX =
      Except.ok (cache_request_status.MISS, 1) ∧
    ∃ w, w < scenario_cfg.m_assoc ∧
      1 = scenario_cfg.set_index 16384 * scenario_cfg.m_assoc + w ∧
      (tags_empty.m_lines 1).m_status = cache_block_state.INVALID ∧
      ∀ w', w < w' → w' < scenario_cfg.m_assoc →
        (set_line scenario_cfg tags_empty.m_lines (scenario_cfg.set_index 16384) w').m_status
          ≠ cache_block_state.INVALID :=
  ⟨by decide, by decide,
    probe_miss_prefers_last_invalid scenario_cfg tags_empty 16384 UINT_MAX 1
      (by decide) (by decide) ⟨0, by decide, by decide⟩⟩

/-- C5 (victim is never RESERVED and lies in the target set). The assertion
`m_lines[idx].m_status != RESERVED` at the end of `probe` never fails, and whenever `probe`
returns `MISS` with way index `idx`, the line at `idx` is not RESERVED and
`set_index(addr) * assoc <= idx < (set_index(addr) + 1) * assoc`. -/
theorem probe_miss_victim_not_reserved (cfg : cache_config) (t : tag_array)
    (addr idx0 : Nat) :
    tag_array.probe cfg t addr idx0 ≠ Except.error fault.probe_victim_reserved ∧
    ∀ idx, tag_array.probe cfg t addr idx0 = Except.ok (cache_request_status.MISS, idx) →
      (t.m_lines idx).m_status ≠ cache_block_state.RESERVED ∧
      cfg.set_index addr * cfg.m_assoc ≤ idx ∧
      idx < (cfg.set_index addr + 1) * cfg.m_assoc := by
  have hI := invalid_inv_after cfg t.m_lines (cfg.set_index addr) cfg.m_assoc
  have hV := victim_inv_after cfg t.m_lines (cfg.set_index addr) cfg.m_assoc
  have hrange : ∀ w, w < cfg.m_assoc →
      cfg.set_index addr * cfg.m_assoc ≤ cfg.set_index addr * cfg.m_assoc + w ∧
      cfg.set_index addr * cfg.m_assoc + w < (cfg.set_index addr + 1) * cfg.m_assoc := by
    intro w hw
    refine ⟨Nat.le_add_right _ _, ?_⟩
    rw [Nat.add_mul, Nat.one_mul]
    exact Nat.add_lt_add_left hw _
  constructor
  · intro herr
    by_cases hex : ∃ w, w < cfg.m_assoc ∧
        tag_hit cfg t.m_lines (cfg.set_index addr) (cfg.tag addr) w
    · have hs := Nat.find_spec hex
      have hmin : ∀ w', w' < Nat.find hex →
          ¬ tag_hit cfg t.m_lines (cfg.set_index addr) (cfg.tag addr) w' := by
        intro w' hw' hh'
        exact Nat.find_min hex hw' ⟨Nat.lt_trans hw' hs.1, hh'⟩
      unfold tag_array.probe at herr
      simp only [probe_scan_first_hit cfg t.m_lines _ _ _ hs.2 hmin cfg.m_assoc hs.1] at herr
      cases herr
    · have hno : ∀ w, w < cfg.m_assoc →
          ¬ tag_hit cfg t.m_lines (cfg.set_index addr) (cfg.tag addr) w :=
        fun w hw hh => hex ⟨w, hw, hh⟩
      rw [probe_of_no_hit cfg t addr idx0 hno] at herr
      unfold probe_finish at herr
      by_cases hall : (probe_vars_after cfg t.m_lines (cfg.set_index addr)
          cfg.m_assoc).all_reserved = true
      · rw [if_pos hall] at herr
        split_ifs at herr
        cases herr
      · rw [if_neg hall] at herr
        by_cases hiv : (probe_vars_after cfg t.m_lines (cfg.set_index addr)
            cfg.m_assoc).invalid_line ≠ UINT_MAX
        · rw [if_pos hiv] at herr
          unfold probe_return_miss at herr
          split_ifs at herr with h4
          rcases hI with ⟨hmax, _⟩ | ⟨w, hw, hidx, hst, _⟩
          · exact hiv hmax
          · rw [hidx] at h4
            unfold set_line at hst
            rw [hst] at h4
            exact h4 (by decide)
        · rw [if_neg hiv] at herr
          by_cases hvl : (probe_vars_after cfg t.m_lines (cfg.set_index addr)
              cfg.m_assoc).valid_line ≠ UINT_MAX
          · rw [if_pos hvl] at herr
            unfold probe_return_miss at herr
            split_ifs at herr with h6
            rcases hV.pick with ⟨hmax, _⟩ | ⟨w, hw, hidx, hr, _, _⟩
            · exact hvl hmax
            · rw [hidx] at h6
              exact h6 hr.1
          · rw [if_neg hvl] at herr
            cases herr
  · intro idx hmiss
    obtain ⟨_, hres, hsel⟩ := probe_miss_inv cfg t addr idx0 idx hmiss
    refine ⟨hres, ?_⟩
    rcases hsel with ⟨hne, hidx⟩ | ⟨_, hvne, hidx⟩
    · rcases hI with ⟨hmax, _⟩ | ⟨w, hw, hiv, _, _⟩
      · exact absurd hmax hne
      · rw [hidx, hiv]; exact hrange w hw
    · rcases hV.pick with ⟨hmax, _⟩ | ⟨w, hw, hvl, _, _, _⟩
      · exact absurd hmax hvne
      · rw [hidx, hvl]; exact hrange w hw

/-- Witness of C5: the probe of `0x4000` on set 0 of the scenario cache holding a VALID and
a MODIFIED line returns `MISS` with way 1, a line that is not RESERVED and lies in set 0. -/
theorem probe_miss_victim_not_reserved_witness :
    tag_array.probe scenario_cfg tags_valid_modified 16384 UINT_MAX =
      Except.ok (cache_request_status.MISS, 1) ∧
    (tags_valid_modified.m_lines 1).m_status ≠ cache_block_state.RESERVED ∧
    scenario_cfg.set_index 16384 * scenario_cfg.m_assoc ≤ 1 ∧
    1 < (scenario_cfg.set_index 16384 + 1) * scenario_cfg.m_assoc :=
  ⟨by decide,
    (probe_miss_victim_not_reserved scenario_cfg tags_valid_modified 16384 UINT_MAX).2 1
      (by decide)⟩

/-! ## Properties of `tag_array::access` (C6, C7) -/

/-- C6 (`tag_array::access` on `MISS` under ON_MISS). When the probe of `addr` misses with
victim way `idx`: the access returns `MISS` with that way; `wb` becomes true and `evicted`
a copy of the victim line's previous contents when the victim was MODIFIED, and both are
left as passed in otherwise; afterwards way `idx` holds `tag(addr)` and
`block_addr(addr)` and is RESERVED; and the miss counter has been incremented (it is an
`unsigned`: the new value is `m_miss + 1` reduced modulo `2^32`, which is `m_miss + 1`
unless the counter stood at `2^32 - 1`). -/
theorem access_miss_on_miss (cfg : cache_config) (t : tag_array)
    (addr time idx0 : Nat) (wb0 : Bool) (ev0 : cache_block_t) (idx : Nat)
    (hpol : cfg.m_alloc_policy = allocation_policy_t.ON_MISS)
    (hprobe : tag_array.probe cfg t addr idx0 = Except.ok (cache_request_status.MISS, idx)) :
    ∃ r, tag_array.access cfg t addr time idx0 wb0 ev0 = Except.ok r ∧
      r.status = cache_request_status.MISS ∧ r.idx = idx ∧
      ((t.m_lines idx).m_status = cache_block_state.MODIFIED →
        r.wb = true ∧ r.evicted = t.m_lines idx) ∧
      ((t.m_lines idx).m_status ≠ cache_block_state.MODIFIED →
        r.wb = wb0 ∧ r.evicted = ev0) ∧
      (r.tags.m_lines idx).m_tag = cfg.tag addr ∧
      (r.tags.m_lines idx).m_block_addr = cfg.block_addr addr ∧
      (r.tags.m_lines idx).m_status = cache_block_state.RESERVED ∧
      r.tags.m_miss = u32 (t.m_miss + 1) ∧
      (t.m_miss < UINT_MAX → r.tags.m_miss = t.m_miss + 1) := by
  have hres := (probe_miss_inv cfg t addr idx0 idx hprobe).2
  have hst : (t.m_lines idx).m_status = cache_block_state.VALID ∨
      (t.m_lines idx).m_status = cache_block_state.INVALID ∨
      (t.m_lines idx).m_status = cache_block_state.MODIFIED := by
    cases h : (t.m_lines idx).m_status
    · exact Or.inr (Or.inl rfl)
    · exact absurd h hres.1
    · exact Or.inl rfl
    · exact Or.inr (Or.inr rfl)
  have hp1 : tag_array.probe cfg { t with m_access := u32 (t.m_access + 1) } addr idx0 =
      Except.ok (cache_request_status.MISS, idx) := by
    exact (probe_lines_only cfg t _ addr idx0 rfl).trans hprobe
  unfold tag_array.access
  simp only [hp1, hpol, if_true, not_not.mpr hst, if_false]
  refine ⟨_, rfl, rfl, rfl, ?_, ?_, ?_, ?_, ?_, ?_, ?_⟩
  · intro hm
    simp [hm]
  · intro hm
    simp [hm]
  · split_ifs <;> simp [write_line, cache_block_t.allocate]
  · split_ifs <;> simp [write_line, cache_block_t.allocate]
  · split_ifs <;> simp [write_line, cache_block_t.allocate]
  · split_ifs <;> rfl
  · intro hlt
    split_ifs <;> exact u32_succ t.m_miss hlt

/-- Witness of C6: a read of `0x4000` at time 9 on set 0 of the scenario cache, whose LRU
line (way 1) is MODIFIED. -/
theorem access_miss_on_miss_witness :
    scenario_cfg.m_alloc_policy = allocation_policy_t.ON_MISS ∧
    tag_array.probe scenario_cfg tags_valid_modified 16384 UINT_MAX =
      Except.ok (cache_request_status.MISS, 1) ∧
    ∃ r, tag_array.access scenario_cfg tags_valid_modified 16384 9 UINT_MAX false empty_line
        = Except.ok r ∧
      r.status = cache_request_status.MISS ∧ r.idx = 1 ∧
      ((tags_valid_modified.m_lines 1).m_status = cache_block_state.MODIFIED →
        r.wb = true ∧ r.evicted = tags_valid_modified.m_lines 1) ∧
      ((tags_valid_modified.m_lines 1).m_status ≠ cache_block_state.MODIFIED →
        r.wb = false ∧ r.evicted = empty_line) ∧
      (r.tags.m_lines 1).m_tag = scenario_cfg.tag 16384 ∧
      (r.tags.m_lines 1).m_block_addr = scenario_cfg.block_addr 16384 ∧
      (r.tags.m_lines 1).m_status = cache_block_state.RESERVED ∧
      r.tags.m_miss = u32 (tags_valid_modified.m_miss + 1) ∧
      (tags_valid_modified.m_miss < UINT_MAX →
        r.tags.m_miss = tags_valid_modified.m_miss + 1) :=
  ⟨by decide, by decide,
    access_miss_on_miss scenario_cfg tags_valid_modified 16384 9 UINT_MAX false empty_line 1
      (by decide) (by decide)⟩

/-- C7 (`tag_array::access` on `HIT`). When the probe of `addr` hits way `idx`: the access
returns `HIT`; the hit line's `m_last_access_time` becomes `time` and its `m_used` flag
true while its other fields (tag, block address, status among them) are unchanged; every
other line is unchanged; the access counter is incremented (modulo `2^32`, the counter being
an `unsigned`) and the miss, pending-hit and reservation-fail counters are unchanged; `wb`
and `evicted` are left as passed in. -/
theorem access_hit_frame (cfg : cache_config) (t : tag_array)
    (addr time idx0 : Nat) (wb0 : Bool) (ev0 : cache_block_t) (idx : Nat)
    (hprobe : tag_array.probe cfg t addr idx0 = Except.ok (cache_request_status.HIT, idx)) :
    ∃ r, tag_array.access cfg t addr time idx0 wb0 ev0 = Except.ok r ∧
      r.status = cache_request_status.HIT ∧ r.idx = idx ∧ r.wb = wb0 ∧ r.evicted = ev0 ∧
      r.tags.m_lines idx =
        { t.m_lines idx with m_last_access_time := time, m_used := true } ∧
      (r.tags.m_lines idx).m_last_access_time = time ∧
      (r.tags.m_lines idx).m_used = true ∧
      (r.tags.m_lines idx).m_tag = (t.m_lines idx).m_tag ∧
      (r.tags.m_lines idx).m_block_addr = (t.m_lines idx).m_block_addr ∧
      (r.tags.m_lines idx).m_status = (t.m_lines idx).m_status ∧
      (∀ j, j ≠ idx → r.tags.m_lines j = t.m_lines j) ∧
      r.tags.m_access = u32 (t.m_access + 1) ∧
      (t.m_access < UINT_MAX → r.tags.m_access = t.m_access + 1) ∧
      r.tags.m_miss = t.m_miss ∧
      r.tags.m_pending_hit = t.m_pending_hit ∧
      r.tags.m_res_fail = t.m_res_fail := by
  obtain ⟨w, _, _, hhit, hs⟩ :=
    probe_hit_inv cfg t addr idx0 idx _ hprobe (Or.inl rfl)
  have hst : (t.m_lines idx).m_status = cache_block_state.VALID ∨
      (t.m_lines idx).m_status = cache_block_state.MODIFIED := by
    unfold hit_status at hs
    cases h : (t.m_lines idx).m_status
    · rw [h] at hs
      unfold tag_hit set_line at hhit
      rename_i hidx
      rw [← hidx] at hhit
      exact absurd h hhit.2
    · rw [h] at hs; simp at hs
    · exact Or.inl rfl
    · exact Or.inr rfl
  have hp1 : tag_array.probe cfg { t with m_access := u32 (t.m_access + 1) } addr idx0 =
      Except.ok (cache_request_status.HIT, idx) := by
    exact (probe_lines_only cfg t _ addr idx0 rfl).trans hprobe
  unfold tag_array.access
  simp only [hp1, not_not.mpr hst, if_false]
  refine ⟨_, rfl, rfl, rfl, rfl, rfl, ?_, ?_, ?_, ?_, ?_, ?_, ?_, ?_, ?_, ?_, ?_, ?_⟩
  · split_ifs <;> simp [write_line]
  · split_ifs <;> simp [write_line]
  · split_ifs <;> simp [write_line]
  · split_ifs <;> simp [write_line]
  · split_ifs <;> simp [write_line]
  · split_ifs <;> simp [write_line]
  · intro j hj
    split_ifs <;> simp [write_line, hj]
  · split_ifs <;> rfl
  · intro hlt
    split_ifs <;> exact u32_succ t.m_access hlt
  · split_ifs <;> rfl
  · split_ifs <;> rfl
  · split_ifs <;> rfl

/-- Witness of C7: a read of `0x0000` at time 9 hits way 0 of set 0 of the scenario cache. -/
theorem access_hit_frame_witness :
    tag_array.probe scenario_cfg tags_valid_modified 0 UINT_MAX =
      Except.ok (cache_request_status.HIT, 0) ∧
    ∃ r, tag_array.access scenario_cfg tags_valid_modified 0 9 UINT_MAX false empty_line
        = Except.ok r ∧
      r.status = cache_request_status.HIT ∧ r.idx = 0 ∧ r.wb = false ∧
      r.evicted = empty_line ∧
      r.tags.m_lines 0 =
        { tags_valid_modified.m_lines 0 with m_last_access_time := 9, m_used := true } ∧
      (r.tags.m_lines 0).m_last_access_time = 9 ∧
      (r.tags.m_lines 0).m_used = true ∧
      (r.tags.m_lines 0).m_tag = (tags_valid_modified.m_lines 0).m_tag ∧
      (r.tags.m_lines 0).m_block_addr = (tags_valid_modified.m_lines 0).m_block_addr ∧
      (r.tags.m_lines 0).m_status = (tags_valid_modified.m_lines 0).m_status ∧
      (∀ j, j ≠ 0 → r.tags.m_lines j = tags_valid_modified.m_lines j) ∧
      r.tags.m_access = u32 (tags_valid_modified.m_access + 1) ∧
      (tags_valid_modified.m_access < UINT_MAX →
        r.tags.m_access = tags_valid_modified.m_access + 1) ∧
      r.tags.m_miss = tags_valid_modified.m_miss ∧
      r.tags.m_pending_hit = tags_valid_modified.m_pending_hit ∧
      r.tags.m_res_fail = tags_valid_modified.m_res_fail :=
  ⟨by decide,
    access_hit_frame scenario_cfg tags_valid_modified 0 9 UINT_MAX false empty_line 0
      (by decide)⟩

/-! ## MSHR merging (C8) -/

/-- C8 (MSHR merging in `baseline_cache::send_read_request`). When the MSHR table has an
entry for `block_addr` and that entry has room, the call returns with `do_miss = true` and
the request appended at the end of that entry's waiter list, while the demand miss queue,
the prefetch miss queue, the side table of outstanding requests, the event list and the
request objects are left unchanged, as are the other MSHR entries and the ready queue.
The call is made in a state where the probe of the block returns, the table holds at most
`m_num_entries` entries, and a read-only caller has no MODIFIED line. -/
theorem send_read_request_merge (cfg : cache_config) (c : baseline_cache)
    (addr block_addr cache_index mf time : Nat) (do_miss wb : Bool)
    (evicted : cache_block_t) (events : List cache_event) (read_only wa : Bool)
    (e : mshr_entry) (st : cache_request_status) (idx : Nat)
    (hentry : c.m_mshrs.m_data.lookup block_addr = some e)
    (hroom : e.m_list.length < c.m_mshrs.m_max_merged)
    (hwf : c.m_mshrs.m_data.length ≤ c.m_mshrs.m_num_entries)
    (hprobe : tag_array.probe cfg c.m_tag_array block_addr cache_index = Except.ok (st, idx))
    (hro : read_only = true →
      ∀ i, (c.m_tag_array.m_lines i).m_status ≠ cache_block_state.MODIFIED) :
    ∃ r, c.send_read_request cfg addr block_addr cache_index mf time do_miss wb evicted
        events read_only wa = Except.ok r ∧
      r.do_miss = true ∧
      (∃ e1, r.cache.m_mshrs.m_data.lookup block_addr = some e1 ∧
        e1.m_list = e.m_list ++ [mf]) ∧
      (∀ b, b ≠ block_addr →
        r.cache.m_mshrs.m_data.lookup b = c.m_mshrs.m_data.lookup b) ∧
      r.cache.m_mshrs.m_current_response = c.m_mshrs.m_current_response ∧
      r.cache.m_miss_queue = c.m_miss_queue ∧
      r.cache.m_pref_miss_queue = c.m_pref_miss_queue ∧
      r.cache.m_extra_mf_fields = c.m_extra_mf_fields ∧
      r.events = events ∧
      r.cache.heap = c.heap := by
  obtain ⟨ta, hta⟩ := send_read_tag_access_ok cfg read_only c.m_tag_array block_addr time
    cache_index wb evicted st idx hprobe hro
  obtain ⟨m1, hadd, hl, hother, _, hresp, _, _⟩ :=
    mshr_add_merge c.m_mshrs block_addr mf (c.heap mf).m_isatomic e hentry hroom hwf
  have hhit : c.m_mshrs.probe block_addr = true := by
    unfold mshr_table.probe; rw [hentry]; rfl
  have hfull : c.m_mshrs.full block_addr = false := by
    unfold mshr_table.full
    rw [hentry]
    simp only [decide_eq_false_iff_not, ge_iff_le, not_le]
    exact hroom
  unfold baseline_cache.send_read_request
  simp only [hhit, hfull, Bool.not_false, and_self, if_true, hta, hadd]
  exact ⟨_, rfl, rfl, ⟨_, hl, rfl⟩, hother, hresp, rfl, rfl, rfl, rfl, rfl⟩

/-- Witness of C8: the second read of `0x2000` in scenario B merges into the entry of the
first. -/
theorem send_read_request_merge_witness :
    scenario_b.m_mshrs.m_data.lookup 8192 = some { m_list := [100], m_has_atomic := false } ∧
    tag_array.probe scenario_cfg scenario_b.m_tag_array 8192 1 =
      Except.ok (cache_request_status.HIT_RESERVED, 1) ∧
    ∃ r, scenario_b.tobaseline_cache.send_read_request scenario_cfg 8192 8192 1 101 2 false
        false empty_line [] false false = Except.ok r ∧
      r.do_miss = true ∧
      (∃ e1, r.cache.m_mshrs.m_data.lookup 8192 = some e1 ∧
        e1.m_list = [100] ++ [101]) ∧
      (∀ b, b ≠ 8192 →
        r.cache.m_mshrs.m_data.lookup b = scenario_b.m_mshrs.m_data.lookup b) ∧
      r.cache.m_mshrs.m_current_response = scenario_b.m_mshrs.m_current_response ∧
      r.cache.m_miss_queue = scenario_b.m_miss_queue ∧
      r.cache.m_pref_miss_queue = scenario_b.m_pref_miss_queue ∧
      r.cache.m_extra_mf_fields = scenario_b.m_extra_mf_fields ∧
      r.events = [] ∧
      r.cache.heap = scenario_b.heap :=
  ⟨by decide, by decide,
    send_read_request_merge scenario_cfg scenario_b.tobaseline_cache 8192 8192 1 101 2 false
      false empty_line [] false false { m_list := [100], m_has_atomic := false }
      cache_request_status.HIT_RESERVED 1 (by decide) (by decide) (by decide) (by decide)
      (fun h => absurd h (by decide))⟩

/-! ## The read-miss handler and merged reads (C9, C10) -/

/-- C10 (`data_cache::rd_miss_base`, success condition). Call the MSHR table not full for
the block when the block has an entry with fewer than `m_max_merged` waiters, or has no
entry while the table holds fewer than `m_num_entries` entries. If the demand miss queue
lacks two free slots or the table is full for the block, `rd_miss_base` returns
`RESERVATION_FAIL`, and changes nothing; in particular a read miss to a block without entry
returns `RESERVATION_FAIL` when the table holds `m_num_entries` entries. If the queue has
two free slots and the table is not full for the block, `rd_miss_base` returns `MISS`
(the call being made in a state where the probe of the block returns and the table
respects its capacity: at most `m_num_entries` entries, `m_max_merged >= 1`). So it returns
`MISS` if and only if both conditions hold, and `RESERVATION_FAIL` otherwise. -/
theorem rd_miss_base_status (cfg : cache_config) (c : data_cache)
    (addr cache_index mf time : Nat) (events : List cache_event)
    (status : cache_request_status) (is_l1_cache : Bool) :
    (¬ (c.m_miss_queue.length + 2 ≤ cfg.m_miss_queue_size ∧
        ((∃ e, c.m_mshrs.m_data.lookup (cfg.block_addr addr) = some e ∧
            e.m_list.length < c.m_mshrs.m_max_merged) ∨
         (c.m_mshrs.m_data.lookup (cfg.block_addr addr) = none ∧
            c.m_mshrs.m_data.length < c.m_mshrs.m_num_entries))) →
      c.rd_miss_base cfg addr cache_index mf time events status is_l1_cache =
        Except.ok { status := cache_request_status.RESERVATION_FAIL, cache := c,
                    events := events }) ∧
    (c.m_mshrs.m_data.lookup (cfg.block_addr addr) = none →
      c.m_mshrs.m_num_entries ≤ c.m_mshrs.m_data.length →
      c.rd_miss_base cfg addr cache_index mf time events status is_l1_cache =
        Except.ok { status := cache_request_status.RESERVATION_FAIL, cache := c,
                    events := events }) ∧
    (c.m_miss_queue.length + 2 ≤ cfg.m_miss_queue_size →
      ((∃ e, c.m_mshrs.m_data.lookup (cfg.block_addr addr) = some e ∧
          e.m_list.length < c.m_mshrs.m_max_merged) ∨
       (c.m_mshrs.m_data.lookup (cfg.block_addr addr) = none ∧
          c.m_mshrs.m_data.length < c.m_mshrs.m_num_entries)) →
      c.m_mshrs.m_data.length ≤ c.m_mshrs.m_num_entries →
      1 ≤ c.m_mshrs.m_max_merged →
      (∃ p, tag_array.probe cfg c.m_tag_array (cfg.block_addr addr) cache_index
        = Except.ok p) →
      ∃ r, c.rd_miss_base cfg addr cache_index mf time events status is_l1_cache
          = Except.ok r ∧
        r.status = cache_request_status.MISS) := by
  refine ⟨?_, ?_, ?_⟩
  · intro h
    rw [← mshr_full_false_iff] at h
    exact rd_miss_base_refused cfg c addr cache_index mf time events status is_l1_cache h
  · intro hnone hle
    apply rd_miss_base_refused
    rw [mshr_full_false_iff]
    rintro ⟨_, ⟨e, he, _⟩ | ⟨_, hlt⟩⟩
    · rw [hnone] at he; cases he
    · exact absurd hlt (Nat.not_lt_of_le hle)
  · intro hq hroom hwf hmm ⟨p, hprobe⟩
    obtain ⟨st, idx⟩ := p
    obtain ⟨r, hr, _, hiff⟩ := rd_miss_base_outcome cfg c addr cache_index mf time events
      status is_l1_cache st idx hwf hmm hprobe
    rw [mshr_full_false_iff] at hiff
    exact ⟨r, hr, hiff.mpr ⟨hq, hroom⟩⟩

/-- Witness of C10: in scenario B the demand miss queue holds one of eight requests and the
entry of block `0x2000` one of four waiters, and `rd_miss_base` for the second read of
`0x2000` returns `MISS`; with the four MSHR entries taken by four distinct blocks, a read
miss to a fifth block returns `RESERVATION_FAIL` and changes nothing. -/
theorem rd_miss_base_status_witness :
    (scenario_b.m_miss_queue.length + 2 ≤ scenario_cfg.m_miss_queue_size ∧
      (∃ e, scenario_b.m_mshrs.m_data.lookup (scenario_cfg.block_addr 8192) = some e ∧
        e.m_list.length < scenario_b.m_mshrs.m_max_merged) ∧
      tag_array.probe scenario_cfg scenario_b.m_tag_array (scenario_cfg.block_addr 8192) 1
        = Except.ok (cache_request_status.HIT_RESERVED, 1) ∧
      ∃ r, scenario_b.rd_miss_base scenario_cfg 8192 1 101 2 []
          cache_request_status.HIT_RESERVED false = Except.ok r ∧
        r.status = cache_request_status.MISS) ∧
    (scenario_saturated.m_mshrs.m_data.lookup (scenario_cfg.block_addr 256) = none ∧
      scenario_saturated.m_mshrs.m_num_entries ≤ scenario_saturated.m_mshrs.m_data.length ∧
      scenario_saturated.rd_miss_base scenario_cfg 256 5 104 9 []
          cache_request_status.MISS false =
        Except.ok { status := cache_request_status.RESERVATION_FAIL,
                    cache := scenario_saturated, events := [] }) :=
  ⟨⟨by decide, ⟨{ m_list := [100], m_has_atomic := false }, by decide, by decide⟩,
      by decide,
      (rd_miss_base_status scenario_cfg scenario_b 8192 1 101 2 []
        cache_request_status.HIT_RESERVED false).2.2 (by decide)
        (Or.inl ⟨{ m_list := [100], m_has_atomic := false }, by decide, by decide⟩)
        (by decide) (by decide) ⟨(cache_request_status.HIT_RESERVED, 1), by decide⟩⟩,
    ⟨by decide, by decide,
      (rd_miss_base_status scenario_cfg scenario_saturated 256 5 104 9 []
        cache_request_status.MISS false).2.1 (by decide) (by decide)⟩⟩

/-- C9, counterexample (scenario B of the spec). The second read `101` of `0x2000` arrives
while the first is outstanding: the tag probe sees the line RESERVED, the MSHR entry holds
one of four waiters and the demand miss queue one of eight requests; the access through
`l2_cache::access`, that is `data_cache::access`, returns `MISS`, not `HIT_RESERVED`. -/
theorem merged_read_does_not_return_hit_reserved :
    tag_array.probe scenario_cfg scenario_b.m_tag_array (scenario_cfg.block_addr 8192)
      UINT_MAX = Except.ok (cache_request_status.HIT_RESERVED, 1) ∧
    scenario_b.m_mshrs.m_data.lookup (scenario_cfg.block_addr 8192)
      = some { m_list := [100], m_has_atomic := false } ∧
    [100].length < scenario_b.m_mshrs.m_max_merged ∧
    scenario_b.m_miss_queue.length + 2 ≤ scenario_cfg.m_miss_queue_size ∧
    (scenario_b.heap 101).m_is_write = false ∧
    returned_status (l2_cache.access scenario_cfg scenario_b 8192 101 2 [])
      = some cache_request_status.MISS := by
  decide

/-- C9 as amended (return value of a merged read). For a data cache, when a read is
accessed whose block has an outstanding unfilled miss (the tag probe sees the line
RESERVED), the MSHR entry has room and the demand miss queue has at least two free slots,
`data_cache::process_tag_probe` returns `MISS`, for an L1 and for an L2 alike, and this is
the value `data_cache::access` returns (shown for the access without prefetcher,
`is_l1_cache = 0`); `HIT_RESERVED` is only the cell of the statistics matrix the access is
counted in. The MSHR table holds at most `m_num_entries` entries and the port width is not
zero. -/
theorem merged_read_returns_miss (cfg : cache_config) (c : data_cache)
    (addr mf time : Nat) (events : List cache_event) (e : mshr_entry) (idx : Nat)
    (hsz : (c.heap mf).m_data_size ≤ cfg.m_line_sz)
    (hrd : (c.heap mf).m_is_write = false)
    (hpw : cfg.m_data_port_width ≠ 0)
    (hentry : c.m_mshrs.m_data.lookup (cfg.block_addr addr) = some e)
    (hroom : e.m_list.length < c.m_mshrs.m_max_merged)
    (hwf : c.m_mshrs.m_data.length ≤ c.m_mshrs.m_num_entries)
    (hq : c.m_miss_queue.length + 2 ≤ cfg.m_miss_queue_size)
    (hprobe : tag_array.probe cfg c.m_tag_array (cfg.block_addr addr) UINT_MAX
      = Except.ok (cache_request_status.HIT_RESERVED, idx)) :
    (∀ is_l1_cache, ∃ r, c.process_tag_probe cfg false cache_request_status.HIT_RESERVED
        addr idx mf time events is_l1_cache = Except.ok r ∧
      r.status = cache_request_status.MISS) ∧
    ∃ r, l2_cache.access cfg c addr mf time events = Except.ok r ∧
      r.status = cache_request_status.MISS ∧
      r.cache.m_stats (c.heap mf).m_access_type cache_request_status.HIT_RESERVED =
        u32 (c.m_stats (c.heap mf).m_access_type cache_request_status.HIT_RESERVED + 1) ∧
      r.cache.m_stats (c.heap mf).m_access_type cache_request_status.MISS =
        c.m_stats (c.heap mf).m_access_type cache_request_status.MISS := by
  have hprobe1 := probe_idx_irrelevant cfg c.m_tag_array (cfg.block_addr addr) UINT_MAX idx
    _ idx hprobe (by decide)
  constructor
  · intro is_l1_cache
    obtain ⟨r, hr, hst, _⟩ := process_tag_probe_merge_reserved cfg c addr idx mf time events
      is_l1_cache e idx hpw hentry hroom hwf hq hprobe1
    exact ⟨r, hr, hst⟩
  · obtain ⟨r, hr, hst, hstats, hheap⟩ := process_tag_probe_merge_reserved cfg c addr idx mf
      time events false e idx hpw hentry hroom hwf hq hprobe1
    unfold l2_cache.access
    simp only [not_not.mpr hsz, if_false, hprobe, hrd, hr]
    refine ⟨_, rfl, hst, ?_, ?_⟩
    · unfold data_cache.inc_stats select_stats_status
      simp [hst, hstats, hheap]
    · unfold data_cache.inc_stats select_stats_status
      simp [hst, hstats, hheap]

/-- Witness of C9 as amended: the second read of `0x2000` in scenario B. -/
theorem merged_read_returns_miss_witness :
    (scenario_b.heap 101).m_data_size ≤ scenario_cfg.m_line_sz ∧
    (scenario_b.heap 101).m_is_write = false ∧
    scenario_cfg.m_data_port_width ≠ 0 ∧
    scenario_b.m_mshrs.m_data.lookup (scenario_cfg.block_addr 8192)
      = some { m_list := [100], m_has_atomic := false } ∧
    scenario_b.m_miss_queue.length + 2 ≤ scenario_cfg.m_miss_queue_size ∧
    tag_array.probe scenario_cfg scenario_b.m_tag_array (scenario_cfg.block_addr 8192)
      UINT_MAX = Except.ok (cache_request_status.HIT_RESERVED, 1) ∧
    (∀ is_l1_cache, ∃ r, scenario_b.process_tag_probe scenario_cfg false
        cache_request_status.HIT_RESERVED 8192 1 101 2 [] is_l1_cache = Except.ok r ∧
      r.status = cache_request_status.MISS) ∧
    ∃ r, l2_cache.access scenario_cfg scenario_b 8192 101 2 [] = Except.ok r ∧
      r.status = cache_request_status.MISS ∧
      r.cache.m_stats (scenario_b.heap 101).m_access_type cache_request_status.HIT_RESERVED =
        u32 (scenario_b.m_stats (scenario_b.heap 101).m_access_type
          cache_request_status.HIT_RESERVED + 1) ∧
      r.cache.m_stats (scenario_b.heap 101).m_access_type cache_request_status.MISS =
        scenario_b.m_stats (scenario_b.heap 101).m_access_type cache_request_status.MISS :=
  ⟨by decide, by decide, by decide, by decide, by decide, by decide,
    merged_read_returns_miss scenario_cfg scenario_b 8192 101 2 []
      { m_list := [100], m_has_atomic := false } 1
      (by decide) (by decide) (by decide) (by decide) (by decide) (by decide) (by decide)
      (by decide)⟩

/-! ## Claims on refused requests -/

/-- C11 (backpressure is atomic). Whenever `rd_miss_base`, `wr_miss_wa`, `wr_miss_no_wa`,
`wr_hit_wt` or `wr_hit_we` returns `RESERVATION_FAIL`, the cache it hands back is the cache
it was called on (the tag array with its lines and counters, the MSHR table, both miss
queues, the side table and everything else) and the event list is the one passed in. For
`wr_miss_wa` this means that the write was not enqueued: the handler never returns
`RESERVATION_FAIL` after `send_write_request`. -/
theorem reservation_fail_is_atomic (cfg : cache_config) (c : data_cache)
    (addr cache_index mf time : Nat) (events : List cache_event)
    (status : cache_request_status) (is_l1_cache : Bool) (r : handler_result)
    (h : c.rd_miss_base cfg addr cache_index mf time events status is_l1_cache = Except.ok r ∨
      c.wr_miss_wa cfg addr cache_index mf time events status = Except.ok r ∨
      c.wr_miss_no_wa cfg addr cache_index mf time events status = Except.ok r ∨
      c.wr_hit_wt cfg addr cache_index mf time events status = Except.ok r ∨
      c.wr_hit_we cfg addr cache_index mf time events status = Except.ok r)
    (hs : r.status = cache_request_status.RESERVATION_FAIL) :
    r.cache = c ∧ r.events = events ∧
      r.cache.m_tag_array = c.m_tag_array ∧ r.cache.m_mshrs = c.m_mshrs ∧
      r.cache.m_miss_queue = c.m_miss_queue ∧
      r.cache.m_pref_miss_queue = c.m_pref_miss_queue ∧
      r.cache.m_extra_mf_fields = c.m_extra_mf_fields := by
  have key : r.cache = c ∧ r.events = events := by
    rcases h with h | h | h | h | h
    · exact rd_miss_base_atomic cfg c addr cache_index mf time events status is_l1_cache r h hs
    · exact wr_miss_wa_atomic cfg c addr cache_index mf time events status r h hs
    · exact wr_miss_no_wa_atomic cfg c addr cache_index mf time events status r h hs
    · exact wr_hit_wt_atomic cfg c addr cache_index mf time events status r h hs
    · exact wr_hit_we_atomic cfg c addr cache_index mf time events status r h hs
  obtain ⟨hc, he⟩ := key
  rw [hc]
  exact ⟨rfl, he, rfl, rfl, rfl, rfl, rfl⟩

/-- Witness of C11: a write of block `0x0100` through `wr_miss_wa` while the four MSHR
entries are taken by other blocks is refused by the guard. -/
theorem reservation_fail_is_atomic_witness :
    scenario_saturated.wr_miss_wa scenario_cfg 256 UINT_MAX 104 5 []
        cache_request_status.MISS =
      Except.ok { status := cache_request_status.RESERVATION_FAIL,
                  cache := scenario_saturated, events := [] } ∧
    scenario_saturated.m_miss_queue = [100, 101, 102, 103] :=
  have h : scenario_saturated.wr_miss_wa scenario_cfg 256 UINT_MAX 104 5 []
        cache_request_status.MISS =
      Except.ok { status := cache_request_status.RESERVATION_FAIL,
                  cache := scenario_saturated, events := [] } := by rfl
  ⟨h, (reservation_fail_is_atomic scenario_cfg scenario_saturated 256 UINT_MAX 104 5 []
      cache_request_status.MISS false
      { status := cache_request_status.RESERVATION_FAIL, cache := scenario_saturated,
        events := [] }
      (Or.inr (Or.inl h)) rfl).2.2.2.2.1⟩

/-- C12 (a refused probe passes straight through). With `probe_status = RESERVATION_FAIL`,
for reads and for writes, `process_tag_probe` invokes no handler, returns
`RESERVATION_FAIL` and hands back the cache it was called on, so the tag array, the MSHR
table, the miss queues, the event list and both bandwidth counters are as before. So a read
through `data_cache::access` (without prefetcher, `is_l1_cache = 0`) of a block whose set
holds only lines RESERVED for other tags returns `RESERVATION_FAIL` under ON_MISS, and only
the statistics matrix of the cache differs afterwards. -/
theorem refused_probe_passes_through (cfg : cache_config) (c : data_cache)
    (addr mf time : Nat) (events : List cache_event)
    (hsz : (c.heap mf).m_data_size ≤ cfg.m_line_sz)
    (hpol : cfg.m_alloc_policy = allocation_policy_t.ON_MISS)
    (hall : ∀ w, w < cfg.m_assoc →
      (set_line cfg c.m_tag_array.m_lines (cfg.set_index (cfg.block_addr addr)) w).m_status
        = cache_block_state.RESERVED ∧
      (set_line cfg c.m_tag_array.m_lines (cfg.set_index (cfg.block_addr addr)) w).m_tag
        ≠ cfg.tag (cfg.block_addr addr)) :
    (∀ (wr : Bool) (a cache_index m t : Nat) (ev : List cache_event) (is_l1_cache : Bool),
      c.process_tag_probe cfg wr cache_request_status.RESERVATION_FAIL a cache_index m t ev
          is_l1_cache =
        Except.ok { status := cache_request_status.RESERVATION_FAIL, cache := c,
                    events := ev }) ∧
    tag_array.probe cfg c.m_tag_array (cfg.block_addr addr) UINT_MAX =
      Except.ok (cache_request_status.RESERVATION_FAIL, UINT_MAX) ∧
    l2_cache.access cfg c addr mf time events =
      Except.ok { status := cache_request_status.RESERVATION_FAIL,
                  cache := c.inc_stats (c.heap mf).m_access_type
                    cache_request_status.RESERVATION_FAIL,
                  events := events } := by
  have hprobe := probe_all_reserved cfg c.m_tag_array (cfg.block_addr addr) UINT_MAX hpol hall
  refine ⟨fun wr a cache_index m t ev is_l1_cache =>
    process_tag_probe_refused cfg c wr a cache_index m t ev is_l1_cache, hprobe, ?_⟩
  unfold l2_cache.access
  simp only [not_not.mpr hsz, if_false, hprobe, process_tag_probe_refused]
  rfl

/-- Witness of C12: the third read of scenario D, of `0x4000`, while both ways of set 0
are RESERVED for the blocks `0x0000` and `0x2000`. -/
theorem refused_probe_passes_through_witness :
    returned_status (l2_cache.access scenario_cfg scenario_d 16384 102 3 []) =
      some cache_request_status.RESERVATION_FAIL :=
  (congrArg returned_status
    (refused_probe_passes_through scenario_cfg scenario_d 16384 102 3 [] (by decide)
      (by decide) (by decide)).2.2).trans rfl

/-! ## Claims on misses that evict a dirty line -/

/-- Counterexample to C13 as stated: under the allocation policy ON_FILL a read miss evicts
nothing when it is issued. In the scenario cache configured ON_FILL and WRITE_BACK, with the
victim way of set 0 MODIFIED and no MSHR entry for block `0x4000`, `rd_miss_base` returns
`MISS`, records `READ_REQUEST_SENT` alone and queues the read alone. -/
theorem read_miss_on_fill_queues_no_writeback :
    tag_array.probe scenario_cfg_on_fill scenario_dirty.m_tag_array 16384 UINT_MAX =
      Except.ok (cache_request_status.MISS, 1) ∧
    (scenario_dirty.m_tag_array.m_lines 1).m_status = cache_block_state.MODIFIED ∧
    scenario_cfg_on_fill.m_write_policy ≠ write_policy_t.WRITE_THROUGH ∧
    scenario_dirty.m_mshrs.probe 16384 = false ∧
    returned_status (scenario_dirty.rd_miss_base scenario_cfg_on_fill 16384 1 102 9 []
      cache_request_status.MISS false) = some cache_request_status.MISS ∧
    returned_events (scenario_dirty.rd_miss_base scenario_cfg_on_fill 16384 1 102 9 []
      cache_request_status.MISS false) = some [cache_event.READ_REQUEST_SENT] ∧
    returned_miss_queue (scenario_dirty.rd_miss_base scenario_cfg_on_fill 16384 1 102 9 []
      cache_request_status.MISS false) = some [102] := by
  decide

/-- C13 as amended (read miss with dirty eviction, under ON_MISS). When `rd_miss_base` is
called under the allocation policy ON_MISS and a write policy other than WRITE_THROUGH on a
block absent from the MSHR table, the table has a free entry, the demand miss queue two free
slots, and the victim way of the tag array is MODIFIED, then it returns `MISS`, the event
list gains `READ_REQUEST_SENT` followed by exactly one `WRITE_BACK_REQUEST_SENT`, and the
demand miss queue grows by exactly two entries: the read, then a writeback (a write
request) addressed to the victim's block address. The prefetch miss queue is unchanged. -/
theorem read_miss_dirty_eviction (cfg : cache_config) (c : data_cache)
    (addr cache_index mf time : Nat) (events : List cache_event)
    (status : cache_request_status) (is_l1_cache : Bool) (idx : Nat)
    (hpol : cfg.m_alloc_policy = allocation_policy_t.ON_MISS)
    (hwp : cfg.m_write_policy ≠ write_policy_t.WRITE_THROUGH)
    (hnone : c.m_mshrs.probe (cfg.block_addr addr) = false)
    (hroom : c.m_mshrs.m_data.length < c.m_mshrs.m_num_entries)
    (hmm : 1 ≤ c.m_mshrs.m_max_merged)
    (hq : c.m_miss_queue.length + 2 ≤ cfg.m_miss_queue_size)
    (hprobe : tag_array.probe cfg c.m_tag_array (cfg.block_addr addr) cache_index
      = Except.ok (cache_request_status.MISS, idx))
    (hdirty : (c.m_tag_array.m_lines idx).m_status = cache_block_state.MODIFIED) :
    ∃ r wbp, c.rd_miss_base cfg addr cache_index mf time events status is_l1_cache
        = Except.ok r ∧
      r.status = cache_request_status.MISS ∧
      r.events = events ++ [cache_event.READ_REQUEST_SENT,
        cache_event.WRITE_BACK_REQUEST_SENT] ∧
      r.cache.m_miss_queue = c.m_miss_queue ++ [mf, wbp] ∧
      (r.cache.heap wbp).m_addr = (c.m_tag_array.m_lines idx).m_block_addr ∧
      (r.cache.heap wbp).m_is_write = true ∧
      r.cache.m_pref_miss_queue = c.m_pref_miss_queue := by
  have hlk : c.m_mshrs.m_data.lookup (cfg.block_addr addr) = none := by
    unfold mshr_table.probe at hnone
    cases h : c.m_mshrs.m_data.lookup (cfg.block_addr addr) with
    | none => rfl
    | some e => rw [h] at hnone; cases hnone
  obtain ⟨r, hr, h1, h2, h3, h4, h5, h6⟩ := rd_miss_base_dirty cfg c addr cache_index mf time
    events status is_l1_cache idx hpol hwp hlk hroom hmm hq hprobe hdirty
  exact ⟨r, c.next_mf, hr, h1, h2, h3, h4, h5, h6⟩

/-- Witness of C13 as amended: the read `102` of `0x4000` in the scenario cache whose LRU
line of set 0, block `0x2000`, is MODIFIED. -/
theorem read_miss_dirty_eviction_witness :
    scenario_cfg.m_alloc_policy = allocation_policy_t.ON_MISS ∧
    scenario_cfg.m_write_policy ≠ write_policy_t.WRITE_THROUGH ∧
    tag_array.probe scenario_cfg scenario_dirty.m_tag_array (scenario_cfg.block_addr 16384)
      UINT_MAX = Except.ok (cache_request_status.MISS, 1) ∧
    (scenario_dirty.m_tag_array.m_lines 1).m_status = cache_block_state.MODIFIED ∧
    (scenario_dirty.m_tag_array.m_lines 1).m_block_addr = 8192 ∧
    ∃ r wbp, scenario_dirty.rd_miss_base scenario_cfg 16384 UINT_MAX 102 9 []
        cache_request_status.MISS false = Except.ok r ∧
      r.status = cache_request_status.MISS ∧
      r.events = [] ++ [cache_event.READ_REQUEST_SENT,
        cache_event.WRITE_BACK_REQUEST_SENT] ∧
      r.cache.m_miss_queue = scenario_dirty.m_miss_queue ++ [102, wbp] ∧
      (r.cache.heap wbp).m_addr = (scenario_dirty.m_tag_array.m_lines 1).m_block_addr ∧
      (r.cache.heap wbp).m_is_write = true ∧
      r.cache.m_pref_miss_queue = scenario_dirty.m_pref_miss_queue :=
  ⟨by decide, by decide, by decide, by decide, by decide,
    read_miss_dirty_eviction scenario_cfg scenario_dirty 16384 UINT_MAX 102 9 []
      cache_request_status.MISS false 1 (by decide) (by decide) (by decide) (by decide)
      (by decide) (by decide) (by decide) (by decide)⟩

/-- Counterexample to C14 as stated: in the scenario cache (ON_MISS, WRITE_BACK,
write-allocate) with the LRU line of set 0 MODIFIED, the write `103` of `0x4000` through
`wr_miss_wa` returns `MISS` and evicts the MODIFIED line, three requests are queued, and
the event list it hands back holds `WRITE_REQUEST_SENT` and nothing else. -/
theorem write_allocate_records_one_event :
    tag_array.probe scenario_cfg scenario_dirty.m_tag_array 16384 UINT_MAX =
      Except.ok (cache_request_status.MISS, 1) ∧
    (scenario_dirty.m_tag_array.m_lines 1).m_status = cache_block_state.MODIFIED ∧
    scenario_cfg.m_write_policy ≠ write_policy_t.WRITE_THROUGH ∧
    returned_status (scenario_dirty.wr_miss_wa scenario_cfg 16384 1 103 9 []
      cache_request_status.MISS) = some cache_request_status.MISS ∧
    returned_miss_queue (scenario_dirty.wr_miss_wa scenario_cfg 16384 1 103 9 []
      cache_request_status.MISS) = some [103, 1000, 1001] ∧
    returned_events (scenario_dirty.wr_miss_wa scenario_cfg 16384 1 103 9 []
      cache_request_status.MISS) = some [cache_event.WRITE_REQUEST_SENT] := by
  decide

/-- C14 as amended (write-allocate miss with dirty eviction). When `wr_miss_wa` passes its
guard (three free slots in the demand miss queue, the MSHR table not full for the block) on
a write miss whose allocate read evicts a MODIFIED line (the probe misses under ON_MISS and
the victim way is MODIFIED) under a write policy other than WRITE_THROUGH, it returns
`MISS`; the event list gains exactly one `WRITE_REQUEST_SENT` and no `READ_REQUEST_SENT`,
the allocate read being sent with `wa` set; and the last request of the demand miss queue
is a writeback (a write request) addressed to the victim's block address. -/
theorem write_allocate_dirty_eviction (cfg : cache_config) (c : data_cache)
    (addr cache_index mf time : Nat) (events : List cache_event)
    (status : cache_request_status) (idx : Nat)
    (hpol : cfg.m_alloc_policy = allocation_policy_t.ON_MISS)
    (hwp : cfg.m_write_policy ≠ write_policy_t.WRITE_THROUGH)
    (hwf : c.m_mshrs.m_data.length ≤ c.m_mshrs.m_num_entries)
    (hmm : 1 ≤ c.m_mshrs.m_max_merged)
    (hfull : c.m_mshrs.full (cfg.block_addr addr) = false)
    (hq : c.m_miss_queue.length + 3 ≤ cfg.m_miss_queue_size)
    (hprobe : tag_array.probe cfg c.m_tag_array (cfg.block_addr addr) cache_index
      = Except.ok (cache_request_status.MISS, idx))
    (hdirty : (c.m_tag_array.m_lines idx).m_status = cache_block_state.MODIFIED) :
    ∃ r wbp, c.wr_miss_wa cfg addr cache_index mf time events status = Except.ok r ∧
      r.status = cache_request_status.MISS ∧
      r.events.count cache_event.WRITE_REQUEST_SENT =
        events.count cache_event.WRITE_REQUEST_SENT + 1 ∧
      r.events.count cache_event.READ_REQUEST_SENT =
        events.count cache_event.READ_REQUEST_SENT ∧
      r.cache.m_miss_queue.getLast? = some wbp ∧
      (r.cache.heap wbp).m_addr = (c.m_tag_array.m_lines idx).m_block_addr ∧
      (r.cache.heap wbp).m_is_write = true := by
  obtain ⟨r, hr, hst, hev, hwb⟩ := wr_miss_wa_dirty cfg c addr cache_index mf time events
    status _ idx hwf hmm hfull hq hprobe
  obtain ⟨wbp, h1, h2, h3⟩ := hwb ⟨rfl, hpol, hdirty⟩ hwp
  refine ⟨r, wbp, hr, hst, ?_, ?_, h1, h2, h3⟩
  · rw [hev]
    simp
  · rw [hev]
    simp

/-- Witness of C14 as amended: the write `103` of `0x4000` in the scenario cache whose LRU
line of set 0 is MODIFIED. -/
theorem write_allocate_dirty_eviction_witness :
    scenario_cfg.m_alloc_policy = allocation_policy_t.ON_MISS ∧
    scenario_dirty.m_mshrs.full (scenario_cfg.block_addr 16384) = false ∧
    scenario_dirty.m_miss_queue.length + 3 ≤ scenario_cfg.m_miss_queue_size ∧
    tag_array.probe scenario_cfg scenario_dirty.m_tag_array (scenario_cfg.block_addr 16384)
      UINT_MAX = Except.ok (cache_request_status.MISS, 1) ∧
    (scenario_dirty.m_tag_array.m_lines 1).m_status = cache_block_state.MODIFIED ∧
    ∃ r wbp, scenario_dirty.wr_miss_wa scenario_cfg 16384 UINT_MAX 103 9 []
        cache_request_status.MISS = Except.ok r ∧
      r.status = cache_request_status.MISS ∧
      r.events.count cache_event.WRITE_REQUEST_SENT =
        ([] : List cache_event).count cache_event.WRITE_REQUEST_SENT + 1 ∧
      r.events.count cache_event.READ_REQUEST_SENT =
        ([] : List cache_event).count cache_event.READ_REQUEST_SENT ∧
      r.cache.m_miss_queue.getLast? = some wbp ∧
      (r.cache.heap wbp).m_addr = (scenario_dirty.m_tag_array.m_lines 1).m_block_addr ∧
      (r.cache.heap wbp).m_is_write = true :=
  ⟨by decide, by decide, by decide, by decide, by decide,
    write_allocate_dirty_eviction scenario_cfg scenario_dirty 16384 UINT_MAX 103 9 []
      cache_request_status.MISS 1 (by decide) (by decide) (by decide) (by decide)
      (by decide) (by decide) (by decide) (by decide)⟩

/-! ## Claims on the MSHR table -/

/-- The scenario table is reached by three calls of `add`. -/
theorem scenario_mshr_reachable : mshr_reachable 4 4 scenario_mshr :=
  mshr_reachable.step _ _ (mshr_op.add 0 101 false)
    (mshr_reachable.step _ _ (mshr_op.add 8192 102 false)
      (mshr_reachable.step _ _ (mshr_op.add 0 100 false) mshr_reachable.empty rfl rfl)
      rfl rfl)
    rfl rfl

/-- C16 (MSHR release order). Take a table reached by the callers' calls whose ready queue
is empty, and distinct blocks `b1, ..., bk` that have an entry. Marking them ready in this
order returns, and then the calls of `next_access` return exactly the waiters of `b1`, then
those of `b2`, ..., then those of `bk`, each list in the order its requests were added:
for every block `b` of the list, the calls made until its last waiter is out have returned
the lists of the blocks up to `b`, and then `b` has no entry (`probe` is false) and the ready
queue holds the blocks after `b`; after the calls for all the blocks `access_ready` is
false. -/
theorem mshr_release_order (n k : Nat) (m : mshr_table) (bs : List Nat)
    (hreach : mshr_reachable n k m)
    (hready : m.m_current_response = [])
    (hnd : bs.Nodup)
    (hentries : ∀ b, b ∈ bs → m.probe b = true) :
    ∃ m1, m.mark_ready_all bs = Except.ok m1 ∧
      (∀ pre b post, bs = pre ++ b :: post →
        ∃ m2, m1.drain ((pre ++ [b]).flatMap m.waiters).length =
            Except.ok ((pre ++ [b]).flatMap m.waiters, m2) ∧
          m2.probe b = false ∧ m2.m_current_response = post) ∧
      ∃ m3, m1.drain (bs.flatMap m.waiters).length =
          Except.ok (bs.flatMap m.waiters, m3) ∧
        m3.access_ready = false ∧ ∀ b, b ∈ bs → m3.probe b = false := by
  have hinv := mshr_reachable_inv n k m hreach
  have hw : ∀ b, b ∈ bs → m.waiters b ≠ [] := by
    intro b hb
    have h1 := hentries b hb
    unfold mshr_table.probe at h1
    unfold mshr_table.waiters
    cases hlk : m.m_data.lookup b with
    | none => rw [hlk] at h1; cases h1
    | some e =>
      have h2 := (hinv.lists (b, e) (mem_of_lookup _ _ _ hlk)).1
      intro h3
      simp only at h3
      rw [h3] at h2
      simp at h2
  have hmark := mshr_mark_ready_all_returns n k bs m hinv hnd (by
    intro b hb
    refine ⟨hentries b hb, ?_⟩
    rw [hready]
    exact List.not_mem_nil _)
  rw [hready, List.nil_append] at hmark
  refine ⟨_, hmark, ?_, ?_⟩
  · intro pre b post hbs
    have hnd1 : (pre ++ [b]).Nodup := by
      rw [hbs] at hnd
      have : (pre ++ [b] ++ post).Nodup := by simpa using hnd
      exact (List.nodup_append.mp this).1
    obtain ⟨m2, hd, hr, hp, _⟩ := mshr_drain_blocks (pre ++ [b])
      { m with m_current_response := bs } post (by simp [hbs]) hnd1
      (fun b1 hb1 => hw b1 (by rw [hbs]; simp at hb1 ⊢; tauto))
    exact ⟨m2, hd, hp b (by simp), hr⟩
  · obtain ⟨m3, hd, hr, hp, _⟩ := mshr_drain_blocks bs
      { m with m_current_response := bs } [] (by simp) hnd hw
    refine ⟨m3, hd, ?_, hp⟩
    unfold mshr_table.access_ready
    rw [hr]
    rfl

/-- Witness of C16: in the scenario table the blocks `0x0000` (waiters `100`, `101`) and
`0x2000` (waiter `102`) are marked ready in this order. -/
theorem mshr_release_order_witness :
    scenario_mshr.waiters 0 = [100, 101] ∧ scenario_mshr.waiters 8192 = [102] ∧
    ∃ m1, scenario_mshr.mark_ready_all [0, 8192] = Except.ok m1 ∧
      ∃ m3, m1.drain 3 = Except.ok ([100, 101, 102], m3) ∧
        m3.access_ready = false ∧ ∀ b, b ∈ [0, 8192] → m3.probe b = false :=
  ⟨rfl, rfl,
    match mshr_release_order 4 4 scenario_mshr [0, 8192] scenario_mshr_reachable rfl
      (by decide) (by decide) with
    | ⟨m1, h1, _, h3⟩ => ⟨m1, h1, h3⟩⟩

/-- C17 (MSHR bounds invariant). Starting from an empty table whose entries may hold at
least one request (`max_merged >= 1`), every sequence of `add` (called only when
`full(block_addr)` is false), `mark_ready` (called only for a block with an entry that is
not yet marked ready) and `next_access` (called only when `access_ready()`) keeps the number
of entries at most `num_entries` and the waiter list of every entry between 1 and
`max_merged` long; and in every table so reached each of these calls returns, that is, the
assertions inside `add`, `mark_ready` and `next_access` do not fail. -/
theorem mshr_bounds_invariant (n k : Nat) (m : mshr_table) (hk : 1 ≤ k)
    (hreach : mshr_reachable n k m) :
    m.m_data.length ≤ n ∧
    (∀ p, p ∈ m.m_data → 1 ≤ p.2.m_list.length ∧ p.2.m_list.length ≤ k) ∧
    ∀ op : mshr_op, op.allowed m = true → ∃ m1, m.run_op op = Except.ok m1 := by
  have hinv := mshr_reachable_inv n k m hreach
  refine ⟨hinv.entries, hinv.lists, ?_⟩
  intro op hallowed
  cases op with
  | add block_addr mf isatomic =>
    simp only [mshr_op.allowed, Bool.not_eq_true'] at hallowed
    exact mshr_add_returns n k m block_addr mf isatomic hk hinv hallowed
  | mark_ready block_addr =>
    simp only [mshr_op.allowed, Bool.and_eq_true, Bool.not_eq_true',
      List.contains_eq_any_beq, List.any_eq_false, beq_iff_eq] at hallowed
    have hnew : block_addr ∉ m.m_current_response := by
      intro hmem
      exact hallowed.2 block_addr hmem rfl
    obtain ⟨a, _, hmr, _⟩ := mshr_mark_ready_returns n k m block_addr hinv
      (by unfold mshr_table.probe at hallowed; exact hallowed.1) hnew
    unfold mshr_table.run_op
    simp only [hmr]
    exact ⟨_, rfl⟩
  | next_access =>
    obtain ⟨x, m2, hna, _⟩ := mshr_inv_next_access n k m hinv hallowed
    unfold mshr_table.run_op
    simp only [hna]
    exact ⟨_, rfl⟩

/-- Witness of C17: the scenario table, reached by three calls of `add`. -/
theorem mshr_bounds_invariant_witness :
    scenario_mshr.m_data.length ≤ 4 ∧
    (∀ p, p ∈ scenario_mshr.m_data → 1 ≤ p.2.m_list.length ∧ p.2.m_list.length ≤ 4) ∧
    ∀ op : mshr_op, op.allowed scenario_mshr = true →
      ∃ m1, scenario_mshr.run_op op = Except.ok m1 :=
  mshr_bounds_invariant 4 4 scenario_mshr (by decide) scenario_mshr_reachable
/-! ## Claims on `baseline_cache::fill` -/

/-- C15 (`baseline_cache::fill` under ON_MISS). For a request `mf` recorded in the side
table with record `e`: every call `fill(mf, time)` that returns leaves the data size of the
request at the size recorded when the miss was issued; the line of the recorded way VALID,
or MODIFIED when the MSHR entry of the recorded block is flagged as holding an atomic
waiter; the recorded block address appended to the ready queue of the MSHR table; the fill
port counter grown by `line_sz / port_width`, the sum being the one of `int += unsigned`
(it is the sum of the integers whenever that lies in the range of an `int`); and
`waiting_for_fill(mf)` false. And the call does return when the record is valid, the block
has an MSHR entry, the ready queue is shorter than the table and the port width is not
zero. -/
theorem fill_postcondition (cfg : cache_config) (c : baseline_cache) (mf time : Nat)
    (e : extra_mf_fields)
    (hpol : cfg.m_alloc_policy = allocation_policy_t.ON_MISS)
    (hside : c.m_extra_mf_fields.lookup mf = some e) :
    (∀ c1, c.fill cfg mf time = Except.ok c1 →
      ∃ a, c.m_mshrs.m_data.lookup e.m_block_addr = some a ∧
        (c1.heap mf).m_data_size = e.m_data_size ∧
        (c1.m_tag_array.m_lines e.m_cache_index).m_status =
          (if a.m_has_atomic = true then cache_block_state.MODIFIED
            else cache_block_state.VALID) ∧
        c1.m_mshrs.m_current_response = c.m_mshrs.m_current_response ++ [e.m_block_addr] ∧
        c1.m_fill_port_occupied_cycles =
          to_i32 (c.m_fill_port_occupied_cycles +
            ((cfg.m_line_sz / cfg.m_data_port_width : Nat) : Int)) ∧
        (-2147483648 ≤ c.m_fill_port_occupied_cycles +
            ((cfg.m_line_sz / cfg.m_data_port_width : Nat) : Int) →
          c.m_fill_port_occupied_cycles +
            ((cfg.m_line_sz / cfg.m_data_port_width : Nat) : Int) ≤ 2147483647 →
          c1.m_fill_port_occupied_cycles =
            c.m_fill_port_occupied_cycles +
              ((cfg.m_line_sz / cfg.m_data_port_width : Nat) : Int)) ∧
        c1.waiting_for_fill mf = false) ∧
    (e.m_valid = true →
      c.m_mshrs.probe e.m_block_addr = true →
      c.m_mshrs.m_current_response.length < c.m_mshrs.m_data.length →
      cfg.m_data_port_width ≠ 0 →
      ∃ c1, c.fill cfg mf time = Except.ok c1) := by
  constructor
  · intro c1 h
    obtain ⟨hvalid, ⟨a, hentry⟩, hsize, hpw⟩ :=
      fill_on_miss_conditions cfg c c1 mf time e hpol hside h
    rw [fill_on_miss_ok cfg c mf time e a hpol hside hvalid hentry hsize hpw] at h
    have h1 := Except.ok.inj h
    subst h1
    refine ⟨a, hentry, ?_, ?_, rfl, ?_, ?_, ?_⟩
    · simp [set_data_size]
    · simp [write_line]
    · exact int_add_unsigned_wrap _ _
    · intro hlo hhi
      exact int_add_unsigned_eq _ _ hlo hhi
    · unfold baseline_cache.waiting_for_fill
      simp [lookup_map_erase]
  · intro hvalid hprobe hsize hpw
    unfold mshr_table.probe at hprobe
    cases hentry : c.m_mshrs.m_data.lookup e.m_block_addr with
    | none => rw [hentry] at hprobe; cases hprobe
    | some a =>
      exact ⟨_, fill_on_miss_ok cfg c mf time e a hpol hside hvalid hentry hsize hpw⟩

/-- Witness of C15: the fill of request `100` in scenario B, whose miss on block `0x2000`
reserved way 1 of set 0 and recorded the data size 32. -/
theorem fill_postcondition_witness :
    scenario_cfg.m_alloc_policy = allocation_policy_t.ON_MISS ∧
    scenario_b.m_extra_mf_fields.lookup 100 =
      some { m_valid := true, m_block_addr := 8192, m_cache_index := 1, m_data_size := 32 } ∧
    ∃ c1, scenario_b.tobaseline_cache.fill scenario_cfg 100 10 = Except.ok c1 ∧
      (c1.heap 100).m_data_size = 32 ∧
      (c1.m_tag_array.m_lines 1).m_status = cache_block_state.VALID ∧
      c1.m_mshrs.m_current_response = [8192] ∧
      c1.m_fill_port_occupied_cycles = 4 ∧
      c1.waiting_for_fill 100 = false :=
  have h := fill_postcondition scenario_cfg scenario_b.tobaseline_cache 100 10
    { m_valid := true, m_block_addr := 8192, m_cache_index := 1, m_data_size := 32 }
    (by decide) (by decide)
  ⟨by decide, by decide,
    match h.2 (by decide) (by decide) (by decide) (by decide) with
    | ⟨c1, hc1⟩ =>
      match h.1 c1 hc1 with
      | ⟨a, ha, h1, h2, h3, _, h4, h5⟩ =>
        ⟨c1, hc1, h1,
          by
            have ha1 : a = { m_list := [100], m_has_atomic := false } := by
              have : scenario_b.m_mshrs.m_data.lookup 8192
                  = some { m_list := [100], m_has_atomic := false } := by decide
              rw [this] at ha
              exact (Option.some.inj ha).symm
            rw [ha1] at h2
            exact h2,
          h3, (h4 (by decide) (by decide)).trans (by decide), h5⟩⟩

/-! ## Claims on the invariants of a data cache -/

/-- The scenario cache as constructed is empty. -/
theorem scenario_empty_is_empty : scenario_empty.empty :=
  ⟨fun _ => rfl, rfl, rfl, rfl, rfl, rfl⟩

/-- The tag of the scenario configuration, the block address itself, tells blocks apart. -/
theorem scenario_tag_identifies_block : tag_identifies_block scenario_cfg := by
  intro a b h _
  simp only [scenario_cfg] at h ⊢
  omega

theorem scenario_miss_run : ∃ c, scenario_empty.run_ops scenario_cfg scenario_miss_ops
    = Except.ok c :=
  ⟨_, rfl⟩

theorem scenario_flush_run : ∃ c, scenario_empty.run_ops scenario_cfg scenario_flush_ops
    = Except.ok c :=
  ⟨_, rfl⟩

/-- Counterexample to C18 as stated: in the run `scenario_stale_fill_ops` from the empty
scenario cache, a flush is made while the reads of `0x2000` and `0x1000` await their fill;
the next read of `0x1000` reserves way 1 of set 0 for the block, and the fill of the first
read of `0x1000` then marks way 0, the way recorded for it, VALID: set 0 holds the tag of
block `0x1000` on two lines that are not INVALID. -/
theorem fill_after_flush_duplicates_tag :
    set_view scenario_cfg (scenario_empty.run_ops scenario_cfg scenario_stale_fill_ops) 0
      = some [(cache_block_state.VALID, 4096), (cache_block_state.RESERVED, 4096)] ∧
    set_view scenario_cfg
        (scenario_empty.run_ops scenario_cfg (scenario_stale_fill_ops.take 4)) 0
      = some [(cache_block_state.INVALID, 4096), (cache_block_state.RESERVED, 4096)] ∧
    scenario_empty.flush_when_idle scenario_cfg scenario_stale_fill_ops = false := by
  decide

/-- Why the amended C18 asks that the tag function tell the blocks of a set apart: with
a tag function under which the blocks `0x1000` and `0x2000` share a tag, the run
`scenario_collide_ops`, which has no flush, ends with the same tag on a VALID and on a
RESERVED line of set 0. -/
theorem tag_collision_duplicates_tag :
    set_view scenario_cfg_collide
        (scenario_empty.run_ops scenario_cfg_collide scenario_collide_ops) 0
      = some [(cache_block_state.VALID, 0), (cache_block_state.RESERVED, 0)] ∧
    scenario_cfg_collide.tag (scenario_cfg_collide.block_addr 4096) =
      scenario_cfg_collide.tag (scenario_cfg_collide.block_addr 8192) ∧
    scenario_cfg_collide.set_index (scenario_cfg_collide.block_addr 4096) =
      scenario_cfg_collide.set_index (scenario_cfg_collide.block_addr 8192) := by
  decide

/-- C18, amended (unique tag per set). In every state reached from an empty data cache by
calls of `data_cache::access` (of an L1, with or without prefetch carrier, or of an L2),
`baseline_cache::fill`, `cycle` and `tag_array::flush`, and also by calls of `next_access`
and by stores of the host into request objects, no set holds the same tag on two lines of
status other than INVALID, provided that under ON_MISS every flush is made while no request
awaits its fill and the tag function tells the blocks of a set apart. -/
theorem unique_tag_per_set (cfg : cache_config) (c0 c : data_cache) (ops : List cache_op)
    (hempty : c0.empty)
    (hinj : cfg.m_alloc_policy = allocation_policy_t.ON_MISS → tag_identifies_block cfg)
    (hidle : cfg.m_alloc_policy = allocation_policy_t.ON_MISS →
      c0.flush_when_idle cfg ops = true)
    (hrun : c0.run_ops cfg ops = Except.ok c) :
    ∀ s w1 w2, w1 < cfg.m_assoc → w2 < cfg.m_assoc → w1 ≠ w2 →
      (set_line cfg c.m_tag_array.m_lines s w1).m_status ≠ cache_block_state.INVALID →
      (set_line cfg c.m_tag_array.m_lines s w2).m_status ≠ cache_block_state.INVALID →
      (set_line cfg c.m_tag_array.m_lines s w1).m_tag ≠
        (set_line cfg c.m_tag_array.m_lines s w2).m_tag := by
  obtain ⟨hu, _, hinv⟩ := empty_invariants cfg c0 hempty
  cases hpol : cfg.m_alloc_policy with
  | ON_MISS =>
    exact (run_ops_unique_on_miss cfg hpol (hinj hpol) ops c0 c hrun (hidle hpol) hu hinv).1
  | ON_FILL => exact run_ops_unique_on_fill cfg hpol ops c0 c hrun hu

/-- Witness of C18, amended: scenario A up to the fill, followed by a flush, which is made
when the only miss has been filled. -/
theorem unique_tag_per_set_witness :
    scenario_empty.flush_when_idle scenario_cfg scenario_flush_ops = true ∧
    ∃ c, scenario_empty.run_ops scenario_cfg scenario_flush_ops = Except.ok c ∧
      ∀ s w1 w2, w1 < scenario_cfg.m_assoc → w2 < scenario_cfg.m_assoc → w1 ≠ w2 →
        (set_line scenario_cfg c.m_tag_array.m_lines s w1).m_status
          ≠ cache_block_state.INVALID →
        (set_line scenario_cfg c.m_tag_array.m_lines s w2).m_status
          ≠ cache_block_state.INVALID →
        (set_line scenario_cfg c.m_tag_array.m_lines s w1).m_tag ≠
          (set_line scenario_cfg c.m_tag_array.m_lines s w2).m_tag :=
  ⟨by decide,
    match scenario_flush_run with
    | ⟨c, hc⟩ =>
      ⟨c, hc, unique_tag_per_set scenario_cfg scenario_empty c scenario_flush_ops
        scenario_empty_is_empty (fun _ => scenario_tag_identifies_block)
        (fun _ => by decide) hc⟩⟩

/-- Counterexample to C19 as stated: after the read of `0x1000` has missed, been sent
downstream and been filled, and before `next_access` has drained it, way 1 of set 0 holds
block `0x1000` with status VALID while the MSHR table still has the entry of that block. -/
theorem filled_line_keeps_mshr_entry :
    line_view (scenario_empty.run_ops scenario_cfg scenario_fill_ops) 1 =
      some (cache_block_state.VALID, 4096, true) := by
  decide

/-- The other direction fails as well: after the run `scenario_merge_ready_ops`, in which a
read merges into an MSHR entry that is already marked ready and the entry is then drained,
way 0 of set 0 is RESERVED for block `0x1000` while the MSHR table has no entry for it. -/
theorem reserved_line_outlives_mshr_entry :
    line_view (scenario_empty.run_ops scenario_cfg scenario_merge_ready_ops) 0 =
      some (cache_block_state.RESERVED, 4096, false) := by
  decide

/-- C19 as amended (pending misses, RESERVED lines and MSHR entries). Under the allocation
policy ON_MISS and a tag function that tells the blocks of a set apart, in every state
reached from an empty data cache by calls of `access`, `fill`, `cycle` and `next_access`
(and stores of the host into request objects), every miss that still awaits its fill, that
is every request recorded in the side table, has its recorded way RESERVED and holding the
tag of the recorded block, and the MSHR table has an entry for the recorded block address,
which is not in the ready queue. -/
theorem pending_miss_is_reserved (cfg : cache_config) (c0 c : data_cache)
    (ops : List cache_op)
    (hpol : cfg.m_alloc_policy = allocation_policy_t.ON_MISS)
    (hinj : tag_identifies_block cfg)
    (hempty : c0.empty)
    (hnf : ∀ op, op ∈ ops → op.is_flush = false)
    (hrun : c0.run_ops cfg ops = Except.ok c) :
    ∀ mf e, c.m_extra_mf_fields.lookup mf = some e →
      (c.m_tag_array.m_lines e.m_cache_index).m_status = cache_block_state.RESERVED ∧
      (c.m_tag_array.m_lines e.m_cache_index).m_tag = cfg.tag e.m_block_addr ∧
      c.m_mshrs.probe e.m_block_addr = true ∧
      e.m_block_addr ∉ c.m_mshrs.m_current_response := by
  obtain ⟨_, _, hinv0⟩ := empty_invariants cfg c0 hempty
  have hinv := run_ops_pending cfg hpol hinj ops c0 c hrun hnf hinv0
  intro mf e hlk
  obtain ⟨h1, h2, _, _⟩ := hinv.reserved mf e hlk
  obtain ⟨h3, h4⟩ := hinv.entry mf e hlk
  exact ⟨h1, h2, h3, h4⟩

/-- Witness of C19 as amended: scenario A before the fill, where request `100` awaits its
fill. -/
theorem pending_miss_is_reserved_witness :
    scenario_cfg.m_alloc_policy = allocation_policy_t.ON_MISS ∧
    ∃ c, scenario_empty.run_ops scenario_cfg scenario_miss_ops = Except.ok c ∧
      ∀ mf e, c.m_extra_mf_fields.lookup mf = some e →
        (c.m_tag_array.m_lines e.m_cache_index).m_status = cache_block_state.RESERVED ∧
        (c.m_tag_array.m_lines e.m_cache_index).m_tag = scenario_cfg.tag e.m_block_addr ∧
        c.m_mshrs.probe e.m_block_addr = true ∧
        e.m_block_addr ∉ c.m_mshrs.m_current_response :=
  ⟨by decide,
    match scenario_miss_run with
    | ⟨c, hc⟩ =>
      ⟨c, hc, pending_miss_is_reserved scenario_cfg scenario_empty c scenario_miss_ops
        (by decide) scenario_tag_identifies_block scenario_empty_is_empty (by decide) hc⟩⟩

/-- C20 (demand miss queue bound). In every state reached from an empty data cache by calls
of `access`, `fill` and `cycle` (and also `flush`, `next_access` and stores of the host
into request objects), the demand miss queue holds at most `miss_queue_size` requests,
whatever the write policy and the write-allocate policy of the configuration (and whatever
`miss_queue_size`). -/
theorem demand_miss_queue_bound (cfg : cache_config) (c0 c : data_cache)
    (ops : List cache_op)
    (hempty : c0.empty) (hrun : c0.run_ops cfg ops = Except.ok c) :
    c.m_miss_queue.length ≤ cfg.m_miss_queue_size := by
  obtain ⟨_, hq, _⟩ := empty_invariants cfg c0 hempty
  exact run_ops_queue cfg ops c0 c hrun hq

/-- Witness of C20: scenario A up to the fill, followed by a flush. -/
theorem demand_miss_queue_bound_witness :
    ∃ c, scenario_empty.run_ops scenario_cfg scenario_flush_ops = Except.ok c ∧
      c.m_miss_queue.length ≤ scenario_cfg.m_miss_queue_size :=
  match scenario_flush_run with
  | ⟨c, hc⟩ =>
    ⟨c, hc, demand_miss_queue_bound scenario_cfg scenario_empty c scenario_flush_ops
      scenario_empty_is_empty hc⟩

/-! ## Claims on the prefetch path and on `cycle` -/

/-- The cache the prefetch scenarios start from is empty. -/
theorem scenario_l1_empty_is_empty : scenario_l1_empty.empty :=
  ⟨fun _ => rfl, rfl, rfl, rfl, rfl, rfl⟩

/-- C21 (prefetch miss queue bound) fails in the code: in the run `scenario_overflow_ops`
of an L1 whose miss queues have 2 slots, started empty, the prefetch of `0x0200` is admitted
with one request queued, it evicts the MODIFIED line of block `0x0000`, and the writeback
`1000` is queued behind the carrier `201` without a test for room: the prefetch miss queue
then holds 3 requests. -/
theorem prefetch_writeback_overflows_queue :
    pref_queue_of (scenario_l1_empty.run_ops scenario_cfg_l1 scenario_overflow_ops)
      = some [200, 201, 1000] ∧
    scenario_cfg_l1.m_miss_queue_size = 2 := by
  decide

/-- What does hold of the prefetch miss queue: in every state reached from an empty data
cache by calls of `access`, `fill` and `cycle` (and `flush`, `next_access`, stores of the
host) it holds at most `m_miss_queue_size + 1` requests. -/
theorem pref_queue_within_one (cfg : cache_config) (c0 c : data_cache) (ops : List cache_op)
    (hempty : c0.empty) (hrun : c0.run_ops cfg ops = Except.ok c) :
    c.m_pref_miss_queue.length ≤ cfg.m_miss_queue_size + 1 := by
  refine run_ops_pref_bound cfg ops c0 c hrun ?_
  rw [hempty.2.2.2.2.1]
  exact Nat.zero_le _

/-- Counterexample to C22 as stated: the prefetch miss queue holds the write `200`, which
the downstream port refuses, and the demand miss queue holds the read `100`, which the port
would accept; the tick sends nothing and leaves both queues as they were. -/
theorem refused_prefetch_blocks_demand :
    cycle_view (scenario_two_queues.cycle refuse_writes) = some (none, [200], [100]) ∧
    refuse_writes (scenario_two_queues.heap 100).size
      (scenario_two_queues.heap 100).m_is_write = false := by
  decide

/-- C22, amended (drain order of `baseline_cache::cycle`). A tick made with occupancy
counters that are not negative returns. If the prefetch miss queue is non-empty, its head
is popped and pushed downstream when the downstream port accepts it, and nothing is sent
when the port refuses it: the demand miss queue is not looked at. If the prefetch miss queue
is empty and the demand miss queue is not, the demand head is popped and pushed downstream
when the port accepts it. At most one request is sent per tick: the requests in the two
queues and the one sent are those that were in the queues. -/
theorem cycle_drain_order (c : baseline_cache) (memport_full : Nat → Bool → Bool)
    (hd : 0 ≤ c.m_data_port_occupied_cycles) (hf : 0 ≤ c.m_fill_port_occupied_cycles) :
    ∃ c1 sent, c.cycle memport_full = Except.ok (c1, sent) ∧
      (∀ p rest, c.m_pref_miss_queue = p :: rest →
        (memport_full (c.heap p).size (c.heap p).m_is_write = false →
          sent = some p ∧ c1.m_pref_miss_queue = rest ∧ c1.m_miss_queue = c.m_miss_queue) ∧
        (memport_full (c.heap p).size (c.heap p).m_is_write = true →
          sent = none ∧ c1.m_pref_miss_queue = p :: rest ∧
            c1.m_miss_queue = c.m_miss_queue)) ∧
      (c.m_pref_miss_queue = [] →
        (∀ d rest, c.m_miss_queue = d :: rest →
          (memport_full (c.heap d).size (c.heap d).m_is_write = false →
            sent = some d ∧ c1.m_miss_queue = rest ∧ c1.m_pref_miss_queue = []) ∧
          (memport_full (c.heap d).size (c.heap d).m_is_write = true →
            sent = none ∧ c1.m_miss_queue = d :: rest ∧ c1.m_pref_miss_queue = [])) ∧
        (c.m_miss_queue = [] →
          sent = none ∧ c1.m_miss_queue = [] ∧ c1.m_pref_miss_queue = [])) ∧
      c1.m_pref_miss_queue.length + c1.m_miss_queue.length + (if sent.isSome then 1 else 0)
        = c.m_pref_miss_queue.length + c.m_miss_queue.length := by
  obtain ⟨c1, h1⟩ := cycle_returns c memport_full hd hf
  obtain ⟨hp, hm, _⟩ := cycle_queues c c1 _ memport_full h1
  refine ⟨c1, _, h1, ?_, ?_, ?_⟩
  · intro p rest hq
    constructor
    · intro ha
      rw [hp, hm, cycle_send_pref_accept c memport_full p rest hq ha]
      exact ⟨rfl, rfl, rfl⟩
    · intro hr
      rw [hp, hm, cycle_send_pref_refuse c memport_full p rest hq hr]
      exact ⟨rfl, hq, rfl⟩
  · intro hq
    refine ⟨fun d rest hmq => ⟨fun ha => ?_, fun hr => ?_⟩, fun hmq => ?_⟩
    · rw [hp, hm, cycle_send_demand_accept c memport_full d rest hq hmq ha]
      exact ⟨rfl, rfl, hq⟩
    · rw [hp, hm, cycle_send_demand_refuse c memport_full d rest hq hmq hr]
      exact ⟨rfl, hmq, hq⟩
    · rw [hp, hm, cycle_send_idle c memport_full hq hmq]
      exact ⟨rfl, hmq, hq⟩
  · rw [hp, hm]
    exact cycle_send_count c memport_full

/-- Witness of C22, amended: the tick of the counterexample. -/
theorem cycle_drain_order_witness :
    ∃ c1 sent, scenario_two_queues.cycle refuse_writes = Except.ok (c1, sent) ∧
      (∀ p rest, scenario_two_queues.m_pref_miss_queue = p :: rest →
        (refuse_writes (scenario_two_queues.heap p).size
            (scenario_two_queues.heap p).m_is_write = false →
          sent = some p ∧ c1.m_pref_miss_queue = rest ∧
            c1.m_miss_queue = scenario_two_queues.m_miss_queue) ∧
        (refuse_writes (scenario_two_queues.heap p).size
            (scenario_two_queues.heap p).m_is_write = true →
          sent = none ∧ c1.m_pref_miss_queue = p :: rest ∧
            c1.m_miss_queue = scenario_two_queues.m_miss_queue)) ∧
      (scenario_two_queues.m_pref_miss_queue = [] →
        (∀ d rest, scenario_two_queues.m_miss_queue = d :: rest →
          (refuse_writes (scenario_two_queues.heap d).size
              (scenario_two_queues.heap d).m_is_write = false →
            sent = some d ∧ c1.m_miss_queue = rest ∧ c1.m_pref_miss_queue = []) ∧
          (refuse_writes (scenario_two_queues.heap d).size
              (scenario_two_queues.heap d).m_is_write = true →
            sent = none ∧ c1.m_miss_queue = d :: rest ∧ c1.m_pref_miss_queue = [])) ∧
        (scenario_two_queues.m_miss_queue = [] →
          sent = none ∧ c1.m_miss_queue = [] ∧ c1.m_pref_miss_queue = [])) ∧
      c1.m_pref_miss_queue.length + c1.m_miss_queue.length + (if sent.isSome then 1 else 0)
        = scenario_two_queues.m_pref_miss_queue.length
          + scenario_two_queues.m_miss_queue.length :=
  cycle_drain_order scenario_two_queues.tobaseline_cache refuse_writes (by decide) (by decide)

/-- C23 (a prefetch that coalesces with demand is dropped without effect). When
`send_read_request_pref` is called for a block address that has an MSHR entry, it returns
with the cache as it was, so that the tag array, the MSHR table, the demand miss queue, the
prefetch miss queue and the side table are unchanged, and `pref_do_miss` stays false. -/
theorem prefetch_coalesces_with_demand (cfg : cache_config) (c : baseline_cache)
    (pref_addr pref_block_addr pref_cache_index pref_mf time : Nat) (pref_wb : Bool)
    (pref_evicted : cache_block_t) (events : List cache_event) (read_only wa : Bool)
    (h : c.m_mshrs.probe pref_block_addr = true) :
    ∃ r, c.send_read_request_pref cfg pref_addr pref_block_addr pref_cache_index pref_mf
        time false pref_wb pref_evicted events read_only wa = Except.ok r ∧
      r.cache = c ∧
      r.cache.m_tag_array = c.m_tag_array ∧ r.cache.m_mshrs = c.m_mshrs ∧
      r.cache.m_miss_queue = c.m_miss_queue ∧
      r.cache.m_pref_miss_queue = c.m_pref_miss_queue ∧
      r.cache.m_extra_mf_fields = c.m_extra_mf_fields ∧
      r.do_miss = false ∧ r.events = events :=
  ⟨_, send_read_request_pref_hit cfg c pref_addr pref_block_addr pref_cache_index pref_mf
    time false pref_wb pref_evicted events read_only wa h, rfl, rfl, rfl, rfl, rfl, rfl, rfl,
    rfl⟩

/-- Witness of C23: in scenario B block `0x2000` has an MSHR entry; the prefetch of that
block with the carrier `200` is dropped. -/
theorem prefetch_coalesces_with_demand_witness :
    ∃ r, scenario_b.send_read_request_pref scenario_cfg 8192 8192 UINT_MAX 200 5 false
        false empty_line [] false false = Except.ok r ∧
      r.cache = scenario_b.tobaseline_cache ∧
      r.cache.m_tag_array = scenario_b.m_tag_array ∧ r.cache.m_mshrs = scenario_b.m_mshrs ∧
      r.cache.m_miss_queue = scenario_b.m_miss_queue ∧
      r.cache.m_pref_miss_queue = scenario_b.m_pref_miss_queue ∧
      r.cache.m_extra_mf_fields = scenario_b.m_extra_mf_fields ∧
      r.do_miss = false ∧ r.events = [] :=
  prefetch_coalesces_with_demand scenario_cfg scenario_b.tobaseline_cache 8192 8192 UINT_MAX
    200 5 false empty_line [] false false (by decide)

/-- Counterexample to C24 as stated: an L1 read with the carrier `200` and the valid
candidate of warp 3 at address `0x90000000` leaves the carrier as it was (warp 0, address
0) and the prefetch miss queue empty, while the candidate at `0x8fffff80` is written into
the carrier and queued. -/
theorem valid_candidate_out_of_range_is_dropped :
    carrier_view (scenario_l1_empty.access scenario_cfg_l1 0 100 (some 200) 1 [] true
        { valid := true, addr := 2415919104, warp_id := 3, put_time := 0 }) 200
      = some (0, 0, []) ∧
    carrier_view (scenario_l1_empty.access scenario_cfg_l1 0 100 (some 200) 1 [] true
        { valid := true, addr := 2415918976, warp_id := 3, put_time := 0 }) 200
      = some (3, 2415918976, [200]) := by
  decide

/-- C24, amended (gating of the prefetch candidate). In the prefetch block of
`data_cache::access`, entered for an L1 access with a prefetch carrier: if the address of
the candidate lies in the range `0 < addr <= 0x8fffffff` and the candidate is valid or has
`put_time < 10`, the carrier is rewritten to the candidate and submitted to the prefetch
path, that is, `send_read_request_pref` is called for the address of the candidate with the
carrier holding the warp and the block address of the candidate; the block stops where that
call stops, and it leaves the tag array, the MSHR table and the side table that call leaves,
the carrier at the end of the prefetch miss queue exactly when the call reports a miss (with
at most the writeback of the evicted line behind it), and the carrier holding the warp and
the block address of the candidate. Otherwise the carrier is dropped: the block changes
nothing, and the access is the access made without carrier. -/
theorem prefetch_candidate_gating (cfg : cache_config) (c : data_cache) (p time : Nat)
    (events : List cache_event) (pf : prefetch_req) :
    ((0 < pf.addr ∧ pf.addr ≤ 2415919103 ∧ (pf.valid = true ∨ pf.put_time < 10)) →
      (∀ f, c.access_prefetch cfg p time events pf = Except.error f ↔
        ({ c with heap := set_warp_id_addr c.heap p pf.warp_id (cfg.block_addr pf.addr) }
          : data_cache).tobaseline_cache.send_read_request_pref cfg pf.addr
          (cfg.block_addr pf.addr) UINT_MAX p time false false empty_line events false false
          = Except.error f) ∧
      ∀ c1 ev1, c.access_prefetch cfg p time events pf = Except.ok (c1, ev1) →
        ∃ r, ({ c with heap := set_warp_id_addr c.heap p pf.warp_id (cfg.block_addr pf.addr) }
          : data_cache).tobaseline_cache.send_read_request_pref cfg pf.addr
          (cfg.block_addr pf.addr) UINT_MAX p time false false empty_line events false false
          = Except.ok r ∧
        ev1 = events ∧
        c1.m_tag_array = r.cache.m_tag_array ∧ c1.m_mshrs = r.cache.m_mshrs ∧
        c1.m_extra_mf_fields = r.cache.m_extra_mf_fields ∧
        c1.m_miss_queue = c.m_miss_queue ∧
        ((r.do_miss = false ∧ c1.m_pref_miss_queue = c.m_pref_miss_queue) ∨
          (r.do_miss = true ∧
            (c1.m_pref_miss_queue = c.m_pref_miss_queue ++ [p] ∨
              c1.m_pref_miss_queue = c.m_pref_miss_queue ++ [p, c.next_mf]))) ∧
        (p ≠ c.next_mf →
          (c1.heap p).m_wid = pf.warp_id ∧ (c1.heap p).m_addr = cfg.block_addr pf.addr)) ∧
    (¬ (0 < pf.addr ∧ pf.addr ≤ 2415919103 ∧ (pf.valid = true ∨ pf.put_time < 10)) →
      c.access_prefetch cfg p time events pf = Except.ok (c, events) ∧
      ∀ addr mf, c.access cfg addr mf (some p) time events true pf =
        c.access cfg addr mf none time events true pf) := by
  have hgate : (pf.addr > 0 ∧ pf.addr ≤ 2415919103 ∧
      (pf.valid = true ∨ (pf.valid = false ∧ pf.put_time < 10))) ↔
      (0 < pf.addr ∧ pf.addr ≤ 2415919103 ∧ (pf.valid = true ∨ pf.put_time < 10)) := by
    cases pf.valid <;> simp
  have hclosed : ¬ (0 < pf.addr ∧ pf.addr ≤ 2415919103 ∧
      (pf.valid = true ∨ pf.put_time < 10)) →
      ∀ c0 : data_cache, ∀ ev : List cache_event,
        c0.access_prefetch cfg p time ev pf = Except.ok (c0, ev) := by
    intro hg c0 ev
    unfold data_cache.access_prefetch
    dsimp only
    rw [if_neg (fun h => hg (hgate.mp h))]
  refine ⟨fun hg => access_prefetch_open cfg c p time events pf (hgate.mpr hg),
    fun hg => ⟨hclosed hg c events, fun addr mf => ?_⟩⟩
  unfold data_cache.access
  simp only [hclosed hg, if_true]

/-- Witness of C24, amended: on the empty L1 the valid candidate of warp 3 at `0x8fffff80`
is written into the carrier `200`, and with the valid candidate at `0x90000000` the access
is the access made without carrier. -/
theorem prefetch_candidate_gating_witness :
    (∃ c1 ev1, scenario_l1_empty.access_prefetch scenario_cfg_l1 200 1 []
        { valid := true, addr := 2415918976, warp_id := 3, put_time := 0 }
        = Except.ok (c1, ev1) ∧
      (c1.heap 200).m_wid = 3 ∧ (c1.heap 200).m_addr = 2415918976) ∧
    scenario_l1_empty.access scenario_cfg_l1 0 100 (some 200) 1 [] true
        { valid := true, addr := 2415919104, warp_id := 3, put_time := 0 } =
      scenario_l1_empty.access scenario_cfg_l1 0 100 none 1 [] true
        { valid := true, addr := 2415919104, warp_id := 3, put_time := 0 } :=
  ⟨⟨_, _, rfl,
      match ((prefetch_candidate_gating scenario_cfg_l1 scenario_l1_empty 200 1 []
        { valid := true, addr := 2415918976, warp_id := 3, put_time := 0 }).1
          (by decide)).2 _ _ rfl with
      | ⟨_, _, _, _, _, _, _, _, h⟩ => h (by decide)⟩,
    ((prefetch_candidate_gating scenario_cfg_l1 scenario_l1_empty 200 1 []
      { valid := true, addr := 2415919104, warp_id := 3, put_time := 0 }).2 (by decide)).2
      0 100⟩

/-! ## Claims on the set index function -/

/-- C25 (set index in range). For every address `l1d_cache_config::set_index` returns, and
returns a value strictly below `m_nset`, whenever the index function is linear with
`m_nset >= 1` (an `unsigned`) or the hashing function with `m_nset` 32 or 64; for the linear
function with `m_nset` a power of two the value is `(addr / 2^line_sz_log2) mod m_nset`. -/
theorem set_index_in_range (cfg : l1d_cache_config) (addr : Nat)
    (h : (cfg.m_set_index_function = set_index_function.LINEAR_SET_FUNCTION ∧
          1 ≤ cfg.m_nset ∧ cfg.m_nset ≤ UINT_MAX) ∨
         (cfg.m_set_index_function = set_index_function.FERMI_HASH_SET_FUNCTION ∧
          (cfg.m_nset = 32 ∨ cfg.m_nset = 64))) :
    ∃ i, cfg.set_index addr = Except.ok i ∧ i < cfg.m_nset ∧
      (cfg.m_set_index_function = set_index_function.LINEAR_SET_FUNCTION →
        ∀ k, cfg.m_nset = 2 ^ k → i = (addr / 2 ^ cfg.m_line_sz_log2) % cfg.m_nset) := by
  rcases h with ⟨hfn, h1, h2⟩ | ⟨hfn, hn | hn⟩
  · refine ⟨_, set_index_linear cfg addr hfn h1 h2, ?_, ?_⟩
    · have hle : (addr >>> cfg.m_line_sz_log2) &&& (cfg.m_nset - 1) ≤ cfg.m_nset - 1 :=
        Nat.and_le_right
      omega
    · intro _ k hk
      rw [hk, Nat.and_pow_two_sub_one_eq_mod, Nat.shiftRight_eq_div_pow]
  · refine ⟨_, set_index_fermi_32 cfg addr hfn hn, ?_, ?_⟩
    · have hlt : ((addr >>> cfg.m_line_sz_log2) % 32) ^^^ fermi_upper addr < 2 ^ 5 :=
        Nat.xor_lt_two_pow (Nat.mod_lt _ (by decide)) (fermi_upper_lt addr)
      omega
    · intro hl
      rw [hfn] at hl
      cases hl
  · refine ⟨_, set_index_fermi_64 cfg addr hfn hn, ?_, ?_⟩
    · have hlt : ((addr >>> cfg.m_line_sz_log2) % 32) ^^^ fermi_upper addr < 2 ^ 5 :=
        Nat.xor_lt_two_pow (Nat.mod_lt _ (by decide)) (fermi_upper_lt addr)
      have b := addr_bit_lt addr 12
      omega
    · intro hl
      rw [hfn] at hl
      cases hl

/-- Witness of C25: the linear index of address `0x1280` among 4 sets of 128-byte lines. -/
theorem set_index_in_range_witness :
    ∃ i, scenario_l1d_linear.set_index 4736 = Except.ok i ∧ i < scenario_l1d_linear.m_nset ∧
      (scenario_l1d_linear.m_set_index_function = set_index_function.LINEAR_SET_FUNCTION →
        ∀ k, scenario_l1d_linear.m_nset = 2 ^ k →
          i = (4736 / 2 ^ scenario_l1d_linear.m_line_sz_log2) % scenario_l1d_linear.m_nset) :=
  set_index_in_range scenario_l1d_linear 4736 (Or.inl ⟨rfl, by decide, by decide⟩)

/-- C26 (definition of the hashing function). For 32 sets the set index is
`((addr >> line_sz_log2) mod 32) XOR upper`, where `upper` is the 5-bit number whose bits
from the least significant are the address bits 13, 14, 15, 17 and 19; for 64 sets it is
that value with address bit 12 added as the sixth bit, of value 32. -/
theorem fermi_hash_definition (cfg : l1d_cache_config) (addr : Nat)
    (hfn : cfg.m_set_index_function = set_index_function.FERMI_HASH_SET_FUNCTION) :
    (cfg.m_nset = 32 →
      cfg.set_index addr =
        Except.ok (((addr >>> cfg.m_line_sz_log2) % 32) ^^^
          (addr_bit addr 13 + 2 * addr_bit addr 14 + 4 * addr_bit addr 15 +
            8 * addr_bit addr 17 + 16 * addr_bit addr 19))) ∧
    (cfg.m_nset = 64 →
      cfg.set_index addr =
        Except.ok ((((addr >>> cfg.m_line_sz_log2) % 32) ^^^
          (addr_bit addr 13 + 2 * addr_bit addr 14 + 4 * addr_bit addr 15 +
            8 * addr_bit addr 17 + 16 * addr_bit addr 19)) + 32 * addr_bit addr 12)) :=
  ⟨fun hn => set_index_fermi_32 cfg addr hfn hn, fun hn => set_index_fermi_64 cfg addr hfn hn⟩

/-- Witness of C26: address `0xA3080` has the bits 7, 12, 13, 17 and 19 set; its line
number ends in 1, its upper value is 25, and the index is 24 among 32 sets and 56 among
64. -/
theorem fermi_hash_definition_witness :
    scenario_l1d_hash.set_index 667776 = Except.ok 24 ∧
    scenario_l1d_hash64.set_index 667776 = Except.ok 56 :=
  ⟨((fermi_hash_definition scenario_l1d_hash 667776 rfl).1 rfl).trans (by decide),
   ((fermi_hash_definition scenario_l1d_hash64 667776 rfl).2 rfl).trans (by decide)⟩

/-- C27 (failure cases of the set index). `l1d_cache_config::set_index` stops in its
assertion for every address when the function is the hashing one and `m_nset` is neither 32
nor 64, and in its final bounds assertion for every address when the function is the custom
one, for which the default value `m_nset` is kept; it returns for the linear function with
`m_nset >= 1`. -/
theorem set_index_failure_cases (cfg : l1d_cache_config) (addr : Nat) :
    (cfg.m_set_index_function = set_index_function.FERMI_HASH_SET_FUNCTION →
      cfg.m_nset ≠ 32 → cfg.m_nset ≠ 64 →
      cfg.set_index addr = Except.error fault.set_index_hash_nset) ∧
    (cfg.m_set_index_function = set_index_function.CUSTOM_SET_FUNCTION →
      cfg.set_index addr = Except.error fault.set_index_bounds) ∧
    (cfg.m_set_index_function = set_index_function.LINEAR_SET_FUNCTION →
      1 ≤ cfg.m_nset → cfg.m_nset ≤ UINT_MAX → ∃ i, cfg.set_index addr = Except.ok i) := by
  refine ⟨?_, ?_, ?_⟩
  · intro hfn h32 h64
    unfold l1d_cache_config.set_index
    simp only [hfn, h32, h64, or_self, if_false]
  · intro hfn
    unfold l1d_cache_config.set_index
    simp only [hfn, Nat.lt_irrefl, not_false_eq_true, if_true]
  · intro hfn h1 h2
    exact ⟨_, set_index_linear cfg addr hfn h1 h2⟩

/-- Witness of C27: 48 sets with the hashing function, the custom function, and 4 sets with
the linear function. -/
theorem set_index_failure_cases_witness :
    scenario_l1d_hash48.set_index 4736 = Except.error fault.set_index_hash_nset ∧
    scenario_l1d_custom.set_index 4736 = Except.error fault.set_index_bounds ∧
    ∃ i, scenario_l1d_linear.set_index 4736 = Except.ok i :=
  ⟨(set_index_failure_cases scenario_l1d_hash48 4736).1 rfl (by decide) (by decide),
   (set_index_failure_cases scenario_l1d_custom 4736).2.1 rfl,
   (set_index_failure_cases scenario_l1d_linear 4736).2.2 rfl (by decide) (by decide)⟩
/-! ## Claims on the bandwidth manager -/

/-- C28 (data-port occupancy). For every port width above zero `use_data_port` returns and
adds to the data-port counter exactly the ceiling of `data_size / port_width` on a HIT,
exactly `line_sz / port_width` (integer division) on a HIT_RESERVED or a MISS whose event
list contains WRITE_BACK_REQUEST_SENT, and nothing otherwise, a RESERVATION_FAIL included;
the fill-port counter is not changed. The counter is an `int` and the cycles are an
`unsigned`: the new value is the sum read as an `int`, which is the sum of the integers
whenever that lies in the range of an `int`; and where nothing is added the counter is not
assigned. -/
theorem data_port_occupancy (cfg : cache_config) (c : data_cache) (mf : Nat)
    (outcome : cache_request_status) (events : List cache_event)
    (hpw : 0 < cfg.m_data_port_width) :
    ∃ (c1 : data_cache) (cycles : Nat), c.use_data_port cfg mf outcome events = Except.ok c1 ∧
      cycles =
        (match outcome with
          | cache_request_status.HIT =>
            ceil_div (c.heap mf).m_data_size cfg.m_data_port_width
          | cache_request_status.HIT_RESERVED | cache_request_status.MISS =>
            if cache_event.WRITE_BACK_REQUEST_SENT ∈ events then
              cfg.m_line_sz / cfg.m_data_port_width
            else 0
          | cache_request_status.RESERVATION_FAIL => 0) ∧
      (c1.m_data_port_occupied_cycles =
          to_i32 (c.m_data_port_occupied_cycles + (cycles : Int)) ∨
        (cycles = 0 ∧ c1.m_data_port_occupied_cycles = c.m_data_port_occupied_cycles)) ∧
      (-2147483648 ≤ c.m_data_port_occupied_cycles + (cycles : Int) →
        c.m_data_port_occupied_cycles + (cycles : Int) ≤ 2147483647 →
        c1.m_data_port_occupied_cycles = c.m_data_port_occupied_cycles + (cycles : Int)) ∧
      (outcome = cache_request_status.RESERVATION_FAIL →
        c1.m_data_port_occupied_cycles = c.m_data_port_occupied_cycles) ∧
      c1.m_fill_port_occupied_cycles = c.m_fill_port_occupied_cycles := by
  obtain ⟨c1, h1, h2, h3⟩ := use_data_port_cycles cfg c mf outcome events hpw
  refine ⟨c1, data_port_cycles cfg.m_line_sz cfg.m_data_port_width (c.heap mf).m_data_size
    outcome events, h1, ?_, ?_, ?_, ?_, h3⟩
  · cases outcome <;> rfl
  · rcases h2 with h2 | h2
    · exact Or.inl (h2.trans (int_add_unsigned_wrap _ _))
    · exact Or.inr h2
  · intro hlo hhi
    rcases h2 with h2 | ⟨h2, h4⟩
    · exact h2.trans (int_add_unsigned_eq _ _ hlo hhi)
    · rw [h4, h2]
      simp
  · intro ho
    subst ho
    rcases h2 with h2 | ⟨_, h4⟩
    · have h5 : c.use_data_port cfg mf cache_request_status.RESERVATION_FAIL events
          = Except.ok c := rfl
      rw [h5] at h1
      rw [← Except.ok.inj h1]
    · exact h4

/-- Witness of C28: a miss of the scenario cache (lines of 128 bytes, a port of 32 bytes)
that sent a writeback occupies the data port for 4 cycles. -/
theorem data_port_occupancy_witness :
    ∃ c1, scenario_b.use_data_port scenario_cfg 101 cache_request_status.MISS
        [cache_event.WRITE_BACK_REQUEST_SENT, cache_event.READ_REQUEST_SENT] = Except.ok c1 ∧
      c1.m_data_port_occupied_cycles = 4 ∧ c1.m_fill_port_occupied_cycles = 0 :=
  match data_port_occupancy scenario_cfg scenario_b 101 cache_request_status.MISS
      [cache_event.WRITE_BACK_REQUEST_SENT, cache_event.READ_REQUEST_SENT] (by decide) with
  | ⟨c1, cycles, h1, h2, _, h3, _, h4⟩ =>
    have hc : cycles = 4 := h2.trans (by decide)
    ⟨c1, h1, (h3 (by rw [hc]; decide) (by rw [hc]; decide)).trans (by rw [hc]; decide), h4⟩

/-- C29 (bandwidth counters never negative) fails in the code: with lines of 2^31 bytes and
a port of one byte, one `use_fill_port` on the scenario cache, whose counters are zero, adds
the `unsigned` 2^31 to the `int` counter, which becomes -2^31; both occupancy counters were
zero before, the fill port is then not free, and the next `replenish_port_bandwidth` stops
in `assert(m_fill_port_occupied_cycles >= 0)`. -/
theorem fill_port_counter_overflows :
    port_counters (Except.ok scenario_b) = some (0, 0) ∧
    port_counters (scenario_b.run_port_ops scenario_cfg_wide [port_op.use_fill_port 100])
      = some (0, -2147483648) ∧
    port_counters (scenario_b.run_port_ops scenario_cfg_wide
      [port_op.use_fill_port 100, port_op.replenish_port_bandwidth]) = none ∧
    run_fault (scenario_b.run_port_ops scenario_cfg_wide
      [port_op.use_fill_port 100, port_op.replenish_port_bandwidth])
      = some fault.port_negative := by
  decide

/-- What does hold of the occupancy counters: on counters that are not negative
`replenish_port_bandwidth` returns, decreases each positive counter by exactly one and
leaves a zero counter at zero; and `data_port_free` and `fill_port_free` return true exactly
when their counter is zero. -/
theorem replenish_on_nonneg_counters (c : baseline_cache)
    (hd : 0 ≤ c.m_data_port_occupied_cycles) (hf : 0 ≤ c.m_fill_port_occupied_cycles) :
    (∃ c1, c.replenish_port_bandwidth = Except.ok c1 ∧
      (0 < c.m_data_port_occupied_cycles →
        c1.m_data_port_occupied_cycles = c.m_data_port_occupied_cycles - 1) ∧
      (c.m_data_port_occupied_cycles = 0 → c1.m_data_port_occupied_cycles = 0) ∧
      (0 < c.m_fill_port_occupied_cycles →
        c1.m_fill_port_occupied_cycles = c.m_fill_port_occupied_cycles - 1) ∧
      (c.m_fill_port_occupied_cycles = 0 → c1.m_fill_port_occupied_cycles = 0)) ∧
    (c.data_port_free = true ↔ c.m_data_port_occupied_cycles = 0) ∧
    (c.fill_port_free = true ↔ c.m_fill_port_occupied_cycles = 0) := by
  obtain ⟨c1, h1, h2, h3⟩ := replenish_returns c hd hf
  refine ⟨⟨c1, h1, ?_, ?_, ?_, ?_⟩, ?_, ?_⟩
  · intro hp
    rw [h2, if_pos hp]
  · intro hz
    rw [h2, if_neg (by omega)]
  · intro hp
    rw [h3, if_pos hp]
  · intro hz
    rw [h3, if_neg (by omega)]
  · simp only [baseline_cache.data_port_free, decide_eq_true_eq]
  · simp only [baseline_cache.fill_port_free, decide_eq_true_eq]

/-! ## Claims on the statistics of an access -/

/-- C30 (stats recording). A call of `data_cache::access` that returns increments exactly
one cell of the counter matrix by one (the counters are `unsigned`: the new value is the
old one plus one cut to 32 bits, which is the old one plus one below `2^32 - 1`) and leaves
every other cell unchanged. The cell is that of the access type of the request; its status
is HIT_RESERVED when the tag probe returned HIT_RESERVED and the access outcome is not
RESERVATION_FAIL, and the access outcome otherwise. -/
theorem access_counts_once (cfg : cache_config) (c : data_cache) (addr mf : Nat)
    (pref_mf : Option Nat) (time : Nat) (events : List cache_event) (is_l1_cache : Bool)
    (pf : prefetch_req) (r : handler_result)
    (h : c.access cfg addr mf pref_mf time events is_l1_cache pf = Except.ok r) :
    ∃ probe_status idx cell,
      tag_array.probe cfg c.m_tag_array (cfg.block_addr addr) UINT_MAX
        = Except.ok (probe_status, idx) ∧
      cell = (if probe_status = cache_request_status.HIT_RESERVED ∧
                r.status ≠ cache_request_status.RESERVATION_FAIL
              then cache_request_status.HIT_RESERVED else r.status) ∧
      r.cache.m_stats (r.cache.heap mf).m_access_type cell =
        u32 (c.m_stats (r.cache.heap mf).m_access_type cell + 1) ∧
      (c.m_stats (r.cache.heap mf).m_access_type cell < UINT_MAX →
        r.cache.m_stats (r.cache.heap mf).m_access_type cell =
          c.m_stats (r.cache.heap mf).m_access_type cell + 1) ∧
      ∀ ty st, ¬ (ty = (r.cache.heap mf).m_access_type ∧ st = cell) →
        r.cache.m_stats ty st = c.m_stats ty st := by
  obtain ⟨⟨probe_status, idx, hprobe, hstats⟩, _⟩ :=
    access_stats_and_queue cfg c addr mf pref_mf time events is_l1_cache pf r h
  have hcell : select_stats_status probe_status r.status =
      (if probe_status = cache_request_status.HIT_RESERVED ∧
          r.status ≠ cache_request_status.RESERVATION_FAIL
       then cache_request_status.HIT_RESERVED else r.status) := by
    unfold select_stats_status
    split_ifs with hc
    · exact hc.1
    · rfl
  refine ⟨probe_status, idx, _, hprobe, rfl, ?_, ?_, ?_⟩
  · rw [hstats, ← hcell]
    simp only [and_self, if_true]
  · intro hlt
    rw [hstats, ← hcell]
    simp only [and_self, if_true]
    exact u32_succ _ (by rw [hcell]; exact hlt)
  · intro ty st hne
    rw [hstats, ← hcell] at *
    simp only [hne, if_false]

/-- Witness of C30: the first read of scenario A. -/
theorem access_counts_once_witness :
    ∃ r, scenario_empty.access scenario_cfg 4096 100 none 1 [] false no_prefetch
        = Except.ok r ∧
      ∃ probe_status idx cell,
        tag_array.probe scenario_cfg scenario_empty.m_tag_array
            (scenario_cfg.block_addr 4096) UINT_MAX = Except.ok (probe_status, idx) ∧
        cell = (if probe_status = cache_request_status.HIT_RESERVED ∧
                  r.status ≠ cache_request_status.RESERVATION_FAIL
                then cache_request_status.HIT_RESERVED else r.status) ∧
        r.cache.m_stats (r.cache.heap 100).m_access_type cell =
          u32 (scenario_empty.m_stats (r.cache.heap 100).m_access_type cell + 1) ∧
        (scenario_empty.m_stats (r.cache.heap 100).m_access_type cell < UINT_MAX →
          r.cache.m_stats (r.cache.heap 100).m_access_type cell =
            scenario_empty.m_stats (r.cache.heap 100).m_access_type cell + 1) ∧
        ∀ ty st, ¬ (ty = (r.cache.heap 100).m_access_type ∧ st = cell) →
          r.cache.m_stats ty st = scenario_empty.m_stats ty st :=
  match (⟨_, rfl⟩ : ∃ r, scenario_empty.access scenario_cfg 4096 100 none 1 [] false
      no_prefetch = Except.ok r) with
  | ⟨r, hr⟩ =>
    ⟨r, hr, access_counts_once scenario_cfg scenario_empty 4096 100 none 1 [] false
      no_prefetch r hr⟩

/-! ## Claims on `flush` and on the write-evict hit -/

/-- C31 (flush). After `tag_array::flush` every line of the cache (the `m_nset * m_assoc`
lines of `get_num_lines()`) has status INVALID, and for every address, whatever was cached
before, a probe of the flushed array returns MISS, for every cache with `m_assoc >= 1`
whose set index function stays below `m_nset` and whose line indices stay below the
sentinel `(unsigned)-1`. -/
theorem flush_invalidates_and_misses (cfg : cache_config) (t : tag_array) (addr idx0 : Nat)
    (hassoc : 1 ≤ cfg.m_assoc) (hset : cfg.set_index addr < cfg.m_nset)
    (hfit : cfg.m_nset * cfg.m_assoc ≤ UINT_MAX) :
    (∀ i, i < cfg.m_nset * cfg.m_assoc →
      ((t.flush cfg).m_lines i).m_status = cache_block_state.INVALID) ∧
    ∃ idx, tag_array.probe cfg (t.flush cfg) addr idx0
      = Except.ok (cache_request_status.MISS, idx) := by
  refine ⟨fun i hi => flush_lines cfg t i hi, ?_⟩
  have hline : ∀ w, w < cfg.m_assoc →
      (set_line cfg (t.flush cfg).m_lines (cfg.set_index addr) w).m_status
        = cache_block_state.INVALID :=
    fun w hw => flush_lines cfg t _ (set_line_in_range cfg _ w hset hw)
  refine probe_miss_of_invalid cfg (t.flush cfg) addr idx0 ?_ ?_ ⟨0, hassoc, hline 0 hassoc⟩
  · have h2 : (cfg.set_index addr + 1) * cfg.m_assoc ≤ cfg.m_nset * cfg.m_assoc :=
      Nat.mul_le_mul_right _ hset
    omega
  · intro w hw hhit
    exact hhit.2 (hline w hw)

/-- Witness of C31: set 0 of the scenario cache holds blocks `0x0000` (VALID) and `0x2000`
(MODIFIED); after the flush the probe of `0x2000` misses. -/
theorem flush_invalidates_and_misses_witness :
    (∀ i, i < scenario_cfg.m_nset * scenario_cfg.m_assoc →
      ((tags_valid_modified.flush scenario_cfg).m_lines i).m_status
        = cache_block_state.INVALID) ∧
    ∃ idx, tag_array.probe scenario_cfg (tags_valid_modified.flush scenario_cfg) 8192 UINT_MAX
      = Except.ok (cache_request_status.MISS, idx) :=
  flush_invalidates_and_misses scenario_cfg tags_valid_modified 8192 UINT_MAX (by decide)
    (by decide) (by decide)

/-- C32 (write-evict hit). When the demand miss queue has a free slot, `wr_hit_we` returns
HIT, appends the write request to the demand miss queue and WRITE_REQUEST_SENT to the
events and sets the hit line to INVALID; the line being the way a probe of the address hit,
in a tag array that holds no tag twice in a set, a probe of the same address made right
after returns MISS. When the queue has no free slot, `wr_hit_we` returns RESERVATION_FAIL
and changes nothing. -/
theorem write_evict_hit (cfg : cache_config) (c : data_cache)
    (addr cache_index mf time : Nat) (events : List cache_event)
    (status : cache_request_status) (a idx0 : Nat)
    (hfit : (cfg.set_index a + 1) * cfg.m_assoc ≤ UINT_MAX)
    (hprobe : tag_array.probe cfg c.m_tag_array a idx0
      = Except.ok (cache_request_status.HIT, cache_index))
    (huniq : unique_tags cfg c.m_tag_array.m_lines) :
    (c.m_miss_queue.length < cfg.m_miss_queue_size →
      ∃ r, c.wr_hit_we cfg addr cache_index mf time events status = Except.ok r ∧
        r.status = cache_request_status.HIT ∧
        r.cache.m_miss_queue = c.m_miss_queue ++ [mf] ∧
        r.events = events ++ [cache_event.WRITE_REQUEST_SENT] ∧
        (r.cache.m_tag_array.m_lines cache_index).m_status = cache_block_state.INVALID ∧
        ∃ idx, tag_array.probe cfg r.cache.m_tag_array a idx0
          = Except.ok (cache_request_status.MISS, idx)) ∧
    (¬ c.m_miss_queue.length < cfg.m_miss_queue_size →
      ∃ r, c.wr_hit_we cfg addr cache_index mf time events status = Except.ok r ∧
        r.status = cache_request_status.RESERVATION_FAIL ∧
        r.cache.m_miss_queue = c.m_miss_queue ∧ r.events = events ∧
        r.cache.m_tag_array.m_lines = c.m_tag_array.m_lines) := by
  obtain ⟨w, hw, hidx, hhit, _⟩ :=
    probe_hit_inv cfg c.m_tag_array a idx0 cache_index _ hprobe (Or.inl rfl)
  constructor
  · intro hroom
    have hq : c.miss_queue_full cfg 0 = false := by
      unfold baseline_cache.miss_queue_full
      simp only [Nat.add_zero, ge_iff_le, decide_eq_false_iff_not, not_le]
      exact hroom
    unfold data_cache.wr_hit_we
    simp only [hq, Bool.false_eq_true, if_false]
    refine ⟨_, rfl, rfl, rfl, rfl, ?_, ?_⟩
    · show (write_line c.m_tag_array.m_lines cache_index _ cache_index).m_status = _
      rw [write_line_same]
    · have hlines : ∀ i, i ≠ cache_index →
          write_line c.m_tag_array.m_lines cache_index
            { c.m_tag_array.m_lines cache_index with
              m_status := cache_block_state.INVALID } i = c.m_tag_array.m_lines i :=
        fun i hi => write_line_other _ _ _ _ hi
      refine probe_miss_of_invalid cfg _ a idx0 hfit ?_ ⟨w, hw, ?_⟩
      · intro w2 hw2 hh2
        by_cases hww : w2 = w
        · subst hww
          apply hh2.2
          show (write_line c.m_tag_array.m_lines cache_index _
            (cfg.set_index a * cfg.m_assoc + w2)).m_status = _
          rw [← hidx, write_line_same]
        · have hne : cfg.set_index a * cfg.m_assoc + w2 ≠ cache_index := by
            rw [hidx]
            omega
          have hh3 : tag_hit cfg c.m_tag_array.m_lines (cfg.set_index a) (cfg.tag a) w2 := by
            unfold tag_hit set_line at hh2 ⊢
            have e : write_line c.m_tag_array.m_lines cache_index
                { c.m_tag_array.m_lines cache_index with
                  m_status := cache_block_state.INVALID }
                (cfg.set_index a * cfg.m_assoc + w2)
                = c.m_tag_array.m_lines (cfg.set_index a * cfg.m_assoc + w2) :=
              hlines _ hne
            rw [← e]
            exact hh2
          exact huniq (cfg.set_index a) w2 w hw2 hw hww hh3.2 hhit.2
            (hh3.1.trans hhit.1.symm)
      · show (write_line c.m_tag_array.m_lines cache_index _
          (cfg.set_index a * cfg.m_assoc + w)).m_status = _
        rw [← hidx, write_line_same]
  · intro hfull
    have hq : c.miss_queue_full cfg 0 = true := by
      unfold baseline_cache.miss_queue_full
      simp only [Nat.add_zero, ge_iff_le, decide_eq_true_eq]
      omega
    unfold data_cache.wr_hit_we
    simp only [hq, if_true]
    exact ⟨_, rfl, rfl, rfl, rfl, rfl⟩

/-- Witness of C32: in the dirty scenario (empty demand miss queue of 8 slots) the write
`103` hits block `0x2000` in way 1. -/
theorem write_evict_hit_witness :
    ∃ r, scenario_dirty.wr_hit_we scenario_cfg 8192 1 103 9 [] cache_request_status.HIT
        = Except.ok r ∧
      r.status = cache_request_status.HIT ∧
      r.cache.m_miss_queue = scenario_dirty.m_miss_queue ++ [103] ∧
      r.events = [] ++ [cache_event.WRITE_REQUEST_SENT] ∧
      (r.cache.m_tag_array.m_lines 1).m_status = cache_block_state.INVALID ∧
      ∃ idx, tag_array.probe scenario_cfg r.cache.m_tag_array 8192 UINT_MAX
        = Except.ok (cache_request_status.MISS, idx) :=
  (write_evict_hit scenario_cfg scenario_dirty 8192 1 103 9 [] cache_request_status.HIT 8192
    UINT_MAX (by decide) (by decide) tags_valid_modified_unique).1 (by decide)

/-! ## Claims on the scan of `calcu_addr` -/

/-- Counterexample to C35 as stated: with leader warp 0 at 30 loads, warp 1 lagging by
exactly 25 loads is not taken as candidate (the request stays invalid), while with a lag of
24 it is; and with a lag of 24 it is still passed over when the request already holds the
address predicted for it. -/
theorem lag_of_25_is_not_eligible :
    req_of ((scenario_window 5 0).calcu_addr 2 0 0 (-1))
      = some { valid := false, addr := 0, warp_id := 0, put_time := 0 } ∧
    req_of ((scenario_window 6 0).calcu_addr 2 0 0 (-1))
      = some { valid := true, addr := 4224, warp_id := 1, put_time := 0 } ∧
    req_of ((scenario_window 6 4224).calcu_addr 2 0 0 (-1))
      = some { valid := false, addr := 4224, warp_id := 0, put_time := 0 } := by
  decide

/-- C35 (prefetch candidate window), amended. In `calcu_addr`, entered without a valid
request on an active CTA with a committed non-zero stride, a warp of the CTA is eligible
exactly when it is not the leader, its lag behind the leader satisfies `20 < lag < 25`, and
the address predicted for it differs from the address the request holds; the call returns,
and the request it leaves is the one committed for the first eligible warp in rotation
order from the incremented `warp_offset`, or the request as it was if no warp is
eligible. -/
theorem prefetch_candidate_window (fuel : Nat) (p : cache_prefetch)
    (wid c lead_wid lead : Int)
    (hact : ((p.m_stride_buffer p.last_pc_index).m_cta_entry c).active = true)
    (hstride : (p.m_stride_buffer p.last_pc_index).m_last_stride ≠ 0 ∧
      (p.m_stride_buffer p.last_pc_index).valid_stride = true)
    (hlead : p.select_lead wid c lead_wid = Except.ok lead)
    (hne : ((p.m_stride_buffer p.last_pc_index).m_cta_entry c).warp_set ≠ [])
    (hfuel : ((p.m_stride_buffer p.last_pc_index).m_cta_entry c).warp_set.length ≤ fuel)
    (hv : p.m_prefetch_req.valid = false) :
    (∀ x, scan_pick (p.m_stride_buffer p.last_pc_index) lead p.m_prefetch_req.addr x = true ↔
      (x : Int) ≠ lead ∧
      20 < (p.m_stride_buffer p.last_pc_index).ld_num lead -
        (p.m_stride_buffer p.last_pc_index).ld_num x ∧
      (p.m_stride_buffer p.last_pc_index).ld_num lead -
        (p.m_stride_buffer p.last_pc_index).ld_num x < 25 ∧
      p.m_prefetch_req.addr ≠ (p.m_stride_buffer p.last_pc_index).predicted lead x) ∧
    req_of (p.calcu_addr fuel wid c lead_wid) =
      some (match (rotation ((p.m_stride_buffer p.last_pc_index).m_cta_entry c).warp_set
          ((((p.m_stride_buffer p.last_pc_index).m_cta_entry c).warp_offset + 1) %
            ((p.m_stride_buffer p.last_pc_index).m_cta_entry c).warp_set.length)).find?
          (scan_pick (p.m_stride_buffer p.last_pc_index) lead p.m_prefetch_req.addr) with
        | some x =>
          { valid := true, addr := (p.m_stride_buffer p.last_pc_index).predicted lead x,
            warp_id := x, put_time := 0 }
        | none => p.m_prefetch_req) := by
  refine ⟨fun x => ?_, ?_⟩
  · rw [scan_pick_iff]
    unfold stride_entry.in_window
    simp only [decide_eq_true_eq, gt_iff_lt]
    tauto
  · rw [calcu_addr_scan fuel p wid c lead_wid lead hact hstride hlead hne hfuel hv,
      ← scan_result_req]
    rfl

/-- Witness of C35: in the scenario with warp 1 lagging by 24 loads the hypotheses hold and
the request is committed for warp 1. -/
theorem prefetch_candidate_window_witness :
    req_of ((scenario_window 6 0).calcu_addr 2 0 0 (-1)) =
      some (match (rotation
          (((scenario_window 6 0).m_stride_buffer (scenario_window 6 0).last_pc_index
            ).m_cta_entry 0).warp_set
          (((((scenario_window 6 0).m_stride_buffer (scenario_window 6 0).last_pc_index
            ).m_cta_entry 0).warp_offset + 1) %
            (((scenario_window 6 0).m_stride_buffer (scenario_window 6 0).last_pc_index
              ).m_cta_entry 0).warp_set.length)).find?
          (scan_pick ((scenario_window 6 0).m_stride_buffer
            (scenario_window 6 0).last_pc_index) 0 (scenario_window 6 0).m_prefetch_req.addr)
          with
        | some x =>
          { valid := true,
            addr := ((scenario_window 6 0).m_stride_buffer
              (scenario_window 6 0).last_pc_index).predicted 0 x,
            warp_id := x, put_time := 0 }
        | none => (scenario_window 6 0).m_prefetch_req) :=
  (prefetch_candidate_window 2 (scenario_window 6 0) 0 0 (-1) 0 (by decide) (by decide)
    (by decide) (by decide) (by decide) (by decide)).2

/-- C36 (prefetch address formula). Whenever a call of `calcu_addr`, entered without a valid
request as at its call sites in `calculate_inter_pref_addr`, leaves the request valid, the
request is `{valid, addr, warp_id = candidate, put_time = 0}` with `addr` the value of
`leader.inter_warp_last_addr + m_last_stride * (candidate - leader)` stored in 64 bits (the
number itself when it lies in `[0, 2^64)`), the candidate is a member of the warp set of
the target CTA other than the leader, and the committed stride is non-zero and marked
valid. -/
theorem prefetch_address_formula (fuel : Nat) (p : cache_prefetch) (wid c lead_wid : Int)
    (r : prefetch_req) (hv : p.m_prefetch_req.valid = false)
    (hr : req_of (p.calcu_addr fuel wid c lead_wid) = some r) (hvalid : r.valid = true) :
    ∃ lead x, p.select_lead wid c lead_wid = Except.ok lead ∧
      x ∈ ((p.m_stride_buffer p.last_pc_index).m_cta_entry c).warp_set ∧
      (x : Int) ≠ lead ∧
      r = { valid := true,
            addr := u64_of_int
              ((((p.m_stride_buffer p.last_pc_index).m_warp_entry lead).inter_warp_last_addr
                  : Int) +
                (p.m_stride_buffer p.last_pc_index).m_last_stride * ((x : Int) - lead)),
            warp_id := x, put_time := 0 } ∧
      (0 ≤ (((p.m_stride_buffer p.last_pc_index).m_warp_entry lead).inter_warp_last_addr
              : Int) +
            (p.m_stride_buffer p.last_pc_index).m_last_stride * ((x : Int) - lead) →
        (((p.m_stride_buffer p.last_pc_index).m_warp_entry lead).inter_warp_last_addr : Int) +
            (p.m_stride_buffer p.last_pc_index).m_last_stride * ((x : Int) - lead)
          < 18446744073709551616 →
        (r.addr : Int) =
          (((p.m_stride_buffer p.last_pc_index).m_warp_entry lead).inter_warp_last_addr
              : Int) +
            (p.m_stride_buffer p.last_pc_index).m_last_stride * ((x : Int) - lead)) ∧
      (p.m_stride_buffer p.last_pc_index).m_last_stride ≠ 0 ∧
      (p.m_stride_buffer p.last_pc_index).valid_stride = true := by
  unfold cache_prefetch.calcu_addr at hr
  simp only at hr
  by_cases hact : ((p.m_stride_buffer p.last_pc_index).m_cta_entry c).active = false
  · rw [if_pos hact] at hr
    exfalso
    split_ifs at hr
    · cases hr
    · have h2 : p.m_prefetch_req = r := Option.some.inj hr
      rw [← h2, hv] at hvalid
      cases hvalid
  · rw [if_neg hact] at hr
    by_cases hstride : (p.m_stride_buffer p.last_pc_index).m_last_stride ≠ 0 ∧
        (p.m_stride_buffer p.last_pc_index).valid_stride = true
    · rw [if_pos hstride] at hr
      cases hlead : p.select_lead wid c lead_wid with
      | error f =>
        rw [hlead] at hr
        cases hr
      | ok lead =>
        rw [hlead] at hr
        simp only at hr
        by_cases hlen : ((p.m_stride_buffer p.last_pc_index).m_cta_entry c).warp_set.length = 0
        · rw [if_pos hlen] at hr
          cases hr
        · rw [if_neg hlen] at hr
          obtain ⟨hws, _, hpick, hpred, hreq⟩ := advance_facts p c
          obtain ⟨x, hx, hp, hr1⟩ := scan_block_sound fuel (p.advance c) c lead r
            (by rw [hreq]; exact hv) hr hvalid
          rw [hws] at hx
          rw [hpick, hreq, scan_pick_iff] at hp
          rw [hpred] at hr1
          refine ⟨lead, x, rfl, hx, hp.1, hr1, ?_, hstride.1, hstride.2⟩
          intro h0 h1
          rw [hr1]
          show ((u64_of_int _ : Nat) : Int) = _
          unfold u64_of_int
          rw [Int.emod_eq_of_lt h0 h1, Int.toNat_of_nonneg h0]
    · rw [if_neg hstride] at hr
      exfalso
      have h2 : p.m_prefetch_req = r := Option.some.inj hr
      rw [← h2, hv] at hvalid
      cases hvalid

/-- Witness of C36: in the scenario with warp 1 lagging by 24 loads the call for the
accessing warp 0 commits the address `0x1000 + 128 * (1 - 0)` for warp 1. -/
theorem prefetch_address_formula_witness :
    ∃ lead x, (scenario_window 6 0).select_lead 0 0 (-1) = Except.ok lead ∧
      x ∈ (((scenario_window 6 0).m_stride_buffer (scenario_window 6 0).last_pc_index
        ).m_cta_entry 0).warp_set ∧
      (x : Int) ≠ lead ∧
      ({ valid := true, addr := 4224, warp_id := 1, put_time := 0 } : prefetch_req) =
        { valid := true,
          addr := u64_of_int
            (((((scenario_window 6 0).m_stride_buffer (scenario_window 6 0).last_pc_index
                ).m_warp_entry lead).inter_warp_last_addr : Int) +
              ((scenario_window 6 0).m_stride_buffer (scenario_window 6 0).last_pc_index
                ).m_last_stride * ((x : Int) - lead)),
          warp_id := x, put_time := 0 } :=
  match prefetch_address_formula 2 (scenario_window 6 0) 0 0 (-1)
      { valid := true, addr := 4224, warp_id := 1, put_time := 0 } (by decide) (by decide)
      (by decide) with
  | ⟨lead, x, h1, h2, h3, h4, _⟩ => ⟨lead, x, h1, h2, h3, h4⟩

/-- C40 (the rotating scan terminates). For every non-empty warp set of size `n` and every
stored `warp_offset`, the assertion `it != it_end` holds for the new offset, and the loop,
allowed `n` entries of its body (or more), returns after at most `n` of them: it stops in
none of its assertions and in no read outside the positions `[0, n)`. -/
theorem rotating_scan_terminates (e : stride_entry) (lead : Int) (req : Nat) (ws : List Nat)
    (warp_offset fuel : Nat) (hne : ws ≠ []) (hfuel : ws.length ≤ fuel) :
    (warp_offset + 1) % ws.length ≠ scan_end ws.length ((warp_offset + 1) % ws.length) ∧
    ∃ ex, calcu_addr_loop e lead req ws (scan_end ws.length ((warp_offset + 1) % ws.length))
        fuel ((warp_offset + 1) % ws.length) 0 = Except.ok (some ex) ∧
      ex.iterations ≤ ws.length := by
  have hlen : ws.length ≠ 0 := fun h => hne (List.length_eq_zero.mp h)
  obtain ⟨h1, ex, h2, h3, _⟩ := calcu_addr_loop_spec e lead req ws
    ((warp_offset + 1) % ws.length) fuel (Nat.mod_lt _ (Nat.pos_of_ne_zero hlen)) hfuel
  exact ⟨h1, ex, h2, h3⟩

/-- Witness of C40: the warp set `[0, 1, 2]` with stored offset 1 and leader 0, scanned
with three entries of the body allowed. -/
theorem rotating_scan_terminates_witness :
    (1 + 1) % [0, 1, 2].length ≠ scan_end [0, 1, 2].length ((1 + 1) % [0, 1, 2].length) ∧
    ∃ ex, calcu_addr_loop stride_entry_init 0 0 [0, 1, 2]
        (scan_end [0, 1, 2].length ((1 + 1) % [0, 1, 2].length)) 3
        ((1 + 1) % [0, 1, 2].length) 0 = Except.ok (some ex) ∧
      ex.iterations ≤ [0, 1, 2].length :=
  rotating_scan_terminates stride_entry_init 0 0 [0, 1, 2] 1 3 (by decide) (by decide)

/-! ## Claims on the stride table and on `calculate_inter_warp_stride` -/

/-- C33 (stride table capacity). From a table with at most 32 entries in use and pairwise
distinct tracked PCs (as the empty table of a new prefetcher), every sequence of locality
probes returns, so that the assertion `fill_counter < 32` of `fill_entry` never fails, and
ends with at most 32 entries in use and pairwise distinct tracked PCs, the PCs tracked at
the start still leading the table. A further probe either leaves the tracked PCs as they
are or appends the PC of the request, which then was not tracked while the table had fewer
than 32 entries; and a probe of a table with 32 entries by a PC that is not tracked leaves
the prefetcher unchanged. -/
theorem stride_table_capacity (rule : List Int → Int × Bool) (p : cache_prefetch)
    (probes : List (mem_fetch × Nat × Nat)) (mf : mem_fetch) (tag time : Nat)
    (h : table_inv p) :
    ∃ p1, p.run_updates rule probes = Except.ok p1 ∧
      p1.fill_counter ≤ 32 ∧ p1.tracked.Nodup ∧ p1.tracked.length = p1.fill_counter ∧
      p.tracked <+: p1.tracked ∧
      ∃ p2, p1.locality_update rule mf tag time = Except.ok p2 ∧
        (p2.tracked = p1.tracked ∨
          (p2.tracked = p1.tracked ++ [mf.m_pc] ∧ mf.m_pc ∉ p1.tracked ∧
            p1.fill_counter < 32)) ∧
        (p1.fill_counter = 32 → mf.m_pc ∉ p1.tracked → p2 = p1) := by
  obtain ⟨p1, h1, h2, h3⟩ := run_updates_table rule probes p h
  obtain ⟨p2, h4, _, h5, h6⟩ := locality_update_table rule p1 mf tag time h2
  exact ⟨p1, h1, h2.1, h2.2, tracked_length p1, h3, p2, h4, h5, h6⟩

/-- Witness of C33: a new prefetcher probed by the PCs 64, 64 and 72, then by 80. -/
theorem stride_table_capacity_witness :
    ∃ p1, cache_prefetch_init.run_updates (fun _ => (128, true))
        [({ read_request 4096 with m_pc := 64 }, 4096, 1),
         ({ read_request 4224 with m_pc := 64, m_wid := 1 }, 4224, 2),
         ({ read_request 4352 with m_pc := 72 }, 4352, 3)] = Except.ok p1 ∧
      p1.fill_counter ≤ 32 ∧ p1.tracked.Nodup ∧ p1.tracked.length = p1.fill_counter ∧
      cache_prefetch_init.tracked <+: p1.tracked ∧
      ∃ p2, p1.locality_update (fun _ => (128, true))
          { read_request 8192 with m_pc := 80 } 8192 4 = Except.ok p2 ∧
        (p2.tracked = p1.tracked ∨
          (p2.tracked = p1.tracked ++ [({ read_request 8192 with m_pc := 80 } : mem_fetch).m_pc]
            ∧ ({ read_request 8192 with m_pc := 80 } : mem_fetch).m_pc ∉ p1.tracked ∧
            p1.fill_counter < 32)) ∧
        (p1.fill_counter = 32 →
          ({ read_request 8192 with m_pc := 80 } : mem_fetch).m_pc ∉ p1.tracked → p2 = p1) :=
  stride_table_capacity (fun _ => (128, true)) cache_prefetch_init _ _ 8192 4 init_table_inv

/-- Counterexample to C34 as stated: after the loads of warp 1 at `0x1080` and of warp 2 at
`0x1100`, a load of warp 0 at `0x1000` finds two other warps of its CTA with its load count
and the non-zero stride 128, and the stride history grows by one entry, not by two. -/
theorem second_matching_warp_is_not_recorded :
    ((cache_prefetch_init.run_strides
      [(0, 1, 4224, 0), (0, 2, 4352, 0)]).m_stride_buffer 0).m_inter_warp_stride = [128] ∧
    ((cache_prefetch_init.run_strides
      [(0, 1, 4224, 0), (0, 2, 4352, 0), (0, 0, 4096, 0)]).m_stride_buffer 0
      ).m_inter_warp_stride = [128, 128] ∧
    ((cache_prefetch_init.run_strides
      [(0, 1, 4224, 0), (0, 2, 4352, 0), (0, 0, 4096, 0)]).m_stride_buffer 0).ld_num 0 = 1 ∧
    ((cache_prefetch_init.run_strides
      [(0, 1, 4224, 0), (0, 2, 4352, 0)]).m_stride_buffer 0).ld_num 1 = 1 ∧
    ((cache_prefetch_init.run_strides
      [(0, 1, 4224, 0), (0, 2, 4352, 0)]).m_stride_buffer 0).ld_num 2 = 1 ∧
    ((cache_prefetch_init.run_strides
      [(0, 1, 4224, 0), (0, 2, 4352, 0)]).m_stride_buffer 0).stride_to 0 4096 1 = 128 ∧
    ((cache_prefetch_init.run_strides
      [(0, 1, 4224, 0), (0, 2, 4352, 0)]).m_stride_buffer 0).stride_to 0 4096 2 = 128 := by
  decide

/-- C34 (inter-warp stride recording), amended. In `calculate_inter_warp_stride` the warp
joins the warp set of its CTA, and for the first other warp of that set whose load count
equals the load count of the current warp after the increment, the stride (that warp's last
address - current address) / (that warp's id - current warp id) is computed and, when
non-zero, appended to the stride history of the entry; no further warp is examined, so the
history grows by at most one. The dividend is a `long long`, the divisor an `int`; the
statement is for the calls in which the quotient is defined, that is, the divisor is not
zero and the division is not that of `-2^63` by `-1`; the stride is then a `long long`. -/
theorem inter_warp_stride_recording (p : cache_prefetch) (cta_id warp_id warp_addr : Nat)
    (pc_index : Int)
    (hdiv : ∀ x,
      (join_set ((p.m_stride_buffer pc_index).m_cta_entry cta_id).warp_set warp_id).find?
        (fun x => decide (x ≠ warp_id ∧
          (p.m_stride_buffer pc_index).ld_num x =
            (p.m_stride_buffer pc_index).ld_num warp_id + 1)) = some x →
      sdiv_defined
        (to_i64 ((((p.m_stride_buffer pc_index).m_warp_entry x).inter_warp_last_addr : Int) -
          (warp_addr : Int)))
        (to_i32 ((x : Int) - (warp_id : Int)))) :
    (((p.calculate_inter_warp_stride cta_id warp_id warp_addr pc_index).m_stride_buffer
        pc_index).m_cta_entry cta_id).warp_set =
      join_set ((p.m_stride_buffer pc_index).m_cta_entry cta_id).warp_set warp_id ∧
    ((p.calculate_inter_warp_stride cta_id warp_id warp_addr pc_index).m_stride_buffer
        pc_index).m_inter_warp_stride =
      (match (join_set ((p.m_stride_buffer pc_index).m_cta_entry cta_id).warp_set
          warp_id).find?
          (fun x => decide (x ≠ warp_id ∧
            (p.m_stride_buffer pc_index).ld_num x =
              (p.m_stride_buffer pc_index).ld_num warp_id + 1)) with
      | none => (p.m_stride_buffer pc_index).m_inter_warp_stride
      | some x =>
        if (p.m_stride_buffer pc_index).stride_to warp_id warp_addr x ≠ 0 then
          (p.m_stride_buffer pc_index).m_inter_warp_stride ++
            [(p.m_stride_buffer pc_index).stride_to warp_id warp_addr x]
        else (p.m_stride_buffer pc_index).m_inter_warp_stride) ∧
    (∀ x, (p.m_stride_buffer pc_index).stride_to warp_id warp_addr x =
      Int.tdiv
        (to_i64 ((((p.m_stride_buffer pc_index).m_warp_entry x).inter_warp_last_addr : Int) -
          (warp_addr : Int)))
        (to_i32 ((x : Int) - (warp_id : Int)))) ∧
    (∀ x,
      (join_set ((p.m_stride_buffer pc_index).m_cta_entry cta_id).warp_set warp_id).find?
        (fun x => decide (x ≠ warp_id ∧
          (p.m_stride_buffer pc_index).ld_num x =
            (p.m_stride_buffer pc_index).ld_num warp_id + 1)) = some x →
      -9223372036854775808 ≤ (p.m_stride_buffer pc_index).stride_to warp_id warp_addr x ∧
      (p.m_stride_buffer pc_index).stride_to warp_id warp_addr x ≤ 9223372036854775807) ∧
    ((p.calculate_inter_warp_stride cta_id warp_id warp_addr pc_index).m_stride_buffer
        pc_index).m_inter_warp_stride.length ≤
      (p.m_stride_buffer pc_index).m_inter_warp_stride.length + 1 := by
  obtain ⟨hcta, _, _, _, _, hhist⟩ :=
    record_load_fields (p.m_stride_buffer pc_index) cta_id warp_id warp_addr
  rw [stride_entry_at, if_pos rfl]
  refine ⟨?_, hhist, fun _ => rfl, fun x hx => ?_, ?_⟩
  · rw [hcta, if_pos rfl]
  · exact sdiv_in_range _ _ (to_i64_range _).1 (to_i64_range _).2 (hdiv x hx)
  · rw [hhist]
    cases (join_set ((p.m_stride_buffer pc_index).m_cta_entry cta_id).warp_set
        warp_id).find?
        (fun x => decide (x ≠ warp_id ∧
          (p.m_stride_buffer pc_index).ld_num x =
            (p.m_stride_buffer pc_index).ld_num warp_id + 1)) with
    | none => exact Nat.le_succ _
    | some x =>
      simp only
      split_ifs
      · simp
      · exact Nat.le_succ _

/-- Witness of C34, amended: the load of warp 0 at `0x1000` of the counterexample, where the
first matching warp is warp 1 and the quotient is that of 128 by 1. -/
theorem inter_warp_stride_recording_witness :
    sdiv_defined 128 1 ∧
    (((cache_prefetch_init.run_strides
        [(0, 1, 4224, 0), (0, 2, 4352, 0)]).calculate_inter_warp_stride 0 0 4096 0
      ).m_stride_buffer 0).m_inter_warp_stride.length ≤
      ((cache_prefetch_init.run_strides
        [(0, 1, 4224, 0), (0, 2, 4352, 0)]).m_stride_buffer 0).m_inter_warp_stride.length
        + 1 :=
  ⟨by decide,
    (inter_warp_stride_recording
      (cache_prefetch_init.run_strides [(0, 1, 4224, 0), (0, 2, 4352, 0)]) 0 0 4096 0
      (fun x hx => by
        have h1 : (join_set (((cache_prefetch_init.run_strides
            [(0, 1, 4224, 0), (0, 2, 4352, 0)]).m_stride_buffer 0).m_cta_entry
              ((0 : Nat) : Int)).warp_set 0).find?
            (fun (x : Nat) => decide (x ≠ 0 ∧
              ((cache_prefetch_init.run_strides
                [(0, 1, 4224, 0), (0, 2, 4352, 0)]).m_stride_buffer 0).ld_num x =
                ((cache_prefetch_init.run_strides
                  [(0, 1, 4224, 0), (0, 2, 4352, 0)]).m_stride_buffer 0).ld_num
                    ((0 : Nat) : Int) + 1)) = some 1 := by
          decide
        rw [h1] at hx
        rw [← Option.some.inj hx]
        decide)).2.2.2.2⟩

/-- C39 (stride-entry invariant). From a prefetcher in which every warp set is strictly
ascending, every active CTA has a non-empty warp set, `active_cta_num` counts the active
CTAs of its entry and the entry of the last recorded load has an active CTA (as in a new
prefetcher), every run of calls of `calculate_inter_warp_stride` ends in such a state, in
which the CTA of each call is active and holds the warp of that call. Hence whenever
`last_pc_index` is not -1 the divisors `active_cta_num` and, for an active CTA,
`warp_set.size()` are non-zero, and `calculate_inter_pref_addr` returns, again in such a
state, once its scans are allowed as many steps as the warp sets have elements. -/
theorem stride_entry_invariant (p : cache_prefetch) (calls : List (Nat × Nat × Nat × Int))
    (h : prefetcher_inv p) :
    (∀ i, stride_entry_inv ((p.run_strides calls).m_stride_buffer i)) ∧
    (∀ call ∈ calls,
      (((p.run_strides calls).m_stride_buffer call.2.2.2).m_cta_entry call.1).active = true ∧
      call.2.1 ∈ (((p.run_strides calls).m_stride_buffer call.2.2.2).m_cta_entry
        call.1).warp_set) ∧
    ((p.run_strides calls).last_pc_index ≠ -1 →
      ((p.run_strides calls).m_stride_buffer (p.run_strides calls).last_pc_index
        ).active_cta_num ≠ 0 ∧
      (∀ c, (((p.run_strides calls).m_stride_buffer (p.run_strides calls).last_pc_index
          ).m_cta_entry c).active = true →
        (((p.run_strides calls).m_stride_buffer (p.run_strides calls).last_pc_index
          ).m_cta_entry c).warp_set.length ≠ 0)) ∧
    (∀ fuel wid cta_id,
      (∀ c, (((p.run_strides calls).m_stride_buffer (p.run_strides calls).last_pc_index
        ).m_cta_entry c).warp_set.length ≤ fuel) →
      ∃ p1, (p.run_strides calls).calculate_inter_pref_addr fuel wid cta_id
          = Except.ok (some p1) ∧ prefetcher_inv p1) := by
  obtain ⟨h1, h2, _, _⟩ := run_strides_inv calls p h
  refine ⟨h1.1, h2, fun hlast => inv_divisors _ h1 hlast, fun fuel wid cta_id hfuel => ?_⟩
  obtain ⟨p1, h3, h4⟩ :=
    calculate_inter_pref_addr_returns fuel (p.run_strides calls) wid cta_id h1 hfuel
  exact ⟨p1, h3, prefetcher_inv_frame _ _ h4 h1⟩

/-- Witness of C39: a new prefetcher after the loads of the warps 1, 2 and 0 of CTA 0. -/
theorem stride_entry_invariant_witness :
    (∀ i, stride_entry_inv ((cache_prefetch_init.run_strides
      [(0, 1, 4224, 0), (0, 2, 4352, 0), (0, 0, 4096, 0)]).m_stride_buffer i)) ∧
    (∀ call ∈ [((0 : Nat), (1 : Nat), (4224 : Nat), (0 : Int)), (0, 2, 4352, 0),
        (0, 0, 4096, 0)],
      (((cache_prefetch_init.run_strides
        [(0, 1, 4224, 0), (0, 2, 4352, 0), (0, 0, 4096, 0)]).m_stride_buffer
          call.2.2.2).m_cta_entry call.1).active = true ∧
      call.2.1 ∈ (((cache_prefetch_init.run_strides
        [(0, 1, 4224, 0), (0, 2, 4352, 0), (0, 0, 4096, 0)]).m_stride_buffer
          call.2.2.2).m_cta_entry call.1).warp_set) :=
  ⟨(stride_entry_invariant cache_prefetch_init
      [(0, 1, 4224, 0), (0, 2, 4352, 0), (0, 0, 4096, 0)] init_prefetcher_inv).1,
    (stride_entry_invariant cache_prefetch_init
      [(0, 1, 4224, 0), (0, 2, 4352, 0), (0, 0, 4096, 0)] init_prefetcher_inv).2.1⟩

/-! ## Claims on `probe_locality` and on the read-only cache -/

/-- C37 (`probe_locality` refines `probe`). For every tag-array state whose stride table
holds at most 32 pairwise distinct PCs, every address, request and time,
`tag_array::probe_locality` returns the status and the way index that `tag_array::probe`
returns on that state, and stops where `probe` stops; it changes no cache line and no
counter of the tag array, only the prefetcher and the locality evaluator. -/
theorem probe_locality_refines_probe (cfg : cache_config) (rule : List Int → Int × Bool)
    (t : locality_tag_array) (addr idx : Nat) (mf : mem_fetch) (time : Nat)
    (htab : table_inv t.m_cache_prefetch) :
    probe_view (t.probe_locality cfg rule addr idx mf time) =
      t.totag_array.probe cfg addr idx ∧
    ∀ st i t1, t.probe_locality cfg rule addr idx mf time = Except.ok (st, i, t1) →
      t1.totag_array = t.totag_array := by
  obtain ⟨pf, hpf, _⟩ := locality_update_table rule t.m_cache_prefetch mf (cfg.tag addr) time
    htab
  obtain ⟨h1, h2⟩ := probe_locality_eq cfg rule t addr idx mf time pf hpf
  exact ⟨h1, fun st i t1 h => (h2 st i t1 h).1⟩

/-- Witness of C37: the scenario tag array with a new prefetcher, probed for `0x1000`. -/
theorem probe_locality_refines_probe_witness :
    probe_view (scenario_locality.probe_locality scenario_cfg (fun _ => (128, true)) 4096
        UINT_MAX (read_request 4096) 1) =
      scenario_locality.totag_array.probe scenario_cfg 4096 UINT_MAX ∧
    ∀ st i t1, scenario_locality.probe_locality scenario_cfg (fun _ => (128, true)) 4096
        UINT_MAX (read_request 4096) 1 = Except.ok (st, i, t1) →
      t1.totag_array = scenario_locality.totag_array :=
  probe_locality_refines_probe scenario_cfg (fun _ => (128, true)) scenario_locality 4096
    UINT_MAX (read_request 4096) 1 init_table_inv

/-- C38 (the read-only cache never writes back). From a read-only cache without MODIFIED
line, without atomic flag in its MSHR table and with request objects that are not atomic
(as an empty cache fed with non-atomic requests), every state reached by calls of `access`
and `fill` that return has no MODIFIED line; in it the five-argument `tag_array::access`
entered with `wb = false` returns with `wb = false`, so that the assertion `!wb` of the
three-argument one does not fail, and `read_only_cache::access` does not stop in that
assertion and returns only HIT, MISS or RESERVATION_FAIL. -/
theorem read_only_never_writes_back (cfg : cache_config) (c0 : baseline_cache)
    (ops : List ro_op) (c : baseline_cache) (h0 : ro_inv c0)
    (hrun : read_only_cache.run_ops cfg c0 ops = Except.ok c) :
    (∀ i, (c.m_tag_array.m_lines i).m_status ≠ cache_block_state.MODIFIED) ∧
    (∀ addr time idx,
      (∀ r, tag_array.access cfg c.m_tag_array addr time idx false empty_line = Except.ok r →
        r.wb = false) ∧
      tag_array.access3 cfg c.m_tag_array addr time idx ≠ Except.error fault.access_wb) ∧
    (∀ addr mf time events,
      read_only_cache.access cfg c addr mf time events ≠ Except.error fault.access_wb ∧
      ∀ r, read_only_cache.access cfg c addr mf time events = Except.ok r →
        r.status = cache_request_status.HIT ∨ r.status = cache_request_status.MISS ∨
          r.status = cache_request_status.RESERVATION_FAIL) := by
  have hinv := run_ops_ro cfg ops c0 c h0 hrun
  refine ⟨hinv.1, fun addr time idx => ?_, fun addr mf time events => ?_⟩
  · obtain ⟨h1, h2, _⟩ := access3_clean cfg c.m_tag_array addr time idx hinv.1
    exact ⟨h2, h1⟩
  · obtain ⟨h1, h2⟩ := access_ro cfg c addr mf time events hinv
    exact ⟨h1, fun r hr => (h2 r hr).2⟩

/-- Witness of C38: the run of the read-only scenario cache (a miss, its fill, a hit)
returns, and the state it reaches has the properties of the claim; the last read of the
run returned HIT. -/
theorem read_only_never_writes_back_witness :
    returned (read_only_cache.run_ops scenario_cfg_ro scenario_empty.tobaseline_cache
      scenario_ro_ops) = true ∧
    ∀ c, read_only_cache.run_ops scenario_cfg_ro scenario_empty.tobaseline_cache
        scenario_ro_ops = Except.ok c →
      (∀ i, (c.m_tag_array.m_lines i).m_status ≠ cache_block_state.MODIFIED) ∧
      (∀ addr time idx,
        (∀ r, tag_array.access scenario_cfg_ro c.m_tag_array addr time idx false empty_line
            = Except.ok r → r.wb = false) ∧
        tag_array.access3 scenario_cfg_ro c.m_tag_array addr time idx
          ≠ Except.error fault.access_wb) ∧
      (∀ addr mf time events,
        read_only_cache.access scenario_cfg_ro c addr mf time events
          ≠ Except.error fault.access_wb ∧
        ∀ r, read_only_cache.access scenario_cfg_ro c addr mf time events = Except.ok r →
          r.status = cache_request_status.HIT ∨ r.status = cache_request_status.MISS ∨
            r.status = cache_request_status.RESERVATION_FAIL) :=
  ⟨by decide, fun c hc =>
    read_only_never_writes_back scenario_cfg_ro scenario_empty.tobaseline_cache
      scenario_ro_ops c scenario_ro_inv hc⟩

end GpuCache
